import Mathlib

/-! jemalloc: top-level entry points, initialisation, arena binding and fork handlers, large
allocations, chunk recycling, the chunk radix tree, the thread-cache bins and the mutexes.

A shallow embedding of parts of `jemalloc.c`, `large.c`, `chunk.c`, `rtree.h`,
`tcache_inlines.h` and `mutex.c`.

* `size_t` values are natural numbers below `2 ^ w`; every arithmetic
  operation of the source that can wrap is reduced modulo `2 ^ w`.
* A `NULL` pointer is the address `0`.
* Functions with side effects return the list of the effects they performed
  (`Event`), in program order, next to their result.
* Functions whose definition lies outside the embedded files (the arena,
  the huge allocator, the chunk hooks, ...) are fields of an environment
  record and are consulted exactly where the source calls them.
-/

namespace Jemalloc

/-! ## `size_t` arithmetic -/

/-- Largest value of a `size_t` of `w` bits. -/
def SIZE_T_MAX (w : Nat) : Nat := 2 ^ w - 1

/-- Addition of two `size_t` values. -/
def sz_add (w a b : Nat) : Nat := (a + b) % 2 ^ w

/-- Subtraction of two `size_t` values. -/
def sz_sub (w a b : Nat) : Nat := (a + (2 ^ w - b % 2 ^ w)) % 2 ^ w

/-- Unary minus of a `size_t` value. -/
def sz_neg (w a : Nat) : Nat := (2 ^ w - a % 2 ^ w) % 2 ^ w

/-- Multiplication of two `size_t` values. -/
def sz_mul (w a b : Nat) : Nat := (a * b) % 2 ^ w

/-- Bitwise complement of a `size_t` value. -/
def sz_not (w a : Nat) : Nat := 2 ^ w - 1 - a % 2 ^ w

/-- Left shift of a `size_t` value. -/
def sz_shl (w a k : Nat) : Nat := (a * 2 ^ k) % 2 ^ w

/-- The value of `sizeof(void *)` and of `sizeof(size_t)` on a `w`-bit target. -/
def SIZEOF_PTR (w : Nat) : Nat := w / 8

/-- The `errno` value `ENOMEM`. -/
def ENOMEM : Nat := 12

/-- The `errno` value `EINVAL`. -/
def EINVAL : Nat := 22

/-! ## Build and run-time configuration of `jemalloc.c` -/

/-- Compile-time switches (`#ifdef`) and run-time options read by the entry
points. A run-time option is only consulted where its switch is compiled in. -/
structure Config where
  JEMALLOC_SYSV : Bool
  JEMALLOC_XMALLOC : Bool
  JEMALLOC_TRACE : Bool
  opt_sysv : Bool
  opt_xmalloc : Bool
  opt_trace : Bool
  deriving DecidableEq, Repr

/-- The constants of the target that `ipalloc` reads. `PAGE_SIZE` is
`1 << PAGE_SHIFT`. -/
structure Params where
  w : Nat
  PAGE_SHIFT : Nat
  arena_maxclass : Nat
  chunksize : Nat
  deriving DecidableEq, Repr

/-- The page size, `1 << PAGE_SHIFT`. -/
def Params.PAGE_SIZE (P : Params) : Nat := 2 ^ P.PAGE_SHIFT

/-- The page mask, `PAGE_SIZE - 1`. -/
def Params.PAGE_MASK (P : Params) : Nat := P.PAGE_SIZE - 1

/-- The macro `PAGE_CEILING(s)`, `((s) + PAGE_MASK) & ~PAGE_MASK`: its header is
not among the embedded files; it has the shape of `CHUNK_CEILING` in `chunk.h`. -/
def PAGE_CEILING (P : Params) (s : Nat) : Nat :=
  (sz_add P.w s P.PAGE_MASK) &&& (sz_not P.w P.PAGE_MASK)

/-- Effects of the entry points, in program order. -/
inductive Event where
  | arena_malloc (size : Nat) (zero : Bool)
  | choose_arena
  | arena_palloc (alignment size run_size : Nat)
  | huge_malloc (size : Nat) (zero : Bool)
  | huge_palloc (alignment size : Nat)
  | imalloc (size : Nat)
  | icalloc (size : Nat)
  | errno_set (e : Nat)
  | memptr_set (p : Nat)
  | malloc_write4 (msg : String)
  | trace_malloc (ret size : Nat)
  | trace_posix_memalign (result alignment size : Nat)
  | trace_calloc (ret num size : Nat)
  deriving DecidableEq, Repr

/-- How a call ends: `abort()` is reached, or the function returns a value. -/
inductive Outcome where
  | aborted
  | returned (v : Nat)
  deriving DecidableEq, Repr

/-- Answers of the functions called by the entry points and defined elsewhere.
`malloc_init` is the result of `malloc_init()`: `true` reports a failure. The
allocation functions answer with an address, `0` for `NULL`. -/
structure Env where
  malloc_init : Bool
  imalloc : Nat → Nat
  icalloc : Nat → Nat
  arena_malloc : Nat → Bool → Nat
  arena_palloc : Nat → Nat → Nat → Nat
  huge_malloc : Nat → Bool → Nat
  huge_palloc : Nat → Nat → Nat

/-- An event that hands a request to an allocator. -/
def Event.isAlloc : Event → Bool
  | .arena_malloc _ _ => true
  | .arena_palloc _ _ _ => true
  | .huge_malloc _ _ => true
  | .huge_palloc _ _ => true
  | .imalloc _ => true
  | .icalloc _ => true
  | _ => false

/-- The size handed to an allocator by an event, if it is an allocation. -/
def Event.allocSize : Event → Option Nat
  | .arena_malloc s _ => some s
  | .arena_palloc _ s _ => some s
  | .huge_malloc s _ => some s
  | .huge_palloc _ s => some s
  | .imalloc s => some s
  | .icalloc s => some s
  | _ => none

/-- An event that stores through `memptr`. -/
def Event.isMemptrSet : Event → Bool
  | .memptr_set _ => true
  | _ => false

/-- An event that stores to `errno`. -/
def Event.isErrnoSet : Event → Bool
  | .errno_set _ => true
  | _ => false

/-! ## `ipalloc` -/

/-- The first statement of `ipalloc`:
`ceil_size = (size + (alignment - 1)) & (-alignment)`. -/
def ipalloc_ceil_size (w alignment size : Nat) : Nat :=
  (sz_add w size (sz_sub w alignment 1)) &&& (sz_neg w alignment)

/-- The function `ipalloc(alignment, size)`. The closing `assert` on the alignment of the
result is compiled out of non-debug builds and performs no effect. -/
def ipalloc (P : Params) (env : Env) (alignment size : Nat) : List Event × Nat :=
  let ceil_size := ipalloc_ceil_size P.w alignment size
  if ceil_size < size then
    -- size_t overflow.
    ([], 0)
  else if ceil_size ≤ P.PAGE_SIZE ∨ (alignment ≤ P.PAGE_SIZE ∧ ceil_size ≤ P.arena_maxclass) then
    ([Event.arena_malloc ceil_size false], env.arena_malloc ceil_size false)
  else
    let alignment := PAGE_CEILING P alignment
    let ceil_size := PAGE_CEILING P size
    if ceil_size < size ∨ sz_add P.w ceil_size alignment < ceil_size then
      -- size_t overflow.
      ([], 0)
    else
      let run_size :=
        if ceil_size ≥ alignment then
          sz_sub P.w (sz_add P.w ceil_size alignment) P.PAGE_SIZE
        else
          sz_sub P.w (sz_shl P.w alignment 1) P.PAGE_SIZE
      if run_size ≤ P.arena_maxclass then
        ([Event.choose_arena, Event.arena_palloc alignment ceil_size run_size],
          env.arena_palloc alignment ceil_size run_size)
      else if alignment ≤ P.chunksize then
        ([Event.huge_malloc ceil_size false], env.huge_malloc ceil_size false)
      else
        ([Event.huge_palloc alignment ceil_size], env.huge_palloc alignment ceil_size)

/-! ## `malloc` -/

/-- Whether the SysV zero-size behaviour is compiled in and switched on. -/
def Config.sysv (cfg : Config) : Bool := cfg.JEMALLOC_SYSV && cfg.opt_sysv

/-- Whether abort-on-failure is compiled in and switched on. -/
def Config.xmalloc (cfg : Config) : Bool := cfg.JEMALLOC_XMALLOC && cfg.opt_xmalloc

/-- Whether tracing is compiled in and switched on. -/
def Config.trace (cfg : Config) : Bool := cfg.JEMALLOC_TRACE && cfg.opt_trace

/-- The code of `malloc` from the label `RETURN` on. -/
def malloc_RETURN (cfg : Config) (evs : List Event) (ret size : Nat) : List Event × Outcome :=
  if cfg.trace then (evs ++ [Event.trace_malloc ret size], Outcome.returned ret)
  else (evs, Outcome.returned ret)

/-- The code of `malloc` from the label `OOM` on. -/
def malloc_OOM (cfg : Config) (evs : List Event) (ret size : Nat) : List Event × Outcome :=
  if ret = 0 then
    if cfg.xmalloc then
      (evs ++ [Event.malloc_write4 ": Error in malloc(): out of memory\n"], Outcome.aborted)
    else
      malloc_RETURN cfg (evs ++ [Event.errno_set ENOMEM]) ret size
  else
    malloc_RETURN cfg evs ret size

/-- The function `malloc(size)`. -/
def malloc (cfg : Config) (env : Env) (size : Nat) : List Event × Outcome :=
  if env.malloc_init then
    malloc_OOM cfg [] 0 size
  else if size = 0 then
    if !cfg.sysv then
      malloc_OOM cfg [Event.imalloc 1] (env.imalloc 1) 1
    else if cfg.xmalloc then
      ([Event.malloc_write4 ": Error in malloc(): invalid size 0\n"], Outcome.aborted)
    else
      malloc_RETURN cfg [] 0 size
  else
    malloc_OOM cfg [Event.imalloc size] (env.imalloc size) size

/-! ## `posix_memalign` -/

/-- The code of `posix_memalign` from the label `RETURN` on. -/
def posix_memalign_RETURN (cfg : Config) (evs : List Event) (ret result alignment size : Nat) :
    List Event × Outcome :=
  if cfg.trace then
    (evs ++ [Event.trace_posix_memalign result alignment size], Outcome.returned ret)
  else (evs, Outcome.returned ret)

/-- The code of `posix_memalign` after the `if (malloc_init()) ... else ...` statement. -/
def posix_memalign_tail (cfg : Config) (evs : List Event) (result alignment size : Nat) :
    List Event × Outcome :=
  if result = 0 then
    if cfg.xmalloc then
      (evs ++ [Event.malloc_write4 ": Error in posix_memalign(): out of memory\n"],
        Outcome.aborted)
    else
      posix_memalign_RETURN cfg evs ENOMEM result alignment size
  else
    posix_memalign_RETURN cfg (evs ++ [Event.memptr_set result]) 0 result alignment size

/-- The alignment test of `posix_memalign`:
`((alignment - 1) & alignment) != 0 || alignment < sizeof(void *)`. -/
def posix_memalign_bad_alignment (w alignment : Nat) : Bool :=
  decide ((sz_sub w alignment 1) &&& alignment ≠ 0) || decide (alignment < SIZEOF_PTR w)

/-- The code of `posix_memalign` from the alignment test on, once the allocator is
initialised and `size` is final. -/
def posix_memalign_aligned (P : Params) (cfg : Config) (env : Env) (alignment size : Nat) :
    List Event × Outcome :=
  if posix_memalign_bad_alignment P.w alignment then
    if cfg.xmalloc then
      ([Event.malloc_write4 ": Error in posix_memalign(): invalid alignment\n"],
        Outcome.aborted)
    else
      posix_memalign_RETURN cfg [] EINVAL 0 alignment size
  else
    let r := ipalloc P env alignment size
    posix_memalign_tail cfg r.1 r.2 alignment size

/-- The function `posix_memalign(memptr, alignment, size)`. The returned value is
the `int` result; a store through `memptr` is the event `memptr_set`. -/
def posix_memalign (P : Params) (cfg : Config) (env : Env) (alignment size : Nat) :
    List Event × Outcome :=
  if env.malloc_init then
    posix_memalign_tail cfg [] 0 alignment size
  else if size = 0 then
    if !cfg.sysv then
      posix_memalign_aligned P cfg env alignment 1
    else if cfg.xmalloc then
      ([Event.malloc_write4 ": Error in posix_memalign(): invalid size 0\n"], Outcome.aborted)
    else
      posix_memalign_RETURN cfg [Event.memptr_set 0] 0 0 alignment size
  else
    posix_memalign_aligned P cfg env alignment size

/-! ## `calloc` -/

/-- The code of `calloc` from the label `RETURN` on. -/
def calloc_RETURN (cfg : Config) (evs : List Event) (ret num size : Nat) : List Event × Outcome :=
  if ret = 0 then
    if cfg.xmalloc then
      (evs ++ [Event.malloc_write4 ": Error in calloc(): out of memory\n"], Outcome.aborted)
    else if cfg.trace then
      (evs ++ [Event.errno_set ENOMEM, Event.trace_calloc ret num size], Outcome.returned ret)
    else
      (evs ++ [Event.errno_set ENOMEM], Outcome.returned ret)
  else if cfg.trace then
    (evs ++ [Event.trace_calloc ret num size], Outcome.returned ret)
  else
    (evs, Outcome.returned ret)

/-- The overflow test of `calloc` on a non-zero wrapped product:
`((num | size) & (SIZE_T_MAX << (sizeof(size_t) << 2))) && (num_size / size != num)`. -/
def calloc_overflow_test (w num size num_size : Nat) : Bool :=
  decide (((num ||| size) &&& (sz_shl w (SIZE_T_MAX w) (SIZEOF_PTR w * 4))) ≠ 0)
    && decide (num_size / size ≠ num)

/-- The function `calloc(num, size)`. -/
def calloc (w : Nat) (cfg : Config) (env : Env) (num size : Nat) : List Event × Outcome :=
  if env.malloc_init then
    calloc_RETURN cfg [] 0 num size
  else
    let num_size := sz_mul w num size
    if num_size = 0 then
      if !cfg.JEMALLOC_SYSV || (!cfg.opt_sysv && (decide (num = 0) || decide (size = 0))) then
        calloc_RETURN cfg [Event.icalloc 1] (env.icalloc 1) num size
      else
        calloc_RETURN cfg [] 0 num size
    else if calloc_overflow_test w num size num_size then
      -- size_t overflow.
      calloc_RETURN cfg [] 0 num size
    else
      calloc_RETURN cfg [Event.icalloc num_size] (env.icalloc num_size) num size

/-! ## `large.c` -/

namespace Large

/-- The fields of an extent descriptor that `large.c` reads through `extent_arena_get`,
`extent_addr_get`, `extent_size_get` and `extent_usize_get`. -/
structure extent_t where
  e_arena : Nat
  e_addr : Nat
  e_size : Nat
  e_usize : Nat
  deriving DecidableEq, Repr

/-- The accessor `extent_past_get`: the first address past the extent. -/
def extent_past_get (extent : extent_t) : Nat := extent.e_addr + extent.e_size

/-- The byte `JEMALLOC_ALLOC_JUNK`. -/
def JEMALLOC_ALLOC_JUNK : Nat := 0xa5

/-- The byte `JEMALLOC_FREE_JUNK`. -/
def JEMALLOC_FREE_JUNK : Nat := 0x5a

/-- Effects of the functions of `large.c`, in program order. Arenas are named by their
index. -/
inductive Event where
  | arena_choose (arena : Option Nat)
  | arena_chunk_alloc_large (arena usize alignment : Nat) (zero : Bool)
  | mutex_lock_large_mtx (arena : Nat)
  | mutex_unlock_large_mtx (arena : Nat)
  | ql_tail_insert (arena : Nat) (extent : extent_t)
  | arena_prof_accum (arena usize : Nat)
  | prof_idump
  | memset (addr byte len : Nat)
  | memcpy (dst src len : Nat)
  | arena_decay_tick (arena : Nat)
  | chunk_in_dss (ptr : Nat)
  | chunk_split_wrapper (extent : extent_t) (size_a usize_a size_b usize_b : Nat)
  | arena_chunk_cache_dalloc (arena : Nat) (extent : extent_t)
  | arena_chunk_ralloc_large_shrink (arena : Nat) (extent : extent_t) (oldusize : Nat)
  | arena_chunk_cache_alloc (arena new_addr size alignment : Nat)
  | chunk_alloc_wrapper (arena new_addr usize pad alignment : Nat)
  | chunk_merge_wrapper (a b : extent_t)
  | chunk_dalloc_wrapper (arena : Nat) (extent : extent_t)
  | arena_chunk_ralloc_large_expand (arena : Nat) (extent : extent_t) (oldusize : Nat)
  | isdalloct (extent : extent_t) (ptr size : Nat) (tcache : Nat) (slow_path : Bool)
  deriving DecidableEq, Repr

/-- Constants, configuration and the answers of the functions that `large.c` calls and
that are defined elsewhere. An allocation answers `none` for `NULL`, otherwise with the
descriptor obtained and the value left in `*zero`. `chunk_split_wrapper` answers `none`
for `NULL`, otherwise with the descriptor as the split leaves it and the trail;
`chunk_merge_wrapper` answers `none` when it reports failure (`true`), otherwise with the
first descriptor as the merge leaves it. A failed split or merge leaves the descriptor as
it was. -/
structure Env where
  w : Nat
  LG_PAGE : Nat
  CACHELINE : Nat
  LARGE_MINCLASS : Nat
  LARGE_MAXCLASS : Nat
  large_pad : Nat
  config_prof : Bool
  config_fill : Bool
  config_munmap : Bool
  config_cache_oblivious : Bool
  have_dss : Bool
  opt_zero : Bool
  opt_junk_alloc : Bool
  opt_junk_free : Bool
  sa2u : Nat → Nat → Nat
  arena_choose : Option Nat → Option Nat
  arena_chunk_alloc_large : Nat → Nat → Nat → Bool → Option (extent_t × Bool)
  arena_prof_accum : Nat → Nat → Bool
  chunk_in_dss : Nat → Bool
  chunk_split_wrapper : extent_t → Nat → Nat → Nat → Nat → Option (extent_t × extent_t)
  arena_chunk_cache_alloc : Nat → Nat → Nat → Nat → Option (extent_t × Bool)
  chunk_alloc_wrapper : Nat → Nat → Nat → Nat → Nat → Option (extent_t × Bool)
  chunk_merge_wrapper : extent_t → extent_t → Option extent_t

/-- The list `arena->large` of every arena. -/
structure State where
  large : Nat → List extent_t

/-- The fill performed by `large_palloc` once the extent is linked. -/
def large_palloc_fill (env : Env) (extent : extent_t) (zero is_zeroed : Bool) : List Event :=
  if zero || (env.config_fill && env.opt_zero) then
    if !is_zeroed then [Event.memset extent.e_addr 0 extent.e_usize] else []
  else if env.config_fill && env.opt_junk_alloc then
    [Event.memset extent.e_addr JEMALLOC_ALLOC_JUNK extent.e_usize]
  else []

/-- The function `large_palloc(tsdn, arena, usize, alignment, zero)`; `tsdn_null` is the value of
`tsdn_null(tsdn)` and `arena` is `none` for a `NULL` arena. -/
def large_palloc (env : Env) (st : State) (tsdn_null : Bool) (arena : Option Nat)
    (usize alignment : Nat) (zero : Bool) : State × List Event × Nat :=
  let ausize := env.sa2u usize alignment
  if ausize = 0 ∨ ausize > env.LARGE_MAXCLASS then
    (st, [], 0)
  else
    let chosen := if !tsdn_null then env.arena_choose arena else arena
    let ev0 := if !tsdn_null then [Event.arena_choose arena] else []
    match chosen with
    | none => (st, ev0, 0)
    | some a =>
      match env.arena_chunk_alloc_large a usize alignment zero with
      | none => (st, ev0 ++ [Event.arena_chunk_alloc_large a usize alignment zero], 0)
      | some (extent, is_zeroed) =>
        let st1 : State := ⟨Function.update st.large a (st.large a ++ [extent])⟩
        let ev1 := ev0 ++ [Event.arena_chunk_alloc_large a usize alignment zero,
          Event.mutex_lock_large_mtx a, Event.ql_tail_insert a extent,
          Event.mutex_unlock_large_mtx a]
        let ev2 :=
          if env.config_prof then
            if env.arena_prof_accum a usize then
              [Event.arena_prof_accum a usize, Event.prof_idump]
            else [Event.arena_prof_accum a usize]
          else []
        (st1, ev1 ++ ev2 ++ large_palloc_fill env extent zero is_zeroed ++
          [Event.arena_decay_tick a], extent.e_addr)

/-- The function `large_malloc(tsdn, arena, usize, zero)`. -/
def large_malloc (env : Env) (st : State) (tsdn_null : Bool) (arena : Option Nat)
    (usize : Nat) (zero : Bool) : State × List Event × Nat :=
  large_palloc env st tsdn_null arena usize env.CACHELINE zero

/-- The function `large_dalloc_maybe_junk(tsdn, ptr, usize)`. The `memset` that follows the inner
`if` is not part of its body: it runs whenever the outer condition holds. -/
def large_dalloc_maybe_junk (env : Env) (ptr usize : Nat) : List Event :=
  if env.config_fill && env.have_dss && env.opt_junk_free then
    (if !env.config_munmap then [Event.memset ptr JEMALLOC_FREE_JUNK usize]
     else if env.have_dss then
       if env.chunk_in_dss ptr then
         [Event.chunk_in_dss ptr, Event.memset ptr JEMALLOC_FREE_JUNK usize]
       else [Event.chunk_in_dss ptr]
     else [])
    ++ [Event.memset ptr JEMALLOC_FREE_JUNK usize]
  else []

/-- The function `large_ralloc_no_move_shrink(tsdn, extent, usize)`: the descriptor after the
call, the effects, and the result (`true` reports failure). -/
def large_ralloc_no_move_shrink (env : Env) (extent : extent_t) (usize : Nat) :
    extent_t × List Event × Bool :=
  let arena := extent.e_arena
  let oldusize := extent.e_usize
  let diff := sz_sub env.w extent.e_size (sz_add env.w usize env.large_pad)
  if diff ≠ 0 then
    match env.chunk_split_wrapper extent (sz_add env.w usize env.large_pad) usize diff diff with
    | none =>
      (extent, [Event.chunk_split_wrapper extent (sz_add env.w usize env.large_pad) usize
        diff diff], true)
    | some (lead, trail) =>
      (lead,
        [Event.chunk_split_wrapper extent (sz_add env.w usize env.large_pad) usize diff diff]
        ++ (if env.config_fill && env.opt_junk_free then
              large_dalloc_maybe_junk env trail.e_addr trail.e_usize else [])
        ++ [Event.arena_chunk_cache_dalloc arena trail,
            Event.arena_chunk_ralloc_large_shrink arena lead oldusize], false)
  else
    (extent, [Event.arena_chunk_ralloc_large_shrink arena extent oldusize], false)

/-- The macro `PAGE_ADDR2BASE(a)`, `a & ~PAGE_MASK`. -/
def PAGE_ADDR2BASE (env : Env) (a : Nat) : Nat := a &&& sz_not env.w (2 ^ env.LG_PAGE - 1)

/-- The fill performed by `large_ralloc_no_move_expand` after a successful merge. -/
def large_ralloc_no_move_expand_fill (env : Env) (extent : extent_t) (oldusize usize : Nat)
    (zero is_zeroed_trail : Bool) : List Event :=
  if zero || (env.config_fill && env.opt_zero) then
    (if env.config_cache_oblivious then
      let zbase := sz_add env.w extent.e_addr oldusize
      let zpast := PAGE_ADDR2BASE env (sz_add env.w zbase (2 ^ env.LG_PAGE))
      [Event.memset zbase 0 (sz_sub env.w zpast zbase)]
     else [])
    ++ (if !is_zeroed_trail then
      [Event.memset (sz_add env.w extent.e_addr oldusize) 0 (sz_sub env.w usize oldusize)]
     else [])
  else if env.config_fill && env.opt_junk_alloc then
    [Event.memset (sz_add env.w extent.e_addr oldusize) JEMALLOC_ALLOC_JUNK
      (sz_sub env.w usize oldusize)]
  else []

/-- The function `large_ralloc_no_move_expand(tsdn, extent, usize, zero)`: the descriptor after
the call, the effects, and the result (`true` reports failure). -/
def large_ralloc_no_move_expand (env : Env) (extent : extent_t) (usize : Nat) (zero : Bool) :
    extent_t × List Event × Bool :=
  let arena := extent.e_arena
  let oldusize := extent.e_usize
  let trailsize := sz_sub env.w usize extent.e_usize
  let past := extent_past_get extent
  let ev_cache := Event.arena_chunk_cache_alloc arena past trailsize env.CACHELINE
  let ev_alloc := Event.chunk_alloc_wrapper arena past trailsize 0 env.CACHELINE
  let got : Option (extent_t × Bool) × List Event :=
    match env.arena_chunk_cache_alloc arena past trailsize env.CACHELINE with
    | some r => (some r, [ev_cache])
    | none => (env.chunk_alloc_wrapper arena past trailsize 0 env.CACHELINE, [ev_cache, ev_alloc])
  match got.1 with
  | none => (extent, got.2, true)
  | some (trail, is_zeroed_trail) =>
    match env.chunk_merge_wrapper extent trail with
    | none =>
      (extent, got.2 ++ [Event.chunk_merge_wrapper extent trail,
        Event.chunk_dalloc_wrapper arena trail], true)
    | some merged =>
      (merged, got.2 ++ [Event.chunk_merge_wrapper extent trail]
        ++ large_ralloc_no_move_expand_fill env merged oldusize usize zero is_zeroed_trail
        ++ [Event.arena_chunk_ralloc_large_expand arena merged oldusize], false)

/-- The code of `large_ralloc_no_move` after the expansion attempts: keep the allocation if
the existing size accommodates the request, else try to shrink. -/
def large_ralloc_no_move_rest (env : Env) (extent : extent_t) (evs : List Event)
    (usize_min usize_max : Nat) : extent_t × List Event × Bool :=
  if extent.e_usize ≥ usize_min ∧ extent.e_usize ≤ usize_max then
    (extent, evs ++ [Event.arena_decay_tick extent.e_arena], false)
  else if extent.e_usize > usize_max then
    let r := large_ralloc_no_move_shrink env extent usize_max
    if !r.2.2 then
      (r.1, evs ++ r.2.1 ++ [Event.arena_decay_tick r.1.e_arena], false)
    else (r.1, evs ++ r.2.1, true)
  else (extent, evs, true)

/-- The function `large_ralloc_no_move(tsdn, extent, usize_min, usize_max, zero)`: the
descriptor after the call, the effects, and the result (`false`: the allocation stays in
place). Its `assert`s state what callers guarantee and perform no effect. -/
def large_ralloc_no_move (env : Env) (extent : extent_t) (usize_min usize_max : Nat)
    (zero : Bool) : extent_t × List Event × Bool :=
  if usize_max > extent.e_usize then
    -- Attempt to expand the allocation in-place.
    let r1 := large_ralloc_no_move_expand env extent usize_max zero
    if !r1.2.2 then
      (r1.1, r1.2.1 ++ [Event.arena_decay_tick r1.1.e_arena], false)
    else if usize_min < usize_max ∧ usize_min > r1.1.e_usize then
      -- Try again, this time with usize_min.
      let r2 := large_ralloc_no_move_expand env r1.1 usize_min zero
      if r2.2.2 then
        (r2.1, r1.2.1 ++ r2.2.1 ++ [Event.arena_decay_tick r2.1.e_arena], false)
      else
        large_ralloc_no_move_rest env r2.1 (r1.2.1 ++ r2.2.1) usize_min usize_max
    else
      large_ralloc_no_move_rest env r1.1 r1.2.1 usize_min usize_max
  else
    large_ralloc_no_move_rest env extent [] usize_min usize_max

/-- The function `large_ralloc_move_helper(tsdn, arena, usize, alignment, zero)`. -/
def large_ralloc_move_helper (env : Env) (st : State) (tsdn_null : Bool) (arena : Option Nat)
    (usize alignment : Nat) (zero : Bool) : State × List Event × Nat :=
  if alignment ≤ env.CACHELINE then
    large_malloc env st tsdn_null arena usize zero
  else
    large_palloc env st tsdn_null arena usize alignment zero

/-- The function `large_ralloc(tsdn, arena, extent, usize, alignment, zero, tcache)`: the
state and the descriptor after the call, the effects, and the address returned. -/
def large_ralloc (env : Env) (st : State) (tsdn_null : Bool) (arena : Option Nat)
    (extent : extent_t) (usize alignment : Nat) (zero : Bool) (tcache : Nat) :
    State × extent_t × List Event × Nat :=
  let r := large_ralloc_no_move env extent usize usize zero
  if !r.2.2 then
    (st, r.1, r.2.1, r.1.e_addr)
  else
    let m := large_ralloc_move_helper env st tsdn_null arena usize alignment zero
    if m.2.2 = 0 then
      (m.1, r.1, r.2.1 ++ m.2.1, 0)
    else
      let copysize := if usize < r.1.e_usize then usize else r.1.e_usize
      (m.1, r.1, r.2.1 ++ m.2.1 ++ [Event.memcpy m.2.2 r.1.e_addr copysize,
        Event.isdalloct r.1 r.1.e_addr r.1.e_usize tcache true], m.2.2)

end Large

/-! ## Observations on the effects of `large.c` -/

namespace Large

/-- An effect that releases or copies an allocation. -/
def Event.isFreeOrCopy : Event → Bool
  | .isdalloct _ _ _ _ _ => true
  | .memcpy _ _ _ => true
  | _ => false

end Large

/-! ## `chunk.c` -/

namespace Chunk

/-- An extent descriptor, with the fields that `extent_init(extent, arena, addr, size,
active, zeroed, committed, slab)` sets. -/
structure extent_t where
  e_arena : Nat
  e_addr : Nat
  e_size : Nat
  e_active : Bool
  e_zeroed : Bool
  e_committed : Bool
  e_slab : Bool
  deriving DecidableEq, Repr

/-- The initialiser `extent_init`. -/
def extent_init (arena addr size : Nat) (active zeroed committed slab : Bool) : extent_t :=
  ⟨arena, addr, size, active, zeroed, committed, slab⟩

/-- Modelled from the spec: the ordered sets of extents ("each tree orders by (size,
address) or by (address) alone"); their red-black tree code is not among the embedded
files. A tree is the list of its nodes in increasing order. -/
abbrev extent_tree_t := List extent_t

/-- Modelled from the spec: the order of the size-address trees, by size and then by
address. -/
def extent_szad_comp (a b : extent_t) : Ordering :=
  if a.e_size < b.e_size then Ordering.lt
  else if b.e_size < a.e_size then Ordering.gt
  else if a.e_addr < b.e_addr then Ordering.lt
  else if b.e_addr < a.e_addr then Ordering.gt
  else Ordering.eq

/-- Modelled from the spec: the order of the address trees, by address alone. -/
def extent_ad_comp (a b : extent_t) : Ordering :=
  if a.e_addr < b.e_addr then Ordering.lt
  else if b.e_addr < a.e_addr then Ordering.gt
  else Ordering.eq

/-- Modelled from the spec: insertion of a node into an ordered tree. -/
def tree_insert (cmp : extent_t → extent_t → Ordering) :
    extent_tree_t → extent_t → extent_tree_t
  | [], e => [e]
  | x :: t, e => if cmp e x = Ordering.lt then e :: x :: t else x :: tree_insert cmp t e

/-- Modelled from the spec: removal of a node from a tree. -/
def tree_remove (t : extent_tree_t) (e : extent_t) : extent_tree_t := t.erase e

/-- Modelled from the spec: `nsearch`, the least node that is not below the key. -/
def tree_nsearch (cmp : extent_t → extent_t → Ordering) (t : extent_tree_t) (key : extent_t) :
    Option extent_t :=
  t.find? (fun x => decide (cmp x key ≠ Ordering.lt))

/-- Modelled from the spec: `search`, the node that compares equal to the key. -/
def tree_search (cmp : extent_t → extent_t → Ordering) (t : extent_tree_t) (key : extent_t) :
    Option extent_t :=
  t.find? (fun x => decide (cmp x key = Ordering.eq))

/-- Modelled from the spec: `prev`, the greatest node below the given one. -/
def tree_prev (cmp : extent_t → extent_t → Ordering) (t : extent_tree_t) (e : extent_t) :
    Option extent_t :=
  (t.filter (fun x => decide (cmp x e = Ordering.lt))).getLast?

/-- A node of a tree whose fields are updated while it stays linked at its place. -/
def tree_update (t : extent_tree_t) (old new : extent_t) : extent_tree_t :=
  t.map (fun x => if x = old then new else x)

/-- The function `extent_tree_szad_insert`. -/
def extent_tree_szad_insert (t : extent_tree_t) (e : extent_t) : extent_tree_t :=
  tree_insert extent_szad_comp t e

/-- The function `extent_tree_ad_insert`. -/
def extent_tree_ad_insert (t : extent_tree_t) (e : extent_t) : extent_tree_t :=
  tree_insert extent_ad_comp t e

/-- The function `extent_tree_szad_remove`. -/
def extent_tree_szad_remove (t : extent_tree_t) (e : extent_t) : extent_tree_t :=
  tree_remove t e

/-- The function `extent_tree_ad_remove`. -/
def extent_tree_ad_remove (t : extent_tree_t) (e : extent_t) : extent_tree_t :=
  tree_remove t e

/-- The function `extent_tree_szad_nsearch`. -/
def extent_tree_szad_nsearch (t : extent_tree_t) (key : extent_t) : Option extent_t :=
  tree_nsearch extent_szad_comp t key

/-- The function `extent_tree_ad_nsearch`. -/
def extent_tree_ad_nsearch (t : extent_tree_t) (key : extent_t) : Option extent_t :=
  tree_nsearch extent_ad_comp t key

/-- The function `extent_tree_ad_search`. -/
def extent_tree_ad_search (t : extent_tree_t) (key : extent_t) : Option extent_t :=
  tree_search extent_ad_comp t key

/-- The function `extent_tree_ad_prev`. -/
def extent_tree_ad_prev (t : extent_tree_t) (e : extent_t) : Option extent_t :=
  tree_prev extent_ad_comp t e

/-- Effects of the functions of `chunk.c`, in program order. -/
inductive Event where
  | mutex_lock_chunks_mtx
  | mutex_unlock_chunks_mtx
  | split (chunk size size_a size_b : Nat) (committed : Bool)
  | commit (chunk size offset length : Nat)
  | merge (chunk_a size_a chunk_b size_b : Nat) (committed : Bool)
  | purge (chunk size offset length : Nat)
  | dalloc (chunk size : Nat) (committed : Bool)
  | decommit (chunk size offset length : Nat)
  | arena_chunk_cache_maybe_insert (extent : extent_t) (cache : Bool)
  | arena_chunk_cache_maybe_remove (extent : extent_t) (cache : Bool)
  | arena_extent_alloc
  | arena_extent_dalloc (extent : extent_t)
  | memset (addr byte len : Nat)
  | prof_gdump
  deriving DecidableEq, Repr

/-- Constants and the answers of what `chunk.c` calls and does not define: the
size-class rounding `s2u`, the chunk hooks of the arena (`true` reports failure), and
`arena_extent_alloc`, whose answer (`true`: a descriptor is returned) may differ from one
call to the next and is given for the number of calls made before. -/
structure Env where
  w : Nat
  opt_lg_chunk : Nat
  ind : Nat
  s2u : Nat → Nat
  split : Nat → Nat → Nat → Nat → Bool → Bool
  commit : Nat → Nat → Nat → Nat → Bool
  merge : Nat → Nat → Nat → Nat → Bool → Bool
  purge : Nat → Nat → Nat → Nat → Bool
  dalloc : Nat → Nat → Bool → Bool
  decommit : Nat → Nat → Nat → Nat → Bool
  arena_extent_alloc : Nat → Bool
  config_stats : Bool
  config_prof : Bool
  opt_prof : Bool
  prof_gdump_get_unlocked : Bool

/-- The variable `chunksize`, set by `chunk_boot` to `1 << opt_lg_chunk`. -/
def Env.chunksize (env : Env) : Nat := 2 ^ env.opt_lg_chunk

/-- The variable `chunksize_mask`, set by `chunk_boot` to `chunksize - 1`. -/
def Env.chunksize_mask (env : Env) : Nat := env.chunksize - 1

/-- The macro `CHUNK_CEILING(s)` of `chunk.h`. -/
def CHUNK_CEILING (env : Env) (s : Nat) : Nat :=
  (sz_add env.w s env.chunksize_mask) &&& (sz_not env.w env.chunksize_mask)

/-- The macro `ALIGNMENT_CEILING(s, alignment)`,
`((s) + (alignment - 1)) & (-(alignment))`; its header is not among the embedded files. -/
def ALIGNMENT_CEILING (env : Env) (s alignment : Nat) : Nat :=
  (sz_add env.w s (sz_sub env.w alignment 1)) &&& (sz_neg env.w alignment)

/-- A pair of trees over the same extents, as handed to `chunk_recycle` and
`chunk_record` through `chunks_szad` and `chunks_ad`, and the number of calls of
`arena_extent_alloc` made so far. -/
structure Trees where
  szad : extent_tree_t
  ad : extent_tree_t
  nalloc : Nat
  deriving DecidableEq, Repr

/-- The function `chunk_first_best_fit(arena, chunks_szad, chunks_ad, size)`. -/
def chunk_first_best_fit (env : Env) (chunks_szad : extent_tree_t) (_chunks_ad : extent_tree_t)
    (size : Nat) : Option extent_t :=
  let key := extent_init env.ind 0 size false false false false
  extent_tree_szad_nsearch chunks_szad key

/-- The backward half of `chunk_record`: try to coalesce `extent`, which holds the
recorded range, with its predecessor in `chunks_ad`. -/
def chunk_record_backward (env : Env) (T : Trees) (evs : List Event) (cache : Bool)
    (chunk size : Nat) (committed : Bool) (extent : extent_t) : Trees × List Event :=
  match extent_tree_ad_prev T.ad extent with
  | none => (T, evs ++ [Event.mutex_unlock_chunks_mtx])
  | some prev =>
    if sz_add env.w prev.e_addr prev.e_size = chunk ∧ prev.e_committed = committed then
      if !env.merge prev.e_addr prev.e_size chunk size false then
        let merged : extent_t :=
          { extent with
            e_addr := prev.e_addr
            e_size := sz_add env.w prev.e_size extent.e_size
            e_zeroed := prev.e_zeroed && extent.e_zeroed }
        let szad1 := extent_tree_szad_remove T.szad prev
        let ad1 := extent_tree_ad_remove T.ad prev
        let szad2 := extent_tree_szad_remove szad1 extent
        let szad3 := extent_tree_szad_insert szad2 merged
        (⟨szad3, tree_update ad1 extent merged, T.nalloc⟩,
          evs ++ [Event.merge prev.e_addr prev.e_size chunk size false,
            Event.arena_chunk_cache_maybe_remove prev cache,
            Event.arena_chunk_cache_maybe_remove extent cache,
            Event.arena_chunk_cache_maybe_insert merged cache,
            Event.arena_extent_dalloc prev,
            Event.mutex_unlock_chunks_mtx])
      else
        (T, evs ++ [Event.merge prev.e_addr prev.e_size chunk size false,
          Event.mutex_unlock_chunks_mtx])
    else (T, evs ++ [Event.mutex_unlock_chunks_mtx])

/-- The function `chunk_record(tsdn, arena, chunk_hooks, chunks_szad, chunks_ad, cache, chunk,
size, zeroed, committed)`. -/
def chunk_record (env : Env) (T : Trees) (cache : Bool) (chunk size : Nat)
    (zeroed committed : Bool) : Trees × List Event :=
  let unzeroed := cache || !zeroed
  let key := extent_init env.ind (sz_add env.w chunk size) 0 false false false false
  let found := extent_tree_ad_nsearch T.ad key
  let forward : Option extent_t :=
    match found with
    | none => none
    | some extent =>
      if extent.e_addr = key.e_addr ∧ extent.e_committed = committed then some extent else none
  let ev0 := [Event.mutex_lock_chunks_mtx]
  let ev1 :=
    match forward with
    | none => ev0
    | some extent => ev0 ++ [Event.merge chunk size extent.e_addr extent.e_size false]
  let coalesce : Option extent_t :=
    match forward with
    | none => none
    | some extent =>
      if !env.merge chunk size extent.e_addr extent.e_size false then some extent else none
  match coalesce with
  | some extent =>
    -- Coalesce chunk with the following address range.
    let merged : extent_t :=
      { extent with
        e_addr := chunk
        e_size := sz_add env.w size extent.e_size
        e_zeroed := extent.e_zeroed && !unzeroed }
    let szad1 := extent_tree_szad_remove T.szad extent
    let szad2 := extent_tree_szad_insert szad1 merged
    chunk_record_backward env ⟨szad2, tree_update T.ad extent merged, T.nalloc⟩
      (ev1 ++ [Event.arena_chunk_cache_maybe_remove extent cache,
        Event.arena_chunk_cache_maybe_insert merged cache])
      cache chunk size committed merged
  | none =>
    -- Coalescing forward failed, so insert a new extent.
    if !env.arena_extent_alloc T.nalloc then
      let T1 : Trees := ⟨T.szad, T.ad, T.nalloc + 1⟩
      if cache then
        (T1, ev1 ++ [Event.arena_extent_alloc, Event.purge chunk size 0 size,
          Event.mutex_unlock_chunks_mtx])
      else
        (T1, ev1 ++ [Event.arena_extent_alloc, Event.mutex_unlock_chunks_mtx])
    else
      let extent := extent_init env.ind chunk size false (!unzeroed) committed false
      let ad1 := extent_tree_ad_insert T.ad extent
      let szad1 := extent_tree_szad_insert T.szad extent
      chunk_record_backward env ⟨szad1, ad1, T.nalloc + 1⟩
        (ev1 ++ [Event.arena_extent_alloc, Event.arena_chunk_cache_maybe_insert extent cache])
        cache chunk size committed extent

/-- What `chunk_recycle` leaves behind: the address returned (`0` for `NULL`), the values
of `*zero` and `*commit`, the trees, and the effects. -/
structure Recycled where
  ret : Nat
  zero : Bool
  commit : Bool
  trees : Trees
  events : List Event
  deriving DecidableEq, Repr

/-- The end of `chunk_recycle`, once the range is committed: unlock, release the descriptor
still in hand, and zero the range if asked to. -/
def chunk_recycle_finish (T : Trees) (evs : List Event) (held : Option extent_t)
    (dalloc_extent : Bool) (ret size : Nat) (zero commit zeroed : Bool) : Recycled :=
  let ev1 := evs ++ [Event.mutex_unlock_chunks_mtx]
  let ev2 :=
    match held with
    | some extent => if dalloc_extent then ev1 ++ [Event.arena_extent_dalloc extent] else ev1
    | none => ev1
  let ev3 := if zero && !zeroed then ev2 ++ [Event.memset ret 0 size] else ev2
  ⟨ret, zero, commit, T, ev3⟩

/-- The commit step of `chunk_recycle` and what follows it. -/
def chunk_recycle_commit (env : Env) (T : Trees) (evs : List Event) (held : Option extent_t)
    (cache dalloc_extent : Bool) (ret size : Nat) (zero commit zeroed committed : Bool) :
    Recycled :=
  if !committed then
    if env.commit ret size 0 size then
      let r := chunk_record env T cache ret size zeroed committed
      ⟨0, zero, commit, r.1,
        evs ++ [Event.commit ret size 0 size, Event.mutex_unlock_chunks_mtx] ++ r.2⟩
    else
      chunk_recycle_finish T (evs ++ [Event.commit ret size 0 size]) held dalloc_extent ret size
        zero commit zeroed
  else
    chunk_recycle_finish T evs held dalloc_extent ret size zero commit zeroed

/-- The trail step of `chunk_recycle` and what follows it. -/
def chunk_recycle_trail (env : Env) (T : Trees) (evs : List Event) (held : Option extent_t)
    (cache dalloc_extent : Bool) (ret size trailsize : Nat)
    (zero commit zeroed committed : Bool) : Recycled :=
  if trailsize ≠ 0 then
    let ev_split := Event.split ret (sz_add env.w size trailsize) size trailsize false
    if env.split ret (sz_add env.w size trailsize) size trailsize false then
      let ev1 :=
        match held with
        | some extent =>
          if dalloc_extent then evs ++ [ev_split, Event.arena_extent_dalloc extent]
          else evs ++ [ev_split]
        | none => evs ++ [ev_split]
      let r := chunk_record env T cache ret (sz_add env.w size trailsize) zeroed committed
      ⟨0, zero, commit, r.1, ev1 ++ [Event.mutex_unlock_chunks_mtx] ++ r.2⟩
    else
      let trail := extent_init env.ind (sz_add env.w ret size) trailsize false zeroed committed
        false
      match held with
      | some _ =>
        let T1 : Trees :=
          ⟨extent_tree_szad_insert T.szad trail, extent_tree_ad_insert T.ad trail, T.nalloc⟩
        chunk_recycle_commit env T1
          (evs ++ [ev_split, Event.arena_chunk_cache_maybe_insert trail cache]) none
          cache dalloc_extent ret size zero commit zeroed committed
      | none =>
        if !env.arena_extent_alloc T.nalloc then
          let r := chunk_record env ⟨T.szad, T.ad, T.nalloc + 1⟩ cache ret
            (sz_add env.w size trailsize) zeroed committed
          ⟨0, zero, commit, r.1,
            evs ++ [ev_split, Event.arena_extent_alloc, Event.mutex_unlock_chunks_mtx] ++ r.2⟩
        else
          let T1 : Trees :=
            ⟨extent_tree_szad_insert T.szad trail, extent_tree_ad_insert T.ad trail,
              T.nalloc + 1⟩
          chunk_recycle_commit env T1
            (evs ++ [ev_split, Event.arena_extent_alloc,
              Event.arena_chunk_cache_maybe_insert trail cache]) none
            cache dalloc_extent ret size zero commit zeroed committed
  else
    chunk_recycle_commit env T evs held cache dalloc_extent ret size zero commit zeroed
      committed

/-- The local `alloc_size` of `chunk_recycle`:
`CHUNK_CEILING(s2u(size + alignment - chunksize))`. -/
def chunk_recycle_alloc_size (env : Env) (size alignment : Nat) : Nat :=
  CHUNK_CEILING env (env.s2u (sz_sub env.w (sz_add env.w size alignment) env.chunksize))

/-- The extent that `chunk_recycle` selects: the one at `new_addr` if an address is given,
else the first best fit for `alloc_size`. -/
def chunk_recycle_select (env : Env) (T : Trees) (new_addr alloc_size : Nat) : Option extent_t :=
  if new_addr ≠ 0 then
    extent_tree_ad_search T.ad (extent_init env.ind new_addr alloc_size false false false false)
  else chunk_first_best_fit env T.szad T.ad alloc_size

/-- The local `leadsize` of `chunk_recycle`:
`ALIGNMENT_CEILING(extent_addr_get(extent), alignment) - extent_addr_get(extent)`. -/
def chunk_recycle_leadsize (env : Env) (extent : extent_t) (alignment : Nat) : Nat :=
  sz_sub env.w (ALIGNMENT_CEILING env extent.e_addr alignment) extent.e_addr

/-- The local `trailsize` of `chunk_recycle`: `extent_size_get(extent) - leadsize - size`. -/
def chunk_recycle_trailsize (env : Env) (extent : extent_t) (size alignment : Nat) : Nat :=
  sz_sub env.w (sz_sub env.w extent.e_size (chunk_recycle_leadsize env extent alignment)) size

/-- The local `ret` of `chunk_recycle`: `extent_addr_get(extent) + leadsize`. -/
def chunk_recycle_ret (env : Env) (extent : extent_t) (alignment : Nat) : Nat :=
  sz_add env.w extent.e_addr (chunk_recycle_leadsize env extent alignment)

/-- The function `chunk_recycle(tsdn, arena, chunk_hooks, chunks_szad, chunks_ad, cache, new_addr,
size, alignment, zero, commit, dalloc_extent)`; `new_addr` is `0` for `NULL`, `zero`
and `commit` are the values of `*zero` and `*commit` on entry. Its `assert`s state what
callers guarantee and perform no effect. -/
def chunk_recycle (env : Env) (T : Trees) (cache : Bool) (new_addr size alignment : Nat)
    (zero commit dalloc_extent : Bool) : Recycled :=
  let alloc_size := chunk_recycle_alloc_size env size alignment
  -- Beware size_t wrap-around.
  if alloc_size < size then
    ⟨0, zero, commit, T, []⟩
  else
    let ev0 := [Event.mutex_lock_chunks_mtx]
    match chunk_recycle_select env T new_addr alloc_size with
    | none => ⟨0, zero, commit, T, ev0 ++ [Event.mutex_unlock_chunks_mtx]⟩
    | some extent =>
      if new_addr ≠ 0 ∧ extent.e_size < size then
        ⟨0, zero, commit, T, ev0 ++ [Event.mutex_unlock_chunks_mtx]⟩
      else
        let leadsize := chunk_recycle_leadsize env extent alignment
        let trailsize := chunk_recycle_trailsize env extent size alignment
        let ret := chunk_recycle_ret env extent alignment
        let zeroed := extent.e_zeroed
        let zero1 := if zeroed then true else zero
        let committed := extent.e_committed
        let commit1 := if committed then true else commit
        let ev_lead := Event.split extent.e_addr extent.e_size leadsize size false
        if leadsize ≠ 0 ∧ env.split extent.e_addr extent.e_size leadsize size false = true then
          -- Split the lead.
          ⟨0, zero1, commit1, T, ev0 ++ [ev_lead, Event.mutex_unlock_chunks_mtx]⟩
        else
          -- Remove extent from the tree.
          let szad1 := extent_tree_szad_remove T.szad extent
          let ad1 := extent_tree_ad_remove T.ad extent
          if leadsize ≠ 0 then
            -- Insert the leading space as a smaller chunk.
            let lead : extent_t := { extent with e_size := leadsize }
            let T1 : Trees :=
              ⟨extent_tree_szad_insert szad1 lead, extent_tree_ad_insert ad1 lead, T.nalloc⟩
            chunk_recycle_trail env T1
              (ev0 ++ [ev_lead, Event.arena_chunk_cache_maybe_remove extent cache,
                Event.arena_chunk_cache_maybe_insert lead cache])
              none cache dalloc_extent ret size trailsize zero1 commit1 zeroed committed
          else
            chunk_recycle_trail env ⟨szad1, ad1, T.nalloc⟩
              (ev0 ++ [Event.arena_chunk_cache_maybe_remove extent cache])
              (some extent) cache dalloc_extent ret size trailsize zero1 commit1 zeroed
              committed

/-- The function `chunk_alloc_retained(tsdn, arena, chunk_hooks, new_addr, size, alignment, zero,
commit)` on the retained trees and `arena->stats.retained`. -/
def chunk_alloc_retained (env : Env) (retained : Trees) (stats_retained : Nat)
    (new_addr size alignment : Nat) (zero commit : Bool) : Recycled × Nat :=
  let r := chunk_recycle env retained false new_addr size alignment zero commit true
  (r, if env.config_stats && decide (r.ret ≠ 0) then sz_sub env.w stats_retained size
      else stats_retained)

/-- The function `chunk_dalloc_wrapper(tsdn, arena, chunk_hooks, chunk, size, zeroed, committed)`
on the retained trees and `arena->stats.retained`. -/
def chunk_dalloc_wrapper (env : Env) (retained : Trees) (stats_retained : Nat)
    (chunk size : Nat) (_zeroed committed : Bool) : Trees × Nat × List Event :=
  -- Try to deallocate.
  if !env.dalloc chunk size committed then
    (retained, stats_retained, [Event.dalloc chunk size committed])
  else
    -- Try to decommit; purge if that fails.
    let committed1 := if committed then env.decommit chunk size 0 size else committed
    let ev1 :=
      if committed then
        [Event.dalloc chunk size committed, Event.decommit chunk size 0 size]
      else [Event.dalloc chunk size committed]
    let zeroed1 := !committed1 || !env.purge chunk size 0 size
    let ev2 := if committed1 then ev1 ++ [Event.purge chunk size 0 size] else ev1
    let r := chunk_record env retained false chunk size zeroed1 committed1
    (r.1, if env.config_stats then sz_add env.w stats_retained size else stats_retained,
      ev2 ++ r.2)

end Chunk

namespace Chunk

/-- The address `a` lies in the range `[e_addr, e_addr + e_size)` of an extent of the tree. -/
def tree_covers (t : extent_tree_t) (a : Nat) : Prop :=
  ∃ x ∈ t, x.e_addr ≤ a ∧ a < x.e_addr + x.e_size

/-- The range of `a` ends where the range of `b` begins, or before. -/
def extent_before (a b : extent_t) : Prop := a.e_addr + a.e_size ≤ b.e_addr

/-- The invariant of a pair of trees ("the addr-tree is an ordered disjoint cover"): the
address tree lists non-empty ranges in increasing order, each ending where the next begins or
before, none based at `NULL` or reaching beyond the address space of `w` bits, and the
size-address tree holds the same extents, each once. -/
def Trees.ordered_disjoint (w : Nat) (T : Trees) : Prop :=
  T.ad.Pairwise extent_before ∧
    (∀ x ∈ T.ad, 0 < x.e_addr ∧ 0 < x.e_size ∧ x.e_addr + x.e_size ≤ 2 ^ w) ∧
    T.szad.Nodup ∧ (∀ x ∈ T.szad, x ∈ T.ad) ∧ (∀ x ∈ T.ad, x ∈ T.szad)

end Chunk

/-! ## `tcache_inlines.h`: the thread-cache bin fast path -/

namespace Tcache

/-- The fields of `tcache_bin_t` used by the fast path. `low_water` is a C `int`, `ncached`
an `unsigned`; `avail k` is the entry `*(avail - k)` of the stack, whose top is
`avail ncached`. -/
structure tcache_bin_t where
  low_water : Int
  ncached : Nat
  avail : Nat → Nat

/-- The conversion `(int)n` of a 32-bit `unsigned` to `int` (two's complement). -/
def int_cast (n : Nat) : Int :=
  if n % 2 ^ 32 < 2 ^ 31 then ((n % 2 ^ 32 : Nat) : Int) else ((n % 2 ^ 32 : Nat) : Int) - 2 ^ 32

/-- Source function `tcache_alloc_easy`: pops the top of the bin. The result is the updated bin,
the value stored to `*tcache_success` and the returned pointer (`0` for `NULL`). -/
def tcache_alloc_easy (tbin : tcache_bin_t) : tcache_bin_t × Bool × Nat :=
  if tbin.ncached = 0 then
    ({ tbin with low_water := -1 }, false, 0)
  else
    let ret := tbin.avail tbin.ncached
    let ncached := (tbin.ncached + (2 ^ 32 - 1)) % 2 ^ 32
    let low_water := if int_cast ncached < tbin.low_water then int_cast ncached
      else tbin.low_water
    (⟨low_water, ncached, tbin.avail⟩, true, ret)

end Tcache
/-! ## `tcache_inlines.h`: pushing onto a thread-cache bin -/

namespace Tcache

/-- The field of `tcache_bin_info_t` read by the deallocation path: the capacity of the
bins of one size class, an `unsigned`. -/
structure tcache_bin_info_t where
  ncached_max : Nat

/-- Effects of the deallocation path, in program order. -/
inductive Event where
  | arena_dalloc_junk_small (ptr binind : Nat)
  | large_dalloc_junk (ptr size : Nat)
  | tcache_bin_flush_small (binind rem : Nat)
  | tcache_bin_flush_large (binind rem : Nat)
  | ticker_tick
  | tcache_event_hard
  deriving DecidableEq, Repr

/-- Configuration read by the deallocation path and the answers of the functions it calls
that are defined elsewhere: `ticker_tick` is the answer of the GC ticker, `index2size` the
size of a size class. -/
structure Env where
  config_fill : Bool
  opt_junk_free : Bool
  TCACHE_GC_INCR : Nat
  ticker_tick : Bool
  index2size : Nat → Nat

/-- Source function `tcache_event`: ticks the GC ticker and runs the GC pass when it fires.
The pass itself (`tcache_event_hard`) is defined elsewhere and is recorded as an effect. -/
def tcache_event (env : Env) : List Event :=
  if env.TCACHE_GC_INCR = 0 then []
  else if env.ticker_tick then [Event.ticker_tick, Event.tcache_event_hard]
  else [Event.ticker_tick]

/-- Modelled from the spec: the body of `tcache_bin_flush_small` and
`tcache_bin_flush_large` (`tcache.c`) is missing. "If full, flush half the stack to the
arena bin": the call hands entries back to the arena until `rem` are left. The entries
handed back are the oldest ones, the `rem` newest move to the bottom of the stack, and the
low-water mark, "the smallest `ncached` observed", follows the new fill count. -/
def tcache_bin_flush (tbin : tcache_bin_t) (rem : Nat) : tcache_bin_t :=
  if rem ≤ tbin.ncached then
    ⟨if int_cast rem < tbin.low_water then int_cast rem else tbin.low_water, rem,
      fun k => tbin.avail (k + (tbin.ncached - rem))⟩
  else tbin

/-- Modelled from the spec: `tcache_bin_flush_small`, see `tcache_bin_flush`. -/
def tcache_bin_flush_small (tbin : tcache_bin_t) (rem : Nat) : tcache_bin_t :=
  tcache_bin_flush tbin rem

/-- Modelled from the spec: `tcache_bin_flush_large`, see `tcache_bin_flush`. -/
def tcache_bin_flush_large (tbin : tcache_bin_t) (rem : Nat) : tcache_bin_t :=
  tcache_bin_flush tbin rem

/-- The bin of `tcache_dalloc_small` after the statement
`if (tbin->ncached == tbin_info->ncached_max) tcache_bin_flush_small(..., ncached_max >> 1)`,
the point of `assert(tbin->ncached < tbin_info->ncached_max)`. -/
def tcache_dalloc_small_flushed (tbin : tcache_bin_t) (tbin_info : tcache_bin_info_t) :
    tcache_bin_t :=
  if tbin.ncached = tbin_info.ncached_max then
    tcache_bin_flush_small tbin (tbin_info.ncached_max / 2)
  else tbin

/-- The two statements `tbin->ncached++; *(tbin->avail - tbin->ncached) = ptr;`. -/
def tcache_bin_push (tbin : tcache_bin_t) (ptr : Nat) : tcache_bin_t :=
  let ncached := (tbin.ncached + 1) % 2 ^ 32
  ⟨tbin.low_water, ncached, fun k => if k = ncached then ptr else tbin.avail k⟩

/-- Source function `tcache_dalloc_small`, on the bin `tcache->tbins[binind]` and its
`tcache_bin_info[binind]`. The asserts are compiled out of non-debug builds. -/
def tcache_dalloc_small (env : Env) (tbin : tcache_bin_t) (tbin_info : tcache_bin_info_t)
    (ptr binind : Nat) (slow_path : Bool) : tcache_bin_t × List Event :=
  let junk :=
    if slow_path && env.config_fill && env.opt_junk_free then
      [Event.arena_dalloc_junk_small ptr binind]
    else []
  let flush :=
    if tbin.ncached = tbin_info.ncached_max then
      [Event.tcache_bin_flush_small binind (tbin_info.ncached_max / 2)]
    else []
  (tcache_bin_push (tcache_dalloc_small_flushed tbin tbin_info) ptr,
    junk ++ flush ++ tcache_event env)

/-- The bin of `tcache_dalloc_large` after the statement
`if (tbin->ncached == tbin_info->ncached_max) tcache_bin_flush_large(..., ncached_max >> 1)`,
the point of `assert(tbin->ncached < tbin_info->ncached_max)`. -/
def tcache_dalloc_large_flushed (tbin : tcache_bin_t) (tbin_info : tcache_bin_info_t) :
    tcache_bin_t :=
  if tbin.ncached = tbin_info.ncached_max then
    tcache_bin_flush_large tbin (tbin_info.ncached_max / 2)
  else tbin

/-- Source function `tcache_dalloc_large`, on the bin `tcache->tbins[binind]` and its
`tcache_bin_info[binind]`. The asserts are compiled out of non-debug builds. -/
def tcache_dalloc_large (env : Env) (tbin : tcache_bin_t) (tbin_info : tcache_bin_info_t)
    (ptr binind : Nat) (slow_path : Bool) : tcache_bin_t × List Event :=
  let junk :=
    if slow_path && env.config_fill && env.opt_junk_free then
      [Event.large_dalloc_junk ptr (env.index2size binind)]
    else []
  let flush :=
    if tbin.ncached = tbin_info.ncached_max then
      [Event.tcache_bin_flush_large binind (tbin_info.ncached_max / 2)]
    else []
  (tcache_bin_push (tcache_dalloc_large_flushed tbin tbin_info) ptr,
    junk ++ flush ++ tcache_event env)

/-- One operation on a bin: a pop by `tcache_alloc_easy` or a push by one of the two
deallocation functions. -/
inductive Op where
  | alloc_easy
  | dalloc_small (ptr binind : Nat) (slow_path : Bool)
  | dalloc_large (ptr binind : Nat) (slow_path : Bool)
  deriving DecidableEq, Repr

/-- The bin after one operation. -/
def Op.apply (env : Env) (tbin_info : tcache_bin_info_t) (tbin : tcache_bin_t) :
    Op → tcache_bin_t
  | .alloc_easy => (tcache_alloc_easy tbin).1
  | .dalloc_small ptr binind slow_path =>
    (tcache_dalloc_small env tbin tbin_info ptr binind slow_path).1
  | .dalloc_large ptr binind slow_path =>
    (tcache_dalloc_large env tbin tbin_info ptr binind slow_path).1

/-- Whether an operation applied to the bin flushes it: a push onto a full bin. -/
def Op.flushes (tbin_info : tcache_bin_info_t) (tbin : tcache_bin_t) : Op → Bool
  | .alloc_easy => false
  | .dalloc_small _ _ _ => decide (tbin.ncached = tbin_info.ncached_max)
  | .dalloc_large _ _ _ => decide (tbin.ncached = tbin_info.ncached_max)

/-- The states a bin goes through under a sequence of operations, the initial one first. -/
def bin_trace (env : Env) (tbin_info : tcache_bin_info_t) :
    tcache_bin_t → List Op → List tcache_bin_t
  | tbin, [] => [tbin]
  | tbin, op :: ops => tbin :: bin_trace env tbin_info (op.apply env tbin_info tbin) ops

/-- The bin after a sequence of operations. -/
def bin_run (env : Env) (tbin_info : tcache_bin_info_t) :
    tcache_bin_t → List Op → tcache_bin_t
  | tbin, [] => tbin
  | tbin, op :: ops => bin_run env tbin_info (op.apply env tbin_info tbin) ops

/-- Whether some operation of the sequence flushes the bin. -/
def bin_flushes (env : Env) (tbin_info : tcache_bin_info_t) :
    tcache_bin_t → List Op → Bool
  | _, [] => false
  | tbin, op :: ops =>
    op.flushes tbin_info tbin || bin_flushes env tbin_info (op.apply env tbin_info tbin) ops

/-- Whether the sequence attempts an allocation while the bin is empty. -/
def bin_alloc_on_empty (env : Env) (tbin_info : tcache_bin_info_t) :
    tcache_bin_t → List Op → Bool
  | _, [] => false
  | tbin, op :: ops =>
    (decide (op = Op.alloc_easy) && decide (tbin.ncached = 0))
      || bin_alloc_on_empty env tbin_info (op.apply env tbin_info tbin) ops

end Tcache

/-! ## `tcache_inlines.h`: sequences of pushes and pops on one bin -/

namespace Tcache

/-- The bin after the calls `tcache_dalloc_small(ptr)` for the pointers of a list, in order. -/
def tcache_dalloc_small_seq (env : Env) (tbin_info : tcache_bin_info_t) (binind : Nat)
    (slow_path : Bool) : tcache_bin_t → List Nat → tcache_bin_t
  | tbin, [] => tbin
  | tbin, ptr :: ptrs =>
    tcache_dalloc_small_seq env tbin_info binind slow_path
      (tcache_dalloc_small env tbin tbin_info ptr binind slow_path).1 ptrs

/-- The bin after `n` calls of `tcache_alloc_easy`, and what each call stored to
`*tcache_success` and returned, in order. -/
def tcache_alloc_easy_seq : Nat → tcache_bin_t → tcache_bin_t × List (Bool × Nat)
  | 0, tbin => (tbin, [])
  | n + 1, tbin =>
    let r := tcache_alloc_easy tbin
    let s := tcache_alloc_easy_seq n r.1
    (s.1, r.2 :: s.2)

end Tcache

/-! ## `rtree.h`: the chunk radix tree

The words of the tree are named by paths: `[l]` is the subtree pointer
`rtree->levels[l].subtree`, and `p ++ [i]` is the element `node[i]` of the node that the
pointer stored at `p` refers to. Distinct nodes therefore never share storage, as with an
allocator that hands out fresh memory. An element pointer `rtree_elm_t *` is such a path, and
a function that can spin forever returns `none` when it does. -/

namespace Rtree

/-- The constant `LG_RTREE_BITS_PER_LEVEL`. -/
def LG_RTREE_BITS_PER_LEVEL : Nat := 4

/-- The sentinel `RTREE_NODE_INITIALIZING`. -/
def RTREE_NODE_INITIALIZING : Nat := 1

/-- The fields `bits` and `cumbits` of `rtree_level_t`. -/
structure rtree_level_t where
  bits : Nat
  cumbits : Nat

/-- The fields of `rtree_t` that never change after `rtree_new`, with the pointer width `w`
(the value of `1 << (LG_SIZEOF_PTR+3)`). The callback `alloc k nelms` is the answer of the
`k`-th call of `rtree->alloc`, `0` when it fails. -/
structure rtree_t where
  w : Nat
  height : Nat
  start_level : Nat → Nat
  levels : Nat → rtree_level_t
  alloc : Nat → Nat → Nat

/-- A pointer to a word of the tree. -/
abbrev rtree_elm_t := List Nat

/-- The words of the tree and the number of calls of `rtree->alloc` made so far. -/
structure State where
  mem : rtree_elm_t → Nat
  nalloc : Nat

/-- A store of `v` to the word `p`. -/
def State.write (st : State) (p : rtree_elm_t) (v : Nat) : State :=
  { st with mem := fun q => if q = p then v else st.mem q }

/-- The zeroed memory of a node just returned by `rtree->alloc` for the pointer slot `p`. -/
def State.zero_node (st : State) (p : rtree_elm_t) : State :=
  { st with mem := fun q => if q ≠ [] ∧ q.dropLast = p then 0 else st.mem q }

/-- Modelled from the spec: `lg_floor(x)`, the position of the highest set bit of `x`; the
first argument bounds the number of bits of `x`. -/
def lg_floor : Nat → Nat → Nat
  | 0, _ => 0
  | n + 1, x => if x ≤ 1 then 0 else lg_floor n (x / 2) + 1

/-- Modelled from the spec: `atomic_cas_p(p, c, s)` stores `s` to `*p` if `*p` equals `c`;
it returns true when it did not store. -/
def atomic_cas_p (st : State) (p : rtree_elm_t) (c s : Nat) : Bool × State :=
  if st.mem p = c then (false, st.write p s) else (true, st)

/-- Source function `rtree_start_level`. -/
def rtree_start_level (rt : rtree_t) (key : Nat) : Nat :=
  if key = 0 then rt.height - 1
  else rt.start_level (lg_floor rt.w key >>> LG_RTREE_BITS_PER_LEVEL)

/-- Source function `rtree_subkey`. -/
def rtree_subkey (rt : rtree_t) (key level : Nat) : Nat :=
  (key >>> (rt.w - (rt.levels level).cumbits)) &&& (2 ^ (rt.levels level).bits - 1)

/-- Source function `rtree_node_valid`. -/
def rtree_node_valid (node : Nat) : Bool :=
  decide (RTREE_NODE_INITIALIZING < node)

/-- Source function `rtree_child_tryread`; the second read returns the same word. -/
def rtree_child_tryread (st : State) (elm : rtree_elm_t) (dependent : Bool) : Nat :=
  let child := st.mem elm
  if !dependent && !rtree_node_valid child then st.mem elm else child

/-- Modelled from the spec: two-stage installation of a node into the pointer slot `elmp`
(`rtree_node_init` of `rtree.c`): compare-and-swap the sentinel into the slot, allocate the
zeroed node, store its pointer. When the slot is already taken the caller waits until it no
longer holds the sentinel, which never happens without another thread. -/
def rtree_node_init (rt : rtree_t) (st : State) (level : Nat) (elmp : rtree_elm_t) :
    Option (Nat × State) :=
  match atomic_cas_p st elmp 0 RTREE_NODE_INITIALIZING with
  | (true, st1) =>
    if st1.mem elmp = RTREE_NODE_INITIALIZING then none else some (st1.mem elmp, st1)
  | (false, st1) =>
    let node := rt.alloc st1.nalloc (2 ^ (rt.levels level).bits)
    let st2 := { st1 with nalloc := st1.nalloc + 1 }
    if node = 0 then some (0, st2)
    else some (node, (st2.zero_node elmp).write elmp node)

/-- Modelled from the spec: `rtree_subtree_read_hard` of `rtree.c`. -/
def rtree_subtree_read_hard (rt : rtree_t) (st : State) (level : Nat) : Option (Nat × State) :=
  rtree_node_init rt st level [level]

/-- Modelled from the spec: `rtree_child_read_hard` of `rtree.c`. -/
def rtree_child_read_hard (rt : rtree_t) (st : State) (elm : rtree_elm_t) (level : Nat) :
    Option (Nat × State) :=
  rtree_node_init rt st (level + 1) elm

/-- Source function `rtree_child_read`. -/
def rtree_child_read (rt : rtree_t) (st : State) (elm : rtree_elm_t) (level : Nat)
    (dependent : Bool) : Option (Nat × State) :=
  let child := rtree_child_tryread st elm dependent
  if !dependent && !rtree_node_valid child then rtree_child_read_hard rt st elm level
  else some (child, st)

/-- Source function `rtree_elm_read`: the word with the lock bit masked. -/
def rtree_elm_read (rt : rtree_t) (st : State) (elm : rtree_elm_t) (dependent : Bool) : Nat :=
  let extent := if dependent then st.mem elm else st.mem elm
  extent &&& sz_not rt.w 1

/-- Source function `rtree_elm_write`. -/
def rtree_elm_write (st : State) (elm : rtree_elm_t) (extent : Nat) : State :=
  st.write elm extent

/-- Source function `rtree_subtree_tryread`. -/
def rtree_subtree_tryread (st : State) (level : Nat) (dependent : Bool) : Nat :=
  let subtree := st.mem [level]
  if !dependent && !rtree_node_valid subtree then st.mem [level] else subtree

/-- Source function `rtree_subtree_read`. -/
def rtree_subtree_read (rt : rtree_t) (st : State) (level : Nat) (dependent : Bool) :
    Option (Nat × State) :=
  let subtree := rtree_subtree_tryread st level dependent
  if !dependent && !rtree_node_valid subtree then rtree_subtree_read_hard rt st level
  else some (subtree, st)

/-- The cases of the `switch` of `rtree_elm_lookup`, from the case of `level` down to the
leaf case: `n` is the number of `RTREE_GET_SUBTREE` cases still to fall through, `node` the
current node and `p` the slot that holds the pointer to it. -/
def rtree_elm_lookup_from (rt : rtree_t) (key : Nat) (dependent init_missing : Bool) :
    Nat → Nat → Nat → rtree_elm_t → State → Option (Option rtree_elm_t × State)
  | 0, level, node, p, st =>
    if !dependent && !rtree_node_valid node then some (none, st)
    else some (some (p ++ [rtree_subkey rt key level]), st)
  | n + 1, level, node, p, st =>
    if !dependent && !rtree_node_valid node then some (none, st)
    else
      match (if init_missing then
          rtree_child_read rt st (p ++ [rtree_subkey rt key level]) level dependent
        else some (rtree_child_tryread st (p ++ [rtree_subkey rt key level]) dependent, st)) with
      | none => none
      | some (child, st1) =>
        rtree_elm_lookup_from rt key dependent init_missing n (level + 1) child
          (p ++ [rtree_subkey rt key level]) st1

/-- Source function `rtree_elm_lookup`; the result is `some none` for `NULL`. -/
def rtree_elm_lookup (rt : rtree_t) (st : State) (key : Nat) (dependent init_missing : Bool) :
    Option (Option rtree_elm_t × State) :=
  let start_level := rtree_start_level rt key
  match (if init_missing then rtree_subtree_read rt st start_level dependent
    else some (rtree_subtree_tryread st start_level dependent, st)) with
  | none => none
  | some (node, st1) =>
    rtree_elm_lookup_from rt key dependent init_missing (rt.height - 1 - start_level)
      start_level node [start_level] st1

/-- Source function `rtree_write`. -/
def rtree_write (rt : rtree_t) (st : State) (key extent : Nat) : Option (Bool × State) :=
  match rtree_elm_lookup rt st key false true with
  | none => none
  | some (none, st1) => some (true, st1)
  | some (some elm, st1) => some (false, rtree_elm_write st1 elm extent)

/-- Source function `rtree_read`. -/
def rtree_read (rt : rtree_t) (st : State) (key : Nat) (dependent : Bool) : Option Nat :=
  match rtree_elm_lookup rt st key dependent false with
  | none => none
  | some (none, _) => some 0
  | some (some elm, st1) => some (rtree_elm_read rt st1 elm dependent)

/-- The element `&node[subkey]` that the `switch` of `rtree_elm_lookup` arrives at when it is
entered at the case of `level`, `n` cases above the leaf case, with a node whose pointer is
stored at `p`, and every node on the way exists. -/
def rtree_path_from (rt : rtree_t) (key : Nat) : Nat → Nat → rtree_elm_t → rtree_elm_t
  | 0, level, p => p ++ [rtree_subkey rt key level]
  | n + 1, level, p => rtree_path_from rt key n (level + 1) (p ++ [rtree_subkey rt key level])

/-- The leaf element of `key`: the element that `rtree_elm_lookup` arrives at when every node
on the way exists. -/
def rtree_path (rt : rtree_t) (key : Nat) : rtree_elm_t :=
  rtree_path_from rt key (rt.height - 1 - rtree_start_level rt key) (rtree_start_level rt key)
    [rtree_start_level rt key]

/-- The value that `rtree_read` obtains when its lookup enters the `switch` of
`rtree_elm_lookup` at the case of `level` with the node `node`, whose pointer is stored
at `p`. -/
def rtree_read_from (rt : rtree_t) (st : State) (key : Nat) (dependent : Bool)
    (n level node : Nat) (p : rtree_elm_t) : Option Nat :=
  match rtree_elm_lookup_from rt key dependent false n level node p st with
  | none => none
  | some (none, _) => some 0
  | some (some elm, st1) => some (rtree_elm_read rt st1 elm dependent)

/-- The `do ... while` loop of `rtree_elm_acquire`, run at most `fuel` times. -/
def rtree_elm_acquire_spin (rt : rtree_t) : Nat → State → rtree_elm_t → Option State
  | 0, _, _ => none
  | fuel + 1, st, elm =>
    let extent := rtree_elm_read rt st elm false
    let s := extent ||| 1
    match atomic_cas_p st elm extent s with
    | (true, st1) => rtree_elm_acquire_spin rt fuel st1 elm
    | (false, st1) => some st1

/-- Source function `rtree_elm_acquire`. A dependent acquisition of an element that does not
exist dereferences `NULL` and has no result. -/
def rtree_elm_acquire (rt : rtree_t) (st : State) (key : Nat) (dependent init_missing : Bool)
    (fuel : Nat) : Option (Option rtree_elm_t × State) :=
  match rtree_elm_lookup rt st key dependent init_missing with
  | none => none
  | some (none, st1) => if !dependent then some (none, st1) else none
  | some (some elm, st1) =>
    match rtree_elm_acquire_spin rt fuel st1 elm with
    | none => none
    | some st2 => some (some elm, st2)

/-- Source function `rtree_elm_read_acquired`. -/
def rtree_elm_read_acquired (rt : rtree_t) (st : State) (elm : rtree_elm_t) : Nat :=
  st.mem elm &&& sz_not rt.w 1

/-- Source function `rtree_elm_write_acquired`. -/
def rtree_elm_write_acquired (st : State) (elm : rtree_elm_t) (extent : Nat) : State :=
  st.write elm (extent ||| 1)

/-- Source function `rtree_elm_release`. -/
def rtree_elm_release (rt : rtree_t) (st : State) (elm : rtree_elm_t) : State :=
  rtree_elm_write st elm (rtree_elm_read_acquired rt st elm)

/-- Source function `rtree_clear`. -/
def rtree_clear (rt : rtree_t) (st : State) (key fuel : Nat) : Option State :=
  match rtree_elm_acquire rt st key true false fuel with
  | some (some elm, st1) =>
    some (rtree_elm_release rt (rtree_elm_write_acquired st1 elm 0) elm)
  | _ => none

end Rtree

/-! ## `chunk.c`: registering a chunk in the radix tree -/

namespace Chunk

/-- The globals that `chunk_register` updates: the words of `chunks_rtree` and the profiling
counters `curchunks` and `highchunks`. -/
structure Registry where
  rtree : Rtree.State
  curchunks : Nat
  highchunks : Nat

/-- The statistics block at the end of `chunk_register`. `atomic_add_z` returns the sum, and
the compare-and-swap of the loop succeeds in its first round, there being no other thread. -/
def chunk_register_stats (env : Env) (g : Registry) (size : Nat) : Registry × List Event :=
  if env.config_prof && env.opt_prof then
    let nadd := if size = 0 then 1 else size / env.chunksize
    let cur := sz_add env.w g.curchunks nadd
    let high := g.highchunks
    ({ g with curchunks := cur, highchunks := if cur > high then cur else high },
      if decide (cur > high) && env.prof_gdump_get_unlocked then [Event.prof_gdump] else [])
  else (g, [])

/-- Source function `chunk_register`, for the extent descriptor at `extent` whose address is
`chunk` and whose size is `size`; `rt` holds the level tables of `chunks_rtree`. The result is
`none` when an acquisition spins for more than `fuel` rounds. -/
def chunk_register (env : Env) (rt : Rtree.rtree_t) (g : Registry) (chunk extent size fuel : Nat) :
    Option (Bool × Registry × List Event) :=
  match Rtree.rtree_elm_acquire rt g.rtree chunk false true fuel with
  | none => none
  | some (none, r1) => some (true, { g with rtree := r1 }, [])
  | some (some elm_a, r1) =>
    let r2 := Rtree.rtree_elm_write_acquired r1 elm_a extent
    if size > env.chunksize then
      let last := sz_add env.w chunk (CHUNK_CEILING env (sz_sub env.w size env.chunksize))
      match Rtree.rtree_elm_acquire rt r2 last false true fuel with
      | none => none
      | some (none, r3) =>
        some (true, { g with rtree :=
          Rtree.rtree_elm_release rt (Rtree.rtree_elm_write_acquired r3 elm_a 0) elm_a }, [])
      | some (some elm_b, r3) =>
        let r4 := Rtree.rtree_elm_release rt (Rtree.rtree_elm_write_acquired r3 elm_b extent) elm_b
        let r := chunk_register_stats env { g with rtree := Rtree.rtree_elm_release rt r4 elm_a }
          size
        some (false, r.1, r.2)
    else
      let r := chunk_register_stats env { g with rtree := Rtree.rtree_elm_release rt r2 elm_a }
        size
      some (false, r.1, r.2)

end Chunk
/-! ## `mutex.c` -/

namespace Mutex

/-- The mutexes of the allocator. The lock of an arena, `arena->lock`, is named by the
address of the arena. -/
inductive malloc_mutex_t where
  | init_lock
  | arenas_lock
  | arena_lock (arena : Nat)
  | base_mtx
  | huge_mtx
  | dss_mtx
  | swap_mtx
  deriving DecidableEq, Repr

/-- Effects of the mutex functions, in program order. `store_zero` is the assignment
`*mutex = 0` of spin-lock builds; `malloc_mutex_lock` and `malloc_mutex_unlock` are the
inline functions of `mutex.h`. -/
inductive Event where
  | store_zero (mutex : malloc_mutex_t)
  | pthread_mutexattr_init
  | pthread_mutexattr_settype (adaptive : Bool)
  | pthread_mutex_init (mutex : malloc_mutex_t)
  | pthread_mutexattr_destroy
  | malloc_mutex_lock (mutex : malloc_mutex_t)
  | malloc_mutex_unlock (mutex : malloc_mutex_t)
  | malloc_printf (msg : String)
  deriving DecidableEq, Repr

/-- Build switches of `mutex.c` and the return values of the pthread functions it calls. -/
structure Env where
  JEMALLOC_OSSPIN : Bool
  PTHREAD_MUTEX_ADAPTIVE_NP : Bool
  pthread_mutexattr_init : Int
  pthread_mutex_init : malloc_mutex_t → Int

/-- How a `void` function ends: `abort()` is reached, or it returns. -/
inductive Exit where
  | aborted
  | returned
  deriving DecidableEq, Repr

/-- Source function `malloc_mutex_init`: `true` reports a failure. -/
def malloc_mutex_init (env : Env) (mutex : malloc_mutex_t) : List Event × Bool :=
  if env.JEMALLOC_OSSPIN then
    ([Event.store_zero mutex], false)
  else if env.pthread_mutexattr_init ≠ 0 then
    ([Event.pthread_mutexattr_init], true)
  else if env.pthread_mutex_init mutex ≠ 0 then
    ([Event.pthread_mutexattr_init,
        Event.pthread_mutexattr_settype env.PTHREAD_MUTEX_ADAPTIVE_NP,
        Event.pthread_mutex_init mutex, Event.pthread_mutexattr_destroy], true)
  else
    ([Event.pthread_mutexattr_init,
        Event.pthread_mutexattr_settype env.PTHREAD_MUTEX_ADAPTIVE_NP,
        Event.pthread_mutex_init mutex, Event.pthread_mutexattr_destroy], false)

/-- Source function `malloc_mutex_prefork`. -/
def malloc_mutex_prefork (mutex : malloc_mutex_t) : List Event :=
  [Event.malloc_mutex_lock mutex]

/-- Source function `malloc_mutex_postfork_parent`. -/
def malloc_mutex_postfork_parent (mutex : malloc_mutex_t) : List Event :=
  [Event.malloc_mutex_unlock mutex]

/-- Source function `malloc_mutex_postfork_child`; `opt_abort` is the run-time option of
`jemalloc.c`. -/
def malloc_mutex_postfork_child (env : Env) (opt_abort : Bool) (mutex : malloc_mutex_t) :
    List Event × Exit :=
  let r := malloc_mutex_init env mutex
  if r.2 then
    if opt_abort then
      (r.1 ++ [Event.malloc_printf "<jemalloc>: Error re-initializing mutex in child\n"],
        Exit.aborted)
    else
      (r.1 ++ [Event.malloc_printf "<jemalloc>: Error re-initializing mutex in child\n"],
        Exit.returned)
  else (r.1, Exit.returned)

/-- An effect that prints a message. -/
def Event.isPrintf : Event → Bool
  | .malloc_printf _ => true
  | _ => false

/-- An effect that initialises a mutex. -/
def Event.isInit : Event → Bool
  | .store_zero _ => true
  | .pthread_mutex_init _ => true
  | _ => false

/-- The mutex locked by an effect, if it is a lock. -/
def Event.locked : Event → Option malloc_mutex_t
  | .malloc_mutex_lock m => some m
  | _ => none

/-- The mutex unlocked by an effect, if it is an unlock. -/
def Event.unlocked : Event → Option malloc_mutex_t
  | .malloc_mutex_unlock m => some m
  | _ => none

end Mutex
/-! ## `jemalloc.c`: arenas, fork handlers and initialisation -/

namespace Init

open Mutex (malloc_mutex_t)

/-- The two fork handlers of `jemalloc.c`, as passed to `pthread_atfork`. -/
inductive Handler where
  | jemalloc_prefork
  | jemalloc_postfork
  deriving DecidableEq, Repr

/-- Effects of the functions of this part, in program order. `mutex` wraps an effect of
`mutex.c`. `opt_lg c` is the guarded adjustment of a size option that another module defines
(`opt_lg_chunk`, `opt_lg_qspace_max`, ...), selected by the option character `c`. -/
inductive Event where
  | mutex (e : Mutex.Event)
  | CPU_SPINWAIT
  | sysconf (name : String)
  | readlink (path : String)
  | getenv (name : String)
  | malloc_write4 (p1 p2 p3 p4 : String)
  | opt_lg (c : Char)
  | pthread_atfork (prepare parent child : Handler)
  | ctl_boot
  | trace_boot
  | atexit
  | chunk_boot
  | base_boot
  | arena_boot
  | tcache_boot
  | huge_boot
  | base_alloc (size : Nat)
  | arena_new (arena ind : Nat)
  deriving DecidableEq, Repr

/-- The variables of `jemalloc.c` and the options it sets. `arenas_addr` is the pointer
`arenas`, `arenas i` the slot `arenas[i]` (`0` for `NULL`), `arenas_map t` the thread-local
`arenas_map` of thread `t`, and `nbase` counts the calls of `base_alloc` made so far. -/
structure State where
  malloc_initialized : Bool
  malloc_initializer : Nat
  narenas : Nat
  next_arena : Nat
  arenas_addr : Nat
  arenas : Nat → Nat
  arenas_map : Nat → Nat
  ncpus : Nat
  pagesize : Nat
  pagesize_mask : Nat
  lg_pagesize : Nat
  opt_abort : Bool
  opt_junk : Bool
  opt_sysv : Bool
  opt_xmalloc : Bool
  opt_zero : Bool
  opt_narenas_lshift : Int
  opt_overcommit : Bool
  opt_stats_print : Bool
  opt_trace : Bool
  nbase : Nat

/-- Build switches, constants of other modules and the answers of the functions called
by this part that are defined elsewhere. A boot function answers `true` on failure;
`base_alloc k size` is the answer of the `k`-th call of `base_alloc`, `0` for `NULL`;
`init_wait` is the number of further rounds a thread spins until it sees another thread
finish the initialisation, `none` if that never happens; an option string is the list of
its characters before the terminator, `none` if there is no such string; `init_arenas` is
the address of the local array of `malloc_init_hard`. -/
structure Env where
  w : Nat
  NO_TLS : Bool
  DYNAMIC_PAGE_SHIFT : Bool
  JEMALLOC_DEBUG : Bool
  JEMALLOC_TCACHE : Bool
  JEMALLOC_FILL : Bool
  JEMALLOC_SWAP : Bool
  JEMALLOC_DSS : Bool
  JEMALLOC_TRACE : Bool
  JEMALLOC_SYSV : Bool
  JEMALLOC_XMALLOC : Bool
  mutex : Mutex.Env
  init_arenas : Nat
  init_wait : Option Nat
  sysconf_pagesize : Int
  readlink : Option (List Char)
  getenv : Option (List Char)
  malloc_options : Option (List Char)
  pthread_atfork : Int
  ctl_boot : Bool
  trace_boot : Bool
  atexit : Int
  chunk_boot : Bool
  base_boot : Bool
  arena_boot : Bool
  huge_boot : Bool
  base_alloc : Nat → Nat → Nat
  arena_new : Nat → Nat → Bool
  sysconf_nprocessors : Int
  sizeof_arena_t : Nat
  sizeof_arena_bin_t : Nat
  nbins : Nat
  chunksize : Nat
  tcache_nslots : Nat

/-- The effect of locking a mutex. -/
def lock (m : malloc_mutex_t) : Event := Event.mutex (Mutex.Event.malloc_mutex_lock m)

/-- The effect of unlocking a mutex. -/
def unlock (m : malloc_mutex_t) : Event := Event.mutex (Mutex.Event.malloc_mutex_unlock m)

/-- The assignment `arenas[ind] = ret`. -/
def State.set_arena (st : State) (ind ret : Nat) : State :=
  { st with arenas := fun i => if i = ind then ret else st.arenas i }

/-- The assignment `arenas_map = ret` made by thread `self`. -/
def State.bind (st : State) (self ret : Nat) : State :=
  { st with arenas_map := fun t => if t = self then ret else st.arenas_map t }

/-- The size `sizeof(arena_t) + (sizeof(arena_bin_t) * (nbins - 1))` of an arena with its
trailing bins; `nbins` is an `unsigned`. -/
def arena_size (env : Env) : Nat :=
  sz_add env.w env.sizeof_arena_t
    (sz_mul env.w env.sizeof_arena_bin_t ((env.nbins + (2 ^ 32 - 1)) % 2 ^ 32))

/-- Source function `arenas_extend(ind)`: creates an arena and stores it in `arenas[ind]`;
if that fails it prints an error, aborts under `opt_abort` and otherwise answers
`arenas[0]`. -/
def arenas_extend (env : Env) (st : State) (ind : Nat) : State × List Event × Outcome :=
  let size := arena_size env
  let ret := env.base_alloc st.nbase size
  let st1 := { st with nbase := st.nbase + 1 }
  if ret ≠ 0 then
    if env.arena_new ret ind = false then
      (st1.set_arena ind ret, [Event.base_alloc size, Event.arena_new ret ind],
        Outcome.returned ret)
    else if st.opt_abort then
      (st1, [Event.base_alloc size, Event.arena_new ret ind,
          Event.malloc_write4 "<jemalloc>" ": Error initializing arena\n" "" ""],
        Outcome.aborted)
    else
      (st1, [Event.base_alloc size, Event.arena_new ret ind,
          Event.malloc_write4 "<jemalloc>" ": Error initializing arena\n" "" ""],
        Outcome.returned (st.arenas 0))
  else if st.opt_abort then
    (st1, [Event.base_alloc size,
        Event.malloc_write4 "<jemalloc>" ": Error initializing arena\n" "" ""],
      Outcome.aborted)
  else
    (st1, [Event.base_alloc size,
        Event.malloc_write4 "<jemalloc>" ": Error initializing arena\n" "" ""],
      Outcome.returned (st.arenas 0))

/-- Source function `choose_arena_hard()`, called by thread `self` (builds with TLS). -/
def choose_arena_hard (env : Env) (st : State) (self : Nat) :
    State × List Event × Outcome :=
  if st.narenas > 1 then
    if st.arenas st.next_arena = 0 then
      match arenas_extend env st st.next_arena with
      | (st1, evs, Outcome.aborted) =>
        (st1, lock malloc_mutex_t.arenas_lock :: evs, Outcome.aborted)
      | (st1, evs, Outcome.returned ret) =>
        (({ st1 with next_arena := ((st1.next_arena + 1) % 2 ^ 32) % st1.narenas }).bind
            self ret,
          lock malloc_mutex_t.arenas_lock :: evs ++ [unlock malloc_mutex_t.arenas_lock],
          Outcome.returned ret)
    else
      (({ st with next_arena := ((st.next_arena + 1) % 2 ^ 32) % st.narenas }).bind self
          (st.arenas st.next_arena),
        [lock malloc_mutex_t.arenas_lock, unlock malloc_mutex_t.arenas_lock],
        Outcome.returned (st.arenas st.next_arena))
  else
    (st.bind self (st.arenas 0), [], Outcome.returned (st.arenas 0))

/-- The variables after the threads of a list have called `choose_arena_hard` one after
the other; `none` if one of the calls aborts. -/
def choose_arena_calls (env : Env) : State → List Nat → Option State
  | st, [] => some st
  | st, self :: threads =>
    match choose_arena_hard env st self with
    | (_, _, Outcome.aborted) => none
    | (st1, _, Outcome.returned _) => choose_arena_calls env st1 threads

/-- The number of threads of a list that are bound to an arena, that is, whose
`arenas_map` is the arena. -/
def live_count (st : State) (threads : List Nat) (arena : Nat) : Nat :=
  (threads.filter (fun t => decide (st.arenas_map t = arena))).length

/-- Source function `malloc_ncpus()`; `result` is the answer of
`sysconf(_SC_NPROCESSORS_ONLN)`, a `long`. The statement `if (result == -1) ret = 1;`
leaves `ret` unset when there is no error (taken as `0` here); the statement after it,
`ret = (unsigned)result;`, is not in an `else` branch and overwrites `ret` in both cases. -/
def malloc_ncpus (result : Int) : Nat :=
  let ret : Nat := if result = -1 then 1 else 0
  let ret : Nat := Function.const Nat (result % 2 ^ 32).toNat ret
  ret

/-- The locks of the arenas in the slots `0 .. narenas - 1` that are not `NULL`, in
increasing index order: the loop `for (i = 0; i < narenas; i++) if (arenas[i] != NULL)`. -/
def arena_locks (st : State) : List malloc_mutex_t :=
  (List.range st.narenas).filterMap
    (fun i => if st.arenas i ≠ 0 then some (malloc_mutex_t.arena_lock (st.arenas i)) else none)

/-- Source function `jemalloc_prefork`. -/
def jemalloc_prefork (env : Env) (st : State) : List Mutex.Event :=
  [Mutex.Event.malloc_mutex_lock malloc_mutex_t.arenas_lock]
    ++ (arena_locks st).map Mutex.Event.malloc_mutex_lock
    ++ [Mutex.Event.malloc_mutex_lock malloc_mutex_t.base_mtx,
      Mutex.Event.malloc_mutex_lock malloc_mutex_t.huge_mtx]
    ++ (if env.JEMALLOC_DSS then [Mutex.Event.malloc_mutex_lock malloc_mutex_t.dss_mtx] else [])
    ++ (if env.JEMALLOC_SWAP then [Mutex.Event.malloc_mutex_lock malloc_mutex_t.swap_mtx]
      else [])

/-- Source function `jemalloc_postfork`. -/
def jemalloc_postfork (env : Env) (st : State) : List Mutex.Event :=
  (if env.JEMALLOC_SWAP then [Mutex.Event.malloc_mutex_unlock malloc_mutex_t.swap_mtx] else [])
    ++ (if env.JEMALLOC_DSS then [Mutex.Event.malloc_mutex_unlock malloc_mutex_t.dss_mtx]
      else [])
    ++ [Mutex.Event.malloc_mutex_unlock malloc_mutex_t.huge_mtx,
      Mutex.Event.malloc_mutex_unlock malloc_mutex_t.base_mtx]
    ++ (arena_locks st).map Mutex.Event.malloc_mutex_unlock
    ++ [Mutex.Event.malloc_mutex_unlock malloc_mutex_t.arenas_lock]

/-- What a fork handler does when the threading library runs it. -/
def Handler.run (env : Env) (st : State) : Handler → List Mutex.Event
  | .jemalloc_prefork => Init.jemalloc_prefork env st
  | .jemalloc_postfork => Init.jemalloc_postfork env st

end Init
/-! ### `malloc_init_hard`: the option strings -/

namespace Init

open Mutex (malloc_mutex_t)

/-- How a call of `malloc_init_hard` ends: it returns (`true` reports a failure), reaches
`abort()`, never returns, or executes an operation that C leaves undefined. -/
inductive InitOutcome where
  | returned (failed : Bool)
  | aborted
  | hangs
  | undefined
  deriving DecidableEq, Repr

/-- The result of a call of `malloc_init_hard`: the variables, the effects and how it ends. -/
structure Result where
  st : State
  evs : List Event
  out : InitOutcome

/-- The value of an `int` after an arithmetic step (two's complement wrap-around). -/
def int_wrap (x : Int) : Int := (x + 2 ^ 31) % 2 ^ 32 - 2 ^ 31

/-- The default case of the option switch: the character is reported. -/
def opt_unsupported (c : Char) : List Event :=
  [Event.malloc_write4 "<jemalloc>" ": Unsupported character in malloc options: \x27"
    (if c = Char.ofNat 0 then "" else String.singleton c) "\x27\n"]

/-- One execution of `switch (opts[j])` on the option character `c`. -/
def opt_apply (env : Env) (st : State) (c : Char) : State × List Event :=
  if c = 'a' then ({ st with opt_abort := false }, [])
  else if c = 'A' then ({ st with opt_abort := true }, [])
  else if c = 'c' ∨ c = 'C' ∨ c = 'd' ∨ c = 'D' then (st, [Event.opt_lg c])
  else if c = 'g' ∨ c = 'G' ∨ c = 'h' ∨ c = 'H' then
    if env.JEMALLOC_TCACHE then (st, [Event.opt_lg c]) else (st, opt_unsupported c)
  else if c = 'j' then
    if env.JEMALLOC_FILL then ({ st with opt_junk := false }, []) else (st, opt_unsupported c)
  else if c = 'J' then
    if env.JEMALLOC_FILL then ({ st with opt_junk := true }, []) else (st, opt_unsupported c)
  else if c = 'k' ∨ c = 'K' ∨ c = 'm' ∨ c = 'M' then (st, [Event.opt_lg c])
  else if c = 'n' then
    ({ st with opt_narenas_lshift := int_wrap (st.opt_narenas_lshift - 1) }, [])
  else if c = 'N' then
    ({ st with opt_narenas_lshift := int_wrap (st.opt_narenas_lshift + 1) }, [])
  else if c = 'o' then
    if env.JEMALLOC_SWAP then ({ st with opt_overcommit := false }, [])
    else (st, opt_unsupported c)
  else if c = 'O' then
    if env.JEMALLOC_SWAP then ({ st with opt_overcommit := true }, [])
    else (st, opt_unsupported c)
  else if c = 'p' then ({ st with opt_stats_print := false }, [])
  else if c = 'P' then ({ st with opt_stats_print := true }, [])
  else if c = 'q' ∨ c = 'Q' then (st, [Event.opt_lg c])
  else if c = 't' then
    if env.JEMALLOC_TRACE then ({ st with opt_trace := false }, []) else (st, opt_unsupported c)
  else if c = 'T' then
    if env.JEMALLOC_TRACE then ({ st with opt_trace := true }, []) else (st, opt_unsupported c)
  else if c = 'v' then
    if env.JEMALLOC_SYSV then ({ st with opt_sysv := false }, []) else (st, opt_unsupported c)
  else if c = 'V' then
    if env.JEMALLOC_SYSV then ({ st with opt_sysv := true }, []) else (st, opt_unsupported c)
  else if c = 'x' then
    if env.JEMALLOC_XMALLOC then ({ st with opt_xmalloc := false }, [])
    else (st, opt_unsupported c)
  else if c = 'X' then
    if env.JEMALLOC_XMALLOC then ({ st with opt_xmalloc := true }, [])
    else (st, opt_unsupported c)
  else if c = 'z' then
    if env.JEMALLOC_FILL then ({ st with opt_zero := false }, []) else (st, opt_unsupported c)
  else if c = 'Z' then
    if env.JEMALLOC_FILL then ({ st with opt_zero := true }, []) else (st, opt_unsupported c)
  else (st, opt_unsupported c)

/-- The loop `for (k = 0; k < nreps; k++) switch (opts[j]) ...`. -/
def opt_repeat (env : Env) : Nat → State → Char → State × List Event
  | 0, st, _ => (st, [])
  | nreps + 1, st, c =>
    let r := opt_apply env st c
    let r2 := opt_repeat env nreps r.1 c
    (r2.1, r.2 ++ r2.2)

/-- The loop `for (j = 0; opts[j] != '\0'; j++)` over one option string, from the
characters `opts[j], ...` on. `nseen` says whether digits of a repetition count were read
since the last option character and `nreps` is their value. A string that ends in a
repetition count makes the loop step over the terminator and read past the end of the
string: the answer is `none`. -/
def opts_parse (env : Env) :
    List Char → Nat → Bool → State → List Event → Option (State × List Event)
  | [], _, nseen, st, evs => if nseen then none else some (st, evs)
  | c :: cs, nreps, nseen, st, evs =>
    if c.isDigit then
      opts_parse env cs ((nreps * 10 + (c.toNat - '0'.toNat)) % 2 ^ 32) true st evs
    else
      let r := opt_repeat env (if nseen then nreps else 1) st c
      opts_parse env cs 0 false r.1 (evs ++ r.2)

/-- The indices at which the loop `for (j = 0; opts[j] != '\0'; j++)` evaluates `opts[j]`,
in order, from index `j` on, where `opts[j], ...` are the characters before the terminator:
the loop test (at the start of an iteration, `nseen = false`), the `switch` of the
repetition-count loop, and the `switch` of each of the `nreps` repetitions of an option.
When the repetition-count loop stops at the terminator, the option `switch` runs on it
`nreps` times, `j++` steps over it and the loop test reads the index after it; what follows
depends on memory that is not part of the string, and the list ends there. -/
def opts_reads : List Char → Nat → Nat → Bool → List Nat
  | [], j, nreps, nseen =>
    if nseen then [j] ++ List.replicate nreps j ++ [j + 1] else [j]
  | c :: cs, j, nreps, nseen =>
    let test := if nseen then [] else [j]
    if c.isDigit then
      test ++ [j] ++ opts_reads cs (j + 1) ((nreps * 10 + (c.toNat - '0'.toNat)) % 2 ^ 32) true
    else
      test ++ [j] ++ List.replicate (if nseen then nreps else 1) j
        ++ opts_reads cs (j + 1) 0 false

/-- The option string of round `i` of the loop `for (i = 0; i < 3; i++)` and the call that
fetches it: the name of the symbolic link `/etc/jemalloc.conf`, the environment variable
`JEMALLOC_OPTIONS`, the variable `malloc_options`; the empty string if there is none. -/
def opts_source (env : Env) (i : Nat) : List Event × List Char :=
  if i = 0 then ([Event.readlink "/etc/jemalloc.conf"], env.readlink.getD [])
  else if i = 1 then ([Event.getenv "JEMALLOC_OPTIONS"], env.getenv.getD [])
  else ([], env.malloc_options.getD [])

/-- The loop `for (i = 0; i < 3; i++)` of `malloc_init_hard` from round `i` on, `n` rounds. -/
def opts_rounds (env : Env) : Nat → Nat → State → List Event → Option (State × List Event)
  | 0, _, st, evs => some (st, evs)
  | n + 1, i, st, evs =>
    match opts_parse env (opts_source env i).2 0 false st (evs ++ (opts_source env i).1) with
    | none => none
    | some r => opts_rounds env n (i + 1) r.1 r.2

end Init
/-! ### `malloc_init_hard`: the number of arenas and the arena array -/

namespace Init

open Mutex (malloc_mutex_t)

/-- The statements of `malloc_init_hard` from `narenas = ncpus;` to the end of the
`if (opt_narenas_lshift > 0) ... else if (opt_narenas_lshift < 0) ...` statement:
the value of `narenas`, an `unsigned`. A shift by 32 or more is undefined: `none`. -/
def narenas_derive (w chunksize ncpus : Nat) (opt_narenas_lshift : Int) : Option Nat :=
  let narenas := ncpus
  if 0 < opt_narenas_lshift then
    if 32 ≤ opt_narenas_lshift then none
    else
      let shifted := (narenas * 2 ^ opt_narenas_lshift.toNat) % 2 ^ 32
      let narenas := if shifted > narenas then shifted else narenas
      -- Make sure not to exceed the limits of what base_alloc() can handle.
      if sz_mul w narenas (SIZEOF_PTR w) > chunksize then
        some ((chunksize / SIZEOF_PTR w) % 2 ^ 32)
      else some narenas
  else if opt_narenas_lshift < 0 then
    if 32 ≤ -opt_narenas_lshift then none
    else
      let shifted := narenas / 2 ^ (-opt_narenas_lshift).toNat
      let narenas := if shifted < narenas then shifted else narenas
      -- Make sure there is at least one arena.
      if narenas = 0 then some 1 else some narenas
  else some narenas

/-- The table `primes` of `NO_TLS` builds. -/
def primes : List Nat :=
  [1, 3, 5, 7, 11, 13, 17, 19, 23, 29, 31, 37, 41, 43, 47, 53, 59, 61, 67, 71, 73, 79, 83,
    89, 97, 101, 103, 107, 109, 113, 127, 131, 137, 139, 149, 151, 157, 163, 167, 173, 179,
    181, 191, 193, 197, 199, 211, 223, 227, 229, 233, 239, 241, 251, 257, 263]

/-- The value `parenas` of `NO_TLS` builds: the first prime of the table after its first
entry that exceeds `narenas`, the last entry if there is none. -/
def parenas (narenas : Nat) : Nat :=
  ((primes.drop 1).find? (fun p => decide (p > narenas))).getD (primes.getLastD 0)

/-- The end of `malloc_init_hard`, from `arenas = base_alloc(...)` on; `arena0` is
`init_arenas[0]`. -/
def malloc_init_hard_arenas (env : Env) (st : State) (evs : List Event) (arena0 : Nat) :
    Result :=
  let size := sz_mul env.w (SIZEOF_PTR env.w) st.narenas
  let arenas := env.base_alloc st.nbase size
  if arenas = 0 then
    ⟨{ st with arenas_addr := 0, nbase := st.nbase + 1 },
      evs ++ [Event.base_alloc size, unlock malloc_mutex_t.init_lock],
      InitOutcome.returned true⟩
  else
    ⟨{ st with
        arenas_addr := arenas
        arenas := fun i => if i = 0 then arena0 else 0
        malloc_initialized := true
        nbase := st.nbase + 1 },
      evs ++ [Event.base_alloc size, unlock malloc_mutex_t.init_lock],
      InitOutcome.returned false⟩

/-- The adjustment of `opt_narenas_lshift` on SMP systems, `if (ncpus > 1) ...`. -/
def smp_lshift (env : Env) (st : State) : Int :=
  if st.ncpus > 1 then
    if env.JEMALLOC_TCACHE && decide (env.tcache_nslots ≠ 0) then
      int_wrap (st.opt_narenas_lshift + 1)
    else int_wrap (st.opt_narenas_lshift + 2)
  else st.opt_narenas_lshift

/-- The part of `malloc_init_hard` from `if (ncpus > 1)` to `next_arena = 0;`, followed
by the rest of the function. -/
def malloc_init_hard_narenas (env : Env) (st : State) (evs : List Event) (arena0 : Nat) :
    Result :=
  let st1 := { st with opt_narenas_lshift := smp_lshift env st }
  match narenas_derive env.w env.chunksize st1.ncpus st1.opt_narenas_lshift with
  | none => ⟨st1, evs, InitOutcome.undefined⟩
  | some narenas =>
    if env.NO_TLS then
      if narenas > 1 then
        if env.JEMALLOC_DEBUG && decide (narenas % 2 ≠ 0) then
          ⟨{ st1 with narenas := narenas }, evs, InitOutcome.aborted⟩
        else
          malloc_init_hard_arenas env { st1 with narenas := parenas narenas } evs arena0
      else malloc_init_hard_arenas env { st1 with narenas := narenas } evs arena0
    else
      malloc_init_hard_arenas env { st1 with narenas := narenas, next_arena := 0 } evs arena0

/-- The part of `malloc_init_hard` from `arenas_map = arenas[0];` to the second
`malloc_mutex_lock(&init_lock);`, followed by the rest of the function. -/
def malloc_init_hard_ncpus (env : Env) (st : State) (evs : List Event) (self : Nat) :
    Result :=
  let st1 := if env.NO_TLS then st else st.bind self (st.arenas 0)
  let mi := Mutex.malloc_mutex_init env.mutex malloc_mutex_t.arenas_lock
  let st2 := { st1 with
    malloc_initializer := self
    ncpus := malloc_ncpus env.sysconf_nprocessors }
  malloc_init_hard_narenas env st2
    (evs ++ mi.1.map Event.mutex ++ [unlock malloc_mutex_t.init_lock,
      Event.sysconf "_SC_NPROCESSORS_ONLN", lock malloc_mutex_t.init_lock])
    (st.arenas 0)

/-- The part of `malloc_init_hard` from `narenas = 1;` to the test `arenas[0] == NULL`,
followed by the rest of the function. -/
def malloc_init_hard_arena0 (env : Env) (st : State) (evs : List Event) (self : Nat) :
    Result :=
  let st1 := { st with narenas := 1, arenas_addr := env.init_arenas, arenas := fun _ => 0 }
  match arenas_extend env st1 0 with
  | (st2, evs2, Outcome.aborted) => ⟨st2, evs ++ evs2, InitOutcome.aborted⟩
  | (st2, evs2, Outcome.returned _) =>
    if st2.arenas 0 = 0 then
      ⟨st2, evs ++ evs2 ++ [unlock malloc_mutex_t.init_lock], InitOutcome.returned true⟩
    else malloc_init_hard_ncpus env st2 (evs ++ evs2) self

end Init
/-! ### `malloc_init_hard`: the start of the function -/

namespace Init

open Mutex (malloc_mutex_t)

/-- The boot calls `chunk_boot()`, `base_boot()`, `arena_boot()`, `tcache_boot()` and
`huge_boot()`, followed by the rest of the function. -/
def malloc_init_hard_boot (env : Env) (st : State) (evs : List Event) (self : Nat) :
    Result :=
  if env.chunk_boot then
    ⟨st, evs ++ [Event.chunk_boot, unlock malloc_mutex_t.init_lock], InitOutcome.returned true⟩
  else if env.base_boot then
    ⟨st, evs ++ [Event.chunk_boot, Event.base_boot, unlock malloc_mutex_t.init_lock],
      InitOutcome.returned true⟩
  else if env.arena_boot then
    ⟨st, evs ++ [Event.chunk_boot, Event.base_boot, Event.arena_boot,
        unlock malloc_mutex_t.init_lock],
      InitOutcome.returned true⟩
  else
    let evs1 := evs ++ [Event.chunk_boot, Event.base_boot, Event.arena_boot]
      ++ (if env.JEMALLOC_TCACHE then [Event.tcache_boot] else [])
    if env.huge_boot then
      ⟨st, evs1 ++ [Event.huge_boot, unlock malloc_mutex_t.init_lock],
        InitOutcome.returned true⟩
    else malloc_init_hard_arena0 env st (evs1 ++ [Event.huge_boot]) self

/-- The statement `if (opt_stats_print) ...`, followed by the rest of the function. -/
def malloc_init_hard_atexit (env : Env) (st : State) (evs : List Event) (self : Nat) :
    Result :=
  if st.opt_stats_print then
    if env.atexit ≠ 0 then
      if st.opt_abort then
        ⟨st, evs ++ [Event.atexit,
            Event.malloc_write4 "<jemalloc>" ": Error in atexit()\n" "" ""],
          InitOutcome.aborted⟩
      else
        malloc_init_hard_boot env st (evs ++ [Event.atexit,
          Event.malloc_write4 "<jemalloc>" ": Error in atexit()\n" "" ""]) self
    else malloc_init_hard_boot env st (evs ++ [Event.atexit]) self
  else malloc_init_hard_boot env st evs self

/-- The calls `ctl_boot()` and, in trace builds, `trace_boot()`, followed by the rest of
the function. -/
def malloc_init_hard_ctl (env : Env) (st : State) (evs : List Event) (self : Nat) :
    Result :=
  if env.ctl_boot then
    ⟨st, evs ++ [Event.ctl_boot, unlock malloc_mutex_t.init_lock], InitOutcome.returned true⟩
  else if env.JEMALLOC_TRACE && st.opt_trace then
    if env.trace_boot then
      ⟨st, evs ++ [Event.ctl_boot, Event.trace_boot, unlock malloc_mutex_t.init_lock],
        InitOutcome.returned true⟩
    else malloc_init_hard_atexit env st (evs ++ [Event.ctl_boot, Event.trace_boot]) self
  else malloc_init_hard_atexit env st (evs ++ [Event.ctl_boot]) self

/-- The registration of the fork handlers,
`pthread_atfork(jemalloc_prefork, jemalloc_postfork, jemalloc_postfork)`, followed by the
rest of the function. -/
def malloc_init_hard_atfork (env : Env) (st : State) (evs : List Event) (self : Nat) :
    Result :=
  let reg := Event.pthread_atfork Handler.jemalloc_prefork Handler.jemalloc_postfork
    Handler.jemalloc_postfork
  if env.pthread_atfork ≠ 0 then
    if st.opt_abort then
      ⟨st, evs ++ [reg, Event.malloc_write4 "<jemalloc>" ": Error in pthread_atfork()\n" "" ""],
        InitOutcome.aborted⟩
    else
      malloc_init_hard_ctl env st
        (evs ++ [reg, Event.malloc_write4 "<jemalloc>" ": Error in pthread_atfork()\n" "" ""])
        self
  else malloc_init_hard_ctl env st (evs ++ [reg]) self

/-- The loop over the three option strings, followed by the rest of the function. -/
def malloc_init_hard_opts (env : Env) (st : State) (evs : List Event) (self : Nat) :
    Result :=
  match opts_rounds env 3 0 st evs with
  | none => ⟨st, evs, InitOutcome.undefined⟩
  | some r => malloc_init_hard_atfork env r.1 r.2 self

/-- The function `ffs` of the C library on the bits of an `int`: one plus the index of the
least significant set bit, `0` if there is none. -/
def ffs (v : Nat) : Nat :=
  match (List.range 32).find? (fun i => v.testBit i) with
  | some i => i + 1
  | none => 0

/-- The block under `DYNAMIC_PAGE_SHIFT` that reads the page size, followed by the rest of
the function. The two asserts are compiled into debug builds only. -/
def malloc_init_hard_page (env : Env) (st : State) (evs : List Event) (self : Nat) :
    Result :=
  if env.DYNAMIC_PAGE_SHIFT then
    let result := env.sysconf_pagesize
    if env.JEMALLOC_DEBUG && (decide (result = -1) ||
        decide ((((result - 1) % 2 ^ env.w).toNat &&& (result % 2 ^ env.w).toNat) ≠ 0)) then
      ⟨st, evs ++ [Event.sysconf "_SC_PAGESIZE"], InitOutcome.aborted⟩
    else
      malloc_init_hard_opts env
        { st with
          pagesize := (result % 2 ^ 32).toNat
          pagesize_mask := ((result - 1) % 2 ^ env.w).toNat
          lg_pagesize := sz_sub env.w (ffs (result % 2 ^ 32).toNat) 1 }
        (evs ++ [Event.sysconf "_SC_PAGESIZE"]) self
  else malloc_init_hard_opts env st evs self

/-- The rounds `malloc_mutex_unlock; CPU_SPINWAIT; malloc_mutex_lock` of the busy-wait
loop. -/
def spin_rounds : Nat → List Event
  | 0 => []
  | n + 1 => [unlock malloc_mutex_t.init_lock, Event.CPU_SPINWAIT,
      lock malloc_mutex_t.init_lock] ++ spin_rounds n

/-- Source function `malloc_init_hard()`, called by thread `self` (`pthread_self()`, not
`0`). A thread that finds another thread initialising spins until `malloc_initialized` is
set; if that never happens the call has no end. -/
def malloc_init_hard (env : Env) (st : State) (self : Nat) : Result :=
  if st.malloc_initialized || decide (st.malloc_initializer = self) then
    ⟨st, [lock malloc_mutex_t.init_lock, unlock malloc_mutex_t.init_lock],
      InitOutcome.returned false⟩
  else if st.malloc_initializer ≠ 0 then
    match env.init_wait with
    | none => ⟨st, [lock malloc_mutex_t.init_lock], InitOutcome.hangs⟩
    | some n =>
      ⟨{ st with malloc_initialized := true },
        lock malloc_mutex_t.init_lock :: spin_rounds (n + 1), InitOutcome.returned false⟩
  else malloc_init_hard_page env st [lock malloc_mutex_t.init_lock] self

/-- The handler that a run registered to be run in the child after `fork`. -/
def registered_child : List Event → Option Handler
  | [] => none
  | Event.pthread_atfork _ _ child :: _ => some child
  | _ :: evs => registered_child evs

/-- The handler that a run registered to be run in the parent after `fork`. -/
def registered_parent : List Event → Option Handler
  | [] => none
  | Event.pthread_atfork _ parent _ :: _ => some parent
  | _ :: evs => registered_parent evs

/-- The effects that mark the steps of the initialisation: fetching an option string,
registering the fork handlers, booting the chunk, base and arena modules, allocating from
the base allocator, creating an arena and asking for the number of processors. -/
def Event.isStep : Event → Bool
  | .readlink _ => true
  | .getenv _ => true
  | .pthread_atfork _ _ _ => true
  | .chunk_boot => true
  | .base_boot => true
  | .arena_boot => true
  | .base_alloc _ => true
  | .arena_new _ _ => true
  | .sysconf name => decide (name = "_SC_NPROCESSORS_ONLN")
  | _ => false

/-- The steps of a successful initialisation from the creation of arena zero on: the
arena is allocated and created, the number of processors is asked for, and the arena array
is allocated. -/
def success_tail (env : Env) (r : Result) (arena0 : Nat) : List Event :=
  [Event.base_alloc (arena_size env), Event.arena_new arena0 0,
    Event.sysconf "_SC_NPROCESSORS_ONLN",
    Event.base_alloc (sz_mul env.w (SIZEOF_PTR env.w) r.st.narenas)]

/-- The variables after a successful initialisation that created `arena0` as arena zero:
slot 0 of the arena array holds it, `ncpus` is the answer of `malloc_ncpus`, the allocator
is initialised and `narenas` is the count derived from `ncpus` and `opt_narenas_lshift`,
replaced in builds without TLS by a prime above it when it exceeds one. -/
def success_facts (env : Env) (r : Result) (arena0 : Nat) : Prop :=
  arena0 ≠ 0 ∧ env.arena_new arena0 0 = false ∧ r.st.arenas 0 = arena0 ∧
    r.st.ncpus = malloc_ncpus env.sysconf_nprocessors ∧ r.st.malloc_initialized = true ∧
    ∃ n, narenas_derive env.w env.chunksize r.st.ncpus r.st.opt_narenas_lshift = some n ∧
      r.st.narenas = if env.NO_TLS && decide (n > 1) then parenas n else n

/-- An effect that registers fork handlers. -/
def Event.isAtfork : Event → Bool
  | .pthread_atfork _ _ _ => true
  | _ => false

/-- An effect that acquires `init_lock`. -/
def Event.isInitLock : Event → Bool
  | .mutex (Mutex.Event.malloc_mutex_lock malloc_mutex_t.init_lock) => true
  | _ => false

/-- An effect that releases `init_lock`. -/
def Event.isInitUnlock : Event → Bool
  | .mutex (Mutex.Event.malloc_mutex_unlock malloc_mutex_t.init_lock) => true
  | _ => false

/-- How many more times the effects of a run lock `init_lock` than unlock it: `0` if the
calling thread has released the mutex as often as it acquired it, `1` if it still holds
it. -/
def init_lock_held (evs : List Event) : Int :=
  ((evs.filter Event.isInitLock).length : Int) - ((evs.filter Event.isInitUnlock).length : Int)

end Init

/-! ### `malloc_init_hard`: the options `k`, `K`, `m` and `M` -/

namespace Init

/-- The constants that the options `k`, `K`, `m` and `M` read: the width `w` of `size_t`
and `PAGE_SHIFT`. A shift of an `unsigned` by 32 or more is undefined in C;
`shift_masks` says what the target makes of it: `true` if it takes the count modulo 32,
`false` if it shifts every bit out. -/
structure LgEnv where
  w : Nat
  PAGE_SHIFT : Nat
  shift_masks : Bool
  deriving DecidableEq, Repr

/-- The variables `opt_lg_chunk` and `opt_lg_medium_max`, both of type `size_t`. -/
structure LgState where
  opt_lg_chunk : Nat
  opt_lg_medium_max : Nat
  deriving DecidableEq, Repr

/-- The value of `a << n` for an `unsigned` constant `a`, as in `1U << n` and `2U << n`. -/
def shl_unsigned (L : LgEnv) (a n : Nat) : Nat :=
  if n < 32 then (a * 2 ^ n) % 2 ^ 32
  else if L.shift_masks then (a * 2 ^ (n % 32)) % 2 ^ 32
  else 0

/-- The cases `'k'`, `'K'`, `'m'` and `'M'` of the option `switch`; every other option
leaves the two variables as they are. -/
def opt_lg_apply (L : LgEnv) (o : LgState) (c : Char) : LgState :=
  if c = 'k' then
    -- Chunks always require at least one header page, plus enough room to hold a run
    -- for the largest medium size class (one page more than the size).
    if shl_unsigned L 1 (sz_sub L.w o.opt_lg_chunk 1) ≥
        (shl_unsigned L 2 L.PAGE_SHIFT + shl_unsigned L 1 o.opt_lg_medium_max) % 2 ^ 32 then
      { o with opt_lg_chunk := sz_sub L.w o.opt_lg_chunk 1 }
    else o
  else if c = 'K' then
    if sz_add L.w o.opt_lg_chunk 1 < sz_shl L.w (SIZEOF_PTR L.w) 3 then
      { o with opt_lg_chunk := sz_add L.w o.opt_lg_chunk 1 }
    else o
  else if c = 'm' then
    if o.opt_lg_medium_max > L.PAGE_SHIFT then
      { o with opt_lg_medium_max := sz_sub L.w o.opt_lg_medium_max 1 }
    else o
  else if c = 'M' then
    if sz_add L.w o.opt_lg_medium_max 1 < o.opt_lg_chunk then
      { o with opt_lg_medium_max := sz_add L.w o.opt_lg_medium_max 1 }
    else o
  else o

/-- The loop `for (k = 0; k < nreps; k++)` around the option `switch`, for the two
variables. -/
def opt_lg_repeat (L : LgEnv) : Nat → LgState → Char → LgState
  | 0, o, _ => o
  | nreps + 1, o, c => opt_lg_repeat L nreps (opt_lg_apply L o c) c

/-- The two variables after the option adjustments among the effects of a run, in order. -/
def opt_lg_run (L : LgEnv) : LgState → List Event → LgState
  | o, [] => o
  | o, Event.opt_lg c :: evs => opt_lg_run L (opt_lg_apply L o c) evs
  | o, _ :: evs => opt_lg_run L o evs

/-- The chunk has room for one header page and a run of the largest medium class, and
`PAGE_SHIFT ≤ opt_lg_medium_max < opt_lg_chunk < 8 * sizeof(size_t)`. -/
def lg_invariant (L : LgEnv) (o : LgState) : Prop :=
  2 ^ o.opt_lg_chunk ≥ 2 * 2 ^ L.PAGE_SHIFT + 2 ^ o.opt_lg_medium_max ∧
    L.PAGE_SHIFT ≤ o.opt_lg_medium_max ∧ o.opt_lg_medium_max < o.opt_lg_chunk ∧
    o.opt_lg_chunk < 8 * SIZEOF_PTR L.w

end Init

/-! ## Concrete inputs -/

/-- An initialised allocator whose allocation functions all succeed. -/
def ex_env : Env :=
  Env.mk false (fun _ => 4096) (fun _ => 8192) (fun _ _ => 16384) (fun _ _ _ => 32768)
    (fun _ _ => 65536) (fun _ _ => 131072)

/-- An initialised allocator whose allocation functions all fail. -/
def ex_env_oom : Env :=
  Env.mk false (fun _ => 0) (fun _ => 0) (fun _ _ => 0) (fun _ _ _ => 0) (fun _ _ => 0)
    (fun _ _ => 0)

/-- A 64-bit target with 4 KiB pages and 1 MiB chunks. -/
def ex_params : Params := ⟨64, 12, 1044480, 1048576⟩

/-- All switches compiled in except tracing, all options off. -/
def ex_cfg : Config := ⟨true, true, false, false, false, false⟩

/-- As `ex_cfg`, with `opt_xmalloc` on. -/
def ex_cfg_xmalloc : Config := ⟨true, true, false, false, true, false⟩

/-- As `ex_cfg`, with `opt_sysv` on. -/
def ex_cfg_sysv : Config := ⟨true, true, false, true, false, false⟩

/-- As `ex_cfg`, with `opt_sysv` and `opt_xmalloc` on. -/
def ex_cfg_sysv_xmalloc : Config := ⟨true, true, false, true, true, false⟩

/-- A merge that always succeeds: the first descriptor grows by the second. -/
def Large.ex_merge (a b : Large.extent_t) : Option Large.extent_t :=
  some ⟨a.e_arena, a.e_addr, a.e_size + b.e_size, a.e_usize + b.e_usize⟩

/-- A 64-bit target with 4 KiB pages and 2 MiB chunks, on which every request to the chunk
layer is granted at the address asked for and every split and merge succeeds. -/
def Large.ex_env : Large.Env where
  w := 64
  LG_PAGE := 12
  CACHELINE := 64
  LARGE_MINCLASS := 16384
  LARGE_MAXCLASS := 2 ^ 62
  large_pad := 0
  config_prof := false
  config_fill := false
  config_munmap := true
  config_cache_oblivious := false
  have_dss := false
  opt_zero := false
  opt_junk_alloc := false
  opt_junk_free := false
  sa2u := fun usize alignment => if usize ≤ 2 ^ 62 then (usize + alignment - 1) / alignment * alignment else 0
  arena_choose := fun a => match a with
    | some i => some i
    | none => some 0
  arena_chunk_alloc_large := fun a usize _ _ => some (⟨a, 0x40000000, usize, usize⟩, false)
  arena_prof_accum := fun _ _ => false
  chunk_in_dss := fun _ => false
  chunk_split_wrapper := fun e size_a usize_a size_b usize_b =>
    some (⟨e.e_arena, e.e_addr, size_a, usize_a⟩, ⟨e.e_arena, e.e_addr + size_a, size_b, usize_b⟩)
  arena_chunk_cache_alloc := fun a new_addr size _ => some (⟨a, new_addr, size, size⟩, false)
  chunk_alloc_wrapper := fun a new_addr usize pad _ => some (⟨a, new_addr, usize + pad, usize⟩, false)
  chunk_merge_wrapper := Large.ex_merge

/-- As `Large.ex_env`, but the chunk layer refuses every request and every split. -/
def Large.ex_env_oom : Large.Env :=
  { Large.ex_env with
    arena_chunk_alloc_large := fun _ _ _ _ => none
    chunk_split_wrapper := fun _ _ _ _ _ => none
    arena_chunk_cache_alloc := fun _ _ _ _ => none
    chunk_alloc_wrapper := fun _ _ _ _ _ => none }

/-- No arena has a live large extent. -/
def Large.ex_state : Large.State := ⟨fun _ => []⟩

/-- A 4 MiB large extent of arena 0. -/
def Large.ex_extent : Large.extent_t := ⟨0, 0x80000000, 4194304, 4194304⟩

/-- A 64-bit target with 2 MiB chunks on which `s2u` rounds nothing, every hook succeeds
and a descriptor is always available. -/
def Chunk.ex_env : Chunk.Env where
  w := 64
  opt_lg_chunk := 21
  ind := 0
  s2u := fun x => x
  split := fun _ _ _ _ _ => false
  commit := fun _ _ _ _ => false
  merge := fun _ _ _ _ _ => false
  purge := fun _ _ _ _ => false
  dalloc := fun _ _ _ => true
  decommit := fun _ _ _ _ => false
  arena_extent_alloc := fun _ => true
  config_stats := true
  config_prof := true
  opt_prof := true
  prof_gdump_get_unlocked := false

/-- A committed, non-zeroed cached extent of arena 0. -/
def Chunk.ex_extent (addr size : Nat) : Chunk.extent_t :=
  ⟨0, addr, size, false, false, true, false⟩

/-- Three cached extents: 2 MiB at 6 MiB, 4 MiB at 10 MiB and 16 MiB at 18 MiB. -/
def Chunk.ex_trees : Chunk.Trees :=
  ⟨[Chunk.ex_extent 0x600000 0x200000, Chunk.ex_extent 0xa00000 0x400000,
      Chunk.ex_extent 0x1200000 0x1000000],
    [Chunk.ex_extent 0x600000 0x200000, Chunk.ex_extent 0xa00000 0x400000,
      Chunk.ex_extent 0x1200000 0x1000000], 0⟩

/-- Two cached 4 MiB extents, at 10 MiB and at 2 MiB, after a smaller one. -/
def Chunk.ex_szad : Chunk.extent_tree_t :=
  [Chunk.ex_extent 0x600000 0x200000, Chunk.ex_extent 0x200000 0x400000,
    Chunk.ex_extent 0xa00000 0x400000]

/-- As `Chunk.ex_env`, but no descriptor can be obtained and the decommit hook fails. -/
def Chunk.ex_env_fail : Chunk.Env :=
  { Chunk.ex_env with
    decommit := fun _ _ _ _ => true
    arena_extent_alloc := fun _ => false }

/-- As `Chunk.ex_env`, but the decommit hook fails. -/
def Chunk.ex_env_nodecommit : Chunk.Env :=
  { Chunk.ex_env with decommit := fun _ _ _ _ => true }

/-- A pair of empty trees. -/
def Chunk.ex_empty : Chunk.Trees := ⟨[], [], 0⟩

/-- A bin caching three pointers, whose low-water mark is 2. -/
def Tcache.ex_bin : Tcache.tcache_bin_t :=
  ⟨2, 3, fun k => 0x1000 * k⟩

/-- As `Chunk.ex_env`, but the split hook refuses every split. -/
def Chunk.ex_env_nosplit : Chunk.Env :=
  { Chunk.ex_env with split := fun _ _ _ _ _ => true }

/-- As `Chunk.ex_env`, but the commit hook fails. -/
def Chunk.ex_env_nocommit : Chunk.Env :=
  { Chunk.ex_env with commit := fun _ _ _ _ => true }

/-- As `Chunk.ex_env`, but the commit hook fails and no descriptor can be obtained. -/
def Chunk.ex_env_nocommit_oom : Chunk.Env :=
  { Chunk.ex_env with
    commit := fun _ _ _ _ => true
    arena_extent_alloc := fun _ => false }

/-- Two retained extents that are not committed: 2 MiB at 6 MiB and 4 MiB at 10 MiB. -/
def Chunk.ex_retained : Chunk.Trees :=
  ⟨[⟨0, 0x600000, 0x200000, false, false, false, false⟩,
      ⟨0, 0xa00000, 0x400000, false, false, false, false⟩],
    [⟨0, 0x600000, 0x200000, false, false, false, false⟩,
      ⟨0, 0xa00000, 0x400000, false, false, false, false⟩], 0⟩

/-- A deallocation environment: junk filling on free is switched on, the GC ticker does
not fire. -/
def Tcache.ex_env : Tcache.Env :=
  ⟨true, true, 1, false, fun i => 0x4000 * (i + 1)⟩

/-- A size class whose bins hold at most three pointers. -/
def Tcache.ex_info : Tcache.tcache_bin_info_t := ⟨3⟩

/-- A bin caching two pointers, whose low-water mark was just reset to its fill count. -/
def Tcache.ex_bin2 : Tcache.tcache_bin_t :=
  ⟨2, 2, fun k => 0x1000 * k⟩

/-- As `Large.ex_env_oom`, built with junk filling on free, DSS support and unmapping; no
pointer lies in the DSS. -/
def Large.ex_env_junk : Large.Env :=
  { Large.ex_env_oom with config_fill := true, have_dss := true, opt_junk_free := true }

/-- As `Large.ex_env_junk`, but every pointer lies in the DSS. -/
def Large.ex_env_dss : Large.Env :=
  { Large.ex_env_junk with chunk_in_dss := fun _ => true }

/-- A large extent of 2 MiB at `0x40000000` in arena 0. -/
def Large.ex_extent_2m : Large.extent_t := ⟨0, 0x40000000, 0x200000, 0x200000⟩

/-- As `Chunk.ex_env`, but with a function in place of `s2u` that answers nothing below
`2^63 + 2^21`; no rounding to a size class behaves so. -/
def Chunk.ex_env_s2u : Chunk.Env :=
  { Chunk.ex_env with s2u := fun x => if x < 2 ^ 63 + 2 ^ 21 then 2 ^ 63 + 2 ^ 21 else x }

/-- One cached extent of `2^63 + 2^21` bytes at 2 MiB. -/
def Chunk.ex_trees_huge : Chunk.Trees :=
  ⟨[Chunk.ex_extent 0x200000 (2 ^ 63 + 2 ^ 21)], [Chunk.ex_extent 0x200000 (2 ^ 63 + 2 ^ 21)],
    0⟩

/-- A pthread library whose calls succeed. -/
def Mutex.ex_env : Mutex.Env := ⟨false, true, 0, fun _ => 0⟩

/-- A pthread library in which `pthread_mutex_init` fails. -/
def Mutex.ex_env_fail : Mutex.Env := ⟨false, true, 0, fun _ => 1⟩

/-- A 64-bit build with TLS, thread caches, fill and DSS support on a machine with four
processors: every call succeeds, chunks have 4 MiB, the `k`-th call of `base_alloc`
answers `0x100000 * (k + 1)`, and the environment asks for one `n` option. -/
def Init.ex_env : Init.Env :=
  { w := 64
    NO_TLS := false
    DYNAMIC_PAGE_SHIFT := false
    JEMALLOC_DEBUG := false
    JEMALLOC_TCACHE := true
    JEMALLOC_FILL := true
    JEMALLOC_SWAP := false
    JEMALLOC_DSS := true
    JEMALLOC_TRACE := false
    JEMALLOC_SYSV := false
    JEMALLOC_XMALLOC := false
    mutex := Mutex.ex_env
    init_arenas := 0x7ffc0000
    init_wait := some 0
    sysconf_pagesize := 4096
    readlink := none
    getenv := some ['n']
    malloc_options := none
    pthread_atfork := 0
    ctl_boot := false
    trace_boot := false
    atexit := 0
    chunk_boot := false
    base_boot := false
    arena_boot := false
    huge_boot := false
    base_alloc := fun k _ => 0x100000 * (k + 1)
    arena_new := fun _ _ => false
    sysconf_nprocessors := 4
    sizeof_arena_t := 512
    sizeof_arena_bin_t := 64
    nbins := 30
    chunksize := 0x400000
    tcache_nslots := 100 }

/-- As `Init.ex_env`, in a build with swap support. -/
def Init.ex_env_swap : Init.Env := { Init.ex_env with JEMALLOC_SWAP := true }

/-- As `Init.ex_env`, but no arena can be created. -/
def Init.ex_env_oom : Init.Env := { Init.ex_env with arena_new := fun _ _ => true }

/-- The variables before the first call of an allocation function. -/
def Init.ex_state0 : Init.State :=
  { malloc_initialized := false
    malloc_initializer := 0
    narenas := 0
    next_arena := 0
    arenas_addr := 0
    arenas := fun _ => 0
    arenas_map := fun _ => 0
    ncpus := 0
    pagesize := 0
    pagesize_mask := 0
    lg_pagesize := 0
    opt_abort := false
    opt_junk := false
    opt_sysv := false
    opt_xmalloc := false
    opt_zero := false
    opt_narenas_lshift := 0
    opt_overcommit := false
    opt_stats_print := false
    opt_trace := false
    nbase := 0 }

/-- An initialised allocator with four arena slots, of which slots 0 and 2 hold arenas;
threads 1, 2 and 3 are bound to the arena of slot 0. -/
def Init.ex_state : Init.State :=
  { Init.ex_state0 with
    malloc_initialized := true
    malloc_initializer := 1
    narenas := 4
    next_arena := 0
    arenas_addr := 0x300000
    arenas := fun i => if i = 0 then 0x100000 else if i = 2 then 0x200000 else 0
    arenas_map := fun t => if t = 1 ∨ t = 2 ∨ t = 3 then 0x100000 else 0
    ncpus := 4
    nbase := 3 }

/-- As `Init.ex_state`, with `next_arena` at the empty slot 1. -/
def Init.ex_state1 : Init.State := { Init.ex_state with next_arena := 1 }

/-- The variables while thread 1 is running the initialisation: it has recorded itself as
the initialiser and has not finished. -/
def Init.ex_state_busy : Init.State := { Init.ex_state0 with malloc_initializer := 1 }

/-- A 64-bit target with 4 KiB pages on which shift counts are taken modulo 32. -/
def Init.ex_lg_env : Init.LgEnv := ⟨64, 12, true⟩

/-- Chunks of 4 MiB and a largest medium class of 32 KiB. -/
def Init.ex_lg : Init.LgState := ⟨22, 15⟩

/-- The level tables that `rtree_new` builds for 43 key bits on a 64-bit target (three
levels of 16, 16 and 11 bits), with an allocator that never fails. -/
def Rtree.ex_rtree : Rtree.rtree_t where
  w := 64
  height := 3
  start_level := fun i => min (4 - 1 - i) 2
  levels := fun l => if l = 0 then ⟨16, 16⟩ else if l = 1 then ⟨16, 32⟩ else ⟨11, 43⟩
  alloc := fun k _ => 0x10000 * (k + 1)

/-- As `Rtree.ex_rtree`, with an allocator that always fails. -/
def Rtree.ex_rtree_oom : Rtree.rtree_t :=
  { Rtree.ex_rtree with alloc := fun _ _ => 0 }

/-- An empty tree: no node has been installed. -/
def Rtree.ex_state : Rtree.State := ⟨fun _ => 0, 0⟩

/-- A tree whose leftmost leaf is installed and holds the extent pointer `0x7000` in the
slot of the key `0x4000000`. -/
def Rtree.ex_state1 : Rtree.State :=
  ⟨fun q => if q = [2] then 0x10000 else if q = [2, 32] then 0x7000 else 0, 1⟩

/-- The globals before any chunk is registered. -/
def Chunk.ex_registry : Chunk.Registry := ⟨Rtree.ex_state, 0, 0⟩

/-- As `Rtree.ex_rtree`, with an allocator that fails from its third call on. -/
def Rtree.ex_rtree_two : Rtree.rtree_t :=
  { Rtree.ex_rtree with alloc := fun k _ => if k < 2 then 0x10000 * (k + 1) else 0 }

/-! # Theorems -/

/-! ## Facts about the bit operations of `size_t` -/

theorem testBit_of_log_range {x k : Nat} (h1 : 2 ^ k ≤ x) (h2 : x < 2 ^ (k + 1)) :
    x.testBit k = true := by
  rw [Nat.testBit_to_div_mod]
  have hq : x / 2 ^ k = 1 := by
    apply Nat.div_eq_of_lt_le
    · simpa using h1
    · simpa [Nat.pow_succ, Nat.mul_comm] using h2
  simp [hq]

theorem and_pred_eq_zero_iff {a : Nat} (ha : 0 < a) :
    (a - 1) &&& a = 0 ↔ ∃ k, a = 2 ^ k := by
  constructor
  · intro h
    refine ⟨Nat.log2 a, ?_⟩
    by_contra hne
    have hlo : 2 ^ Nat.log2 a ≤ a := Nat.log2_self_le (by omega)
    have hhi : a < 2 ^ (Nat.log2 a + 1) := Nat.lt_log2_self
    have hb1 : (a - 1).testBit (Nat.log2 a) = true :=
      testBit_of_log_range (by omega) (by omega)
    have hb2 : a.testBit (Nat.log2 a) = true := testBit_of_log_range hlo hhi
    have hb : ((a - 1) &&& a).testBit (Nat.log2 a) = true := by
      rw [Nat.testBit_and, hb1, hb2]; rfl
    rw [h] at hb
    simp at hb
  · rintro ⟨k, rfl⟩
    rw [Nat.land_comm, Nat.and_pow_two_sub_one_eq_mod]
    simp

theorem and_high_mask {w k x : Nat} (hk : k ≤ w) (hx : x < 2 ^ w) :
    x &&& (2 ^ w - 2 ^ k) = x - x % 2 ^ k := by
  have hpk : 0 < 2 ^ k := Nat.pow_pos (by decide)
  have hm : 2 ^ w - 2 ^ k = 2 ^ w - ((2 ^ k - 1) + 1) := by omega
  have hlt : 2 ^ k - 1 < 2 ^ w := by
    have : 2 ^ k ≤ 2 ^ w := Nat.pow_le_pow_right (by decide) hk
    omega
  have hr : x - x % 2 ^ k = 2 ^ k * (x >>> k) := by
    rw [Nat.shiftRight_eq_div_pow]
    have := Nat.div_add_mod x (2 ^ k)
    omega
  apply Nat.eq_of_testBit_eq
  intro i
  rw [Nat.testBit_and, hm, Nat.testBit_two_pow_sub_succ hlt, Nat.testBit_two_pow_sub_one, hr,
    Nat.testBit_mul_pow_two, Nat.testBit_shiftRight]
  by_cases hik : i < k
  · have : ¬ (i ≥ k) := by omega
    simp [hik, this]
  · have hge : i ≥ k := by omega
    have hki : k + (i - k) = i := by omega
    by_cases hiw : i < w
    · simp [hik, hge, hiw, hki]
    · have hxi : x.testBit i = false := by
        apply Nat.testBit_lt_two_pow
        exact lt_of_lt_of_le hx (Nat.pow_le_pow_right (by decide) (by omega))
      simp [hik, hge, hiw, hki, hxi]


theorem or_lt_two_pow_iff {x y n : Nat} : x ||| y < 2 ^ n ↔ x < 2 ^ n ∧ y < 2 ^ n := by
  constructor
  · intro h
    have hb : ∀ i, i ≥ n → (x ||| y).testBit i = false := fun i hi =>
      Nat.testBit_lt_two_pow (lt_of_lt_of_le h (Nat.pow_le_pow_right (by decide) hi))
    constructor
    · apply Nat.lt_pow_two_of_testBit
      intro i hi
      have := hb i hi
      rw [Nat.testBit_or] at this
      cases hx : x.testBit i <;> simp_all
    · apply Nat.lt_pow_two_of_testBit
      intro i hi
      have := hb i hi
      rw [Nat.testBit_or] at this
      cases hy : y.testBit i <;> simp_all
  · rintro ⟨hx, hy⟩
    exact Nat.or_lt_two_pow hx hy

theorem sz_shl_max {w h : Nat} (hh : h ≤ w) : sz_shl w (SIZE_T_MAX w) h = 2 ^ w - 2 ^ h := by
  unfold sz_shl SIZE_T_MAX
  have hB : 0 < 2 ^ h := Nat.pow_pos (by decide)
  have hAB : 2 ^ h ≤ 2 ^ w := Nat.pow_le_pow_right (by decide) hh
  obtain ⟨b, hb⟩ : ∃ b, 2 ^ h = b + 1 := ⟨2 ^ h - 1, by omega⟩
  obtain ⟨c, hc⟩ : ∃ c, 2 ^ w = c + (b + 1) := ⟨2 ^ w - 2 ^ h, by omega⟩
  rw [hb, hc]
  have e : (c + (b + 1) - 1) * (b + 1) = c + (c + (b + 1)) * b := by
    have : c + (b + 1) - 1 = c + b := by omega
    rw [this]; ring
  rw [e, Nat.add_mul_mod_self_left, Nat.mod_eq_of_lt (by omega)]
  omega

theorem and_high_mask_ne_zero {w k x : Nat} (hk : k ≤ w) (hx : x < 2 ^ w) :
    x &&& (2 ^ w - 2 ^ k) ≠ 0 ↔ 2 ^ k ≤ x := by
  rw [and_high_mask hk hx]
  have hpk : 0 < 2 ^ k := Nat.pow_pos (by decide)
  constructor
  · intro h
    by_contra hlt
    rw [Nat.mod_eq_of_lt (by omega)] at h
    omega
  · intro h
    have := Nat.mod_lt x hpk
    omega

theorem calloc_overflow_test_iff {w num size : Nat} (hn : num < 2 ^ w) (hs : size < 2 ^ w)
    (hnz : sz_mul w num size ≠ 0) :
    calloc_overflow_test w num size (sz_mul w num size) = true ↔ 2 ^ w ≤ num * size := by
  have hh : SIZEOF_PTR w * 4 ≤ w := by unfold SIZEOF_PTR; omega
  have h2h : SIZEOF_PTR w * 4 + SIZEOF_PTR w * 4 ≤ w := by unfold SIZEOF_PTR; omega
  have hsz : size ≠ 0 := by
    rintro rfl
    simp [sz_mul] at hnz
  unfold calloc_overflow_test
  rw [sz_shl_max hh]
  simp only [Bool.and_eq_true, decide_eq_true_eq]
  rw [and_high_mask_ne_zero hh (Nat.or_lt_two_pow hn hs)]
  unfold sz_mul
  constructor
  · rintro ⟨_, hdiv⟩
    by_contra hlt
    apply hdiv
    rw [Nat.mod_eq_of_lt (by omega)]
    exact Nat.mul_div_cancel _ (by omega)
  · intro hov
    constructor
    · by_contra hlt
      have hlt2 : num ||| size < 2 ^ (SIZEOF_PTR w * 4) := by omega
      obtain ⟨h1, h2⟩ := or_lt_two_pow_iff.mp hlt2
      have : num * size < 2 ^ (SIZEOF_PTR w * 4) * 2 ^ (SIZEOF_PTR w * 4) :=
        Nat.mul_lt_mul'' h1 h2
      rw [← Nat.pow_add] at this
      have : 2 ^ (SIZEOF_PTR w * 4 + SIZEOF_PTR w * 4) ≤ 2 ^ w :=
        Nat.pow_le_pow_right (by decide) h2h
      omega
    · intro hdiv
      have hle : num * size % 2 ^ w / size * size ≤ num * size % 2 ^ w :=
        Nat.div_mul_le_self _ _
      rw [hdiv] at hle
      have hpw : 0 < 2 ^ w := Nat.pow_pos (by decide)
      have hm := Nat.mod_lt (num * size) hpw
      have hdm := Nat.div_add_mod (num * size) (2 ^ w)
      have : 1 ≤ num * size / 2 ^ w := (Nat.one_le_div_iff hpw).mpr hov
      have : 2 ^ w ≤ 2 ^ w * (num * size / 2 ^ w) := Nat.le_mul_of_pos_right _ (by omega)
      omega

/-! ## A fact about lists of effects -/

theorem all_not_eq_true_iff {α : Type} (l : List α) (p : α → Bool) :
    (l.all fun e => !p e) = true ↔ ∀ e ∈ l, p e = false := by
  simp [List.all_eq_true]

/-! ## `posix_memalign`: the alignment test -/

theorem three_not_pow2 : ¬ ∃ k, 3 = 2 ^ k := by
  rintro ⟨k, hk⟩
  cases k with
  | zero => simp at hk
  | succ n => rw [Nat.pow_succ] at hk; omega

theorem sz_sub_one {w a : Nat} (ha : a < 2 ^ w) (hpos : 0 < a) :
    sz_sub w a 1 = a - 1 := by
  have h1 : 1 < 2 ^ w := by omega
  unfold sz_sub
  rw [Nat.mod_eq_of_lt h1]
  have : a + (2 ^ w - 1) = (a - 1) + 2 ^ w := by omega
  rw [this, Nat.add_mod_right, Nat.mod_eq_of_lt (by omega)]

theorem posix_memalign_bad_alignment_iff {w a : Nat} (hw : 8 ≤ w) (ha : a < 2 ^ w) :
    posix_memalign_bad_alignment w a = true ↔ ((¬ ∃ k, a = 2 ^ k) ∨ a < SIZEOF_PTR w) := by
  unfold posix_memalign_bad_alignment
  rcases Nat.eq_zero_or_pos a with h0 | hpos
  · subst h0
    have hp : 0 < SIZEOF_PTR w := by unfold SIZEOF_PTR; omega
    simp [hp]
  · rw [sz_sub_one ha hpos]
    simp only [Bool.or_eq_true, decide_eq_true_eq, ne_eq]
    rw [and_pred_eq_zero_iff hpos]

theorem posix_memalign_RETURN_fst (cfg : Config) (evs : List Event) (ret result a s : Nat) :
    ∀ e ∈ (posix_memalign_RETURN cfg evs ret result a s).1,
      e ∈ evs ∨ e = Event.trace_posix_memalign result a s := by
  intro e he
  unfold posix_memalign_RETURN at he
  split at he
  · simp at he; exact he
  · exact Or.inl he

theorem posix_memalign_RETURN_snd (cfg : Config) (evs : List Event) (ret result a s : Nat) :
    (posix_memalign_RETURN cfg evs ret result a s).2 = Outcome.returned ret := by
  unfold posix_memalign_RETURN
  split <;> rfl

theorem ipalloc_events_no_memptr (P : Params) (env : Env) (a s : Nat) :
    ∀ e ∈ (ipalloc P env a s).1, e.isMemptrSet = false := by
  intro e he
  unfold ipalloc at he
  simp only at he
  repeat' split at he
  all_goals simp at he
  all_goals (rcases he with rfl | rfl <;> rfl)

/-- Behaviour of `posix_memalign` from the alignment test on, for a rejected alignment. -/
theorem posix_memalign_aligned_bad (P : Params) (cfg : Config) (env : Env) (a s : Nat)
    (hbad : posix_memalign_bad_alignment P.w a = true) :
    (∀ e ∈ (posix_memalign_aligned P cfg env a s).1,
        e.isAlloc = false ∧ e.isMemptrSet = false) ∧
      (cfg.xmalloc = false →
        (posix_memalign_aligned P cfg env a s).2 = Outcome.returned EINVAL) ∧
      (cfg.xmalloc = true → (posix_memalign_aligned P cfg env a s).2 = Outcome.aborted) := by
  unfold posix_memalign_aligned
  rw [if_pos hbad]
  cases hx : cfg.xmalloc
  · refine ⟨?_, fun _ => posix_memalign_RETURN_snd _ _ _ _ _ _, by simp⟩
    intro e he
    rcases posix_memalign_RETURN_fst _ _ _ _ _ _ e he with h | h
    · cases h
    · subst h; exact ⟨rfl, rfl⟩
  · refine ⟨?_, by simp, fun _ => rfl⟩
    intro e he
    simp at he
    subst he
    exact ⟨rfl, rfl⟩

/-- Behaviour of `posix_memalign` from the alignment test on, for an accepted alignment. -/
theorem posix_memalign_aligned_good (P : Params) (cfg : Config) (env : Env) (a s : Nat)
    (hgood : posix_memalign_bad_alignment P.w a = false) :
    (posix_memalign_aligned P cfg env a s).2 ≠ Outcome.returned EINVAL ∧
      (cfg.xmalloc = false →
        ((posix_memalign_aligned P cfg env a s).2 = Outcome.returned 0 ∧
            ∃ p, p ≠ 0 ∧ Event.memptr_set p ∈ (posix_memalign_aligned P cfg env a s).1) ∨
        ((posix_memalign_aligned P cfg env a s).2 = Outcome.returned ENOMEM ∧
            ∀ e ∈ (posix_memalign_aligned P cfg env a s).1, e.isMemptrSet = false)) := by
  unfold posix_memalign_aligned
  rw [hgood]
  simp only [Bool.false_eq_true, if_false]
  unfold posix_memalign_tail
  by_cases hr : (ipalloc P env a s).2 = 0
  · rw [if_pos hr]
    cases hx : cfg.xmalloc
    · refine ⟨?_, fun _ => Or.inr ⟨posix_memalign_RETURN_snd _ _ _ _ _ _, ?_⟩⟩
      · simp only [Bool.false_eq_true, if_false]
        rw [posix_memalign_RETURN_snd]; decide
      · intro e he
        rcases posix_memalign_RETURN_fst _ _ _ _ _ _ e he with h | h
        · exact ipalloc_events_no_memptr P env a s e h
        · subst h; rfl
    · refine ⟨?_, by simp⟩
      simp
  · rw [if_neg hr]
    refine ⟨?_, fun _ => Or.inl ⟨posix_memalign_RETURN_snd _ _ _ _ _ _, ?_⟩⟩
    · rw [posix_memalign_RETURN_snd]; decide
    · refine ⟨(ipalloc P env a s).2, hr, ?_⟩
      unfold posix_memalign_RETURN
      split <;> simp

/-- C1 (amended): for an initialised allocator and a request that does not take the
SysV zero-size shortcut, an alignment that is not a power of two or is smaller than
`sizeof(void *)` (0 included) is never allocated for and never stored through `memptr`;
`posix_memalign` then returns `EINVAL` when `opt_xmalloc` is off and aborts when it is on.
A power-of-two alignment of at least `sizeof(void *)` never gives `EINVAL`: with
`opt_xmalloc` off the call returns 0 after storing a non-NULL result, or `ENOMEM`
without a store. -/
theorem posix_memalign_alignment_check (P : Params) (cfg : Config) (env : Env)
    (alignment size : Nat) (hw : 8 ≤ P.w) (ha : alignment < 2 ^ P.w)
    (hinit : env.malloc_init = false) (hsysv : ¬ (cfg.sysv = true ∧ size = 0)) :
    (((¬ ∃ k, alignment = 2 ^ k) ∨ alignment < SIZEOF_PTR P.w) →
      (∀ e ∈ (posix_memalign P cfg env alignment size).1,
        e.isAlloc = false ∧ e.isMemptrSet = false) ∧
      (cfg.xmalloc = false →
        (posix_memalign P cfg env alignment size).2 = Outcome.returned EINVAL) ∧
      (cfg.xmalloc = true →
        (posix_memalign P cfg env alignment size).2 = Outcome.aborted)) ∧
    (((∃ k, alignment = 2 ^ k) ∧ SIZEOF_PTR P.w ≤ alignment) →
      (posix_memalign P cfg env alignment size).2 ≠ Outcome.returned EINVAL ∧
      (cfg.xmalloc = false →
        ((posix_memalign P cfg env alignment size).2 = Outcome.returned 0 ∧
            ∃ p, p ≠ 0 ∧ Event.memptr_set p ∈ (posix_memalign P cfg env alignment size).1) ∨
        ((posix_memalign P cfg env alignment size).2 = Outcome.returned ENOMEM ∧
            ∀ e ∈ (posix_memalign P cfg env alignment size).1, e.isMemptrSet = false))) := by
  have hiff := posix_memalign_bad_alignment_iff hw ha
  have hred : ∃ s, posix_memalign P cfg env alignment size =
      posix_memalign_aligned P cfg env alignment s := by
    unfold posix_memalign
    rw [hinit]
    simp only [Bool.false_eq_true, if_false]
    by_cases hs : size = 0
    · have hsv : cfg.sysv = false := by
        cases h : cfg.sysv
        · rfl
        · exact absurd ⟨h, hs⟩ hsysv
      rw [if_pos hs, hsv]
      exact ⟨1, by simp⟩
    · rw [if_neg hs]
      exact ⟨size, rfl⟩
  obtain ⟨s, hs⟩ := hred
  rw [hs]
  constructor
  · intro hbad
    exact posix_memalign_aligned_bad P cfg env alignment s (hiff.mpr hbad)
  · rintro ⟨hp, hge⟩
    apply posix_memalign_aligned_good
    cases hb : posix_memalign_bad_alignment P.w alignment
    · rfl
    · rcases hiff.mp hb with h | h
      · exact absurd hp h
      · omega

/-- C1 witness: alignment 3 on a 64-bit target with `opt_xmalloc` off gives `EINVAL`. -/
theorem posix_memalign_alignment_check_witness :
    (posix_memalign ex_params ex_cfg ex_env 3 10).2 = Outcome.returned EINVAL :=
  ((posix_memalign_alignment_check ex_params ex_cfg ex_env 3 10 (by decide) (by decide) rfl
    (by decide)).1 (Or.inl three_not_pow2)).2.1 rfl

/-- C1 as stated fails: the allocator is initialised, the request is not the SysV zero-size
shortcut and the alignment 3 is not a power of two, yet with `opt_xmalloc` on the call
aborts instead of returning `EINVAL`. -/
theorem posix_memalign_alignment_check_counterexample :
    ex_env.malloc_init = false ∧ ¬ (ex_cfg_xmalloc.sysv = true ∧ 10 = 0) ∧
      (¬ ∃ k, 3 = 2 ^ k) ∧
      (posix_memalign ex_params ex_cfg_xmalloc ex_env 3 10).2 = Outcome.aborted ∧
      (posix_memalign ex_params ex_cfg_xmalloc ex_env 3 10).2 ≠ Outcome.returned EINVAL :=
  ⟨rfl, by decide, three_not_pow2, by decide, by decide⟩

/-! ## `calloc`, `malloc` -/

theorem calloc_RETURN_snd_of_not_xmalloc (cfg : Config) (evs : List Event) (ret num size : Nat)
    (hx : cfg.xmalloc = false) :
    (calloc_RETURN cfg evs ret num size).2 = Outcome.returned ret := by
  unfold calloc_RETURN
  rw [hx]
  repeat' split
  all_goals first | rfl | contradiction

theorem calloc_RETURN_mem (cfg : Config) (evs : List Event) (ret num size : Nat) :
    ∀ e ∈ (calloc_RETURN cfg evs ret num size).1, e ∈ evs ∨ e.isAlloc = false := by
  intro e he
  unfold calloc_RETURN at he
  repeat' split at he
  all_goals simp at he
  all_goals first
    | exact Or.inl he
    | (rcases he with h | h | h <;> first | exact Or.inl h | (subst h; exact Or.inr rfl))
    | (rcases he with h | h <;> first | exact Or.inl h | (subst h; exact Or.inr rfl))

theorem calloc_RETURN_sub (cfg : Config) (evs : List Event) (ret num size : Nat) :
    ∀ e ∈ evs, e ∈ (calloc_RETURN cfg evs ret num size).1 := by
  intro e he
  unfold calloc_RETURN
  repeat' split
  all_goals simp [he]

theorem calloc_RETURN_errno (cfg : Config) (evs : List Event) (num size : Nat)
    (hx : cfg.xmalloc = false) :
    Event.errno_set ENOMEM ∈ (calloc_RETURN cfg evs 0 num size).1 := by
  unfold calloc_RETURN
  rw [hx]
  simp only [if_true, Bool.false_eq_true, if_false]
  split <;> simp

/-- C2 (amended): for an initialised allocator with `opt_xmalloc` and SysV mode off, and
leaving aside a wrapped product 0 of two non-zero operands in a build without
`JEMALLOC_SYSV`, `calloc` returns NULL with `errno = ENOMEM` without asking any allocator
if and only if `num * size` exceeds `SIZE_T_MAX`; and for an initialised allocator in every
configuration, a product `p` that fits and is non-zero makes `icalloc(p)` the one and only
allocation request. -/
theorem calloc_overflow_iff (w : Nat) (cfg : Config) (env : Env) (num size : Nat)
    (hn : num < 2 ^ w) (hs : size < 2 ^ w) (hinit : env.malloc_init = false) :
    (cfg.xmalloc = false → cfg.sysv = false →
      (cfg.JEMALLOC_SYSV = true ∨ sz_mul w num size ≠ 0 ∨ num = 0 ∨ size = 0) →
      (((calloc w cfg env num size).2 = Outcome.returned 0 ∧
          Event.errno_set ENOMEM ∈ (calloc w cfg env num size).1 ∧
          ∀ e ∈ (calloc w cfg env num size).1, e.isAlloc = false) ↔
        SIZE_T_MAX w < num * size)) ∧
    (num * size ≤ SIZE_T_MAX w → num * size ≠ 0 →
      Event.icalloc (num * size) ∈ (calloc w cfg env num size).1 ∧
      ∀ e ∈ (calloc w cfg env num size).1, e.isAlloc = true → e = Event.icalloc (num * size)) := by
  have hpw : 0 < 2 ^ w := Nat.pow_pos (by decide)
  have hmax : ∀ x, SIZE_T_MAX w < x ↔ 2 ^ w ≤ x := by
    intro x; unfold SIZE_T_MAX; omega
  constructor
  · intro hx hsv hslip
    rw [hmax]
    unfold calloc
    rw [hinit]
    simp only [Bool.false_eq_true, if_false]
    by_cases hz : sz_mul w num size = 0
    · rw [if_pos hz]
      by_cases hzero : num = 0 ∨ size = 0
      · -- a genuine zero product: one byte is requested
        have hc : (!cfg.JEMALLOC_SYSV ||
            (!cfg.opt_sysv && (decide (num = 0) || decide (size = 0)))) = true := by
          unfold Config.sysv at hsv
          rcases hzero with h | h <;> cases h1 : cfg.JEMALLOC_SYSV <;>
            cases h2 : cfg.opt_sysv <;> simp_all
        rw [if_pos hc]
        have hprod : num * size = 0 := by rcases hzero with h | h <;> simp [h]
        constructor
        · rintro ⟨_, _, hna⟩
          have := hna (Event.icalloc 1) (calloc_RETURN_sub _ _ _ _ _ _ (by simp))
          simp [Event.isAlloc] at this
        · intro h; omega
      · -- the product wrapped to zero
        have hsysvb : cfg.JEMALLOC_SYSV = true := by
          rcases hslip with h | h | h | h
          · exact h
          · exact absurd hz h
          · exact absurd (Or.inl h) hzero
          · exact absurd (Or.inr h) hzero
        have hc : (!cfg.JEMALLOC_SYSV ||
            (!cfg.opt_sysv && (decide (num = 0) || decide (size = 0)))) = false := by
          push_neg at hzero
          simp [hsysvb, hzero.1, hzero.2]
        rw [hc]
        simp only [Bool.false_eq_true, if_false]
        have hov : 2 ^ w ≤ num * size := by
          push_neg at hzero
          have hpos : 0 < num * size := Nat.mul_pos (by omega) (by omega)
          unfold sz_mul at hz
          have := Nat.div_add_mod (num * size) (2 ^ w)
          by_contra hlt
          rw [Nat.mod_eq_of_lt (by omega)] at hz
          omega
        refine ⟨fun _ => hov, fun _ => ⟨calloc_RETURN_snd_of_not_xmalloc _ _ _ _ _ hx,
          calloc_RETURN_errno _ _ _ _ hx, ?_⟩⟩
        intro e he
        rcases calloc_RETURN_mem _ _ _ _ _ e he with h | h
        · cases h
        · exact h
    · rw [if_neg hz]
      have htest := calloc_overflow_test_iff hn hs hz
      by_cases hov : 2 ^ w ≤ num * size
      · rw [if_pos (htest.mpr hov)]
        refine ⟨fun _ => hov, fun _ => ⟨calloc_RETURN_snd_of_not_xmalloc _ _ _ _ _ hx,
          calloc_RETURN_errno _ _ _ _ hx, ?_⟩⟩
        intro e he
        rcases calloc_RETURN_mem _ _ _ _ _ e he with h | h
        · cases h
        · exact h
      · have hf : ¬ (calloc_overflow_test w num size (sz_mul w num size) = true) :=
          fun h => hov (htest.mp h)
        rw [if_neg hf]
        constructor
        · rintro ⟨_, _, hna⟩
          have := hna (Event.icalloc (sz_mul w num size))
            (calloc_RETURN_sub _ _ _ _ _ _ (by simp))
          simp [Event.isAlloc] at this
        · intro h; exact absurd h hov
  · intro hfit hne
    have hlt : num * size < 2 ^ w := by unfold SIZE_T_MAX at hfit; omega
    have hmul : sz_mul w num size = num * size := Nat.mod_eq_of_lt hlt
    have htest : ¬ (calloc_overflow_test w num size (sz_mul w num size) = true) := by
      rw [calloc_overflow_test_iff hn hs (by rw [hmul]; exact hne)]
      omega
    unfold calloc
    rw [hinit]
    simp only [Bool.false_eq_true, if_false]
    rw [if_neg (by rw [hmul]; exact hne), if_neg htest, hmul]
    refine ⟨calloc_RETURN_sub _ _ _ _ _ _ (by simp), ?_⟩
    intro e he ha
    rcases calloc_RETURN_mem _ _ _ _ _ e he with h | h
    · simpa using h
    · rw [h] at ha; cases ha

/-- C2 witness: `calloc(2^32, 2^32)` on a 64-bit target takes the overflow path. -/
theorem calloc_overflow_iff_witness :
    (calloc 64 ex_cfg ex_env (2 ^ 32) (2 ^ 32)).2 = Outcome.returned 0 ∧
      Event.errno_set ENOMEM ∈ (calloc 64 ex_cfg ex_env (2 ^ 32) (2 ^ 32)).1 ∧
      ∀ e ∈ (calloc 64 ex_cfg ex_env (2 ^ 32) (2 ^ 32)).1, e.isAlloc = false :=
  (((calloc_overflow_iff 64 ex_cfg ex_env (2 ^ 32) (2 ^ 32) (by decide) (by decide) rfl).1
    rfl rfl (Or.inl rfl))).mpr (by decide)

/-- C2 as stated fails: with `opt_sysv` on, `calloc(0, 8)` on an initialised allocator
returns NULL with `errno = ENOMEM` without calling `icalloc`, although the product 0 does
not exceed `SIZE_T_MAX`. -/
theorem calloc_overflow_iff_counterexample :
    ex_env.malloc_init = false ∧
      calloc 64 ex_cfg_sysv ex_env 0 8 = ([Event.errno_set ENOMEM], Outcome.returned 0) ∧
      ¬ (SIZE_T_MAX 64 < 0 * 8) :=
  ⟨rfl, by decide, by decide⟩

theorem malloc_RETURN_snd (cfg : Config) (evs : List Event) (ret size : Nat) :
    (malloc_RETURN cfg evs ret size).2 = Outcome.returned ret := by
  unfold malloc_RETURN
  split <;> rfl

theorem malloc_RETURN_mem (cfg : Config) (evs : List Event) (ret size : Nat) :
    ∀ e, e ∈ (malloc_RETURN cfg evs ret size).1 ↔ (e ∈ evs ∨
      (cfg.trace = true ∧ e = Event.trace_malloc ret size)) := by
  intro e
  unfold malloc_RETURN
  split <;> simp_all

theorem malloc_OOM_snd (cfg : Config) (evs : List Event) (ret size : Nat)
    (hx : cfg.xmalloc = false) :
    (malloc_OOM cfg evs ret size).2 = Outcome.returned ret := by
  unfold malloc_OOM
  rw [hx]
  split
  · simp only [Bool.false_eq_true, if_false]; exact malloc_RETURN_snd _ _ _ _
  · exact malloc_RETURN_snd _ _ _ _

theorem malloc_OOM_mem (cfg : Config) (evs : List Event) (ret size : Nat)
    (hx : cfg.xmalloc = false) :
    ∀ e, e ∈ (malloc_OOM cfg evs ret size).1 ↔ (e ∈ evs ∨
      (ret = 0 ∧ e = Event.errno_set ENOMEM) ∨
      (cfg.trace = true ∧ e = Event.trace_malloc ret size)) := by
  intro e
  unfold malloc_OOM
  rw [hx]
  split
  · simp only [Bool.false_eq_true, if_false]
    rw [malloc_RETURN_mem]
    simp_all [or_assoc]
  · rw [malloc_RETURN_mem]
    simp_all

/-- C3 (amended): for every configuration in which `opt_xmalloc` is off (or not compiled
in) and whatever the allocator answers, `malloc(0)` does not abort; it returns NULL or the
result of `imalloc(1)`, and it hands no other request to an allocator. -/
theorem malloc_zero_no_abort (cfg : Config) (env : Env) (hx : cfg.xmalloc = false) :
    (malloc cfg env 0).2 ≠ Outcome.aborted ∧
      ((malloc cfg env 0).2 = Outcome.returned 0 ∨
        ((malloc cfg env 0).2 = Outcome.returned (env.imalloc 1) ∧
          Event.imalloc 1 ∈ (malloc cfg env 0).1)) ∧
      ∀ e ∈ (malloc cfg env 0).1, e.isAlloc = true → e = Event.imalloc 1 := by
  unfold malloc
  cases hi : env.malloc_init
  · cases hs : cfg.sysv
    · simp only [Bool.false_eq_true, if_false, if_true, Bool.not_false]
      rw [malloc_OOM_snd _ _ _ _ hx]
      refine ⟨by simp, Or.inr ⟨rfl, ?_⟩, ?_⟩
      · rw [malloc_OOM_mem _ _ _ _ hx]; simp
      · intro e he ha
        rw [malloc_OOM_mem _ _ _ _ hx] at he
        rcases he with h | ⟨_, h⟩ | ⟨_, h⟩
        · simpa using h
        · rw [h] at ha; cases ha
        · rw [h] at ha; cases ha
    · simp only [Bool.false_eq_true, if_false, if_true, Bool.not_true, hx]
      rw [malloc_RETURN_snd]
      refine ⟨by simp, Or.inl rfl, ?_⟩
      intro e he ha
      rw [malloc_RETURN_mem] at he
      rcases he with h | ⟨_, h⟩
      · cases h
      · rw [h] at ha; cases ha
  · simp only [if_true]
    rw [malloc_OOM_snd _ _ _ _ hx]
    refine ⟨by simp, Or.inl rfl, ?_⟩
    intro e he ha
    rw [malloc_OOM_mem _ _ _ _ hx] at he
    rcases he with h | ⟨_, h⟩ | ⟨_, h⟩
    · cases h
    · rw [h] at ha; cases ha
    · rw [h] at ha; cases ha

/-- C3 witness: with all options off, `malloc(0)` returns the result of `imalloc(1)`. -/
theorem malloc_zero_no_abort_witness :
    (malloc ex_cfg ex_env 0).2 ≠ Outcome.aborted :=
  (malloc_zero_no_abort ex_cfg ex_env rfl).1

/-- C3 as stated fails: with `opt_sysv` and `opt_xmalloc` both on, `malloc(0)` on an
initialised allocator aborts. -/
theorem malloc_zero_no_abort_counterexample :
    malloc ex_cfg_sysv_xmalloc ex_env 0 =
      ([Event.malloc_write4 ": Error in malloc(): invalid size 0\n"], Outcome.aborted) := by
  decide

/-- C4: with `opt_xmalloc` off, whenever initialisation fails or the `imalloc` request that
`malloc` makes returns NULL, `malloc` returns NULL and stores `ENOMEM` to `errno`; and in
every configuration a call that returns a non-NULL pointer performs no store to `errno`. -/
theorem malloc_oom_sets_errno (cfg : Config) (env : Env) (size : Nat) :
    (cfg.xmalloc = false →
      (env.malloc_init = true ∨
        ∃ s, Event.imalloc s ∈ (malloc cfg env size).1 ∧ env.imalloc s = 0) →
      (malloc cfg env size).2 = Outcome.returned 0 ∧
        Event.errno_set ENOMEM ∈ (malloc cfg env size).1) ∧
    (∀ p, p ≠ 0 → (malloc cfg env size).2 = Outcome.returned p →
      ∀ e ∈ (malloc cfg env size).1, e.isErrnoSet = false) := by
  constructor
  · intro hx hfail
    unfold malloc at hfail ⊢
    cases hi : env.malloc_init
    · rw [hi] at hfail
      simp only [Bool.false_eq_true, if_false, false_or] at hfail ⊢
      obtain ⟨s, hmem, hnull⟩ := hfail
      by_cases hs : size = 0
      · rw [if_pos hs] at hmem ⊢
        cases hv : cfg.sysv
        · rw [hv] at hmem
          simp only [Bool.not_false, if_true] at hmem ⊢
          rw [malloc_OOM_mem _ _ _ _ hx] at hmem
          have hs1 : s = 1 := by
            rcases hmem with h | ⟨_, h⟩ | ⟨_, h⟩
            · simpa using h
            · cases h
            · cases h
          subst hs1
          rw [malloc_OOM_snd _ _ _ _ hx, malloc_OOM_mem _ _ _ _ hx, hnull]
          simp
        · rw [hv, hx] at hmem
          simp only [Bool.not_true, Bool.false_eq_true, if_false] at hmem
          rw [malloc_RETURN_mem] at hmem
          rcases hmem with h | ⟨_, h⟩
          · cases h
          · cases h
      · rw [if_neg hs] at hmem ⊢
        rw [malloc_OOM_mem _ _ _ _ hx] at hmem
        have hs1 : s = size := by
          rcases hmem with h | ⟨_, h⟩ | ⟨_, h⟩
          · simpa using h
          · cases h
          · cases h
        subst hs1
        rw [malloc_OOM_snd _ _ _ _ hx, malloc_OOM_mem _ _ _ _ hx, hnull]
        simp
    · simp only [if_true]
      rw [malloc_OOM_snd _ _ _ _ hx, malloc_OOM_mem _ _ _ _ hx]
      simp
  · intro p hp hret e he
    unfold malloc malloc_OOM malloc_RETURN at hret he
    cases hi : env.malloc_init <;> cases hv : cfg.sysv <;> cases hx : cfg.xmalloc <;>
      cases ht : cfg.trace <;> by_cases hs : size = 0 <;>
      by_cases h1 : env.imalloc 1 = 0 <;> by_cases h2 : env.imalloc size = 0 <;>
      simp_all [Event.isErrnoSet] <;>
      (first | omega | (rcases he with rfl | rfl <;> rfl))

/-- C4 witness: when `imalloc(10)` returns NULL, `malloc(10)` returns NULL and stores
`ENOMEM`. -/
theorem malloc_oom_sets_errno_witness :
    (malloc ex_cfg ex_env_oom 10).2 = Outcome.returned 0 ∧
      Event.errno_set ENOMEM ∈ (malloc ex_cfg ex_env_oom 10).1 :=
  (malloc_oom_sets_errno ex_cfg ex_env_oom 10).1 rfl (Or.inr ⟨10, by decide, rfl⟩)

/-! ## `ipalloc`: rounding the size up to the alignment -/

theorem sz_neg_of_pos {w a : Nat} (ha : a < 2 ^ w) (hpos : 0 < a) : sz_neg w a = 2 ^ w - a := by
  unfold sz_neg
  rw [Nat.mod_eq_of_lt ha, Nat.mod_eq_of_lt (by omega)]

theorem sz_not_mask {w p : Nat} (hp : p ≤ w) : sz_not w (2 ^ p - 1) = 2 ^ w - 2 ^ p := by
  unfold sz_not
  have hpp : 0 < 2 ^ p := Nat.pow_pos (by decide)
  have hle : 2 ^ p ≤ 2 ^ w := Nat.pow_le_pow_right (by decide) hp
  rw [Nat.mod_eq_of_lt (by omega)]
  omega

theorem pow_lt_pow_iff_two {k w : Nat} (h : 2 ^ k < 2 ^ w) : k < w := by
  by_contra hge
  have : 2 ^ w ≤ 2 ^ k := Nat.pow_le_pow_right (by decide) (by omega)
  omega

/-- The value of `ceil_size` in terms of ordinary arithmetic. -/
theorem ipalloc_ceil_size_eq {w k : Nat} (size : Nat) (hk : 2 ^ k < 2 ^ w) :
    ipalloc_ceil_size w (2 ^ k) size =
      (size + (2 ^ k - 1)) % 2 ^ w - ((size + (2 ^ k - 1)) % 2 ^ w) % 2 ^ k := by
  have hpk : 0 < 2 ^ k := Nat.pow_pos (by decide)
  unfold ipalloc_ceil_size
  rw [sz_sub_one hk hpk, sz_neg_of_pos hk hpk]
  unfold sz_add
  exact and_high_mask (Nat.le_of_lt (pow_lt_pow_iff_two hk)) (Nat.mod_lt _ (by omega))

/-- Rounding up with `x - x % a` at `x = size + (a - 1)` gives the least multiple of `a`
that is at least `size`. -/
theorem round_up_least {a : Nat} (size : Nat) (ha : 0 < a) :
    size ≤ (size + (a - 1)) - (size + (a - 1)) % a ∧
      a ∣ (size + (a - 1)) - (size + (a - 1)) % a ∧
      ∀ m, a ∣ m → size ≤ m → (size + (a - 1)) - (size + (a - 1)) % a ≤ m := by
  have hm := Nat.mod_lt (size + (a - 1)) ha
  have hd := Nat.div_add_mod (size + (a - 1)) a
  have he : (size + (a - 1)) - (size + (a - 1)) % a = a * ((size + (a - 1)) / a) := by omega
  refine ⟨by omega, ⟨(size + (a - 1)) / a, he⟩, ?_⟩
  rintro m ⟨q, rfl⟩ hle
  rw [he]
  apply Nat.mul_le_mul_left
  by_contra hlt
  have hq : q + 1 ≤ (size + (a - 1)) / a := by omega
  have : a * (q + 1) ≤ a * ((size + (a - 1)) / a) := Nat.mul_le_mul_left _ hq
  rw [Nat.mul_add] at this
  omega

/-- The macro `PAGE_CEILING` yields a multiple of the page size. -/
theorem PAGE_CEILING_dvd (P : Params) (s : Nat) (hp : P.PAGE_SHIFT ≤ P.w) :
    P.PAGE_SIZE ∣ PAGE_CEILING P s := by
  unfold PAGE_CEILING Params.PAGE_MASK Params.PAGE_SIZE
  rw [sz_not_mask hp]
  have hpw : 0 < 2 ^ P.w := Nat.pow_pos (by decide)
  rw [and_high_mask hp (by unfold sz_add; exact Nat.mod_lt _ hpw)]
  exact Nat.dvd_sub_mod _


/-- Every allocation request of `ipalloc` is either `arena_malloc(ceil_size)` for the first
`ceil_size`, or a page-path request for `PAGE_CEILING(size)`; in both cases the size handed
on is at least the size requested. -/
theorem ipalloc_requests (P : Params) (env : Env) (alignment size : Nat) :
    ∀ e ∈ (ipalloc P env alignment size).1, ∀ s, e.allocSize = some s →
      size ≤ s ∧
      ((∃ z, e = Event.arena_malloc s z) → s = ipalloc_ceil_size P.w alignment size) ∧
      ((¬ ∃ z, e = Event.arena_malloc s z) → s = PAGE_CEILING P size) := by
  intro e he s hs
  unfold ipalloc at he
  simp only at he
  split at he
  · cases he
  · rename_i h1
    split at he
    · simp at he
      subst he
      simp [Event.allocSize] at hs
      subst hs
      exact ⟨by omega, fun _ => rfl, fun h => absurd ⟨false, rfl⟩ h⟩
    · split at he
      · cases he
      · rename_i h3
        push_neg at h3
        repeat' split at he
        all_goals simp at he
        all_goals first
          | (subst he
             simp [Event.allocSize] at hs
             subst hs
             exact ⟨h3.1, by simp, by simp⟩)
          | (rcases he with rfl | rfl
             · simp [Event.allocSize] at hs
             · simp [Event.allocSize] at hs
               subst hs
               exact ⟨h3.1, by simp, by simp⟩)

/-- C5 (amended): for every power-of-two alignment and every size, the value
`ceil_size = (size + (alignment - 1)) & (-alignment)` computed in `size_t` arithmetic is
either smaller than `size`, in which case `ipalloc` returns NULL without allocating, or the
smallest multiple of `alignment` that is at least `size`. Every size that `ipalloc` hands
on is at least the requested size; the size handed to `arena_malloc` is a multiple of the
requested alignment, while on the page-aligned path the size handed on is
`PAGE_CEILING(size)`, a multiple of the page size. -/
theorem ipalloc_ceil_size_least_multiple (P : Params) (env : Env) (alignment size : Nat)
    (hpow : ∃ k, alignment = 2 ^ k) (ha : alignment < 2 ^ P.w) (hs : size < 2 ^ P.w)
    (hp : P.PAGE_SHIFT ≤ P.w) :
    ((ipalloc_ceil_size P.w alignment size < size ∧ ipalloc P env alignment size = ([], 0)) ∨
      (size ≤ ipalloc_ceil_size P.w alignment size ∧
        alignment ∣ ipalloc_ceil_size P.w alignment size ∧
        ∀ m, alignment ∣ m → size ≤ m → ipalloc_ceil_size P.w alignment size ≤ m)) ∧
    (∀ e ∈ (ipalloc P env alignment size).1, ∀ s, e.allocSize = some s →
      size ≤ s ∧
      ((∃ z, e = Event.arena_malloc s z) → alignment ∣ s) ∧
      ((¬ ∃ z, e = Event.arena_malloc s z) → s = PAGE_CEILING P size ∧ P.PAGE_SIZE ∣ s)) := by
  obtain ⟨k, rfl⟩ := hpow
  have hpk : 0 < 2 ^ k := Nat.pow_pos (by decide)
  have hcs := ipalloc_ceil_size_eq size ha
  have hdvd : 2 ^ k ∣ ipalloc_ceil_size P.w (2 ^ k) size := by
    rw [hcs]; exact Nat.dvd_sub_mod _
  constructor
  · by_cases hwrap : size + (2 ^ k - 1) < 2 ^ P.w
    · right
      rw [hcs, Nat.mod_eq_of_lt hwrap]
      exact round_up_least size hpk
    · left
      have hx : (size + (2 ^ k - 1)) % 2 ^ P.w = size + (2 ^ k - 1) - 2 ^ P.w := by
        rw [Nat.mod_eq_sub_mod (by omega), Nat.mod_eq_of_lt (by omega)]
      have hlt : ipalloc_ceil_size P.w (2 ^ k) size < size := by
        rw [hcs, hx]; omega
      refine ⟨hlt, ?_⟩
      unfold ipalloc
      simp only
      rw [if_pos hlt]
  · intro e he s hsz
    obtain ⟨h1, h2, h3⟩ := ipalloc_requests P env (2 ^ k) size e he s hsz
    refine ⟨h1, fun hz => ?_, fun hz => ?_⟩
    · rw [h2 hz]; exact hdvd
    · rw [h3 hz]; exact ⟨rfl, PAGE_CEILING_dvd P size hp⟩

/-- C5 witness: alignment `2^13` and size 8193 on a 64-bit target with 4 KiB pages; the
request handed to `arena_palloc` is for `PAGE_CEILING(8193) = 12288` bytes. -/
theorem ipalloc_ceil_size_least_multiple_witness :
    8193 ≤ 12288 ∧
      ((∃ z, Event.arena_palloc 8192 12288 16384 = Event.arena_malloc 12288 z) → 8192 ∣ 12288) ∧
      ((¬ ∃ z, Event.arena_palloc 8192 12288 16384 = Event.arena_malloc 12288 z) →
        12288 = PAGE_CEILING ex_params 8193 ∧ ex_params.PAGE_SIZE ∣ 12288) :=
  (ipalloc_ceil_size_least_multiple ex_params ex_env 8192 8193 ⟨13, by decide⟩ (by decide)
    (by decide) (by decide)).2 (Event.arena_palloc 8192 12288 16384) (by decide) 12288 rfl

/-- C5 as stated fails: for the power-of-two alignment 8192 and size 8193 (4 KiB pages),
`ipalloc` hands the size 12288 to `arena_palloc`, which is not a multiple of 8192. -/
theorem ipalloc_ceil_size_least_multiple_counterexample :
    (∃ k, 8192 = 2 ^ k) ∧
      ipalloc ex_params ex_env 8192 8193 =
        ([Event.choose_arena, Event.arena_palloc 8192 12288 16384], 32768) ∧
      ¬ (8192 ∣ 12288) :=
  ⟨⟨13, by decide⟩, by decide, by decide⟩

/-! ## `large.c`: allocation and reallocation of large extents -/

namespace Large

/-- C6: whenever `sa2u(usize, alignment)` is 0 or exceeds `LARGE_MAXCLASS`, `large_palloc`
returns NULL, performs no effect at all (in particular it asks for no chunk), and leaves
every arena's list of large extents as it was. -/
theorem large_palloc_rejects_oversize (env : Env) (st : State) (tsdn_null : Bool)
    (arena : Option Nat) (usize alignment : Nat) (zero : Bool)
    (h : env.sa2u usize alignment = 0 ∨ env.sa2u usize alignment > env.LARGE_MAXCLASS) :
    (large_palloc env st tsdn_null arena usize alignment zero).2.2 = 0 ∧
      (large_palloc env st tsdn_null arena usize alignment zero).2.1 = [] ∧
      (large_palloc env st tsdn_null arena usize alignment zero).1.large = st.large := by
  unfold large_palloc
  simp only
  rw [if_pos h]
  exact ⟨rfl, rfl, rfl⟩

/-- C6 witness: a request above `LARGE_MAXCLASS`, for which `sa2u` answers 0. -/
theorem large_palloc_rejects_oversize_witness :
    (large_palloc ex_env ex_state false (some 0) (2 ^ 62 + 1) 64 false).2.2 = 0 ∧
      (large_palloc ex_env ex_state false (some 0) (2 ^ 62 + 1) 64 false).2.1 = [] ∧
      (large_palloc ex_env ex_state false (some 0) (2 ^ 62 + 1) 64 false).1.large =
        ex_state.large :=
  large_palloc_rejects_oversize ex_env ex_state false (some 0) (2 ^ 62 + 1) 64 false
    (Or.inl (by decide))

/-- A failed in-place expansion leaves the descriptor as it was. -/
theorem large_ralloc_no_move_expand_fail (env : Env) (extent : extent_t) (usize : Nat)
    (zero : Bool) (h : (large_ralloc_no_move_expand env extent usize zero).2.2 = true) :
    (large_ralloc_no_move_expand env extent usize zero).1 = extent := by
  unfold large_ralloc_no_move_expand at h ⊢
  simp only at h ⊢
  split
  · rfl
  · rename_i trail z hgot
    rw [hgot] at h
    simp only at h
    split
    · rfl
    · rename_i merged hm
      rw [hm] at h
      simp at h

/-- A failed in-place shrink leaves the descriptor as it was. -/
theorem large_ralloc_no_move_shrink_fail (env : Env) (extent : extent_t) (usize : Nat)
    (h : (large_ralloc_no_move_shrink env extent usize).2.2 = true) :
    (large_ralloc_no_move_shrink env extent usize).1 = extent := by
  unfold large_ralloc_no_move_shrink at h ⊢
  simp only at h ⊢
  by_cases hd : sz_sub env.w extent.e_size (sz_add env.w usize env.large_pad) ≠ 0
  · rw [if_pos hd] at h ⊢
    cases hs : env.chunk_split_wrapper extent (sz_add env.w usize env.large_pad) usize
        (sz_sub env.w extent.e_size (sz_add env.w usize env.large_pad))
        (sz_sub env.w extent.e_size (sz_add env.w usize env.large_pad)) with
    | none => rfl
    | some lt =>
      rw [hs] at h
      simp at h
  · rw [if_neg hd]

/-- When `large_ralloc_no_move` is asked for a single size and reports that the
allocation must move, the descriptor is as it was. -/
theorem large_ralloc_no_move_fail (env : Env) (extent : extent_t) (usize : Nat) (zero : Bool)
    (h : (large_ralloc_no_move env extent usize usize zero).2.2 = true) :
    (large_ralloc_no_move env extent usize usize zero).1 = extent := by
  have hrest : ∀ evs, (large_ralloc_no_move_rest env extent evs usize usize).2.2 = true →
      (large_ralloc_no_move_rest env extent evs usize usize).1 = extent := by
    intro evs hr
    unfold large_ralloc_no_move_rest at hr ⊢
    by_cases h1 : extent.e_usize ≥ usize ∧ extent.e_usize ≤ usize
    · rw [if_pos h1]
    · rw [if_neg h1] at hr ⊢
      by_cases h2 : extent.e_usize > usize
      · rw [if_pos h2] at hr ⊢
        simp only at hr ⊢
        have hu := large_ralloc_no_move_shrink_fail env extent usize
        cases hs : (large_ralloc_no_move_shrink env extent usize).2.2 with
        | false => rw [hs] at hr; simp at hr
        | true => simpa using hu hs
      · rw [if_neg h2]
  unfold large_ralloc_no_move at h ⊢
  simp only at h ⊢
  by_cases hgt : usize > extent.e_usize
  · rw [if_pos hgt] at h ⊢
    have hu := large_ralloc_no_move_expand_fail env extent usize zero
    cases he : (large_ralloc_no_move_expand env extent usize zero).2.2 with
    | false => rw [he] at h; simp at h
    | true =>
      rw [he] at h
      simp only [Bool.not_true, Bool.false_eq_true, if_false, lt_self_iff_false, false_and,
        hu he] at h ⊢
      exact hrest _ h
  · rw [if_neg hgt] at h ⊢
    exact hrest _ h

/-- The effects of `large_palloc` neither release nor copy an allocation. -/
theorem large_palloc_no_free (env : Env) (st : State) (tsdn_null : Bool) (arena : Option Nat)
    (usize alignment : Nat) (zero : Bool) :
    ∀ e ∈ (large_palloc env st tsdn_null arena usize alignment zero).2.1,
      e.isFreeOrCopy = false := by
  rw [← all_not_eq_true_iff]
  unfold large_palloc large_palloc_fill
  simp only
  repeat' split
  all_goals simp [Event.isFreeOrCopy]

/-- The effects of `large_ralloc_move_helper` neither release nor copy an allocation. -/
theorem large_ralloc_move_helper_no_free (env : Env) (st : State) (tsdn_null : Bool)
    (arena : Option Nat) (usize alignment : Nat) (zero : Bool) :
    ∀ e ∈ (large_ralloc_move_helper env st tsdn_null arena usize alignment zero).2.1,
      e.isFreeOrCopy = false := by
  unfold large_ralloc_move_helper large_malloc
  split <;> exact large_palloc_no_free _ _ _ _ _ _ _

/-- The effects of `large_ralloc_no_move_expand` neither release nor copy an allocation. -/
theorem large_ralloc_no_move_expand_no_free (env : Env) (extent : extent_t) (usize : Nat)
    (zero : Bool) :
    ∀ e ∈ (large_ralloc_no_move_expand env extent usize zero).2.1, e.isFreeOrCopy = false := by
  rw [← all_not_eq_true_iff]
  unfold large_ralloc_no_move_expand large_ralloc_no_move_expand_fill
  simp only
  repeat' split
  all_goals simp [Event.isFreeOrCopy]

/-- The effects of `large_ralloc_no_move_shrink` neither release nor copy an allocation. -/
theorem large_ralloc_no_move_shrink_no_free (env : Env) (extent : extent_t) (usize : Nat) :
    ∀ e ∈ (large_ralloc_no_move_shrink env extent usize).2.1, e.isFreeOrCopy = false := by
  rw [← all_not_eq_true_iff]
  unfold large_ralloc_no_move_shrink large_dalloc_maybe_junk
  simp only
  repeat' split
  all_goals simp [Event.isFreeOrCopy]

/-- The effects of `large_ralloc_no_move` neither release nor copy an allocation. -/
theorem large_ralloc_no_move_no_free (env : Env) (extent : extent_t) (usize_min usize_max : Nat)
    (zero : Bool) :
    ∀ e ∈ (large_ralloc_no_move env extent usize_min usize_max zero).2.1,
      e.isFreeOrCopy = false := by
  have hrest : ∀ (x : extent_t) (evs : List Event), (∀ e ∈ evs, e.isFreeOrCopy = false) →
      ∀ e ∈ (large_ralloc_no_move_rest env x evs usize_min usize_max).2.1,
        e.isFreeOrCopy = false := by
    intro x evs hevs e he
    unfold large_ralloc_no_move_rest at he
    have hs := large_ralloc_no_move_shrink_no_free env x usize_max
    by_cases c1 : x.e_usize ≥ usize_min ∧ x.e_usize ≤ usize_max
    · rw [if_pos c1] at he
      simp only [List.mem_append, List.mem_singleton] at he
      rcases he with h | h
      · exact hevs e h
      · subst h; rfl
    · rw [if_neg c1] at he
      by_cases c2 : x.e_usize > usize_max
      · rw [if_pos c2] at he
        simp only at he
        cases hb : (large_ralloc_no_move_shrink env x usize_max).2.2 with
        | false =>
          rw [hb] at he
          simp only [Bool.not_false, if_true, List.mem_append, List.mem_singleton] at he
          rcases he with (h | h) | h
          · exact hevs e h
          · exact hs e h
          · subst h; rfl
        | true =>
          rw [hb] at he
          simp only [Bool.not_true, Bool.false_eq_true, if_false, List.mem_append] at he
          rcases he with h | h
          · exact hevs e h
          · exact hs e h
      · rw [if_neg c2] at he
        exact hevs e he
  have h1 := large_ralloc_no_move_expand_no_free env extent usize_max zero
  have h2 := large_ralloc_no_move_expand_no_free env
    (large_ralloc_no_move_expand env extent usize_max zero).1 usize_min zero
  have h12 : ∀ e ∈ (large_ralloc_no_move_expand env extent usize_max zero).2.1 ++
      (large_ralloc_no_move_expand env
        (large_ralloc_no_move_expand env extent usize_max zero).1 usize_min zero).2.1,
      e.isFreeOrCopy = false := by
    intro e he
    rcases List.mem_append.mp he with h | h
    · exact h1 e h
    · exact h2 e h
  intro e he
  unfold large_ralloc_no_move at he
  simp only at he
  by_cases c0 : usize_max > extent.e_usize
  · rw [if_pos c0] at he
    cases hb : (large_ralloc_no_move_expand env extent usize_max zero).2.2 with
    | false =>
      rw [hb] at he
      simp only [Bool.not_false, if_true, List.mem_append, List.mem_singleton] at he
      rcases he with h | h
      · exact h1 e h
      · subst h; rfl
    | true =>
      rw [hb] at he
      simp only [Bool.not_true, Bool.false_eq_true, if_false] at he
      by_cases c3 : usize_min < usize_max ∧
          usize_min > (large_ralloc_no_move_expand env extent usize_max zero).1.e_usize
      · rw [if_pos c3] at he
        cases hb2 : (large_ralloc_no_move_expand env
            (large_ralloc_no_move_expand env extent usize_max zero).1 usize_min zero).2.2 with
        | false =>
          rw [hb2] at he
          simp only [Bool.false_eq_true, if_false] at he
          exact hrest _ _ h12 e he
        | true =>
          rw [hb2] at he
          simp only [if_true, List.mem_append, List.mem_singleton] at he
          rcases he with (h | h) | h
          · exact h1 e h
          · exact h2 e h
          · subst h; rfl
      · rw [if_neg c3] at he
        exact hrest _ _ h1 e he
  · rw [if_neg c0] at he
    exact hrest _ _ (by simp) e he

/-- C7 (amended): for every large extent whose current usize `u` satisfies
`usize_min <= u <= usize_max`, `large_ralloc_no_move` returns false (no move). When
`u = usize_max` it does so without splitting, merging, allocating or otherwise modifying
the extent: its only effect is the decay tick. (When `u < usize_max` it first attempts an
in-place expansion to `usize_max`.) Consequently `large_ralloc` with `usize` equal to the
extent's current usize returns the extent's own address, leaving state and extent as they
were. -/
theorem large_ralloc_no_move_in_range (env : Env) (st : State) (tsdn_null : Bool)
    (arena : Option Nat) (extent : extent_t) (usize_min usize_max alignment : Nat)
    (zero : Bool) (tcache : Nat)
    (hmin : usize_min ≤ extent.e_usize) (hmax : extent.e_usize ≤ usize_max) :
    (large_ralloc_no_move env extent usize_min usize_max zero).2.2 = false ∧
      (extent.e_usize = usize_max →
        large_ralloc_no_move env extent usize_min usize_max zero =
          (extent, [Event.arena_decay_tick extent.e_arena], false)) ∧
      (large_ralloc env st tsdn_null arena extent extent.e_usize alignment zero tcache).2.2.2 =
        extent.e_addr ∧
      (large_ralloc env st tsdn_null arena extent extent.e_usize alignment zero tcache).2.1 =
        extent ∧
      (large_ralloc env st tsdn_null arena extent extent.e_usize alignment zero tcache).2.2.1 =
        [Event.arena_decay_tick extent.e_arena] := by
  have key : ∀ lo, lo ≤ extent.e_usize →
      large_ralloc_no_move env extent lo extent.e_usize zero =
        (extent, [Event.arena_decay_tick extent.e_arena], false) := by
    intro lo hlo
    unfold large_ralloc_no_move
    simp only
    rw [if_neg (by omega)]
    unfold large_ralloc_no_move_rest
    rw [if_pos ⟨hlo, le_refl _⟩]
    rfl
  refine ⟨?_, ?_, ?_⟩
  · unfold large_ralloc_no_move
    simp only
    by_cases hgt : usize_max > extent.e_usize
    · rw [if_pos hgt]
      have hu := large_ralloc_no_move_expand_fail env extent usize_max zero
      cases he : (large_ralloc_no_move_expand env extent usize_max zero).2.2 with
      | false => simp
      | true =>
        simp only [Bool.not_true, Bool.false_eq_true, if_false, hu he]
        rw [if_neg (by omega)]
        unfold large_ralloc_no_move_rest
        rw [if_pos ⟨hmin, hmax⟩]
    · rw [if_neg hgt]
      unfold large_ralloc_no_move_rest
      rw [if_pos ⟨hmin, hmax⟩]
  · intro heq
    subst heq
    exact key usize_min hmin
  · unfold large_ralloc
    simp only
    rw [key extent.e_usize (le_refl _)]
    simp

/-- C7 witness: a 4 MiB extent asked to stay within [1 MiB, 4 MiB]. -/
theorem large_ralloc_no_move_in_range_witness :
    large_ralloc_no_move ex_env ex_extent 1048576 4194304 false =
      (ex_extent, [Event.arena_decay_tick ex_extent.e_arena], false) :=
  (large_ralloc_no_move_in_range ex_env ex_state false (some 0) ex_extent 1048576 4194304 64
    false 0 (by decide) (by decide)).2.1 rfl

/-- C7 as stated fails: a 4 MiB extent asked for a size in [4 MiB, 8 MiB] has its current
usize in range, yet `large_ralloc_no_move` allocates a trail from the chunk cache and
merges it, so that the extent comes back 8 MiB large. -/
theorem large_ralloc_no_move_in_range_counterexample :
    4194304 ≤ ex_extent.e_usize ∧ ex_extent.e_usize ≤ 8388608 ∧
      large_ralloc_no_move ex_env ex_extent 4194304 8388608 false =
        (⟨0, 0x80000000, 8388608, 8388608⟩,
          [Event.arena_chunk_cache_alloc 0 0x80400000 4194304 64,
            Event.chunk_merge_wrapper ex_extent ⟨0, 0x80400000, 4194304, 4194304⟩,
            Event.arena_chunk_ralloc_large_expand 0 ⟨0, 0x80000000, 8388608, 8388608⟩ 4194304,
            Event.arena_decay_tick 0], false) :=
  ⟨by decide, by decide, by decide⟩

/-- C8: when `large_ralloc` cannot resize in place (`large_ralloc_no_move` reports a move),
the old extent is left as it was. If the replacement allocation fails, `large_ralloc`
returns NULL and performs no release and no copy. Otherwise it returns the new address
after exactly one copy, of `min(usize, old usize)` bytes from the old address to the new
one, followed by the release of the old extent. -/
theorem large_ralloc_move_copies_and_frees (env : Env) (st : State) (tsdn_null : Bool)
    (arena : Option Nat) (extent : extent_t) (usize alignment : Nat) (zero : Bool)
    (tcache : Nat)
    (hmove : (large_ralloc_no_move env extent usize usize zero).2.2 = true) :
    (large_ralloc env st tsdn_null arena extent usize alignment zero tcache).2.1 = extent ∧
    ((large_ralloc_move_helper env st tsdn_null arena usize alignment zero).2.2 = 0 →
      (large_ralloc env st tsdn_null arena extent usize alignment zero tcache).2.2.2 = 0 ∧
      ∀ e ∈ (large_ralloc env st tsdn_null arena extent usize alignment zero tcache).2.2.1,
        e.isFreeOrCopy = false) ∧
    ((large_ralloc_move_helper env st tsdn_null arena usize alignment zero).2.2 ≠ 0 →
      (large_ralloc env st tsdn_null arena extent usize alignment zero tcache).2.2.2 =
        (large_ralloc_move_helper env st tsdn_null arena usize alignment zero).2.2 ∧
      (large_ralloc env st tsdn_null arena extent usize alignment zero tcache).2.2.1 =
        (large_ralloc_no_move env extent usize usize zero).2.1 ++
          (large_ralloc_move_helper env st tsdn_null arena usize alignment zero).2.1 ++
          [Event.memcpy (large_ralloc_move_helper env st tsdn_null arena usize alignment zero).2.2
              extent.e_addr (min usize extent.e_usize),
            Event.isdalloct extent extent.e_addr extent.e_usize tcache true] ∧
      ∀ e ∈ (large_ralloc_no_move env extent usize usize zero).2.1 ++
          (large_ralloc_move_helper env st tsdn_null arena usize alignment zero).2.1,
        e.isFreeOrCopy = false) := by
  have hext := large_ralloc_no_move_fail env extent usize zero hmove
  have hnf : ∀ e ∈ (large_ralloc_no_move env extent usize usize zero).2.1 ++
      (large_ralloc_move_helper env st tsdn_null arena usize alignment zero).2.1,
      e.isFreeOrCopy = false := by
    intro e he
    rcases List.mem_append.mp he with h | h
    · exact large_ralloc_no_move_no_free env extent usize usize zero e h
    · exact large_ralloc_move_helper_no_free env st tsdn_null arena usize alignment zero e h
  have hcopy : (if usize < extent.e_usize then usize else extent.e_usize) =
      min usize extent.e_usize := by
    split
    · rw [Nat.min_eq_left (by omega)]
    · rw [Nat.min_eq_right (by omega)]
  unfold large_ralloc
  simp only [hmove, hext, Bool.not_true, Bool.false_eq_true, if_false]
  refine ⟨?_, ?_, ?_⟩
  · split <;> rfl
  · intro h0
    rw [if_pos h0]
    exact ⟨rfl, hnf⟩
  · intro h0
    rw [if_neg h0, hcopy]
    exact ⟨rfl, rfl, hnf⟩

/-- C8 witness: growing a 4 MiB extent to 8 MiB when the chunk layer refuses every
request: no resize in place, no replacement, NULL is returned and the extent is kept. -/
theorem large_ralloc_move_copies_and_frees_witness :
    (large_ralloc ex_env_oom ex_state false (some 0) ex_extent 8388608 64 false 0).2.1 =
      ex_extent :=
  (large_ralloc_move_copies_and_frees ex_env_oom ex_state false (some 0) ex_extent 8388608 64
    false 0 (by decide)).1

end Large

/-! ## `chunk.c`: first-best-fit selection and recycling -/

namespace Chunk

theorem find_first_sorted {α : Type} (R : α → α → Prop) (p : α → Bool) :
    ∀ (t : List α) (e : α), t.find? p = some e → t.Pairwise R →
      ∀ x ∈ t, p x = true → x = e ∨ R e x := by
  intro t
  induction t with
  | nil => intro e h; simp at h
  | cons y t ih =>
    intro e h hs x hx hpx
    rw [List.pairwise_cons] at hs
    by_cases hpy : p y = true
    · rw [List.find?_cons_of_pos _ hpy] at h
      cases h
      rcases List.mem_cons.mp hx with rfl | hx'
      · exact Or.inl rfl
      · exact Or.inr (hs.1 x hx')
    · rw [List.find?_cons_of_neg _ hpy] at h
      rcases List.mem_cons.mp hx with rfl | hx'
      · exact absurd hpx hpy
      · exact ih e h hs.2 x hx' hpx

theorem extent_szad_comp_lt_iff (a b : extent_t) :
    extent_szad_comp a b = Ordering.lt ↔
      a.e_size < b.e_size ∨ (a.e_size = b.e_size ∧ a.e_addr < b.e_addr) := by
  unfold extent_szad_comp
  repeat' split
  all_goals simp
  all_goals omega

/-- The test that `chunk_first_best_fit` hands to the size-address tree accepts exactly the
extents that are large enough. -/
theorem szad_key_test (ind size : Nat) (x : extent_t) :
    decide (extent_szad_comp x (extent_init ind 0 size false false false false) ≠ Ordering.lt)
      = true ↔ size ≤ x.e_size := by
  have h := extent_szad_comp_lt_iff x (extent_init ind 0 size false false false false)
  simp only [extent_init] at h
  simp only [decide_eq_true_eq, ne_eq, extent_init]
  constructor
  · intro hn
    by_contra hlt
    exact hn (h.mpr (Or.inl (by omega)))
  · intro hle hc
    rcases h.mp hc with hlt | ⟨_, hlt⟩
    · omega
    · omega

/-- C9: for every tree in increasing size-address order and every size,
`chunk_first_best_fit` returns NULL iff no extent has size at least the requested size,
and otherwise returns an extent of the tree that is large enough and is least in
(size, address) order among those that are: the smallest sufficient extent, lowest address
among equals. -/
theorem chunk_first_best_fit_least (env : Env) (chunks_szad chunks_ad : extent_tree_t)
    (size : Nat)
    (hsorted : chunks_szad.Pairwise (fun a b => extent_szad_comp a b = Ordering.lt)) :
    (chunk_first_best_fit env chunks_szad chunks_ad size = none ↔
      ∀ x ∈ chunks_szad, x.e_size < size) ∧
    (∀ e, chunk_first_best_fit env chunks_szad chunks_ad size = some e →
      e ∈ chunks_szad ∧ size ≤ e.e_size ∧
      ∀ x ∈ chunks_szad, size ≤ x.e_size →
        e.e_size < x.e_size ∨ (e.e_size = x.e_size ∧ e.e_addr ≤ x.e_addr)) := by
  unfold chunk_first_best_fit extent_tree_szad_nsearch tree_nsearch
  simp only
  constructor
  · rw [List.find?_eq_none]
    constructor
    · intro h x hx
      have := h x hx
      rw [szad_key_test] at this
      omega
    · intro h x hx
      rw [szad_key_test]
      have := h x hx
      omega
  · intro e he
    have hmem := List.mem_of_find?_eq_some he
    have hp := List.find?_some he
    rw [szad_key_test] at hp
    refine ⟨hmem, hp, ?_⟩
    intro x hx hsz
    rcases find_first_sorted _ _ chunks_szad e he hsorted x hx
        ((szad_key_test env.ind size x).mpr hsz) with rfl | hlt
    · exact Or.inr ⟨rfl, le_refl _⟩
    · rcases (extent_szad_comp_lt_iff e x).mp hlt with h | ⟨h1, h2⟩
      · exact Or.inl h
      · exact Or.inr ⟨h1, by omega⟩

/-- C9 witness: of two sufficient 4 MiB extents the one at the lower address is chosen. -/
theorem chunk_first_best_fit_least_witness :
    chunk_first_best_fit ex_env ex_szad [] 0x400000 = some (ex_extent 0x200000 0x400000) ∧
      ∀ x ∈ ex_szad, 0x400000 ≤ x.e_size →
        (ex_extent 0x200000 0x400000).e_size < x.e_size ∨
          ((ex_extent 0x200000 0x400000).e_size = x.e_size ∧
            (ex_extent 0x200000 0x400000).e_addr ≤ x.e_addr) :=
  ⟨by decide,
    ((chunk_first_best_fit_least ex_env ex_szad [] 0x400000 (by decide)).2
      (ex_extent 0x200000 0x400000) (by decide)).2.2⟩

theorem mem_tree_insert (cmp : extent_t → extent_t → Ordering) (t : extent_tree_t)
    (e x : extent_t) : x ∈ tree_insert cmp t e ↔ x = e ∨ x ∈ t := by
  induction t with
  | nil => simp [tree_insert]
  | cons y t ih =>
    unfold tree_insert
    split
    · simp
    · simp only [List.mem_cons, ih]
      tauto

theorem mem_tree_remove (t : extent_tree_t) (e x : extent_t) (hnd : t.Nodup) :
    x ∈ tree_remove t e ↔ x ∈ t ∧ x ≠ e := by
  unfold tree_remove
  rw [hnd.mem_erase_iff]
  tauto

theorem sz_sub_of_le {w a b : Nat} (hb : b ≤ a) (ha : a < 2 ^ w) : sz_sub w a b = a - b := by
  unfold sz_sub
  have hbw : b < 2 ^ w := by omega
  rw [Nat.mod_eq_of_lt hbw]
  have : a + (2 ^ w - b) = (a - b) + 2 ^ w := by omega
  rw [this, Nat.add_mod_right, Nat.mod_eq_of_lt (by omega)]

theorem sz_add_of_lt {w a b : Nat} (h : a + b < 2 ^ w) : sz_add w a b = a + b := by
  unfold sz_add
  exact Nat.mod_eq_of_lt h

/-- The arithmetic of a recycled extent that is large enough: the rounded-up address does
not wrap, `ret` is the least multiple of the alignment from the base on, and the lead and
trail sizes are the plain differences. -/
theorem chunk_recycle_arith (env : Env) (e : extent_t) (size k : Nat)
    (hk : 2 ^ k < 2 ^ env.w) (hsize : 0 < size) (hesz : e.e_size < 2 ^ env.w)
    (hbound : e.e_addr + e.e_size ≤ 2 ^ env.w)
    (hfit : chunk_recycle_leadsize env e (2 ^ k) + size ≤ e.e_size) :
    (e.e_addr ≤ chunk_recycle_ret env e (2 ^ k) ∧ 2 ^ k ∣ chunk_recycle_ret env e (2 ^ k) ∧
      ∀ m, 2 ^ k ∣ m → e.e_addr ≤ m → chunk_recycle_ret env e (2 ^ k) ≤ m) ∧
    chunk_recycle_ret env e (2 ^ k) = e.e_addr + chunk_recycle_leadsize env e (2 ^ k) ∧
    chunk_recycle_trailsize env e size (2 ^ k) =
      e.e_size - chunk_recycle_leadsize env e (2 ^ k) - size := by
  have hpk : 0 < 2 ^ k := Nat.pow_pos (by decide)
  have hpw : 0 < 2 ^ env.w := Nat.pow_pos (by decide)
  have hC : ALIGNMENT_CEILING env e.e_addr (2 ^ k) =
      (e.e_addr + (2 ^ k - 1)) % 2 ^ env.w - ((e.e_addr + (2 ^ k - 1)) % 2 ^ env.w) % 2 ^ k :=
    ipalloc_ceil_size_eq e.e_addr hk
  have ha : e.e_addr < 2 ^ env.w := by omega
  have hL : chunk_recycle_leadsize env e (2 ^ k) =
      (ALIGNMENT_CEILING env e.e_addr (2 ^ k) + (2 ^ env.w - e.e_addr)) % 2 ^ env.w := by
    unfold chunk_recycle_leadsize sz_sub
    rw [Nat.mod_eq_of_lt ha]
  have hnowrap : e.e_addr + (2 ^ k - 1) < 2 ^ env.w := by
    by_contra hw
    have hx : (e.e_addr + (2 ^ k - 1)) % 2 ^ env.w = e.e_addr + (2 ^ k - 1) - 2 ^ env.w := by
      rw [Nat.mod_eq_sub_mod (by omega), Nat.mod_eq_of_lt (by omega)]
    have hClt : ALIGNMENT_CEILING env e.e_addr (2 ^ k) < e.e_addr := by
      rw [hC, hx]; omega
    rw [Nat.mod_eq_of_lt (by omega)] at hL
    omega
  rw [Nat.mod_eq_of_lt hnowrap] at hC
  obtain ⟨r1, r2, r3⟩ := round_up_least e.e_addr hpk
  rw [← hC] at r1 r2 r3
  have hCle : ALIGNMENT_CEILING env e.e_addr (2 ^ k) < 2 ^ env.w := by
    rw [hC]; omega
  have hL2 : chunk_recycle_leadsize env e (2 ^ k) =
      ALIGNMENT_CEILING env e.e_addr (2 ^ k) - e.e_addr := by
    unfold chunk_recycle_leadsize
    exact sz_sub_of_le r1 hCle
  have hret : chunk_recycle_ret env e (2 ^ k) = ALIGNMENT_CEILING env e.e_addr (2 ^ k) := by
    unfold chunk_recycle_ret
    rw [hL2, sz_add_of_lt (by omega)]
    omega
  refine ⟨?_, ?_, ?_⟩
  · rw [hret]; exact ⟨r1, r2, r3⟩
  · rw [hret, hL2]; omega
  · unfold chunk_recycle_trailsize
    rw [sz_sub_of_le (by omega) hesz, sz_sub_of_le (by omega) (by omega)]

theorem chunk_recycle_finish_ret_trees (T : Trees) (evs : List Event) (held : Option extent_t)
    (dalloc_extent : Bool) (ret size : Nat) (zero commit zeroed : Bool) :
    (chunk_recycle_finish T evs held dalloc_extent ret size zero commit zeroed).ret = ret ∧
      (chunk_recycle_finish T evs held dalloc_extent ret size zero commit zeroed).trees = T :=
  ⟨rfl, rfl⟩

/-- When the range is committed already or the commit hook succeeds, the commit step
returns `ret` and leaves the trees alone. -/
theorem chunk_recycle_commit_ok (env : Env) (T : Trees) (evs : List Event)
    (held : Option extent_t) (cache dalloc_extent : Bool) (ret size : Nat)
    (zero commit zeroed committed : Bool)
    (hc : committed = false → env.commit ret size 0 size = false) :
    (chunk_recycle_commit env T evs held cache dalloc_extent ret size zero commit zeroed
        committed).ret = ret ∧
      (chunk_recycle_commit env T evs held cache dalloc_extent ret size zero commit zeroed
        committed).trees = T := by
  unfold chunk_recycle_commit
  cases committed with
  | true => exact chunk_recycle_finish_ret_trees _ _ _ _ _ _ _ _ _
  | false =>
    simp only [Bool.not_false, if_true, hc rfl, Bool.false_eq_true, if_false]
    exact chunk_recycle_finish_ret_trees _ _ _ _ _ _ _ _ _

/-- When the trail split is accepted, a descriptor is at hand and the commit step
succeeds, the trail step returns `ret` after inserting the trail, if there is one, into
both trees. -/
theorem chunk_recycle_trail_ok (env : Env) (T : Trees) (evs : List Event)
    (held : Option extent_t) (cache dalloc_extent : Bool) (ret size trailsize : Nat)
    (zero commit zeroed committed : Bool) (trail : extent_t)
    (htr : trail = extent_init env.ind (sz_add env.w ret size) trailsize false zeroed committed
      false)
    (hsplit : trailsize ≠ 0 →
      env.split ret (sz_add env.w size trailsize) size trailsize false = false)
    (hdesc : trailsize ≠ 0 → held = none → env.arena_extent_alloc T.nalloc = true)
    (hc : committed = false → env.commit ret size 0 size = false) :
    (chunk_recycle_trail env T evs held cache dalloc_extent ret size trailsize zero commit
        zeroed committed).ret = ret ∧
      (chunk_recycle_trail env T evs held cache dalloc_extent ret size trailsize zero
          commit zeroed committed).trees.szad =
        (if trailsize ≠ 0 then tree_insert extent_szad_comp T.szad trail else T.szad) ∧
      (chunk_recycle_trail env T evs held cache dalloc_extent ret size trailsize zero
          commit zeroed committed).trees.ad =
        (if trailsize ≠ 0 then tree_insert extent_ad_comp T.ad trail else T.ad) := by
  subst htr
  unfold chunk_recycle_trail
  by_cases ht : trailsize = 0
  · rw [if_neg (by simpa using ht), if_neg (by simpa using ht), if_neg (by simpa using ht)]
    obtain ⟨h1, h2⟩ := chunk_recycle_commit_ok env T evs held cache dalloc_extent ret size zero
      commit zeroed committed hc
    rw [h1, h2]
    exact ⟨rfl, rfl, rfl⟩
  · rw [if_pos ht, if_pos ht, if_pos ht]
    simp only [hsplit ht, Bool.false_eq_true, if_false]
    cases held with
    | some d =>
      simp only
      refine ⟨(chunk_recycle_commit_ok env _ _ _ _ _ _ _ _ _ _ _ hc).1, ?_, ?_⟩
      · rw [(chunk_recycle_commit_ok env _ _ _ _ _ _ _ _ _ _ _ hc).2]
        rfl
      · rw [(chunk_recycle_commit_ok env _ _ _ _ _ _ _ _ _ _ _ hc).2]
        rfl
    | none =>
      simp only [hdesc ht rfl, Bool.not_true, Bool.false_eq_true, if_false]
      refine ⟨(chunk_recycle_commit_ok env _ _ _ _ _ _ _ _ _ _ _ hc).1, ?_, ?_⟩
      · rw [(chunk_recycle_commit_ok env _ _ _ _ _ _ _ _ _ _ _ hc).2]
        rfl
      · rw [(chunk_recycle_commit_ok env _ _ _ _ _ _ _ _ _ _ _ hc).2]
        rfl

/-- Membership in a tree from which `e` was removed and into which a lead and a trail were
inserted, each under its condition. -/
theorem mem_recycled_tree (cmp : extent_t → extent_t → Ordering) (t : extent_tree_t)
    (hnd : t.Nodup) (e lead trail x : extent_t) (pL pT : Prop) [Decidable pL] [Decidable pT] :
    x ∈ (if pT then
          tree_insert cmp (if pL then tree_insert cmp (tree_remove t e) lead
            else tree_remove t e) trail
        else (if pL then tree_insert cmp (tree_remove t e) lead else tree_remove t e)) ↔
      (x ∈ t ∧ x ≠ e) ∨ (pL ∧ x = lead) ∨ (pT ∧ x = trail) := by
  by_cases hL : pL <;> by_cases hT : pT <;>
    simp only [hL, hT, if_true, if_false, mem_tree_insert, mem_tree_remove _ _ _ hnd] <;>
    tauto

/-- The trees that a successful `chunk_recycle` leaves, as insertions and removals. -/
theorem chunk_recycle_success_trees (env : Env) (T : Trees) (cache : Bool)
    (new_addr size alignment : Nat) (zero commit dalloc_extent : Bool) (e lead trail : extent_t)
    (hld : lead = { e with e_size := chunk_recycle_leadsize env e alignment })
    (htr : trail = extent_init env.ind (sz_add env.w (chunk_recycle_ret env e alignment) size)
      (chunk_recycle_trailsize env e size alignment) false e.e_zeroed e.e_committed false)
    (halloc : size ≤ chunk_recycle_alloc_size env size alignment)
    (hsel : chunk_recycle_select env T new_addr (chunk_recycle_alloc_size env size alignment) =
      some e)
    (hnew : new_addr ≠ 0 → size ≤ e.e_size)
    (hlead : chunk_recycle_leadsize env e alignment ≠ 0 →
      env.split e.e_addr e.e_size (chunk_recycle_leadsize env e alignment) size false = false)
    (htrail : chunk_recycle_trailsize env e size alignment ≠ 0 →
      env.split (chunk_recycle_ret env e alignment)
        (sz_add env.w size (chunk_recycle_trailsize env e size alignment)) size
        (chunk_recycle_trailsize env e size alignment) false = false)
    (hdesc : chunk_recycle_leadsize env e alignment ≠ 0 →
      chunk_recycle_trailsize env e size alignment ≠ 0 → env.arena_extent_alloc T.nalloc = true)
    (hcommit : e.e_committed = false →
      env.commit (chunk_recycle_ret env e alignment) size 0 size = false) :
    (chunk_recycle env T cache new_addr size alignment zero commit dalloc_extent).ret =
        chunk_recycle_ret env e alignment ∧
      (chunk_recycle env T cache new_addr size alignment zero commit dalloc_extent).trees.szad =
        (if chunk_recycle_trailsize env e size alignment ≠ 0 then
          tree_insert extent_szad_comp
            (if chunk_recycle_leadsize env e alignment ≠ 0 then
              tree_insert extent_szad_comp (tree_remove T.szad e) lead
             else tree_remove T.szad e) trail
         else (if chunk_recycle_leadsize env e alignment ≠ 0 then
              tree_insert extent_szad_comp (tree_remove T.szad e) lead
             else tree_remove T.szad e)) ∧
      (chunk_recycle env T cache new_addr size alignment zero commit dalloc_extent).trees.ad =
        (if chunk_recycle_trailsize env e size alignment ≠ 0 then
          tree_insert extent_ad_comp
            (if chunk_recycle_leadsize env e alignment ≠ 0 then
              tree_insert extent_ad_comp (tree_remove T.ad e) lead
             else tree_remove T.ad e) trail
         else (if chunk_recycle_leadsize env e alignment ≠ 0 then
              tree_insert extent_ad_comp (tree_remove T.ad e) lead
             else tree_remove T.ad e)) := by
  by_cases hL : chunk_recycle_leadsize env e alignment = 0
  · obtain ⟨evs, z1, c1, hcr⟩ : ∃ evs z1 c1,
        chunk_recycle env T cache new_addr size alignment zero commit dalloc_extent =
          chunk_recycle_trail env
            ⟨extent_tree_szad_remove T.szad e, extent_tree_ad_remove T.ad e, T.nalloc⟩ evs
            (some e) cache dalloc_extent (chunk_recycle_ret env e alignment) size
            (chunk_recycle_trailsize env e size alignment) z1 c1 e.e_zeroed e.e_committed := by
      unfold chunk_recycle
      simp only [hsel]
      rw [if_neg (by omega), if_neg (by intro h; have := hnew h.1; omega),
        if_neg (by intro h; exact h.1 hL), if_neg (by simpa using hL)]
      exact ⟨_, _, _, rfl⟩
    obtain ⟨h1, h2, h3⟩ := chunk_recycle_trail_ok env
      ⟨extent_tree_szad_remove T.szad e, extent_tree_ad_remove T.ad e, T.nalloc⟩ evs
      (some e) cache dalloc_extent (chunk_recycle_ret env e alignment) size
      (chunk_recycle_trailsize env e size alignment) z1 c1 e.e_zeroed e.e_committed trail htr
      htrail (by intro _ h; cases h) hcommit
    rw [hcr, h1, h2, h3]
    refine ⟨rfl, ?_, ?_⟩ <;>
      simp [hL, extent_tree_szad_remove, extent_tree_ad_remove]
  · obtain ⟨evs, z1, c1, hcr⟩ : ∃ evs z1 c1,
        chunk_recycle env T cache new_addr size alignment zero commit dalloc_extent =
          chunk_recycle_trail env
            ⟨extent_tree_szad_insert (extent_tree_szad_remove T.szad e) lead,
              extent_tree_ad_insert (extent_tree_ad_remove T.ad e) lead, T.nalloc⟩ evs
            none cache dalloc_extent (chunk_recycle_ret env e alignment) size
            (chunk_recycle_trailsize env e size alignment) z1 c1 e.e_zeroed e.e_committed := by
      unfold chunk_recycle
      simp only [hsel]
      rw [if_neg (by omega), if_neg (by intro h; have := hnew h.1; omega),
        if_neg (by intro h; rw [hlead hL] at h; exact absurd h.2 (by decide)), if_pos hL, hld]
      exact ⟨_, _, _, rfl⟩
    obtain ⟨h1, h2, h3⟩ := chunk_recycle_trail_ok env
      ⟨extent_tree_szad_insert (extent_tree_szad_remove T.szad e) lead,
        extent_tree_ad_insert (extent_tree_ad_remove T.ad e) lead, T.nalloc⟩ evs
      none cache dalloc_extent (chunk_recycle_ret env e alignment) size
      (chunk_recycle_trailsize env e size alignment) z1 c1 e.e_zeroed e.e_committed trail htr
      htrail (fun h _ => hdesc hL h) hcommit
    rw [hcr, h1, h2, h3]
    refine ⟨rfl, ?_, ?_⟩ <;>
      simp [hL, extent_tree_szad_remove, extent_tree_ad_remove, extent_tree_szad_insert,
        extent_tree_ad_insert]

/-- C10: for every successful `chunk_recycle` on a selected extent `e` with base `a` and
size `s_e` (power-of-two alignment, the extent large enough for lead and request, the
split and commit hooks succeed, a descriptor is available): the address returned is `a`
rounded up to the alignment, `leadsize = ret - a`, `trailsize = s_e - leadsize - size`, and
afterwards each tree holds exactly the extents it held before other than `e`, unchanged,
plus the lead `[a, ret)` iff `leadsize != 0` (the old descriptor with its size reduced)
plus the trail `[ret + size, a + s_e)` iff `trailsize != 0` (with the zeroed and committed
flags of `e`); when the extents were disjoint from `e`, none of them intersects
`[ret, ret + size)`. -/
theorem chunk_recycle_success_splits (env : Env) (T : Trees) (cache : Bool)
    (new_addr size alignment : Nat) (zero commit dalloc_extent : Bool) (e : extent_t) (k : Nat)
    (halign : alignment = 2 ^ k) (hk : 2 ^ k < 2 ^ env.w) (hsize : 0 < size)
    (hnd_szad : T.szad.Nodup) (hnd_ad : T.ad.Nodup)
    (hsame : ∀ x, x ∈ T.szad ↔ x ∈ T.ad)
    (hdisj : ∀ x ∈ T.ad, x ≠ e →
      x.e_addr + x.e_size ≤ e.e_addr ∨ e.e_addr + e.e_size ≤ x.e_addr)
    (hesz : e.e_size < 2 ^ env.w) (hbound : e.e_addr + e.e_size ≤ 2 ^ env.w)
    (halloc : size ≤ chunk_recycle_alloc_size env size alignment)
    (hsel : chunk_recycle_select env T new_addr (chunk_recycle_alloc_size env size alignment) =
      some e)
    (hnew : new_addr ≠ 0 → size ≤ e.e_size)
    (hfit : chunk_recycle_leadsize env e alignment + size ≤ e.e_size)
    (hlead : chunk_recycle_leadsize env e alignment ≠ 0 →
      env.split e.e_addr e.e_size (chunk_recycle_leadsize env e alignment) size false = false)
    (htrail : chunk_recycle_trailsize env e size alignment ≠ 0 →
      env.split (chunk_recycle_ret env e alignment)
        (sz_add env.w size (chunk_recycle_trailsize env e size alignment)) size
        (chunk_recycle_trailsize env e size alignment) false = false)
    (hdesc : chunk_recycle_leadsize env e alignment ≠ 0 →
      chunk_recycle_trailsize env e size alignment ≠ 0 → env.arena_extent_alloc T.nalloc = true)
    (hcommit : e.e_committed = false →
      env.commit (chunk_recycle_ret env e alignment) size 0 size = false) :
    (chunk_recycle env T cache new_addr size alignment zero commit dalloc_extent).ret =
        chunk_recycle_ret env e alignment ∧
      (e.e_addr ≤ chunk_recycle_ret env e alignment ∧
        alignment ∣ chunk_recycle_ret env e alignment ∧
        ∀ m, alignment ∣ m → e.e_addr ≤ m → chunk_recycle_ret env e alignment ≤ m) ∧
      chunk_recycle_leadsize env e alignment = chunk_recycle_ret env e alignment - e.e_addr ∧
      chunk_recycle_trailsize env e size alignment =
        e.e_size - chunk_recycle_leadsize env e alignment - size ∧
      (∀ x, x ∈ (chunk_recycle env T cache new_addr size alignment zero commit
            dalloc_extent).trees.szad ↔
          (x ∈ T.szad ∧ x ≠ e) ∨
          (chunk_recycle_leadsize env e alignment ≠ 0 ∧
            x = { e with e_size := chunk_recycle_leadsize env e alignment }) ∨
          (chunk_recycle_trailsize env e size alignment ≠ 0 ∧
            x = extent_init env.ind (chunk_recycle_ret env e alignment + size)
              (chunk_recycle_trailsize env e size alignment) false e.e_zeroed e.e_committed
              false)) ∧
      (∀ x, x ∈ (chunk_recycle env T cache new_addr size alignment zero commit
            dalloc_extent).trees.ad ↔
          (x ∈ T.ad ∧ x ≠ e) ∨
          (chunk_recycle_leadsize env e alignment ≠ 0 ∧
            x = { e with e_size := chunk_recycle_leadsize env e alignment }) ∨
          (chunk_recycle_trailsize env e size alignment ≠ 0 ∧
            x = extent_init env.ind (chunk_recycle_ret env e alignment + size)
              (chunk_recycle_trailsize env e size alignment) false e.e_zeroed e.e_committed
              false)) ∧
      (∀ x, (x ∈ (chunk_recycle env T cache new_addr size alignment zero commit
              dalloc_extent).trees.szad ∨
            x ∈ (chunk_recycle env T cache new_addr size alignment zero commit
              dalloc_extent).trees.ad) →
          x.e_addr + x.e_size ≤ chunk_recycle_ret env e alignment ∨
            chunk_recycle_ret env e alignment + size ≤ x.e_addr) := by
  subst halign
  obtain ⟨hround, hret, htr⟩ := chunk_recycle_arith env e size k hk hsize hesz hbound hfit
  obtain ⟨lead, hld⟩ : ∃ lead : extent_t,
      lead = { e with e_size := chunk_recycle_leadsize env e (2 ^ k) } := ⟨_, rfl⟩
  obtain ⟨trail, htl⟩ : ∃ trail : extent_t,
      trail = extent_init env.ind (sz_add env.w (chunk_recycle_ret env e (2 ^ k)) size)
        (chunk_recycle_trailsize env e size (2 ^ k)) false e.e_zeroed e.e_committed false :=
    ⟨_, rfl⟩
  obtain ⟨k1, k2, k3⟩ := chunk_recycle_success_trees env T cache new_addr size (2 ^ k) zero
    commit dalloc_extent e lead trail hld htl halloc hsel hnew hlead htrail hdesc hcommit
  have htl2 : chunk_recycle_trailsize env e size (2 ^ k) ≠ 0 →
      trail = extent_init env.ind (chunk_recycle_ret env e (2 ^ k) + size)
        (chunk_recycle_trailsize env e size (2 ^ k)) false e.e_zeroed e.e_committed false := by
    intro h
    rw [htl, sz_add_of_lt (by omega)]
  have htrail_iff : ∀ x, (chunk_recycle_trailsize env e size (2 ^ k) ≠ 0 ∧ x = trail) ↔
      (chunk_recycle_trailsize env e size (2 ^ k) ≠ 0 ∧
        x = extent_init env.ind (chunk_recycle_ret env e (2 ^ k) + size)
          (chunk_recycle_trailsize env e size (2 ^ k)) false e.e_zeroed e.e_committed false) := by
    intro x
    constructor
    · rintro ⟨h, rfl⟩; exact ⟨h, htl2 h⟩
    · rintro ⟨h, rfl⟩; exact ⟨h, (htl2 h).symm⟩
  have m1 : ∀ x, x ∈ (chunk_recycle env T cache new_addr size (2 ^ k) zero commit
        dalloc_extent).trees.szad ↔
      (x ∈ T.szad ∧ x ≠ e) ∨ (chunk_recycle_leadsize env e (2 ^ k) ≠ 0 ∧ x = lead) ∨
        (chunk_recycle_trailsize env e size (2 ^ k) ≠ 0 ∧ x = trail) := by
    intro x
    rw [k2]
    exact mem_recycled_tree _ _ hnd_szad _ _ _ _ _ _
  have m2 : ∀ x, x ∈ (chunk_recycle env T cache new_addr size (2 ^ k) zero commit
        dalloc_extent).trees.ad ↔
      (x ∈ T.ad ∧ x ≠ e) ∨ (chunk_recycle_leadsize env e (2 ^ k) ≠ 0 ∧ x = lead) ∨
        (chunk_recycle_trailsize env e size (2 ^ k) ≠ 0 ∧ x = trail) := by
    intro x
    rw [k3]
    exact mem_recycled_tree _ _ hnd_ad _ _ _ _ _ _
  have hall : ∀ x, ((x ∈ T.ad ∧ x ≠ e) ∨
      (chunk_recycle_leadsize env e (2 ^ k) ≠ 0 ∧ x = lead) ∨
      (chunk_recycle_trailsize env e size (2 ^ k) ≠ 0 ∧ x = trail)) →
      x.e_addr + x.e_size ≤ chunk_recycle_ret env e (2 ^ k) ∨
        chunk_recycle_ret env e (2 ^ k) + size ≤ x.e_addr := by
    rintro x (⟨hx, hne⟩ | ⟨_, rfl⟩ | ⟨h, rfl⟩)
    · rcases hdisj x hx hne with h | h
      · left; omega
      · right; omega
    · left; rw [hld]; simp only; omega
    · right; rw [htl2 h]; simp only [extent_init]; omega
  refine ⟨k1, hround, by omega, htr, ?_, ?_, ?_⟩
  · intro x
    rw [m1 x, htrail_iff x, hld]
  · intro x
    rw [m2 x, htrail_iff x, hld]
  · intro x hx
    apply hall
    rcases hx with hx | hx
    · rcases (m1 x).mp hx with ⟨h, hne⟩ | h | h
      · exact Or.inl ⟨(hsame x).mp h, hne⟩
      · exact Or.inr (Or.inl h)
      · exact Or.inr (Or.inr h)
    · exact (m2 x).mp hx

/-- C10 witness: 2 MiB aligned to 8 MiB are recycled from the 16 MiB extent at 18 MiB,
leaving a 6 MiB lead and an 8 MiB trail. -/
theorem chunk_recycle_success_splits_witness :
    (chunk_recycle ex_env ex_trees true 0 0x200000 0x800000 false true true).ret =
        chunk_recycle_ret ex_env (ex_extent 0x1200000 0x1000000) 0x800000 ∧
      chunk_recycle_ret ex_env (ex_extent 0x1200000 0x1000000) 0x800000 = 0x1800000 ∧
      chunk_recycle_leadsize ex_env (ex_extent 0x1200000 0x1000000) 0x800000 = 0x600000 ∧
      chunk_recycle_trailsize ex_env (ex_extent 0x1200000 0x1000000) 0x200000 0x800000 =
        0x800000 :=
  ⟨(chunk_recycle_success_splits ex_env ex_trees true 0 0x200000 0x800000 false true true
      (ex_extent 0x1200000 0x1000000) 23 (by decide) (by decide) (by decide) (by decide)
      (by decide) (fun _ => Iff.rfl) (by decide) (by decide) (by decide) (by decide)
      (by decide) (fun h => absurd rfl h) (by decide) (fun _ => rfl) (fun _ => rfl)
      (fun _ _ => rfl) (fun _ => rfl)).1,
    by decide, by decide, by decide⟩

end Chunk

/-! ## `chunk.c`: recording a range, descriptor failure and deallocation -/

namespace Chunk

/-- C15 (amended): whenever `chunk_record` cannot coalesce forward and the descriptor
allocation fails, the range `[chunk, chunk + size)` is dropped: both trees are left exactly
as before the call. When the range was being recorded into the cached trees (`cache`
true), the purge hook is applied to the whole range as the last effect before the mutex is
released and `chunk_record` returns; when it was being recorded into the retained trees
(`cache` false), no purge is performed. -/
theorem chunk_record_drops_on_descriptor_failure (env : Env) (T : Trees) (cache : Bool)
    (chunk size : Nat) (zeroed committed : Bool)
    (hfwd : ∀ x, extent_tree_ad_nsearch T.ad
        (extent_init env.ind (sz_add env.w chunk size) 0 false false false false) = some x →
      ¬ (x.e_addr = sz_add env.w chunk size ∧ x.e_committed = committed ∧
        env.merge chunk size x.e_addr x.e_size false = false))
    (hdesc : env.arena_extent_alloc T.nalloc = false) :
    (chunk_record env T cache chunk size zeroed committed).1.szad = T.szad ∧
      (chunk_record env T cache chunk size zeroed committed).1.ad = T.ad ∧
      (cache = true → ∃ evs, (chunk_record env T cache chunk size zeroed committed).2 =
        evs ++ [Event.purge chunk size 0 size, Event.mutex_unlock_chunks_mtx]) ∧
      (cache = false → ∀ e ∈ (chunk_record env T cache chunk size zeroed committed).2,
        ∀ a b c d, e ≠ Event.purge a b c d) := by
  unfold chunk_record
  simp only
  cases hf : extent_tree_ad_nsearch T.ad
      (extent_init env.ind (sz_add env.w chunk size) 0 false false false false) with
  | none =>
    simp only [hdesc, Bool.not_false, if_true]
    cases cache
    · simp
    · refine ⟨rfl, rfl, fun _ => ⟨[Event.mutex_lock_chunks_mtx, Event.arena_extent_alloc], rfl⟩,
        fun h => by cases h⟩
  | some x =>
    have hx := hfwd x hf
    by_cases h1 : x.e_addr =
        (extent_init env.ind (sz_add env.w chunk size) 0 false false false false).e_addr ∧
        x.e_committed = committed
    · have hm : env.merge chunk size x.e_addr x.e_size false = true := by
        cases hmg : env.merge chunk size x.e_addr x.e_size false
        · exact absurd ⟨h1.1, h1.2, hmg⟩ hx
        · rfl
      simp only [if_pos h1, hm, Bool.not_true, Bool.false_eq_true, if_false, hdesc,
        Bool.not_false, if_true]
      cases cache
      · simp
      · refine ⟨rfl, rfl, fun _ => ⟨[Event.mutex_lock_chunks_mtx,
          Event.merge chunk size x.e_addr x.e_size false, Event.arena_extent_alloc], rfl⟩,
          fun h => by cases h⟩
    · simp only [if_neg h1, hdesc, Bool.not_false, if_true]
      cases cache
      · simp
      · refine ⟨rfl, rfl, fun _ => ⟨[Event.mutex_lock_chunks_mtx, Event.arena_extent_alloc], rfl⟩,
          fun h => by cases h⟩

/-- C15 witness: recording into the cached trees with no descriptor to be had. -/
theorem chunk_record_drops_on_descriptor_failure_witness :
    (chunk_record ex_env_fail ex_trees true 0x4000000 0x200000 false false).1.szad =
        ex_trees.szad ∧
      (chunk_record ex_env_fail ex_trees true 0x4000000 0x200000 false false).1.ad =
        ex_trees.ad :=
  ⟨(chunk_record_drops_on_descriptor_failure ex_env_fail ex_trees true 0x4000000 0x200000
      false false
      (by
        intro x h
        have hn : extent_tree_ad_nsearch ex_trees.ad
            (extent_init ex_env_fail.ind (sz_add ex_env_fail.w 0x4000000 0x200000) 0 false false
              false false) = none := by decide
        rw [hn] at h
        cases h)
      rfl).1,
    by decide⟩

/-- C15 as stated fails: recording into the retained trees (`cache` false) with nothing to
coalesce forward with and no descriptor to be had drops the range without applying the
purge hook. -/
theorem chunk_record_drops_on_descriptor_failure_counterexample :
    extent_tree_ad_nsearch ex_trees.ad
        (extent_init ex_env_fail.ind (sz_add ex_env_fail.w 0x4000000 0x200000) 0 false false
          false false) = none ∧
      ex_env_fail.arena_extent_alloc ex_trees.nalloc = false ∧
      chunk_record ex_env_fail ex_trees false 0x4000000 0x200000 false false =
        (⟨ex_trees.szad, ex_trees.ad, 1⟩,
          [Event.mutex_lock_chunks_mtx, Event.arena_extent_alloc,
            Event.mutex_unlock_chunks_mtx]) :=
  ⟨by decide, rfl, by decide⟩

theorem mem_tree_update (t : extent_tree_t) (old new y : extent_t)
    (h : y ∈ tree_update t old new) : y = new ∨ y ∈ t := by
  unfold tree_update at h
  rw [List.mem_map] at h
  obtain ⟨a, ha, rfl⟩ := h
  split
  · exact Or.inl rfl
  · exact Or.inr ha

theorem mem_of_mem_tree_remove (t : extent_tree_t) (e y : extent_t)
    (h : y ∈ tree_remove t e) : y ∈ t :=
  List.mem_of_mem_erase h

/-- Every extent in the trees after the backward half of `chunk_record` was there before
or carries the committed flag of the extent that holds the recorded range. -/
theorem chunk_record_backward_committed (env : Env) (T : Trees) (evs : List Event)
    (cache : Bool) (chunk size : Nat) (committed : Bool) (extent : extent_t)
    (hE : extent.e_committed = committed) (y : extent_t) :
    (y ∈ (chunk_record_backward env T evs cache chunk size committed extent).1.ad →
        y ∈ T.ad ∨ y.e_committed = committed) ∧
      (y ∈ (chunk_record_backward env T evs cache chunk size committed extent).1.szad →
        y ∈ T.szad ∨ y.e_committed = committed) := by
  unfold chunk_record_backward
  cases extent_tree_ad_prev T.ad extent with
  | none => exact ⟨Or.inl, Or.inl⟩
  | some prev =>
    simp only
    by_cases h1 : sz_add env.w prev.e_addr prev.e_size = chunk ∧ prev.e_committed = committed
    · rw [if_pos h1]
      cases hm : env.merge prev.e_addr prev.e_size chunk size false
      · simp only [Bool.not_false, if_true]
        constructor
        · intro h
          rcases mem_tree_update _ _ _ _ h with rfl | h'
          · exact Or.inr hE
          · exact Or.inl (mem_of_mem_tree_remove _ _ _ h')
        · intro h
          rcases (mem_tree_insert _ _ _ _).mp h with rfl | h'
          · exact Or.inr hE
          · exact Or.inl (mem_of_mem_tree_remove _ _ _ (mem_of_mem_tree_remove _ _ _ h'))
      · simp only [Bool.not_true, Bool.false_eq_true, if_false]
        exact ⟨Or.inl, Or.inl⟩
    · rw [if_neg h1]
      exact ⟨Or.inl, Or.inl⟩

/-- Every extent in the trees after `chunk_record` was there before or carries the
committed flag of the recorded range. -/
theorem chunk_record_committed (env : Env) (T : Trees) (cache : Bool) (chunk size : Nat)
    (zeroed committed : Bool) (y : extent_t) :
    (y ∈ (chunk_record env T cache chunk size zeroed committed).1.ad →
        y ∈ T.ad ∨ y.e_committed = committed) ∧
      (y ∈ (chunk_record env T cache chunk size zeroed committed).1.szad →
        y ∈ T.szad ∨ y.e_committed = committed) := by
  have hfwd : ∀ (x : extent_t) (evs : List Event), x.e_committed = committed →
      (y ∈ (chunk_record_backward env
          ⟨extent_tree_szad_insert (extent_tree_szad_remove T.szad x)
              { x with e_addr := chunk, e_size := sz_add env.w size x.e_size,
                       e_zeroed := x.e_zeroed && !(cache || !zeroed) },
            tree_update T.ad x
              { x with e_addr := chunk, e_size := sz_add env.w size x.e_size,
                       e_zeroed := x.e_zeroed && !(cache || !zeroed) }, T.nalloc⟩
          evs cache chunk size committed
          { x with e_addr := chunk, e_size := sz_add env.w size x.e_size,
                   e_zeroed := x.e_zeroed && !(cache || !zeroed) }).1.ad →
        y ∈ T.ad ∨ y.e_committed = committed) ∧
      (y ∈ (chunk_record_backward env
          ⟨extent_tree_szad_insert (extent_tree_szad_remove T.szad x)
              { x with e_addr := chunk, e_size := sz_add env.w size x.e_size,
                       e_zeroed := x.e_zeroed && !(cache || !zeroed) },
            tree_update T.ad x
              { x with e_addr := chunk, e_size := sz_add env.w size x.e_size,
                       e_zeroed := x.e_zeroed && !(cache || !zeroed) }, T.nalloc⟩
          evs cache chunk size committed
          { x with e_addr := chunk, e_size := sz_add env.w size x.e_size,
                   e_zeroed := x.e_zeroed && !(cache || !zeroed) }).1.szad →
        y ∈ T.szad ∨ y.e_committed = committed) := by
    intro x evs hx
    obtain ⟨b1, b2⟩ := chunk_record_backward_committed env
      ⟨extent_tree_szad_insert (extent_tree_szad_remove T.szad x)
          { x with e_addr := chunk, e_size := sz_add env.w size x.e_size,
                   e_zeroed := x.e_zeroed && !(cache || !zeroed) },
        tree_update T.ad x
          { x with e_addr := chunk, e_size := sz_add env.w size x.e_size,
                   e_zeroed := x.e_zeroed && !(cache || !zeroed) }, T.nalloc⟩
      evs cache chunk size committed
      { x with e_addr := chunk, e_size := sz_add env.w size x.e_size,
               e_zeroed := x.e_zeroed && !(cache || !zeroed) } hx y
    constructor
    · intro h
      rcases b1 h with h' | h'
      · rcases mem_tree_update _ _ _ _ h' with rfl | h''
        · exact Or.inr hx
        · exact Or.inl h''
      · exact Or.inr h'
    · intro h
      rcases b2 h with h' | h'
      · rcases (mem_tree_insert _ _ _ _).mp h' with rfl | h''
        · exact Or.inr hx
        · exact Or.inl (mem_of_mem_tree_remove _ _ _ h'')
      · exact Or.inr h'
  have hnew : ∀ (evs : List Event),
      (y ∈ (chunk_record_backward env
          ⟨extent_tree_szad_insert T.szad
              (extent_init env.ind chunk size false (!(cache || !zeroed)) committed false),
            extent_tree_ad_insert T.ad
              (extent_init env.ind chunk size false (!(cache || !zeroed)) committed false),
            T.nalloc + 1⟩
          evs cache chunk size committed
          (extent_init env.ind chunk size false (!(cache || !zeroed)) committed false)).1.ad →
        y ∈ T.ad ∨ y.e_committed = committed) ∧
      (y ∈ (chunk_record_backward env
          ⟨extent_tree_szad_insert T.szad
              (extent_init env.ind chunk size false (!(cache || !zeroed)) committed false),
            extent_tree_ad_insert T.ad
              (extent_init env.ind chunk size false (!(cache || !zeroed)) committed false),
            T.nalloc + 1⟩
          evs cache chunk size committed
          (extent_init env.ind chunk size false (!(cache || !zeroed)) committed false)).1.szad →
        y ∈ T.szad ∨ y.e_committed = committed) := by
    intro evs
    obtain ⟨b1, b2⟩ := chunk_record_backward_committed env
      ⟨extent_tree_szad_insert T.szad
          (extent_init env.ind chunk size false (!(cache || !zeroed)) committed false),
        extent_tree_ad_insert T.ad
          (extent_init env.ind chunk size false (!(cache || !zeroed)) committed false),
        T.nalloc + 1⟩
      evs cache chunk size committed
      (extent_init env.ind chunk size false (!(cache || !zeroed)) committed false) rfl y
    constructor
    · intro h
      rcases b1 h with h' | h'
      · rcases (mem_tree_insert _ _ _ _).mp h' with rfl | h''
        · exact Or.inr rfl
        · exact Or.inl h''
      · exact Or.inr h'
    · intro h
      rcases b2 h with h' | h'
      · rcases (mem_tree_insert _ _ _ _).mp h' with rfl | h''
        · exact Or.inr rfl
        · exact Or.inl h''
      · exact Or.inr h'
  unfold chunk_record
  simp only
  cases hf : extent_tree_ad_nsearch T.ad
      (extent_init env.ind (sz_add env.w chunk size) 0 false false false false) with
  | none =>
    simp only
    cases hd : env.arena_extent_alloc T.nalloc
    · simp only [Bool.not_false, if_true]
      cases cache <;> exact ⟨Or.inl, Or.inl⟩
    · simp only [Bool.not_true, Bool.false_eq_true, if_false]
      exact hnew _
  | some x =>
    by_cases h1 : x.e_addr =
        (extent_init env.ind (sz_add env.w chunk size) 0 false false false false).e_addr ∧
        x.e_committed = committed
    · simp only [if_pos h1]
      cases hm : env.merge chunk size x.e_addr x.e_size false
      · simp only [Bool.not_false, if_true]
        exact hfwd x _ h1.2
      · simp only [Bool.not_true, Bool.false_eq_true, if_false]
        cases hd : env.arena_extent_alloc T.nalloc
        · simp only [Bool.not_false, if_true]
          cases cache <;> exact ⟨Or.inl, Or.inl⟩
        · simp only [Bool.not_true, Bool.false_eq_true, if_false]
          exact hnew _
    · simp only [if_neg h1]
      cases hd : env.arena_extent_alloc T.nalloc
      · simp only [Bool.not_false, if_true]
        cases cache <;> exact ⟨Or.inl, Or.inl⟩
      · simp only [Bool.not_true, Bool.false_eq_true, if_false]
        exact hnew _

/-- C16 (amended): when the dalloc hook succeeds (answers false) `chunk_dalloc_wrapper`
records nothing and leaves `stats.retained` unchanged. Otherwise every extent it puts into
the retained trees carries the committed flag left by the decommit attempt: false when the
range was not committed or the decommit hook succeeds, but true when the range was committed
and the decommit hook fails (the range is then purged instead). -/
theorem chunk_dalloc_wrapper_records (env : Env) (retained : Trees) (stats_retained : Nat)
    (chunk size : Nat) (zeroed committed : Bool) :
    (env.dalloc chunk size committed = false →
        chunk_dalloc_wrapper env retained stats_retained chunk size zeroed committed =
          (retained, stats_retained, [Event.dalloc chunk size committed])) ∧
      (env.dalloc chunk size committed = true →
        (∀ y, y ∈ (chunk_dalloc_wrapper env retained stats_retained chunk size zeroed
              committed).1.ad →
            y ∈ retained.ad ∨
              y.e_committed = (committed && env.decommit chunk size 0 size)) ∧
          (∀ y, y ∈ (chunk_dalloc_wrapper env retained stats_retained chunk size zeroed
              committed).1.szad →
            y ∈ retained.szad ∨
              y.e_committed = (committed && env.decommit chunk size 0 size))) := by
  constructor
  · intro h
    unfold chunk_dalloc_wrapper
    simp [h]
  · intro h
    have hc : (if committed then env.decommit chunk size 0 size else committed) =
        (committed && env.decommit chunk size 0 size) := by
      cases committed <;> simp
    unfold chunk_dalloc_wrapper
    simp only [h, Bool.not_true, Bool.false_eq_true, if_false, hc]
    exact ⟨fun y => (chunk_record_committed env retained false chunk size _ _ y).1,
      fun y => (chunk_record_committed env retained false chunk size _ _ y).2⟩

/-- C16 witness: with a decommit hook that succeeds the recorded extent is not committed. -/
theorem chunk_dalloc_wrapper_records_witness :
    (∀ y, y ∈ (chunk_dalloc_wrapper ex_env ex_empty 0 0x4000000 0x200000 false true).1.ad →
        y ∈ ex_empty.ad ∨ y.e_committed = (true && ex_env.decommit 0x4000000 0x200000 0 0x200000)) ∧
      (chunk_dalloc_wrapper ex_env ex_empty 0 0x4000000 0x200000 false true).1.ad =
        [⟨0, 0x4000000, 0x200000, false, true, false, false⟩] :=
  ⟨((chunk_dalloc_wrapper_records ex_env ex_empty 0 0x4000000 0x200000 false true).2 rfl).1,
    by decide⟩

/-- C16 as stated fails: when the dalloc hook and the decommit hook both fail, the committed
range is recorded into the retained trees with its committed flag still set. -/
theorem chunk_dalloc_wrapper_records_counterexample :
    ex_env_nodecommit.dalloc 0x4000000 0x200000 true = true ∧
      ex_env_nodecommit.decommit 0x4000000 0x200000 0 0x200000 = true ∧
      (chunk_dalloc_wrapper ex_env_nodecommit ex_empty 0 0x4000000 0x200000 false true).1.ad =
        [⟨0, 0x4000000, 0x200000, false, true, true, false⟩] ∧
      (chunk_dalloc_wrapper ex_env_nodecommit ex_empty 0 0x4000000 0x200000 false true).1.szad =
        [⟨0, 0x4000000, 0x200000, false, true, true, false⟩] :=
  ⟨rfl, rfl, by decide, by decide⟩

end Chunk

/-! ## `chunk.c`: recording keeps the trees an ordered disjoint cover -/

namespace Chunk

theorem ad_comp_lt_iff (a b : extent_t) :
    extent_ad_comp a b = Ordering.lt ↔ a.e_addr < b.e_addr := by
  unfold extent_ad_comp
  by_cases h1 : a.e_addr < b.e_addr
  · simp [h1]
  · by_cases h2 : b.e_addr < a.e_addr <;> simp [h1, h2]

theorem pairwise_tree_insert (t : extent_tree_t) (e : extent_t)
    (ht : t.Pairwise extent_before)
    (hd : ∀ z ∈ t, extent_before z e ∨ extent_before e z) (he : 0 < e.e_size) :
    (tree_insert extent_ad_comp t e).Pairwise extent_before := by
  induction t with
  | nil => simp [tree_insert]
  | cons x t ih =>
    rw [List.pairwise_cons] at ht
    unfold tree_insert
    by_cases hlt : extent_ad_comp e x = Ordering.lt
    · rw [if_pos hlt]
      rw [ad_comp_lt_iff] at hlt
      rw [List.pairwise_cons]
      refine ⟨?_, List.pairwise_cons.mpr ht⟩
      intro z hz
      rcases hd z hz with h | h
      · exfalso
        unfold extent_before at h
        rcases List.mem_cons.mp hz with rfl | hz2
        · omega
        · have := ht.1 z hz2
          unfold extent_before at this
          omega
      · exact h
    · rw [if_neg hlt]
      rw [ad_comp_lt_iff] at hlt
      rw [List.pairwise_cons]
      refine ⟨?_, ih ht.2 (fun z hz => hd z (List.mem_cons_of_mem _ hz))⟩
      intro z hz
      rcases (mem_tree_insert _ _ _ _).mp hz with rfl | hz2
      · rcases hd x (List.mem_cons_self _ _) with h | h
        · exact h
        · unfold extent_before at h
          omega
      · exact ht.1 z hz2

theorem pairwise_tree_update (t : extent_tree_t) (x y : extent_t)
    (ht : t.Pairwise extent_before) (hpos : ∀ z ∈ t, 0 < z.e_size)
    (hxy : ∀ z ∈ t, z ≠ x →
      (extent_before z x → extent_before z y) ∧ (extent_before x z → extent_before y z)) :
    (tree_update t x y).Pairwise extent_before := by
  unfold tree_update
  rw [List.pairwise_map]
  apply ht.imp_of_mem
  intro a b ha hb hab
  by_cases h1 : a = x
  · by_cases h2 : b = x
    · exfalso
      rw [h1, h2] at hab
      have := hpos x (h1 ▸ ha)
      unfold extent_before at hab
      omega
    · rw [if_pos h1, if_neg h2]
      exact (hxy b hb h2).2 (h1 ▸ hab)
  · by_cases h2 : b = x
    · rw [if_neg h1, if_pos h2]
      exact (hxy a ha h1).1 (h2 ▸ hab)
    · rw [if_neg h1, if_neg h2]
      exact hab

theorem mem_tree_update_iff (t : extent_tree_t) (x y z : extent_t) (hx : x ∈ t) :
    z ∈ tree_update t x y ↔ z = y ∨ (z ∈ t ∧ z ≠ x) := by
  unfold tree_update
  rw [List.mem_map]
  constructor
  · rintro ⟨a, ha, rfl⟩
    by_cases h : a = x
    · left
      rw [if_pos h]
    · right
      rw [if_neg h]
      exact ⟨ha, h⟩
  · rintro (rfl | ⟨hz, hne⟩)
    · exact ⟨x, hx, by rw [if_pos rfl]⟩
    · exact ⟨z, hz, by rw [if_neg hne]⟩

theorem nodup_tree_insert (cmp : extent_t → extent_t → Ordering) (t : extent_tree_t)
    (e : extent_t) (ht : t.Nodup) (he : e ∉ t) : (tree_insert cmp t e).Nodup := by
  induction t with
  | nil => simp [tree_insert]
  | cons x t ih =>
    rw [List.nodup_cons] at ht
    unfold tree_insert
    split
    · exact List.nodup_cons.mpr ⟨he, List.nodup_cons.mpr ht⟩
    · rw [List.nodup_cons]
      refine ⟨?_, ih ht.2 (fun h => he (List.mem_cons_of_mem _ h))⟩
      intro hx
      rcases (mem_tree_insert _ _ _ _).mp hx with rfl | h
      · exact he (List.mem_cons_self _ _)
      · exact ht.1 h

theorem nodup_of_pairwise_before (t : extent_tree_t) (ht : t.Pairwise extent_before)
    (hpos : ∀ z ∈ t, 0 < z.e_size) : t.Nodup := by
  unfold List.Nodup
  apply ht.imp_of_mem
  intro a b ha _ hab h
  rw [← h] at hab
  have := hpos a ha
  unfold extent_before at hab
  omega

theorem before_or_of_mem (t : extent_tree_t) (ht : t.Pairwise extent_before)
    (a b : extent_t) (ha : a ∈ t) (hb : b ∈ t) (hne : a ≠ b) :
    extent_before a b ∨ extent_before b a := by
  have hs : t.Pairwise (fun a b => extent_before a b ∨ extent_before b a) :=
    ht.imp (fun h => Or.inl h)
  exact hs.forall (fun _ _ h => h.symm) ha hb hne

/-- In an ordered tree the greatest node that passes a test, below which every node that
comes later fails it, is the last node that passes. -/
theorem getLast_filter_sorted (q : extent_t → Bool) (p : extent_t) :
    ∀ t : extent_tree_t, t.Pairwise extent_before → p ∈ t → q p = true →
      (∀ z ∈ t, extent_before p z → q z = false) → (t.filter q).getLast? = some p := by
  intro t
  induction t with
  | nil => intro _ hp; simp at hp
  | cons a t ih =>
    intro ht hp hq hz
    rw [List.pairwise_cons] at ht
    rcases List.mem_cons.mp hp with rfl | hp2
    · have hnone : t.filter q = [] := by
        rw [List.filter_eq_nil_iff]
        intro z hzt
        rw [hz z (List.mem_cons_of_mem _ hzt) (ht.1 z hzt)]
        simp
      simp [List.filter_cons, hq, hnone]
    · have h1 := ih ht.2 hp2 hq (fun z hzt => hz z (List.mem_cons_of_mem _ hzt))
      rw [List.filter_cons]
      split
      · cases hf : t.filter q with
        | nil => rw [hf] at h1; simp at h1
        | cons b r =>
          rw [hf] at h1
          rw [List.getLast?_cons_cons]
          exact h1
      · exact h1

end Chunk

namespace Chunk

theorem prev_mem (t : extent_tree_t) (E p : extent_t)
    (h : extent_tree_ad_prev t E = some p) : p ∈ t ∧ p.e_addr < E.e_addr := by
  unfold extent_tree_ad_prev tree_prev at h
  have h1 := List.mem_of_getLast?_eq_some h
  rw [List.mem_filter] at h1
  refine ⟨h1.1, ?_⟩
  have h2 := h1.2
  simp only [decide_eq_true_eq] at h2
  exact (ad_comp_lt_iff p E).mp h2

/-- The predecessor search finds the node whose range ends where the range of `E` begins. -/
theorem prev_complete (t : extent_tree_t) (E p : extent_t) (ht : t.Pairwise extent_before)
    (hpos : ∀ z ∈ t, 0 < z.e_size) (hp : p ∈ t) (hpe : p.e_addr + p.e_size = E.e_addr) :
    extent_tree_ad_prev t E = some p := by
  unfold extent_tree_ad_prev tree_prev
  apply getLast_filter_sorted _ p t ht hp
  · have := hpos p hp
    simp only [decide_eq_true_eq]
    rw [ad_comp_lt_iff]
    omega
  · intro z _ hb
    unfold extent_before at hb
    simp only [decide_eq_false_iff_not]
    rw [ad_comp_lt_iff]
    omega

/-- The trees after a backward merge of `E` with its predecessor `p`. -/
theorem backward_merge_eq (env : Env) (T : Trees) (evs : List Event) (cache : Bool)
    (chunk size : Nat) (committed : Bool) (E p : extent_t)
    (hprev : extent_tree_ad_prev T.ad E = some p)
    (hcond : sz_add env.w p.e_addr p.e_size = chunk ∧ p.e_committed = committed)
    (hm : env.merge p.e_addr p.e_size chunk size false = false) :
    ∃ m2 : extent_t, m2.e_addr = p.e_addr ∧ m2.e_size = sz_add env.w p.e_size E.e_size ∧
      (chunk_record_backward env T evs cache chunk size committed E).1 =
        ⟨extent_tree_szad_insert
            (extent_tree_szad_remove (extent_tree_szad_remove T.szad p) E) m2,
          tree_update (extent_tree_ad_remove T.ad p) E m2, T.nalloc⟩ := by
  unfold chunk_record_backward
  simp only [hprev, if_pos hcond, hm, Bool.not_false, if_true]
  refine ⟨_, ?_, ?_, rfl⟩ <;> rfl

/-- The trees when no backward merge takes place. -/
theorem backward_keep_eq (env : Env) (T : Trees) (evs : List Event) (cache : Bool)
    (chunk size : Nat) (committed : Bool) (E : extent_t)
    (h : ∀ p, extent_tree_ad_prev T.ad E = some p →
      ¬ ((sz_add env.w p.e_addr p.e_size = chunk ∧ p.e_committed = committed) ∧
        env.merge p.e_addr p.e_size chunk size false = false)) :
    (chunk_record_backward env T evs cache chunk size committed E).1 = T := by
  unfold chunk_record_backward
  cases hprev : extent_tree_ad_prev T.ad E with
  | none => rfl
  | some p =>
    simp only
    by_cases hcond : sz_add env.w p.e_addr p.e_size = chunk ∧ p.e_committed = committed
    · rw [if_pos hcond]
      cases hm : env.merge p.e_addr p.e_size chunk size false
      · exact absurd ⟨hcond, hm⟩ (h p hprev)
      · rfl
    · rw [if_neg hcond]

end Chunk

namespace Chunk

/-- Replacing an extent `E` and the extent `p` that ends where `E` begins by one extent over
both ranges keeps the invariant and the covered addresses. -/
theorem merge_prev_wf (w : Nat) (T : Trees) (E p m2 : extent_t) (n : Nat)
    (hT : T.ordered_disjoint w) (hE : E ∈ T.ad) (hp : p ∈ T.ad)
    (hpe : p.e_addr + p.e_size = E.e_addr)
    (ha : m2.e_addr = p.e_addr) (hs : m2.e_size = p.e_size + E.e_size) :
    (Trees.mk (tree_insert extent_szad_comp (tree_remove (tree_remove T.szad p) E) m2)
        (tree_update (tree_remove T.ad p) E m2) n).ordered_disjoint w ∧
      (∀ z, z ∈ tree_update (tree_remove T.ad p) E m2 ↔
        z = m2 ∨ (z ∈ T.ad ∧ z ≠ p ∧ z ≠ E)) ∧
      (∀ a, tree_covers (tree_update (tree_remove T.ad p) E m2) a ↔ tree_covers T.ad a) := by
  obtain ⟨hpw, hb, hnd, h1, h2⟩ := hT
  have hpos : ∀ z ∈ T.ad, 0 < z.e_size := fun z hz => (hb z hz).2.1
  have hndad : T.ad.Nodup := nodup_of_pairwise_before T.ad hpw hpos
  have hEpos := hpos E hE
  have hppos := hpos p hp
  have hpE : p ≠ E := by
    intro h
    rw [h] at hpe
    omega
  have hEin : E ∈ tree_remove T.ad p := (mem_tree_remove _ _ _ hndad).mpr ⟨hE, Ne.symm hpE⟩
  have hmem : ∀ z, z ∈ tree_update (tree_remove T.ad p) E m2 ↔
      z = m2 ∨ (z ∈ T.ad ∧ z ≠ p ∧ z ≠ E) := by
    intro z
    rw [mem_tree_update_iff _ _ _ _ hEin, mem_tree_remove _ _ _ hndad]
    tauto
  have hm2 : m2 ∉ T.ad := by
    intro hin
    have hne : m2 ≠ p := by
      intro h
      rw [h] at hs
      omega
    rcases before_or_of_mem T.ad hpw m2 p hin hp hne with h | h <;>
      (unfold extent_before at h; omega)
  have hsub : (tree_remove T.ad p).Pairwise extent_before :=
    hpw.sublist (List.erase_sublist _ _)
  refine ⟨⟨?_, ?_, ?_, ?_, ?_⟩, hmem, ?_⟩
  · apply pairwise_tree_update _ _ _ hsub
    · intro z hz
      exact hpos z ((mem_tree_remove _ _ _ hndad).mp hz).1
    · intro z hz hzE
      obtain ⟨hzT, hzp⟩ := (mem_tree_remove _ _ _ hndad).mp hz
      have hzpos := hpos z hzT
      constructor
      · intro hbe
        unfold extent_before at hbe ⊢
        rcases before_or_of_mem T.ad hpw z p hzT hp hzp with h | h <;>
          (unfold extent_before at h; omega)
      · intro hbe
        unfold extent_before at hbe ⊢
        omega
  · intro z hz
    rcases (hmem z).mp hz with rfl | ⟨hzT, _, _⟩
    · have hpb := hb p hp
      have hEb := hb E hE
      omega
    · exact hb z hzT
  · apply nodup_tree_insert
    · exact (hnd.erase _).erase _
    · intro hin
      exact hm2 (h1 m2 (mem_of_mem_tree_remove _ _ _ (mem_of_mem_tree_remove _ _ _ hin)))
  · intro z hz
    rw [hmem]
    rcases (mem_tree_insert _ _ _ _).mp hz with rfl | hz2
    · exact Or.inl rfl
    · right
      have h3 := (mem_tree_remove _ _ _ (hnd.erase _)).mp hz2
      have h4 := (mem_tree_remove _ _ _ hnd).mp h3.1
      exact ⟨h1 z h4.1, h4.2, h3.2⟩
  · intro z hz
    rw [mem_tree_insert]
    rcases (hmem z).mp hz with rfl | ⟨hzT, hzp, hzE⟩
    · exact Or.inl rfl
    · right
      exact (mem_tree_remove _ _ _ (hnd.erase _)).mpr
        ⟨(mem_tree_remove _ _ _ hnd).mpr ⟨h2 z hzT, hzp⟩, hzE⟩
  · intro a
    constructor
    · rintro ⟨z, hz, hza⟩
      rcases (hmem z).mp hz with rfl | ⟨hzT, _, _⟩
      · by_cases hlt : a < E.e_addr
        · exact ⟨p, hp, by omega⟩
        · exact ⟨E, hE, by omega⟩
      · exact ⟨z, hzT, hza⟩
    · rintro ⟨z, hz, hza⟩
      by_cases hzp : z = p
      · subst hzp
        exact ⟨m2, (hmem m2).mpr (Or.inl rfl), by omega⟩
      · by_cases hzE : z = E
        · subst hzE
          exact ⟨m2, (hmem m2).mpr (Or.inl rfl), by omega⟩
        · exact ⟨z, (hmem z).mpr (Or.inr ⟨hz, hzp, hzE⟩), hza⟩

end Chunk

namespace Chunk

/-- The backward half of `chunk_record`, for an extent `E` of the tree based at `chunk`: the
invariant and the covered addresses are kept, a new extent starts below `chunk` and spans
`E`, extents other
than `E` that do not end at `chunk` stay, and the extent that ends at `chunk` is merged away
exactly when its committed flag is that of the recorded range and the merge hook permits. -/
theorem backward_effect (env : Env) (T : Trees) (evs : List Event) (cache : Bool)
    (chunk size : Nat) (committed : Bool) (E : extent_t)
    (hT : T.ordered_disjoint env.w) (hE : E ∈ T.ad) (hEa : E.e_addr = chunk) :
    (chunk_record_backward env T evs cache chunk size committed E).1.ordered_disjoint env.w ∧
      (∀ a, tree_covers (chunk_record_backward env T evs cache chunk size committed E).1.ad a ↔
        tree_covers T.ad a) ∧
      (∀ z ∈ (chunk_record_backward env T evs cache chunk size committed E).1.ad,
        z ∈ T.ad ∨ (z.e_addr < chunk ∧ E.e_addr + E.e_size ≤ z.e_addr + z.e_size)) ∧
      (∀ z ∈ T.ad, z.e_addr + z.e_size ≠ chunk → z ≠ E →
        z ∈ (chunk_record_backward env T evs cache chunk size committed E).1.ad) ∧
      (∀ p ∈ T.ad, p.e_addr + p.e_size = chunk →
        (p ∉ (chunk_record_backward env T evs cache chunk size committed E).1.ad ↔
          p.e_committed = committed ∧
            env.merge p.e_addr p.e_size chunk size false = false)) := by
  have hT0 := hT
  obtain ⟨hpw, hb, hnd, h1, h2⟩ := hT
  have hpos : ∀ z ∈ T.ad, 0 < z.e_size := fun z hz => (hb z hz).2.1
  have hEb := hb E hE
  have hsz : ∀ p ∈ T.ad, p.e_addr + p.e_size = chunk →
      sz_add env.w p.e_addr p.e_size = chunk := by
    intro p _ hpe
    unfold sz_add
    rw [hpe]
    exact Nat.mod_eq_of_lt (by omega)
  by_cases hmerge : ∃ p, extent_tree_ad_prev T.ad E = some p ∧
      (sz_add env.w p.e_addr p.e_size = chunk ∧ p.e_committed = committed) ∧
      env.merge p.e_addr p.e_size chunk size false = false
  · obtain ⟨p, hprev, hcond, hm⟩ := hmerge
    obtain ⟨hp, hplt⟩ := prev_mem T.ad E p hprev
    have hpb := hb p hp
    have hpe : p.e_addr + p.e_size = E.e_addr := by
      have h3 := hcond.1
      unfold sz_add at h3
      rcases Nat.lt_or_ge (p.e_addr + p.e_size) (2 ^ env.w) with hlt | hge
      · rw [Nat.mod_eq_of_lt hlt] at h3
        omega
      · have h4 : p.e_addr + p.e_size = 2 ^ env.w := by omega
        rw [h4, Nat.mod_self] at h3
        omega
    obtain ⟨m2, ha, hs, heq⟩ := backward_merge_eq env T evs cache chunk size committed E p
      hprev hcond hm
    have hs2 : m2.e_size = p.e_size + E.e_size := by
      rw [hs]
      unfold sz_add
      exact Nat.mod_eq_of_lt (by omega)
    obtain ⟨hw1, hmem, hcov⟩ := merge_prev_wf env.w T E p m2 T.nalloc hT0 hE hp hpe ha hs2
    rw [heq]
    refine ⟨hw1, hcov, ?_, ?_, ?_⟩
    · intro z hz
      rcases (hmem z).mp hz with rfl | ⟨hzT, _, _⟩
      · right
        constructor <;> omega
      · exact Or.inl hzT
    · intro z hzT hze hzE
      refine (hmem z).mpr (Or.inr ⟨hzT, ?_, hzE⟩)
      intro hzp
      rw [hzp] at hze
      omega
    · intro q hq hqe
      have hqp : q = p := by
        by_contra hne
        rcases before_or_of_mem T.ad hpw q p hq hp hne with h | h <;>
          (unfold extent_before at h
           have := hpos q hq
           omega)
      subst hqp
      constructor
      · intro _
        exact ⟨hcond.2, hm⟩
      · intro _ hin
        rcases (hmem q).mp hin with h | ⟨_, h, _⟩
        · rw [h] at hs2
          omega
        · exact h rfl
  · have heq : (chunk_record_backward env T evs cache chunk size committed E).1 = T := by
      apply backward_keep_eq
      intro p hprev hc
      exact hmerge ⟨p, hprev, hc.1, hc.2⟩
    rw [heq]
    refine ⟨hT0, fun _ => Iff.rfl, fun z hz => Or.inl hz, fun z hz _ _ => hz, ?_⟩
    intro p hp hpe
    constructor
    · intro hnot
      exact absurd hp hnot
    · rintro ⟨hc, hm⟩
      exfalso
      apply hmerge
      exact ⟨p, prev_complete T.ad E p hpw hpos hp (by omega), ⟨hsz p hp hpe, hc⟩, hm⟩

end Chunk

namespace Chunk

theorem nsearch_mem (t : extent_tree_t) (key x : extent_t)
    (h : extent_tree_ad_nsearch t key = some x) : x ∈ t := by
  unfold extent_tree_ad_nsearch tree_nsearch at h
  exact List.mem_of_find?_eq_some h

/-- The search from a key finds the node based at the address of the key. -/
theorem nsearch_complete (t : extent_tree_t) (key x : extent_t) (ht : t.Pairwise extent_before)
    (hpos : ∀ z ∈ t, 0 < z.e_size) (hx : x ∈ t) (hxa : x.e_addr = key.e_addr) :
    extent_tree_ad_nsearch t key = some x := by
  have hpx : (fun z => decide (extent_ad_comp z key ≠ Ordering.lt)) x = true := by
    simp only [decide_eq_true_eq, ne_eq, ad_comp_lt_iff]
    omega
  unfold extent_tree_ad_nsearch tree_nsearch
  cases hf : t.find? (fun z => decide (extent_ad_comp z key ≠ Ordering.lt)) with
  | none =>
    rw [List.find?_eq_none] at hf
    exact absurd hpx (hf x hx)
  | some e =>
    rcases find_first_sorted extent_before _ t e hf ht x hx hpx with h | h
    · rw [h]
    · exfalso
      have he := List.find?_some hf
      have hem := List.mem_of_find?_eq_some hf
      simp only [decide_eq_true_eq, ne_eq, ad_comp_lt_iff] at he
      have := hpos e hem
      unfold extent_before at h
      omega

/-- Replacing the extent `x` that begins where the recorded range ends by one extent over
both keeps the invariant and adds the range to the covered addresses. -/
theorem merge_next_wf (w : Nat) (T : Trees) (x m : extent_t) (n chunk size : Nat)
    (hT : T.ordered_disjoint w) (hx : x ∈ T.ad) (hxa : x.e_addr = chunk + size)
    (hchunk : 0 < chunk) (hsize : 0 < size)
    (hdisj : ∀ z ∈ T.ad, z.e_addr + z.e_size ≤ chunk ∨ chunk + size ≤ z.e_addr)
    (ha : m.e_addr = chunk) (hs : m.e_size = size + x.e_size) :
    (Trees.mk (tree_insert extent_szad_comp (tree_remove T.szad x) m)
        (tree_update T.ad x m) n).ordered_disjoint w ∧
      (∀ z, z ∈ tree_update T.ad x m ↔ z = m ∨ (z ∈ T.ad ∧ z ≠ x)) ∧
      (∀ a, tree_covers (tree_update T.ad x m) a ↔
        tree_covers T.ad a ∨ (chunk ≤ a ∧ a < chunk + size)) := by
  obtain ⟨hpw, hb, hnd, h1, h2⟩ := hT
  have hpos : ∀ z ∈ T.ad, 0 < z.e_size := fun z hz => (hb z hz).2.1
  have hxb := hb x hx
  have hmem : ∀ z, z ∈ tree_update T.ad x m ↔ z = m ∨ (z ∈ T.ad ∧ z ≠ x) :=
    fun z => mem_tree_update_iff _ _ _ _ hx
  have hm : m ∉ T.ad := by
    intro hin
    rcases hdisj m hin with h | h <;> omega
  refine ⟨⟨?_, ?_, ?_, ?_, ?_⟩, hmem, ?_⟩
  · apply pairwise_tree_update _ _ _ hpw hpos
    intro z hz _
    have hzpos := hpos z hz
    constructor
    · intro hbe
      unfold extent_before at hbe ⊢
      rcases hdisj z hz with h | h <;> omega
    · intro hbe
      unfold extent_before at hbe ⊢
      omega
  · intro z hz
    rcases (hmem z).mp hz with rfl | ⟨hzT, _⟩
    · omega
    · exact hb z hzT
  · apply nodup_tree_insert
    · exact hnd.erase _
    · intro hin
      exact hm (h1 m (mem_of_mem_tree_remove _ _ _ hin))
  · intro z hz
    rw [hmem]
    rcases (mem_tree_insert _ _ _ _).mp hz with rfl | hz2
    · exact Or.inl rfl
    · have h3 := (mem_tree_remove _ _ _ hnd).mp hz2
      exact Or.inr ⟨h1 z h3.1, h3.2⟩
  · intro z hz
    rw [mem_tree_insert]
    rcases (hmem z).mp hz with rfl | ⟨hzT, hzx⟩
    · exact Or.inl rfl
    · exact Or.inr ((mem_tree_remove _ _ _ hnd).mpr ⟨h2 z hzT, hzx⟩)
  · intro a
    constructor
    · rintro ⟨z, hz, hza⟩
      rcases (hmem z).mp hz with rfl | ⟨hzT, _⟩
      · by_cases hlt : a < chunk + size
        · exact Or.inr ⟨by omega, hlt⟩
        · exact Or.inl ⟨x, hx, by omega⟩
      · exact Or.inl ⟨z, hzT, hza⟩
    · rintro (⟨z, hz, hza⟩ | hr)
      · by_cases hzx : z = x
        · subst hzx
          exact ⟨m, (hmem m).mpr (Or.inl rfl), by omega⟩
        · exact ⟨z, (hmem z).mpr (Or.inr ⟨hz, hzx⟩), hza⟩
      · exact ⟨m, (hmem m).mpr (Or.inl rfl), by omega⟩

/-- Inserting a new extent over the recorded range keeps the invariant and adds the range to
the covered addresses. -/
theorem insert_new_wf (w : Nat) (T : Trees) (e : extent_t) (n chunk size : Nat)
    (hT : T.ordered_disjoint w) (hchunk : 0 < chunk) (hsize : 0 < size)
    (hend : chunk + size ≤ 2 ^ w)
    (hdisj : ∀ z ∈ T.ad, z.e_addr + z.e_size ≤ chunk ∨ chunk + size ≤ z.e_addr)
    (ha : e.e_addr = chunk) (hs : e.e_size = size) :
    (Trees.mk (tree_insert extent_szad_comp T.szad e)
        (tree_insert extent_ad_comp T.ad e) n).ordered_disjoint w ∧
      (∀ a, tree_covers (tree_insert extent_ad_comp T.ad e) a ↔
        tree_covers T.ad a ∨ (chunk ≤ a ∧ a < chunk + size)) := by
  obtain ⟨hpw, hb, hnd, h1, h2⟩ := hT
  have he : e ∉ T.ad := by
    intro hin
    rcases hdisj e hin with h | h <;> omega
  refine ⟨⟨?_, ?_, ?_, ?_, ?_⟩, ?_⟩
  · apply pairwise_tree_insert _ _ hpw
    · intro z hz
      unfold extent_before
      rcases hdisj z hz with h | h
      · exact Or.inl (by omega)
      · exact Or.inr (by omega)
    · omega
  · intro z hz
    rcases (mem_tree_insert _ _ _ _).mp hz with rfl | hzT
    · omega
    · exact hb z hzT
  · exact nodup_tree_insert _ _ _ hnd (fun hin => he (h1 e hin))
  · intro z hz
    rw [mem_tree_insert] at hz ⊢
    rcases hz with h | h
    · exact Or.inl h
    · exact Or.inr (h1 z h)
  · intro z hz
    rw [mem_tree_insert] at hz ⊢
    rcases hz with h | h
    · exact Or.inl h
    · exact Or.inr (h2 z h)
  · intro a
    constructor
    · rintro ⟨z, hz, hza⟩
      rcases (mem_tree_insert _ _ _ _).mp hz with rfl | hzT
      · exact Or.inr (by omega)
      · exact Or.inl ⟨z, hzT, hza⟩
    · rintro (⟨z, hz, hza⟩ | hr)
      · exact ⟨z, (mem_tree_insert _ _ _ _).mpr (Or.inr hz), hza⟩
      · exact ⟨e, (mem_tree_insert _ _ _ _).mpr (Or.inl rfl), by omega⟩

end Chunk

namespace Chunk

/-- The record of a range that is coalesced forward with the extent `x`. -/
theorem record_forward_eq (env : Env) (T : Trees) (cache : Bool) (chunk size : Nat)
    (zeroed committed : Bool) (x : extent_t)
    (hf : extent_tree_ad_nsearch T.ad
      (extent_init env.ind (sz_add env.w chunk size) 0 false false false false) = some x)
    (hc : x.e_addr = sz_add env.w chunk size ∧ x.e_committed = committed)
    (hm : env.merge chunk size x.e_addr x.e_size false = false) :
    ∃ (m : extent_t) (evs : List Event), m.e_addr = chunk ∧
      m.e_size = sz_add env.w size x.e_size ∧
      chunk_record env T cache chunk size zeroed committed =
        chunk_record_backward env
          ⟨extent_tree_szad_insert (extent_tree_szad_remove T.szad x) m,
            tree_update T.ad x m, T.nalloc⟩ evs cache chunk size committed m := by
  have hc2 : x.e_addr =
      (extent_init env.ind (sz_add env.w chunk size) 0 false false false false).e_addr ∧
      x.e_committed = committed := hc
  unfold chunk_record
  simp only [hf, if_pos hc2, hm, Bool.not_false, if_true]
  refine ⟨_, _, ?_, ?_, rfl⟩ <;> rfl

/-- The record of a range that is not coalesced forward. -/
theorem record_new_eq (env : Env) (T : Trees) (cache : Bool) (chunk size : Nat)
    (zeroed committed : Bool)
    (h : ∀ x, extent_tree_ad_nsearch T.ad
        (extent_init env.ind (sz_add env.w chunk size) 0 false false false false) = some x →
      ¬ ((x.e_addr = sz_add env.w chunk size ∧ x.e_committed = committed) ∧
        env.merge chunk size x.e_addr x.e_size false = false)) :
    (env.arena_extent_alloc T.nalloc = false →
        (chunk_record env T cache chunk size zeroed committed).1 =
          ⟨T.szad, T.ad, T.nalloc + 1⟩) ∧
      (env.arena_extent_alloc T.nalloc = true →
        ∃ evs, chunk_record env T cache chunk size zeroed committed =
          chunk_record_backward env
            ⟨extent_tree_szad_insert T.szad
                (extent_init env.ind chunk size false (!(cache || !zeroed)) committed false),
              extent_tree_ad_insert T.ad
                (extent_init env.ind chunk size false (!(cache || !zeroed)) committed false),
              T.nalloc + 1⟩ evs cache chunk size committed
            (extent_init env.ind chunk size false (!(cache || !zeroed)) committed false)) := by
  unfold chunk_record
  simp only
  cases hf : extent_tree_ad_nsearch T.ad
      (extent_init env.ind (sz_add env.w chunk size) 0 false false false false) with
  | none =>
    simp only
    constructor
    · intro hd
      simp only [hd, Bool.not_false, if_true]
      cases cache <;> rfl
    · intro hd
      simp only [hd, Bool.not_true, Bool.false_eq_true, if_false]
      exact ⟨_, rfl⟩
  | some x =>
    by_cases h1 : x.e_addr =
        (extent_init env.ind (sz_add env.w chunk size) 0 false false false false).e_addr ∧
        x.e_committed = committed
    · have hm : env.merge chunk size x.e_addr x.e_size false = true := by
        cases hm : env.merge chunk size x.e_addr x.e_size false
        · exact absurd ⟨h1, hm⟩ (h x hf)
        · rfl
      simp only [if_pos h1, hm, Bool.not_true, Bool.false_eq_true, if_false]
      constructor
      · intro hd
        simp only [hd, Bool.not_false, if_true]
        cases cache <;> rfl
      · intro hd
        simp only [hd, Bool.not_true, Bool.false_eq_true, if_false]
        exact ⟨_, rfl⟩
    · simp only [if_neg h1]
      constructor
      · intro hd
        simp only [hd, Bool.not_false, if_true]
        cases cache <;> rfl
      · intro hd
        simp only [hd, Bool.not_true, Bool.false_eq_true, if_false]
        exact ⟨_, rfl⟩

end Chunk

namespace Chunk

/-- What `chunk_record` does to a pair of trees that is an ordered disjoint cover, for a range
disjoint from all extents. Unless the range is dropped (no forward coalescing and no
descriptor), the invariant is kept and the range is added to the covered addresses; the
extent that begins at `chunk + size` is merged away exactly when its committed flag matches
and the merge hook permits; the extent that ends at `chunk` is merged away exactly when, in
addition, the range was not dropped; every other extent stays. -/
theorem chunk_record_effect (env : Env) (T : Trees) (cache : Bool) (chunk size : Nat)
    (zeroed committed : Bool) (hT : T.ordered_disjoint env.w)
    (hchunk : 0 < chunk) (hsize : 0 < size) (hend : chunk + size ≤ 2 ^ env.w)
    (hdisj : ∀ z ∈ T.ad, z.e_addr + z.e_size ≤ chunk ∨ chunk + size ≤ z.e_addr) :
    (((∃ x ∈ T.ad, x.e_addr = chunk + size ∧ x.e_committed = committed ∧
          env.merge chunk size x.e_addr x.e_size false = false) ∨
        env.arena_extent_alloc T.nalloc = true) →
        (chunk_record env T cache chunk size zeroed committed).1.ordered_disjoint env.w ∧
          ∀ a, tree_covers (chunk_record env T cache chunk size zeroed committed).1.ad a ↔
            tree_covers T.ad a ∨ (chunk ≤ a ∧ a < chunk + size)) ∧
      (∀ x ∈ T.ad, x.e_addr = chunk + size →
        (x ∉ (chunk_record env T cache chunk size zeroed committed).1.ad ↔
          x.e_committed = committed ∧ env.merge chunk size x.e_addr x.e_size false = false)) ∧
      (∀ p ∈ T.ad, p.e_addr + p.e_size = chunk →
        (p ∉ (chunk_record env T cache chunk size zeroed committed).1.ad ↔
          ((∃ x ∈ T.ad, x.e_addr = chunk + size ∧ x.e_committed = committed ∧
              env.merge chunk size x.e_addr x.e_size false = false) ∨
            env.arena_extent_alloc T.nalloc = true) ∧
          p.e_committed = committed ∧
            env.merge p.e_addr p.e_size chunk size false = false)) ∧
      (∀ z ∈ T.ad, z.e_addr ≠ chunk + size → z.e_addr + z.e_size ≠ chunk →
        z ∈ (chunk_record env T cache chunk size zeroed committed).1.ad) ∧
      (∀ z ∈ (chunk_record env T cache chunk size zeroed committed).1.ad,
        z ∈ T.ad ∨ (z.e_addr ≤ chunk ∧ chunk + size ≤ z.e_addr + z.e_size)) := by
  have hT0 := hT
  obtain ⟨hpw, hb, hnd, h1, h2⟩ := hT
  have hpos : ∀ z ∈ T.ad, 0 < z.e_size := fun z hz => (hb z hz).2.1
  by_cases hfwd : ∃ x ∈ T.ad, x.e_addr = chunk + size ∧ x.e_committed = committed ∧
      env.merge chunk size x.e_addr x.e_size false = false
  · obtain ⟨x, hx, hxa, hxc, hxm⟩ := hfwd
    have hxb := hb x hx
    have hkey : sz_add env.w chunk size = chunk + size := by
      unfold sz_add
      exact Nat.mod_eq_of_lt (by omega)
    have hf := nsearch_complete T.ad
      (extent_init env.ind (sz_add env.w chunk size) 0 false false false false) x hpw hpos hx
      (by rw [hxa]; exact hkey.symm)
    obtain ⟨m, evs, hma, hms, heq⟩ := record_forward_eq env T cache chunk size zeroed committed
      x hf ⟨by rw [hxa, hkey], hxc⟩ hxm
    have hms2 : m.e_size = size + x.e_size := by
      rw [hms]
      unfold sz_add
      exact Nat.mod_eq_of_lt (by omega)
    obtain ⟨hw1, hmem1, hcov1⟩ := merge_next_wf env.w T x m T.nalloc chunk size hT0 hx hxa
      hchunk hsize hdisj hma hms2
    have hmin : m ∈ tree_update T.ad x m := (hmem1 m).mpr (Or.inl rfl)
    obtain ⟨b1, b2, b3, b4, b5⟩ := backward_effect env
      ⟨extent_tree_szad_insert (extent_tree_szad_remove T.szad x) m, tree_update T.ad x m,
        T.nalloc⟩ evs cache chunk size committed m hw1 hmin hma
    have hmT : m ∉ T.ad := by
      intro hin
      rcases hdisj m hin with h | h <;> omega
    rw [heq]
    refine ⟨fun _ => ⟨b1, fun a => (b2 a).trans (hcov1 a)⟩, ?_, ?_, ?_, ?_⟩
    rotate_left 3
    · intro z hz
      rcases b3 z hz with h | h
      · rcases (hmem1 z).mp h with h | ⟨h, _⟩
        · right
          rw [h]
          constructor <;> omega
        · exact Or.inl h
      · right
        constructor <;> omega
    · intro y hy hya
      have hyx : y = x := by
        by_contra hne
        have := hpos y hy
        rcases before_or_of_mem T.ad hpw y x hy hx hne with h | h <;>
          (unfold extent_before at h; omega)
      subst hyx
      constructor
      · intro _
        exact ⟨hxc, hxm⟩
      · intro _ hin
        rcases b3 y hin with h | h
        · rcases (hmem1 y).mp h with h | ⟨_, h⟩
          · rw [h] at hya
            omega
          · exact h rfl
        · omega
    · intro p hp hpe
      have hpx : p ≠ x := by
        intro h
        rw [h] at hpe
        omega
      have hp1 : p ∈ tree_update T.ad x m := (hmem1 p).mpr (Or.inr ⟨hp, hpx⟩)
      rw [b5 p hp1 hpe]
      constructor
      · intro h
        exact ⟨Or.inl ⟨x, hx, hxa, hxc, hxm⟩, h⟩
      · intro h
        exact h.2
    · intro z hz hza hze
      have hzx : z ≠ x := by
        intro h
        rw [h] at hza
        exact hza hxa
      apply b4 z ((hmem1 z).mpr (Or.inr ⟨hz, hzx⟩)) hze
      intro h
      exact hmT (h ▸ hz)
  · have hnone : ∀ x, extent_tree_ad_nsearch T.ad
          (extent_init env.ind (sz_add env.w chunk size) 0 false false false false) = some x →
        ¬ ((x.e_addr = sz_add env.w chunk size ∧ x.e_committed = committed) ∧
          env.merge chunk size x.e_addr x.e_size false = false) := by
      intro x hf hc
      have hx := nsearch_mem _ _ _ hf
      have hxb := hb x hx
      apply hfwd
      refine ⟨x, hx, ?_, hc.1.2, hc.2⟩
      have h3 := hc.1.1
      unfold sz_add at h3
      rcases Nat.lt_or_ge (chunk + size) (2 ^ env.w) with hlt | hge
      · rw [Nat.mod_eq_of_lt hlt] at h3
        exact h3
      · have h4 : chunk + size = 2 ^ env.w := by omega
        rw [h4, Nat.mod_self] at h3
        omega
    obtain ⟨hfail, hok⟩ := record_new_eq env T cache chunk size zeroed committed hnone
    cases hd : env.arena_extent_alloc T.nalloc
    · rw [hfail hd]
      refine ⟨?_, ?_, ?_, ?_, fun z hz => Or.inl hz⟩
      · rintro (h | h)
        · exact absurd h hfwd
        · cases h
      · intro x hx hxa
        constructor
        · intro hnot
          exact absurd hx hnot
        · rintro ⟨hc, hm⟩
          exact absurd ⟨x, hx, hxa, hc, hm⟩ hfwd
      · intro p hp _
        constructor
        · intro hnot
          exact absurd hp hnot
        · rintro ⟨h | h, _⟩
          · exact absurd h hfwd
          · cases h
      · intro z hz _ _
        exact hz
    · obtain ⟨evs, heq⟩ := hok hd
      obtain ⟨hw1, hcov1⟩ := insert_new_wf env.w T
        (extent_init env.ind chunk size false (!(cache || !zeroed)) committed false)
        (T.nalloc + 1) chunk size hT0 hchunk hsize hend hdisj rfl rfl
      have hein : extent_init env.ind chunk size false (!(cache || !zeroed)) committed false ∈
          extent_tree_ad_insert T.ad
            (extent_init env.ind chunk size false (!(cache || !zeroed)) committed false) :=
        (mem_tree_insert _ _ _ _).mpr (Or.inl rfl)
      have heT : extent_init env.ind chunk size false (!(cache || !zeroed)) committed false ∉
          T.ad := by
        intro hin
        rcases hdisj _ hin with h | h <;> (simp only [extent_init] at h; omega)
      obtain ⟨b1, b2, b3, b4, b5⟩ := backward_effect env
        ⟨extent_tree_szad_insert T.szad
            (extent_init env.ind chunk size false (!(cache || !zeroed)) committed false),
          extent_tree_ad_insert T.ad
            (extent_init env.ind chunk size false (!(cache || !zeroed)) committed false),
          T.nalloc + 1⟩ evs cache chunk size committed
        (extent_init env.ind chunk size false (!(cache || !zeroed)) committed false)
        hw1 hein rfl
      have hin1 : ∀ z ∈ T.ad, z ∈ extent_tree_ad_insert T.ad
          (extent_init env.ind chunk size false (!(cache || !zeroed)) committed false) :=
        fun z hz => (mem_tree_insert _ _ _ _).mpr (Or.inr hz)
      rw [heq]
      refine ⟨fun _ => ⟨b1, fun a => (b2 a).trans (hcov1 a)⟩, ?_, ?_, ?_, ?_⟩
      rotate_left 3
      · intro z hz
        rcases b3 z hz with h | h
        · rcases (mem_tree_insert _ _ _ _).mp h with h | h
          · right
            rw [h]
            simp only [extent_init]
            constructor <;> omega
          · exact Or.inl h
        · right
          simp only [extent_init] at h
          constructor <;> omega
      · intro x hx hxa
        have hxb := hb x hx
        constructor
        · intro hnot
          exfalso
          apply hnot
          apply b4 x (hin1 x hx) (by omega)
          intro h
          exact heT (h ▸ hx)
        · rintro ⟨hc, hm⟩
          exact absurd ⟨x, hx, hxa, hc, hm⟩ hfwd
      · intro p hp hpe
        rw [b5 p (hin1 p hp) hpe]
        constructor
        · intro h
          exact ⟨Or.inr rfl, h⟩
        · intro h
          exact h.2
      · intro z hz _ hze
        apply b4 z (hin1 z hz) hze
        intro h
        exact heT (h ▸ hz)

end Chunk

namespace Chunk

theorem ex_trees_ordered_disjoint : ex_trees.ordered_disjoint 64 := by
  unfold Trees.ordered_disjoint extent_before
  decide

/-- C11: for every pair of trees that is an ordered disjoint cover (the extents are
pairwise disjoint, non-empty ranges within the address space, listed in address order,
and both trees hold the same extents) and every non-empty range `[chunk, chunk + size)`
disjoint from all of them: after `chunk_record` with the descriptor allocation succeeding
the pair is again an ordered disjoint cover (the extents are pairwise disjoint and the
size-address tree and the address tree contain the same extents), and an address is
covered by an extent exactly when it was covered before or lies in `[chunk, chunk + size)`. -/
theorem chunk_record_keeps_cover (env : Env) (T : Trees) (cache : Bool) (chunk size : Nat)
    (zeroed committed : Bool) (hT : T.ordered_disjoint env.w)
    (hchunk : 0 < chunk) (hsize : 0 < size) (hend : chunk + size ≤ 2 ^ env.w)
    (hdisj : ∀ z ∈ T.ad, z.e_addr + z.e_size ≤ chunk ∨ chunk + size ≤ z.e_addr)
    (hdesc : env.arena_extent_alloc T.nalloc = true) :
    (chunk_record env T cache chunk size zeroed committed).1.ordered_disjoint env.w ∧
      ∀ a, tree_covers (chunk_record env T cache chunk size zeroed committed).1.ad a ↔
        tree_covers T.ad a ∨ (chunk ≤ a ∧ a < chunk + size) :=
  (chunk_record_effect env T cache chunk size zeroed committed hT hchunk hsize hend hdisj).1
    (Or.inr hdesc)

/-- C11 witness: recording the 2 MiB at 8 MiB between two cached extents. -/
theorem chunk_record_keeps_cover_witness :
    (chunk_record ex_env ex_trees true 0x800000 0x200000 false true).1.ordered_disjoint
        ex_env.w ∧
      ∀ a, tree_covers (chunk_record ex_env ex_trees true 0x800000 0x200000 false true).1.ad a ↔
        tree_covers ex_trees.ad a ∨ (0x800000 ≤ a ∧ a < 0x800000 + 0x200000) :=
  chunk_record_keeps_cover ex_env ex_trees true 0x800000 0x200000 false true
    ex_trees_ordered_disjoint (by decide) (by decide) (by decide) (by decide) rfl

/-- C12 (amended): for every pair of trees that is an ordered disjoint cover and every non-empty range
`[chunk, chunk + size)` disjoint from its extents: `chunk_record` merges the range with the
extent `x` that starts at `chunk + size` (afterwards `x` is no longer in the tree, and an
extent that spans the range and `x` is) if and only if the committed flag of `x` equals
that of the range and the merge hook returns false for the pair; it merges the range with the
extent `p` that ends at `chunk` if and only if the range was not dropped for want of a
descriptor, the committed flag of `p` equals that of the range and the merge hook returns
false for the pair; in every other case the neighbour stays in the tree as it was, and so
does every extent that is not a neighbour. -/
theorem chunk_record_merges_iff (env : Env) (T : Trees) (cache : Bool) (chunk size : Nat)
    (zeroed committed : Bool) (hT : T.ordered_disjoint env.w)
    (hchunk : 0 < chunk) (hsize : 0 < size) (hend : chunk + size ≤ 2 ^ env.w)
    (hdisj : ∀ z ∈ T.ad, z.e_addr + z.e_size ≤ chunk ∨ chunk + size ≤ z.e_addr) :
    (∀ x ∈ T.ad, x.e_addr = chunk + size →
        (x ∉ (chunk_record env T cache chunk size zeroed committed).1.ad ↔
          x.e_committed = committed ∧ env.merge chunk size x.e_addr x.e_size false = false) ∧
        (x ∉ (chunk_record env T cache chunk size zeroed committed).1.ad →
          ∃ m ∈ (chunk_record env T cache chunk size zeroed committed).1.ad,
            m.e_addr ≤ chunk ∧ x.e_addr + x.e_size ≤ m.e_addr + m.e_size)) ∧
      (∀ p ∈ T.ad, p.e_addr + p.e_size = chunk →
        (p ∉ (chunk_record env T cache chunk size zeroed committed).1.ad ↔
          ((∃ x ∈ T.ad, x.e_addr = chunk + size ∧ x.e_committed = committed ∧
              env.merge chunk size x.e_addr x.e_size false = false) ∨
            env.arena_extent_alloc T.nalloc = true) ∧
          p.e_committed = committed ∧
            env.merge p.e_addr p.e_size chunk size false = false) ∧
        (p ∉ (chunk_record env T cache chunk size zeroed committed).1.ad →
          ∃ m ∈ (chunk_record env T cache chunk size zeroed committed).1.ad,
            m.e_addr ≤ p.e_addr ∧ chunk + size ≤ m.e_addr + m.e_size)) ∧
      (∀ z ∈ T.ad, z.e_addr ≠ chunk + size → z.e_addr + z.e_size ≠ chunk →
        z ∈ (chunk_record env T cache chunk size zeroed committed).1.ad) := by
  obtain ⟨e1, e2, e3, e4, e5⟩ :=
    chunk_record_effect env T cache chunk size zeroed committed hT hchunk hsize hend hdisj
  obtain ⟨hpw, hb, _, _, _⟩ := hT
  have hspan : ∀ y ∈ T.ad,
      ((∃ x ∈ T.ad, x.e_addr = chunk + size ∧ x.e_committed = committed ∧
          env.merge chunk size x.e_addr x.e_size false = false) ∨
        env.arena_extent_alloc T.nalloc = true) →
      y ∉ (chunk_record env T cache chunk size zeroed committed).1.ad →
      ∀ a, y.e_addr ≤ a → a < y.e_addr + y.e_size →
        ∃ m ∈ (chunk_record env T cache chunk size zeroed committed).1.ad,
          m.e_addr ≤ chunk ∧ chunk + size ≤ m.e_addr + m.e_size ∧
            m.e_addr ≤ a ∧ a < m.e_addr + m.e_size := by
    intro y hy hreach hnot a ha1 ha2
    obtain ⟨m, hm, hma⟩ := ((e1 hreach).2 a).mpr (Or.inl ⟨y, hy, ha1, ha2⟩)
    rcases e5 m hm with h | h
    · exfalso
      have hmy : m = y := by
        by_contra hne
        rcases before_or_of_mem T.ad hpw m y h hy hne with h' | h' <;>
          (unfold extent_before at h'; omega)
      exact hnot (hmy ▸ hm)
    · exact ⟨m, hm, h.1, h.2, hma.1, hma.2⟩
  refine ⟨?_, ?_, e4⟩
  · intro x hx hxa
    refine ⟨e2 x hx hxa, ?_⟩
    intro hnot
    have hc := (e2 x hx hxa).mp hnot
    have hxb := hb x hx
    obtain ⟨m, hm, h1, _, _, h4⟩ := hspan x hx (Or.inl ⟨x, hx, hxa, hc.1, hc.2⟩) hnot
      (x.e_addr + x.e_size - 1) (by omega) (by omega)
    exact ⟨m, hm, h1, by omega⟩
  · intro p hp hpe
    refine ⟨e3 p hp hpe, ?_⟩
    intro hnot
    have hc := (e3 p hp hpe).mp hnot
    have hpb := hb p hp
    obtain ⟨m, hm, _, h2, h3, _⟩ := hspan p hp hc.1 hnot p.e_addr (le_refl _) (by omega)
    exact ⟨m, hm, h3, h2⟩

/-- C12 witness: the 2 MiB at 8 MiB are merged with the extent at 10 MiB. -/
theorem chunk_record_merges_iff_witness :
    ex_extent 0xa00000 0x400000 ∉
        (chunk_record ex_env ex_trees true 0x800000 0x200000 false true).1.ad ↔
      (ex_extent 0xa00000 0x400000).e_committed = true ∧
        ex_env.merge 0x800000 0x200000 (ex_extent 0xa00000 0x400000).e_addr
          (ex_extent 0xa00000 0x400000).e_size false = false :=
  ((chunk_record_merges_iff ex_env ex_trees true 0x800000 0x200000 false true
    ex_trees_ordered_disjoint (by decide) (by decide) (by decide) (by decide)).1
    (ex_extent 0xa00000 0x400000) (by decide) (by decide)).1

/-- C12 as stated fails: when the range cannot be coalesced forward and no descriptor can
be obtained, the extent that ends at `chunk` stays separate although its committed flag is
that of the range and the merge hook permits the merge. -/
theorem chunk_record_merges_iff_counterexample :
    ex_extent 0x600000 0x200000 ∈ ex_trees.ad ∧
      (ex_extent 0x600000 0x200000).e_addr + (ex_extent 0x600000 0x200000).e_size = 0x800000 ∧
      (ex_extent 0x600000 0x200000).e_committed = true ∧
      ex_env_fail.merge 0x600000 0x200000 0x800000 0x100000 false = false ∧
      ex_extent 0x600000 0x200000 ∈
        (chunk_record ex_env_fail ex_trees true 0x800000 0x100000 false true).1.ad := by
  decide

end Chunk

namespace Chunk

/-- Removing an extent keeps the invariant and uncovers its range. -/
theorem remove_wf (w : Nat) (T : Trees) (e : extent_t) (n : Nat)
    (hT : T.ordered_disjoint w) (he : e ∈ T.ad) :
    (Trees.mk (tree_remove T.szad e) (tree_remove T.ad e) n).ordered_disjoint w ∧
      (∀ a, tree_covers (tree_remove T.ad e) a ↔
        tree_covers T.ad a ∧ ¬ (e.e_addr ≤ a ∧ a < e.e_addr + e.e_size)) ∧
      (∀ z ∈ tree_remove T.ad e,
        z ∈ T.ad ∧ (z.e_addr + z.e_size ≤ e.e_addr ∨ e.e_addr + e.e_size ≤ z.e_addr)) := by
  obtain ⟨hpw, hb, hnd, h1, h2⟩ := hT
  have hpos : ∀ z ∈ T.ad, 0 < z.e_size := fun z hz => (hb z hz).2.1
  have hndad : T.ad.Nodup := nodup_of_pairwise_before T.ad hpw hpos
  have hdis : ∀ z ∈ tree_remove T.ad e,
      z ∈ T.ad ∧ (z.e_addr + z.e_size ≤ e.e_addr ∨ e.e_addr + e.e_size ≤ z.e_addr) := by
    intro z hz
    obtain ⟨hzT, hze⟩ := (mem_tree_remove _ _ _ hndad).mp hz
    exact ⟨hzT, before_or_of_mem T.ad hpw z e hzT he hze⟩
  refine ⟨⟨hpw.sublist (List.erase_sublist _ _), ?_, hnd.erase _, ?_, ?_⟩, ?_, hdis⟩
  · intro z hz
    exact hb z (hdis z hz).1
  · intro z hz
    obtain ⟨hzT, hze⟩ := (mem_tree_remove _ _ _ hnd).mp hz
    exact (mem_tree_remove _ _ _ hndad).mpr ⟨h1 z hzT, hze⟩
  · intro z hz
    obtain ⟨hzT, hze⟩ := (mem_tree_remove _ _ _ hndad).mp hz
    exact (mem_tree_remove _ _ _ hnd).mpr ⟨h2 z hzT, hze⟩
  · intro a
    constructor
    · rintro ⟨z, hz, hza⟩
      obtain ⟨hzT, hd⟩ := hdis z hz
      exact ⟨⟨z, hzT, hza⟩, by omega⟩
    · rintro ⟨⟨z, hzT, hza⟩, hna⟩
      refine ⟨z, (mem_tree_remove _ _ _ hndad).mpr ⟨hzT, ?_⟩, hza⟩
      intro h
      rw [h] at hza
      exact hna hza

/-- The trees of `chunk_recycle` once the selected extent `e` is removed and its lead of
`L` bytes, if any, is inserted: the invariant holds and the rest of `e` is uncovered. -/
theorem lead_stage_wf (w : Nat) (T : Trees) (e lead : extent_t) (L : Nat)
    (hT : T.ordered_disjoint w) (he : e ∈ T.ad) (hL : L < e.e_size)
    (hla : lead.e_addr = e.e_addr) (hls : lead.e_size = L) :
    (if L ≠ 0 then
        Trees.mk (tree_insert extent_szad_comp (tree_remove T.szad e) lead)
          (tree_insert extent_ad_comp (tree_remove T.ad e) lead) T.nalloc
      else Trees.mk (tree_remove T.szad e) (tree_remove T.ad e) T.nalloc).ordered_disjoint w ∧
      (∀ a, tree_covers (if L ≠ 0 then
          Trees.mk (tree_insert extent_szad_comp (tree_remove T.szad e) lead)
            (tree_insert extent_ad_comp (tree_remove T.ad e) lead) T.nalloc
        else Trees.mk (tree_remove T.szad e) (tree_remove T.ad e) T.nalloc).ad a ↔
        tree_covers T.ad a ∧ ¬ (e.e_addr + L ≤ a ∧ a < e.e_addr + e.e_size)) ∧
      (∀ z ∈ (if L ≠ 0 then
          Trees.mk (tree_insert extent_szad_comp (tree_remove T.szad e) lead)
            (tree_insert extent_ad_comp (tree_remove T.ad e) lead) T.nalloc
        else Trees.mk (tree_remove T.szad e) (tree_remove T.ad e) T.nalloc).ad,
        (z ∈ T.ad ∨ z = lead) ∧
          (z.e_addr + z.e_size ≤ e.e_addr + L ∨ e.e_addr + e.e_size ≤ z.e_addr)) := by
  obtain ⟨r1, r2, r3⟩ := remove_wf w T e T.nalloc hT he
  have heb := hT.2.1 e he
  by_cases h0 : L = 0
  · rw [if_neg (by simpa using h0)]
    subst h0
    refine ⟨r1, ?_, ?_⟩
    · intro a
      rw [r2 a]
      simp
    · intro z hz
      obtain ⟨hzT, hd⟩ := r3 z hz
      exact ⟨Or.inl hzT, by omega⟩
  · rw [if_pos h0]
    obtain ⟨i1, i2⟩ := insert_new_wf w
      (Trees.mk (tree_remove T.szad e) (tree_remove T.ad e) T.nalloc) lead T.nalloc
      e.e_addr L r1 (by omega) (by omega) (by omega)
      (fun z hz => by
        obtain ⟨_, hd⟩ := r3 z hz
        omega) hla hls
    refine ⟨i1, ?_, ?_⟩
    · intro a
      rw [i2 a, r2 a]
      constructor
      · rintro (⟨hc, hn⟩ | hr)
        · exact ⟨hc, by omega⟩
        · exact ⟨⟨e, he, by omega⟩, by omega⟩
      · rintro ⟨hc, hn⟩
        by_cases hin : e.e_addr ≤ a ∧ a < e.e_addr + e.e_size
        · exact Or.inr (by omega)
        · exact Or.inl ⟨hc, hin⟩
    · intro z hz
      rcases (mem_tree_insert _ _ _ _).mp hz with rfl | hz2
      · exact ⟨Or.inr rfl, by omega⟩
      · obtain ⟨hzT, hd⟩ := r3 z hz2
        exact ⟨Or.inl hzT, by omega⟩

end Chunk

namespace Chunk

theorem select_mem (env : Env) (T : Trees) (new_addr alloc_size : Nat) (e : extent_t)
    (hsub : ∀ x ∈ T.szad, x ∈ T.ad)
    (hsel : chunk_recycle_select env T new_addr alloc_size = some e) : e ∈ T.ad := by
  unfold chunk_recycle_select at hsel
  split at hsel
  · unfold extent_tree_ad_search tree_search at hsel
    exact List.mem_of_find?_eq_some hsel
  · unfold chunk_first_best_fit extent_tree_szad_nsearch tree_nsearch at hsel
    exact hsub e (List.mem_of_find?_eq_some hsel)

/-- When the lead split is not refused, `chunk_recycle` goes on to its trail step with the
selected extent removed and the lead, if any, inserted. -/
theorem chunk_recycle_to_trail (env : Env) (T : Trees) (cache : Bool)
    (new_addr size alignment : Nat) (zero commit dalloc_extent : Bool) (e lead : extent_t)
    (hld : lead = { e with e_size := chunk_recycle_leadsize env e alignment })
    (halloc : size ≤ chunk_recycle_alloc_size env size alignment)
    (hsel : chunk_recycle_select env T new_addr (chunk_recycle_alloc_size env size alignment) =
      some e)
    (hnew : new_addr ≠ 0 → size ≤ e.e_size)
    (hlead : chunk_recycle_leadsize env e alignment ≠ 0 →
      env.split e.e_addr e.e_size (chunk_recycle_leadsize env e alignment) size false = false) :
    ∃ evs held z1 c1,
      chunk_recycle env T cache new_addr size alignment zero commit dalloc_extent =
        chunk_recycle_trail env
          (if chunk_recycle_leadsize env e alignment ≠ 0 then
            Trees.mk (tree_insert extent_szad_comp (tree_remove T.szad e) lead)
              (tree_insert extent_ad_comp (tree_remove T.ad e) lead) T.nalloc
          else Trees.mk (tree_remove T.szad e) (tree_remove T.ad e) T.nalloc)
          evs held cache dalloc_extent (chunk_recycle_ret env e alignment) size
          (chunk_recycle_trailsize env e size alignment) z1 c1 e.e_zeroed e.e_committed := by
  by_cases hL : chunk_recycle_leadsize env e alignment = 0
  · rw [if_neg (by simpa using hL)]
    unfold chunk_recycle
    simp only [hsel]
    rw [if_neg (by omega), if_neg (by intro h; have := hnew h.1; omega),
      if_neg (by intro h; exact h.1 hL), if_neg (by simpa using hL)]
    exact ⟨_, _, _, _, rfl⟩
  · rw [if_pos hL]
    unfold chunk_recycle
    simp only [hsel]
    rw [if_neg (by omega), if_neg (by intro h; have := hnew h.1; omega),
      if_neg (by intro h; rw [hlead hL] at h; exact absurd h.2 (by decide)), if_pos hL, hld]
    exact ⟨_, _, _, _, rfl⟩

/-- When the lead split is refused, `chunk_recycle` returns `NULL` and the trees as they
were. -/
theorem chunk_recycle_lead_refused (env : Env) (T : Trees) (cache : Bool)
    (new_addr size alignment : Nat) (zero commit dalloc_extent : Bool) (e : extent_t)
    (halloc : size ≤ chunk_recycle_alloc_size env size alignment)
    (hsel : chunk_recycle_select env T new_addr (chunk_recycle_alloc_size env size alignment) =
      some e)
    (hnew : new_addr ≠ 0 → size ≤ e.e_size)
    (hL : chunk_recycle_leadsize env e alignment ≠ 0)
    (hsplit : env.split e.e_addr e.e_size (chunk_recycle_leadsize env e alignment) size false =
      true) :
    (chunk_recycle env T cache new_addr size alignment zero commit dalloc_extent).ret = 0 ∧
      (chunk_recycle env T cache new_addr size alignment zero commit dalloc_extent).trees = T := by
  unfold chunk_recycle
  simp only [hsel]
  rw [if_neg (by omega), if_neg (by intro h; have := hnew h.1; omega), if_pos ⟨hL, hsplit⟩]
  exact ⟨rfl, rfl⟩

/-- When the trail split is refused, the trail step returns `NULL` after recording the
range and the trail back. -/
theorem trail_refused (env : Env) (T : Trees) (evs : List Event) (held : Option extent_t)
    (cache dalloc_extent : Bool) (ret size trailsize : Nat)
    (zero commit zeroed committed : Bool) (ht : trailsize ≠ 0)
    (hs : env.split ret (sz_add env.w size trailsize) size trailsize false = true) :
    (chunk_recycle_trail env T evs held cache dalloc_extent ret size trailsize zero commit
        zeroed committed).ret = 0 ∧
      (chunk_recycle_trail env T evs held cache dalloc_extent ret size trailsize zero commit
        zeroed committed).trees =
        (chunk_record env T cache ret (sz_add env.w size trailsize) zeroed committed).1 := by
  unfold chunk_recycle_trail
  rw [if_pos ht]
  simp only [hs, if_true]
  exact ⟨trivial, trivial⟩

/-- When the trail split is accepted and a descriptor is at hand, the trail step goes on to
the commit step with the trail, if any, inserted. -/
theorem trail_to_commit (env : Env) (T : Trees) (evs : List Event) (held : Option extent_t)
    (cache dalloc_extent : Bool) (ret size trailsize : Nat)
    (zero commit zeroed committed : Bool) (trail : extent_t)
    (htr : trail = extent_init env.ind (sz_add env.w ret size) trailsize false zeroed committed
      false)
    (hsplit : trailsize ≠ 0 →
      env.split ret (sz_add env.w size trailsize) size trailsize false = false)
    (hdesc : env.arena_extent_alloc T.nalloc = true) :
    (trailsize = 0 →
        chunk_recycle_trail env T evs held cache dalloc_extent ret size trailsize zero commit
            zeroed committed =
          chunk_recycle_commit env T evs held cache dalloc_extent ret size zero commit zeroed
            committed) ∧
      (trailsize ≠ 0 →
        ∃ evs2 held2 n,
          chunk_recycle_trail env T evs held cache dalloc_extent ret size trailsize zero commit
              zeroed committed =
            chunk_recycle_commit env
              (Trees.mk (tree_insert extent_szad_comp T.szad trail)
                (tree_insert extent_ad_comp T.ad trail) n)
              evs2 held2 cache dalloc_extent ret size zero commit zeroed committed) := by
  subst htr
  constructor
  · intro ht
    unfold chunk_recycle_trail
    rw [if_neg (by simpa using ht)]
  · intro ht
    unfold chunk_recycle_trail
    rw [if_pos ht]
    simp only [hsplit ht, Bool.false_eq_true, if_false]
    cases held with
    | some d => exact ⟨_, _, _, rfl⟩
    | none =>
      simp only [hdesc, Bool.not_true, Bool.false_eq_true, if_false]
      exact ⟨_, _, _, rfl⟩

/-- When the range is not committed and the commit hook fails, the commit step returns
`NULL` after recording the range back. -/
theorem commit_failed (env : Env) (T : Trees) (evs : List Event) (held : Option extent_t)
    (cache dalloc_extent : Bool) (ret size : Nat) (zero commit zeroed committed : Bool)
    (hc : committed = false) (hcm : env.commit ret size 0 size = true) :
    (chunk_recycle_commit env T evs held cache dalloc_extent ret size zero commit zeroed
        committed).ret = 0 ∧
      (chunk_recycle_commit env T evs held cache dalloc_extent ret size zero commit zeroed
        committed).trees = (chunk_record env T cache ret size zeroed committed).1 := by
  subst hc
  unfold chunk_recycle_commit
  simp only [Bool.not_false, if_true, hcm]
  exact ⟨trivial, trivial⟩

end Chunk

namespace Chunk

theorem lead_stage_nalloc (T : Trees) (e lead : extent_t) (L : Nat) :
    (if L ≠ 0 then
        Trees.mk (tree_insert extent_szad_comp (tree_remove T.szad e) lead)
          (tree_insert extent_ad_comp (tree_remove T.ad e) lead) T.nalloc
      else Trees.mk (tree_remove T.szad e) (tree_remove T.ad e) T.nalloc).nalloc = T.nalloc := by
  split <;> rfl

/-- C14: for every pair of trees that is an ordered disjoint cover and every request of a
positive size with a power-of-two alignment for which `chunk_recycle` selects an extent `e`
that is large enough: if the split hook refuses the lead split, `chunk_recycle` returns
`NULL` and leaves both trees exactly as they were; if the lead split is not refused and the
split hook refuses the trail split, `chunk_recycle` returns `NULL` after recording the whole
range `[ret, ret + size + trailsize)` back, so that (the descriptor allocation succeeding) the
trees are again an ordered disjoint cover of exactly the addresses covered before the call. -/
theorem chunk_recycle_split_refused (env : Env) (T : Trees) (cache : Bool)
    (new_addr size alignment : Nat) (zero commit dalloc_extent : Bool) (e : extent_t) (k : Nat)
    (halign : alignment = 2 ^ k) (hk : 2 ^ k < 2 ^ env.w) (hsize : 0 < size)
    (hT : T.ordered_disjoint env.w)
    (halloc : size ≤ chunk_recycle_alloc_size env size alignment)
    (hsel : chunk_recycle_select env T new_addr (chunk_recycle_alloc_size env size alignment) =
      some e)
    (hnew : new_addr ≠ 0 → size ≤ e.e_size)
    (hfit : chunk_recycle_leadsize env e alignment + size ≤ e.e_size) :
    (chunk_recycle_leadsize env e alignment ≠ 0 →
        env.split e.e_addr e.e_size (chunk_recycle_leadsize env e alignment) size false = true →
        (chunk_recycle env T cache new_addr size alignment zero commit dalloc_extent).ret = 0 ∧
          (chunk_recycle env T cache new_addr size alignment zero commit dalloc_extent).trees =
            T) ∧
      ((chunk_recycle_leadsize env e alignment ≠ 0 →
          env.split e.e_addr e.e_size (chunk_recycle_leadsize env e alignment) size false =
            false) →
        chunk_recycle_trailsize env e size alignment ≠ 0 →
        env.split (chunk_recycle_ret env e alignment)
          (sz_add env.w size (chunk_recycle_trailsize env e size alignment)) size
          (chunk_recycle_trailsize env e size alignment) false = true →
        env.arena_extent_alloc T.nalloc = true →
        (chunk_recycle env T cache new_addr size alignment zero commit dalloc_extent).ret = 0 ∧
          (chunk_recycle env T cache new_addr size alignment zero commit
            dalloc_extent).trees.ordered_disjoint env.w ∧
          ∀ a, tree_covers (chunk_recycle env T cache new_addr size alignment zero commit
              dalloc_extent).trees.ad a ↔ tree_covers T.ad a) := by
  constructor
  · intro hL hsplit
    exact chunk_recycle_lead_refused env T cache new_addr size alignment zero commit
      dalloc_extent e halloc hsel hnew hL hsplit
  · intro hlead htrail hsplit hdesc
    have he := select_mem env T new_addr _ e hT.2.2.2.1 hsel
    have heb := hT.2.1 e he
    subst halign
    obtain ⟨_, hret, htr⟩ := chunk_recycle_arith env e size k hk hsize (by omega) heb.2.2 hfit
    obtain ⟨evs, held, z1, c1, hcr⟩ := chunk_recycle_to_trail env T cache new_addr size (2 ^ k)
      zero commit dalloc_extent e _ rfl halloc hsel hnew hlead
    obtain ⟨t1, t2⟩ := trail_refused env _ evs held cache dalloc_extent
      (chunk_recycle_ret env e (2 ^ k)) size (chunk_recycle_trailsize env e size (2 ^ k)) z1 c1
      e.e_zeroed e.e_committed htrail hsplit
    obtain ⟨l1, l2, l3⟩ := lead_stage_wf env.w T e
      { e with e_size := chunk_recycle_leadsize env e (2 ^ k) }
      (chunk_recycle_leadsize env e (2 ^ k)) hT he (by omega) rfl rfl
    have hsum : sz_add env.w size (chunk_recycle_trailsize env e size (2 ^ k)) =
        e.e_size - chunk_recycle_leadsize env e (2 ^ k) := by
      unfold sz_add
      rw [htr, Nat.mod_eq_of_lt (by omega)]
      omega
    rw [hcr, t1, t2, hsum, hret]
    obtain ⟨c1, _⟩ := chunk_record_effect env _ cache
      (e.e_addr + chunk_recycle_leadsize env e (2 ^ k))
      (e.e_size - chunk_recycle_leadsize env e (2 ^ k)) e.e_zeroed e.e_committed l1
      (by omega) (by omega) (by omega)
      (fun z hz => by
        have := (l3 z hz).2
        omega)
    obtain ⟨w1, w2⟩ := c1 (Or.inr (by rw [lead_stage_nalloc]; exact hdesc))
    refine ⟨rfl, w1, ?_⟩
    intro a
    rw [w2 a, l2 a]
    constructor
    · rintro (⟨hc, _⟩ | hr)
      · exact hc
      · exact ⟨e, he, by omega⟩
    · intro hc
      by_cases hin : e.e_addr + chunk_recycle_leadsize env e (2 ^ k) ≤ a ∧
          a < e.e_addr + e.e_size
      · exact Or.inr (by omega)
      · exact Or.inl ⟨hc, hin⟩

/-- C14 witness: the split hook refuses to split the trail off the 4 MiB at 10 MiB. -/
theorem chunk_recycle_split_refused_witness :
    (chunk_recycle ex_env_nosplit ex_trees true 0xa00000 0x200000 (2 ^ 21) false false
        true).ret = 0 ∧
      (chunk_recycle ex_env_nosplit ex_trees true 0xa00000 0x200000 (2 ^ 21) false false
        true).trees.ordered_disjoint ex_env_nosplit.w ∧
      ∀ a, tree_covers (chunk_recycle ex_env_nosplit ex_trees true 0xa00000 0x200000 (2 ^ 21)
          false false true).trees.ad a ↔ tree_covers ex_trees.ad a :=
  (chunk_recycle_split_refused ex_env_nosplit ex_trees true 0xa00000 0x200000 (2 ^ 21) false
    false true (ex_extent 0xa00000 0x400000) 21 rfl (by decide) (by decide)
    ex_trees_ordered_disjoint (by decide) (by decide) (by decide) (by decide)).2
    (by decide) (by decide) (by decide) rfl

end Chunk

namespace Chunk

theorem ex_retained_ordered_disjoint : ex_retained.ordered_disjoint 64 := by
  unfold Trees.ordered_disjoint extent_before
  decide

/-- What `chunk_recycle` does when the selected extent is not committed, no split is refused,
the commit hook fails and descriptors can be obtained: it returns `NULL` and the trees are
again an ordered disjoint cover of the addresses covered before, every new extent being not
committed. -/
theorem recycle_commit_failure_effect (env : Env) (T : Trees) (cache : Bool)
    (new_addr size alignment : Nat) (zero commit dalloc_extent : Bool) (e : extent_t) (k : Nat)
    (halign : alignment = 2 ^ k) (hk : 2 ^ k < 2 ^ env.w) (hsize : 0 < size)
    (hT : T.ordered_disjoint env.w)
    (halloc : size ≤ chunk_recycle_alloc_size env size alignment)
    (hsel : chunk_recycle_select env T new_addr (chunk_recycle_alloc_size env size alignment) =
      some e)
    (hnew : new_addr ≠ 0 → size ≤ e.e_size)
    (hfit : chunk_recycle_leadsize env e alignment + size ≤ e.e_size)
    (hlead : chunk_recycle_leadsize env e alignment ≠ 0 →
      env.split e.e_addr e.e_size (chunk_recycle_leadsize env e alignment) size false = false)
    (htrail : chunk_recycle_trailsize env e size alignment ≠ 0 →
      env.split (chunk_recycle_ret env e alignment)
        (sz_add env.w size (chunk_recycle_trailsize env e size alignment)) size
        (chunk_recycle_trailsize env e size alignment) false = false)
    (hdesc : ∀ n, env.arena_extent_alloc n = true)
    (hunc : e.e_committed = false)
    (hcm : env.commit (chunk_recycle_ret env e alignment) size 0 size = true) :
    (chunk_recycle env T cache new_addr size alignment zero commit dalloc_extent).ret = 0 ∧
      (chunk_recycle env T cache new_addr size alignment zero commit
        dalloc_extent).trees.ordered_disjoint env.w ∧
      (∀ a, tree_covers (chunk_recycle env T cache new_addr size alignment zero commit
          dalloc_extent).trees.ad a ↔ tree_covers T.ad a) ∧
      (∀ y ∈ (chunk_recycle env T cache new_addr size alignment zero commit
          dalloc_extent).trees.ad, y ∈ T.ad ∨ y.e_committed = false) := by
  have he := select_mem env T new_addr _ e hT.2.2.2.1 hsel
  have heb := hT.2.1 e he
  subst halign
  obtain ⟨_, hret, htr⟩ := chunk_recycle_arith env e size k hk hsize (by omega) heb.2.2 hfit
  obtain ⟨evs, held, z1, c1, hcr⟩ := chunk_recycle_to_trail env T cache new_addr size (2 ^ k)
    zero commit dalloc_extent e _ rfl halloc hsel hnew hlead
  obtain ⟨l1, l2, l3⟩ := lead_stage_wf env.w T e
    { e with e_size := chunk_recycle_leadsize env e (2 ^ k) }
    (chunk_recycle_leadsize env e (2 ^ k)) hT he (by omega) rfl rfl
  obtain ⟨tc0, tc1⟩ := trail_to_commit env _ evs held cache dalloc_extent
    (chunk_recycle_ret env e (2 ^ k)) size (chunk_recycle_trailsize env e size (2 ^ k)) z1 c1
    e.e_zeroed e.e_committed _ rfl htrail (hdesc _)
  have hadd : chunk_recycle_trailsize env e size (2 ^ k) ≠ 0 →
      sz_add env.w (chunk_recycle_ret env e (2 ^ k)) size =
        e.e_addr + chunk_recycle_leadsize env e (2 ^ k) + size := by
    intro h0
    unfold sz_add
    rw [hret]
    exact Nat.mod_eq_of_lt (by omega)
  rw [hcr]
  by_cases h0 : chunk_recycle_trailsize env e size (2 ^ k) = 0
  · rw [tc0 h0]
    obtain ⟨m1, m2⟩ := commit_failed env _ evs held cache dalloc_extent
      (chunk_recycle_ret env e (2 ^ k)) size z1 c1 e.e_zeroed e.e_committed hunc hcm
    rw [m1, m2]
    obtain ⟨r1, _⟩ := chunk_record_effect env _ cache
      (chunk_recycle_ret env e (2 ^ k)) size e.e_zeroed e.e_committed l1
      (by omega) hsize (by omega)
      (fun z hz => by
        have := (l3 z hz).2
        omega)
    obtain ⟨w1, w2⟩ := r1 (Or.inr (hdesc _))
    refine ⟨rfl, w1, ?_, ?_⟩
    · intro a
      rw [w2 a, l2 a]
      constructor
      · rintro (⟨hc, _⟩ | hr)
        · exact hc
        · exact ⟨e, he, by omega⟩
      · intro hc
        by_cases hin : e.e_addr + chunk_recycle_leadsize env e (2 ^ k) ≤ a ∧
            a < e.e_addr + e.e_size
        · exact Or.inr (by omega)
        · exact Or.inl ⟨hc, hin⟩
    · intro y hy
      rcases (chunk_record_committed env _ cache _ size e.e_zeroed e.e_committed y).1 hy with
        h | h
      · rcases (l3 y h).1 with h2 | h2
        · exact Or.inl h2
        · right
          rw [h2]
          exact hunc
      · right
        rw [h, hunc]
  · obtain ⟨evs2, held2, n, htc⟩ := tc1 h0
    rw [htc]
    obtain ⟨m1, m2⟩ := commit_failed env _ evs2 held2 cache dalloc_extent
      (chunk_recycle_ret env e (2 ^ k)) size z1 c1 e.e_zeroed e.e_committed hunc hcm
    rw [m1, m2]
    have l1n : (Trees.mk
        (if chunk_recycle_leadsize env e (2 ^ k) ≠ 0 then
          Trees.mk (tree_insert extent_szad_comp (tree_remove T.szad e)
              { e with e_size := chunk_recycle_leadsize env e (2 ^ k) })
            (tree_insert extent_ad_comp (tree_remove T.ad e)
              { e with e_size := chunk_recycle_leadsize env e (2 ^ k) }) T.nalloc
        else Trees.mk (tree_remove T.szad e) (tree_remove T.ad e) T.nalloc).szad
        (if chunk_recycle_leadsize env e (2 ^ k) ≠ 0 then
          Trees.mk (tree_insert extent_szad_comp (tree_remove T.szad e)
              { e with e_size := chunk_recycle_leadsize env e (2 ^ k) })
            (tree_insert extent_ad_comp (tree_remove T.ad e)
              { e with e_size := chunk_recycle_leadsize env e (2 ^ k) }) T.nalloc
        else Trees.mk (tree_remove T.szad e) (tree_remove T.ad e) T.nalloc).ad
        n).ordered_disjoint env.w := l1
    obtain ⟨i1, i2⟩ := insert_new_wf env.w _
      (extent_init env.ind (sz_add env.w (chunk_recycle_ret env e (2 ^ k)) size)
        (chunk_recycle_trailsize env e size (2 ^ k)) false e.e_zeroed e.e_committed false) n
      (e.e_addr + chunk_recycle_leadsize env e (2 ^ k) + size)
      (chunk_recycle_trailsize env e size (2 ^ k)) l1 (by omega) (by omega) (by omega)
      (fun z hz => by
        have := (l3 z hz).2
        omega)
      (by simp only [extent_init]; exact hadd h0) rfl
    obtain ⟨r1, _⟩ := chunk_record_effect env _ cache
      (chunk_recycle_ret env e (2 ^ k)) size e.e_zeroed e.e_committed i1
      (by omega) hsize (by omega)
      (fun z hz => by
        rcases (mem_tree_insert _ _ _ _).mp hz with h | h
        · rw [h]
          simp only [extent_init]
          rw [hadd h0]
          omega
        · have := (l3 z h).2
          omega)
    obtain ⟨w1, w2⟩ := r1 (Or.inr (hdesc _))
    refine ⟨rfl, w1, ?_, ?_⟩
    · intro a
      rw [w2 a, i2 a, l2 a]
      constructor
      · rintro ((⟨hc, _⟩ | hr) | hr)
        · exact hc
        · exact ⟨e, he, by omega⟩
        · exact ⟨e, he, by omega⟩
      · intro hc
        by_cases hin : e.e_addr + chunk_recycle_leadsize env e (2 ^ k) ≤ a ∧
            a < e.e_addr + e.e_size
        · by_cases hin2 : a < e.e_addr + chunk_recycle_leadsize env e (2 ^ k) + size
          · exact Or.inr (by omega)
          · exact Or.inl (Or.inr (by omega))
        · exact Or.inl (Or.inl ⟨hc, hin⟩)
    · intro y hy
      rcases (chunk_record_committed env _ cache _ size e.e_zeroed e.e_committed y).1 hy with
        h | h
      · rcases (mem_tree_insert _ _ _ _).mp h with h2 | h2
        · right
          rw [h2]
          exact hunc
        · rcases (l3 y h2).1 with h3 | h3
          · exact Or.inl h3
          · right
            rw [h3]
            exact hunc
      · right
        rw [h, hunc]

/-- C13 (amended): for every pair of trees that is an ordered disjoint cover and every
request of a positive size with a power-of-two alignment for which `chunk_recycle` selects an
extent `e` that is large enough and not committed: if neither split is refused, the commit
hook fails and the descriptor allocations succeed, then `chunk_recycle` returns `NULL` and
records `[ret, ret + size)` back into the pair of trees it was given, with `committed = false`:
the trees are again an ordered disjoint cover of exactly the addresses covered before the
call, and every extent of theirs that was not there before is not committed. Called through
`chunk_alloc_retained`, this is the retained pair, and `stats.retained` is left as it was. -/
theorem chunk_recycle_commit_failure (env : Env) (T : Trees) (cache : Bool)
    (new_addr size alignment : Nat) (zero commit dalloc_extent : Bool) (e : extent_t) (k : Nat)
    (halign : alignment = 2 ^ k) (hk : 2 ^ k < 2 ^ env.w) (hsize : 0 < size)
    (hT : T.ordered_disjoint env.w)
    (halloc : size ≤ chunk_recycle_alloc_size env size alignment)
    (hsel : chunk_recycle_select env T new_addr (chunk_recycle_alloc_size env size alignment) =
      some e)
    (hnew : new_addr ≠ 0 → size ≤ e.e_size)
    (hfit : chunk_recycle_leadsize env e alignment + size ≤ e.e_size)
    (hlead : chunk_recycle_leadsize env e alignment ≠ 0 →
      env.split e.e_addr e.e_size (chunk_recycle_leadsize env e alignment) size false = false)
    (htrail : chunk_recycle_trailsize env e size alignment ≠ 0 →
      env.split (chunk_recycle_ret env e alignment)
        (sz_add env.w size (chunk_recycle_trailsize env e size alignment)) size
        (chunk_recycle_trailsize env e size alignment) false = false)
    (hdesc : ∀ n, env.arena_extent_alloc n = true)
    (hunc : e.e_committed = false)
    (hcm : env.commit (chunk_recycle_ret env e alignment) size 0 size = true) :
    ((chunk_recycle env T cache new_addr size alignment zero commit dalloc_extent).ret = 0 ∧
        (chunk_recycle env T cache new_addr size alignment zero commit
          dalloc_extent).trees.ordered_disjoint env.w ∧
        (∀ a, tree_covers (chunk_recycle env T cache new_addr size alignment zero commit
            dalloc_extent).trees.ad a ↔ tree_covers T.ad a) ∧
        (∀ y ∈ (chunk_recycle env T cache new_addr size alignment zero commit
            dalloc_extent).trees.ad, y ∈ T.ad ∨ y.e_committed = false)) ∧
      ∀ stats_retained,
        chunk_alloc_retained env T stats_retained new_addr size alignment zero commit =
          (chunk_recycle env T false new_addr size alignment zero commit true,
            stats_retained) := by
  refine ⟨recycle_commit_failure_effect env T cache new_addr size alignment zero commit
    dalloc_extent e k halign hk hsize hT halloc hsel hnew hfit hlead htrail hdesc hunc hcm, ?_⟩
  intro stats_retained
  have h0 := (recycle_commit_failure_effect env T false new_addr size alignment zero commit
    true e k halign hk hsize hT halloc hsel hnew hfit hlead htrail hdesc hunc hcm).1
  unfold chunk_alloc_retained
  simp [h0]

/-- C13 witness: the commit hook fails on the retained 2 MiB at 6 MiB. -/
theorem chunk_recycle_commit_failure_witness :
    (chunk_recycle ex_env_nocommit ex_retained false 0 0x200000 (2 ^ 21) false false true).ret =
        0 ∧
      (chunk_recycle ex_env_nocommit ex_retained false 0 0x200000 (2 ^ 21) false false
        true).trees.ordered_disjoint ex_env_nocommit.w ∧
      (∀ a, tree_covers (chunk_recycle ex_env_nocommit ex_retained false 0 0x200000 (2 ^ 21)
          false false true).trees.ad a ↔ tree_covers ex_retained.ad a) ∧
      (∀ y ∈ (chunk_recycle ex_env_nocommit ex_retained false 0 0x200000 (2 ^ 21) false false
          true).trees.ad, y ∈ ex_retained.ad ∨ y.e_committed = false) :=
  (chunk_recycle_commit_failure ex_env_nocommit ex_retained false 0 0x200000 (2 ^ 21) false
    false true ⟨0, 0x600000, 0x200000, false, false, false, false⟩ 21 rfl (by decide)
    (by decide) ex_retained_ordered_disjoint (by decide) (by decide) (by decide) (by decide)
    (by decide) (by decide) (fun _ => rfl) rfl rfl).1

/-- C13 as stated fails: when the commit hook fails and no descriptor can be obtained, the
range is dropped, and the address `0x600000` that was covered before the call no longer is. -/
theorem chunk_recycle_commit_failure_counterexample :
    chunk_recycle_select ex_env_nocommit_oom ex_retained 0
        (chunk_recycle_alloc_size ex_env_nocommit_oom 0x200000 (2 ^ 21)) =
        some ⟨0, 0x600000, 0x200000, false, false, false, false⟩ ∧
      ex_env_nocommit_oom.commit 0x600000 0x200000 0 0x200000 = true ∧
      (chunk_recycle ex_env_nocommit_oom ex_retained false 0 0x200000 (2 ^ 21) false false
        true).ret = 0 ∧
      (chunk_recycle ex_env_nocommit_oom ex_retained false 0 0x200000 (2 ^ 21) false false
        true).trees.ad = [⟨0, 0xa00000, 0x400000, false, false, false, false⟩] ∧
      tree_covers ex_retained.ad 0x600000 ∧
      ¬ tree_covers (chunk_recycle ex_env_nocommit_oom ex_retained false 0 0x200000 (2 ^ 21)
        false false true).trees.ad 0x600000 := by
  refine ⟨by decide, rfl, by decide, by decide, ?_, ?_⟩
  · unfold tree_covers
    decide
  · unfold tree_covers
    decide

end Chunk

/-! ## `tcache_inlines.h`: popping from a thread-cache bin -/

namespace Tcache

/-- C20: for every thread-cache bin whose fill count fits an `int` (`ncached ≤ 2^31`): if
`ncached = 0`, `tcache_alloc_easy` returns `NULL` with `*tcache_success = false`, sets
`low_water` to `-1` and leaves `ncached` and the stack unchanged; if `ncached > 0`, it returns
the top entry `avail[-ncached]` with `*tcache_success = true`, decrements `ncached` by one,
sets `low_water` to the minimum of the old `low_water` and the new `ncached`, and leaves the
stack entries unchanged. -/
theorem tcache_alloc_easy_pops (tbin : tcache_bin_t) (hn : tbin.ncached ≤ 2 ^ 31) :
    (tbin.ncached = 0 →
        (tcache_alloc_easy tbin).2.2 = 0 ∧ (tcache_alloc_easy tbin).2.1 = false ∧
          (tcache_alloc_easy tbin).1.low_water = -1 ∧
          (tcache_alloc_easy tbin).1.ncached = tbin.ncached ∧
          (tcache_alloc_easy tbin).1.avail = tbin.avail) ∧
      (0 < tbin.ncached →
        (tcache_alloc_easy tbin).2.2 = tbin.avail tbin.ncached ∧
          (tcache_alloc_easy tbin).2.1 = true ∧
          (tcache_alloc_easy tbin).1.ncached = tbin.ncached - 1 ∧
          (tcache_alloc_easy tbin).1.low_water =
            min tbin.low_water ((tbin.ncached - 1 : Nat) : Int) ∧
          (tcache_alloc_easy tbin).1.avail = tbin.avail) := by
  constructor
  · intro h0
    simp [tcache_alloc_easy, h0]
  · intro hpos
    have hne : tbin.ncached ≠ 0 := by omega
    have hdec : (tbin.ncached + (2 ^ 32 - 1)) % 2 ^ 32 = tbin.ncached - 1 := by omega
    have hcast : int_cast (tbin.ncached - 1) = ((tbin.ncached - 1 : Nat) : Int) := by
      unfold int_cast
      have h1 : (tbin.ncached - 1) % 2 ^ 32 = tbin.ncached - 1 := by omega
      have h2 : tbin.ncached - 1 < 2 ^ 31 := by omega
      rw [h1, if_pos h2]
    unfold tcache_alloc_easy
    simp only [if_neg hne, hdec, hcast]
    refine ⟨trivial, trivial, trivial, ?_, trivial⟩
    by_cases hlt : ((tbin.ncached - 1 : Nat) : Int) < tbin.low_water
    · rw [if_pos hlt, min_eq_right (le_of_lt hlt)]
    · rw [if_neg hlt, min_eq_left (not_lt.mp hlt)]

/-- C20 witness: popping from a bin that caches three pointers. -/
theorem tcache_alloc_easy_pops_witness :
    ex_bin.ncached ≤ 2 ^ 31 ∧ 0 < ex_bin.ncached ∧
      (tcache_alloc_easy ex_bin).2.2 = 0x3000 ∧ (tcache_alloc_easy ex_bin).2.1 = true ∧
      (tcache_alloc_easy ex_bin).1.ncached = 2 ∧
      (tcache_alloc_easy ex_bin).1.low_water = min 2 2 :=
  ⟨by decide, by decide,
    ((tcache_alloc_easy_pops ex_bin (by decide)).2 (by decide)).1,
    ((tcache_alloc_easy_pops ex_bin (by decide)).2 (by decide)).2.1,
    ((tcache_alloc_easy_pops ex_bin (by decide)).2 (by decide)).2.2.1,
    ((tcache_alloc_easy_pops ex_bin (by decide)).2 (by decide)).2.2.2.1⟩

end Tcache

/-! ## `tcache_inlines.h`: pushing onto a thread-cache bin -/

namespace Tcache

theorem flush_ncached (tbin : tcache_bin_t) (rem : Nat) (h : rem ≤ tbin.ncached) :
    (tcache_bin_flush tbin rem).ncached = rem := by
  unfold tcache_bin_flush
  rw [if_pos h]

theorem push_ncached (tbin : tcache_bin_t) (ptr : Nat) (h : tbin.ncached + 1 < 2 ^ 32) :
    (tcache_bin_push tbin ptr).ncached = tbin.ncached + 1 := by
  unfold tcache_bin_push
  exact Nat.mod_eq_of_lt h

theorem push_low_water (tbin : tcache_bin_t) (ptr : Nat) :
    (tcache_bin_push tbin ptr).low_water = tbin.low_water := rfl

theorem push_top (tbin : tcache_bin_t) (ptr : Nat) :
    (tcache_bin_push tbin ptr).avail (tcache_bin_push tbin ptr).ncached = ptr := by
  simp [tcache_bin_push]

theorem push_below (tbin : tcache_bin_t) (ptr k : Nat)
    (hk : k ≠ (tcache_bin_push tbin ptr).ncached) :
    (tcache_bin_push tbin ptr).avail k = tbin.avail k := by
  have hk2 : k ≠ (tbin.ncached + 1) % 2 ^ 32 := hk
  unfold tcache_bin_push
  simp only [if_neg hk2]

theorem small_flushed_lt (tbin : tcache_bin_t) (tbin_info : tcache_bin_info_t)
    (hmax : 1 ≤ tbin_info.ncached_max) (hn : tbin.ncached ≤ tbin_info.ncached_max) :
    (tcache_dalloc_small_flushed tbin tbin_info).ncached < tbin_info.ncached_max := by
  unfold tcache_dalloc_small_flushed tcache_bin_flush_small
  by_cases h : tbin.ncached = tbin_info.ncached_max
  · rw [if_pos h, flush_ncached _ _ (by omega)]
    omega
  · rw [if_neg h]
    omega

theorem large_flushed_lt (tbin : tcache_bin_t) (tbin_info : tcache_bin_info_t)
    (hmax : 1 ≤ tbin_info.ncached_max) (hn : tbin.ncached ≤ tbin_info.ncached_max) :
    (tcache_dalloc_large_flushed tbin tbin_info).ncached < tbin_info.ncached_max := by
  unfold tcache_dalloc_large_flushed tcache_bin_flush_large
  by_cases h : tbin.ncached = tbin_info.ncached_max
  · rw [if_pos h, flush_ncached _ _ (by omega)]
    omega
  · rw [if_neg h]
    omega

theorem small_flush_event_iff (env : Env) (tbin : tcache_bin_t)
    (tbin_info : tcache_bin_info_t) (ptr binind : Nat) (slow_path : Bool) :
    (∃ b r, Event.tcache_bin_flush_small b r ∈
        (tcache_dalloc_small env tbin tbin_info ptr binind slow_path).2) ↔
      tbin.ncached = tbin_info.ncached_max := by
  unfold tcache_dalloc_small tcache_event
  by_cases h : tbin.ncached = tbin_info.ncached_max
  · simp only [if_pos h]
    exact ⟨fun _ => h, fun _ => ⟨binind, tbin_info.ncached_max / 2, by simp⟩⟩
  · simp only [if_neg h]
    refine ⟨?_, fun hf => absurd hf h⟩
    rintro ⟨b, r, hm⟩
    simp only [List.append_nil, List.mem_append] at hm
    rcases hm with hm | hm
    · split at hm <;> simp at hm
    · split at hm
      · simp at hm
      · split at hm <;> simp at hm

theorem large_flush_event_iff (env : Env) (tbin : tcache_bin_t)
    (tbin_info : tcache_bin_info_t) (ptr binind : Nat) (slow_path : Bool) :
    (∃ b r, Event.tcache_bin_flush_large b r ∈
        (tcache_dalloc_large env tbin tbin_info ptr binind slow_path).2) ↔
      tbin.ncached = tbin_info.ncached_max := by
  unfold tcache_dalloc_large tcache_event
  by_cases h : tbin.ncached = tbin_info.ncached_max
  · simp only [if_pos h]
    exact ⟨fun _ => h, fun _ => ⟨binind, tbin_info.ncached_max / 2, by simp⟩⟩
  · simp only [if_neg h]
    refine ⟨?_, fun hf => absurd hf h⟩
    rintro ⟨b, r, hm⟩
    simp only [List.append_nil, List.mem_append] at hm
    rcases hm with hm | hm
    · split at hm <;> simp at hm
    · split at hm
      · simp at hm
      · split at hm <;> simp at hm

end Tcache

namespace Tcache

/-- C21: for every bin with `ncached_max ≥ 1` (an `unsigned`) and `ncached ≤ ncached_max`,
`tcache_dalloc_small` and `tcache_dalloc_large` flush the bin if and only if
`ncached = ncached_max` on entry, and the flush leaves `ncached_max / 2` entries; the
assertion `ncached < ncached_max` holds before the push; the push makes `ptr` the top entry,
adds one to `ncached` and leaves the other entries alone; afterwards
`1 ≤ ncached ≤ ncached_max`. -/
theorem tcache_dalloc_flushes_iff_full (env : Env) (tbin : tcache_bin_t)
    (tbin_info : tcache_bin_info_t) (ptr binind : Nat) (slow_path : Bool)
    (hmax : 1 ≤ tbin_info.ncached_max) (hty : tbin_info.ncached_max < 2 ^ 32)
    (hn : tbin.ncached ≤ tbin_info.ncached_max) :
    (((∃ b r, Event.tcache_bin_flush_small b r ∈
          (tcache_dalloc_small env tbin tbin_info ptr binind slow_path).2) ↔
        tbin.ncached = tbin_info.ncached_max) ∧
      (tbin.ncached = tbin_info.ncached_max →
        (tcache_dalloc_small_flushed tbin tbin_info).ncached = tbin_info.ncached_max / 2) ∧
      (tbin.ncached ≠ tbin_info.ncached_max →
        tcache_dalloc_small_flushed tbin tbin_info = tbin) ∧
      (tcache_dalloc_small_flushed tbin tbin_info).ncached < tbin_info.ncached_max ∧
      (tcache_dalloc_small env tbin tbin_info ptr binind slow_path).1.ncached =
        (tcache_dalloc_small_flushed tbin tbin_info).ncached + 1 ∧
      (tcache_dalloc_small env tbin tbin_info ptr binind slow_path).1.avail
        (tcache_dalloc_small env tbin tbin_info ptr binind slow_path).1.ncached = ptr ∧
      (∀ k, k ≠ (tcache_dalloc_small env tbin tbin_info ptr binind slow_path).1.ncached →
        (tcache_dalloc_small env tbin tbin_info ptr binind slow_path).1.avail k =
          (tcache_dalloc_small_flushed tbin tbin_info).avail k) ∧
      1 ≤ (tcache_dalloc_small env tbin tbin_info ptr binind slow_path).1.ncached ∧
      (tcache_dalloc_small env tbin tbin_info ptr binind slow_path).1.ncached ≤
        tbin_info.ncached_max) ∧
    (((∃ b r, Event.tcache_bin_flush_large b r ∈
          (tcache_dalloc_large env tbin tbin_info ptr binind slow_path).2) ↔
        tbin.ncached = tbin_info.ncached_max) ∧
      (tbin.ncached = tbin_info.ncached_max →
        (tcache_dalloc_large_flushed tbin tbin_info).ncached = tbin_info.ncached_max / 2) ∧
      (tbin.ncached ≠ tbin_info.ncached_max →
        tcache_dalloc_large_flushed tbin tbin_info = tbin) ∧
      (tcache_dalloc_large_flushed tbin tbin_info).ncached < tbin_info.ncached_max ∧
      (tcache_dalloc_large env tbin tbin_info ptr binind slow_path).1.ncached =
        (tcache_dalloc_large_flushed tbin tbin_info).ncached + 1 ∧
      (tcache_dalloc_large env tbin tbin_info ptr binind slow_path).1.avail
        (tcache_dalloc_large env tbin tbin_info ptr binind slow_path).1.ncached = ptr ∧
      (∀ k, k ≠ (tcache_dalloc_large env tbin tbin_info ptr binind slow_path).1.ncached →
        (tcache_dalloc_large env tbin tbin_info ptr binind slow_path).1.avail k =
          (tcache_dalloc_large_flushed tbin tbin_info).avail k) ∧
      1 ≤ (tcache_dalloc_large env tbin tbin_info ptr binind slow_path).1.ncached ∧
      (tcache_dalloc_large env tbin tbin_info ptr binind slow_path).1.ncached ≤
        tbin_info.ncached_max) := by
  have hs := small_flushed_lt tbin tbin_info hmax hn
  have hl := large_flushed_lt tbin tbin_info hmax hn
  have hps := push_ncached (tcache_dalloc_small_flushed tbin tbin_info) ptr (by omega)
  have hpl := push_ncached (tcache_dalloc_large_flushed tbin tbin_info) ptr (by omega)
  refine ⟨⟨small_flush_event_iff env tbin tbin_info ptr binind slow_path, ?_, ?_, hs, hps,
      push_top _ ptr, fun k hk => push_below _ ptr k hk, ?_, ?_⟩,
    ⟨large_flush_event_iff env tbin tbin_info ptr binind slow_path, ?_, ?_, hl, hpl,
      push_top _ ptr, fun k hk => push_below _ ptr k hk, ?_, ?_⟩⟩
  · intro h
    unfold tcache_dalloc_small_flushed tcache_bin_flush_small
    rw [if_pos h, flush_ncached _ _ (by omega)]
  · intro h
    unfold tcache_dalloc_small_flushed
    rw [if_neg h]
  · show 1 ≤ (tcache_bin_push (tcache_dalloc_small_flushed tbin tbin_info) ptr).ncached
    omega
  · show (tcache_bin_push (tcache_dalloc_small_flushed tbin tbin_info) ptr).ncached ≤ _
    omega
  · intro h
    unfold tcache_dalloc_large_flushed tcache_bin_flush_large
    rw [if_pos h, flush_ncached _ _ (by omega)]
  · intro h
    unfold tcache_dalloc_large_flushed
    rw [if_neg h]
  · show 1 ≤ (tcache_bin_push (tcache_dalloc_large_flushed tbin tbin_info) ptr).ncached
    omega
  · show (tcache_bin_push (tcache_dalloc_large_flushed tbin tbin_info) ptr).ncached ≤ _
    omega

/-- C21 witness: a push onto a full bin of capacity three flushes it down to one entry and
leaves it with two. -/
theorem tcache_dalloc_flushes_iff_full_witness :
    1 ≤ ex_info.ncached_max ∧ ex_bin.ncached = ex_info.ncached_max ∧
      (tcache_dalloc_small_flushed ex_bin ex_info).ncached = 1 ∧
      (tcache_dalloc_small ex_env ex_bin ex_info 0x7000 0 true).1.ncached = 1 + 1 ∧
      (tcache_dalloc_small ex_env ex_bin ex_info 0x7000 0 true).1.avail 2 = 0x7000 ∧
      (tcache_dalloc_small ex_env ex_bin ex_info 0x7000 0 true).1.avail 1 = 0x3000 ∧
      (tcache_dalloc_small ex_env ex_bin ex_info 0x7000 0 true).2 =
        [Event.arena_dalloc_junk_small 0x7000 0, Event.tcache_bin_flush_small 0 1,
          Event.ticker_tick] :=
  ⟨by decide, by decide,
    (tcache_dalloc_flushes_iff_full ex_env ex_bin ex_info 0x7000 0 true (by decide)
      (by decide) (by decide)).1.2.1 (by decide),
    by decide, by decide, by decide, by decide⟩

end Tcache

namespace Tcache

theorem int_cast_small (n : Nat) (h : n < 2 ^ 31) : int_cast n = (n : Int) := by
  unfold int_cast
  have h1 : n % 2 ^ 32 = n := Nat.mod_eq_of_lt (by omega)
  rw [h1, if_pos h]

theorem alloc_easy_empty (tbin : tcache_bin_t) (h : tbin.ncached = 0) :
    (tcache_alloc_easy tbin).1.low_water = -1 ∧ (tcache_alloc_easy tbin).1.ncached = 0 := by
  simp [tcache_alloc_easy, h]

theorem alloc_easy_pop (tbin : tcache_bin_t) (h : tbin.ncached ≠ 0)
    (hn : tbin.ncached ≤ 2 ^ 31) :
    (tcache_alloc_easy tbin).1.ncached = tbin.ncached - 1 ∧
      (tcache_alloc_easy tbin).1.low_water =
        (if ((tbin.ncached - 1 : Nat) : Int) < tbin.low_water then
          ((tbin.ncached - 1 : Nat) : Int) else tbin.low_water) := by
  have hdec : (tbin.ncached + (2 ^ 32 - 1)) % 2 ^ 32 = tbin.ncached - 1 := by omega
  have hcast := int_cast_small (tbin.ncached - 1) (by omega)
  unfold tcache_alloc_easy
  simp only [if_neg h, hdec, hcast]
  exact ⟨trivial, trivial⟩

theorem dalloc_small_noflush (env : Env) (tbin : tcache_bin_t)
    (tbin_info : tcache_bin_info_t) (ptr binind : Nat) (slow_path : Bool)
    (h : tbin.ncached ≠ tbin_info.ncached_max) (hn : tbin.ncached + 1 < 2 ^ 32) :
    (tcache_dalloc_small env tbin tbin_info ptr binind slow_path).1.ncached =
        tbin.ncached + 1 ∧
      (tcache_dalloc_small env tbin tbin_info ptr binind slow_path).1.low_water =
        tbin.low_water := by
  have hf : tcache_dalloc_small_flushed tbin tbin_info = tbin := by
    unfold tcache_dalloc_small_flushed
    rw [if_neg h]
  have h1 : (tcache_dalloc_small env tbin tbin_info ptr binind slow_path).1 =
      tcache_bin_push tbin ptr := by
    unfold tcache_dalloc_small
    rw [hf]
  rw [h1]
  exact ⟨push_ncached tbin ptr hn, rfl⟩

theorem dalloc_large_noflush (env : Env) (tbin : tcache_bin_t)
    (tbin_info : tcache_bin_info_t) (ptr binind : Nat) (slow_path : Bool)
    (h : tbin.ncached ≠ tbin_info.ncached_max) (hn : tbin.ncached + 1 < 2 ^ 32) :
    (tcache_dalloc_large env tbin tbin_info ptr binind slow_path).1.ncached =
        tbin.ncached + 1 ∧
      (tcache_dalloc_large env tbin tbin_info ptr binind slow_path).1.low_water =
        tbin.low_water := by
  have hf : tcache_dalloc_large_flushed tbin tbin_info = tbin := by
    unfold tcache_dalloc_large_flushed
    rw [if_neg h]
  have h1 : (tcache_dalloc_large env tbin tbin_info ptr binind slow_path).1 =
      tcache_bin_push tbin ptr := by
    unfold tcache_dalloc_large
    rw [hf]
  rw [h1]
  exact ⟨push_ncached tbin ptr hn, rfl⟩

/-- One operation that does not flush keeps `-1 ≤ low_water ≤ ncached ≤ ncached_max`; it sets
`low_water` to `-1` when it is a pop from an empty bin, and otherwise lowers it to the new
fill count or leaves it. -/
theorem apply_step (env : Env) (tbin_info : tcache_bin_info_t)
    (hmax : tbin_info.ncached_max < 2 ^ 31) (tbin : tcache_bin_t) (op : Op)
    (hlo : -1 ≤ tbin.low_water) (hhi : tbin.low_water ≤ (tbin.ncached : Int))
    (hn : tbin.ncached ≤ tbin_info.ncached_max)
    (hf : op.flushes tbin_info tbin = false) :
    -1 ≤ (op.apply env tbin_info tbin).low_water ∧
      (op.apply env tbin_info tbin).low_water ≤ ((op.apply env tbin_info tbin).ncached : Int) ∧
      (op.apply env tbin_info tbin).ncached ≤ tbin_info.ncached_max ∧
      (op = Op.alloc_easy ∧ tbin.ncached = 0 → (op.apply env tbin_info tbin).low_water = -1) ∧
      (¬ (op = Op.alloc_easy ∧ tbin.ncached = 0) →
        (op.apply env tbin_info tbin).low_water ≤ tbin.low_water ∧
          ((op.apply env tbin_info tbin).low_water = tbin.low_water ∨
            (op.apply env tbin_info tbin).low_water =
              ((op.apply env tbin_info tbin).ncached : Int))) := by
  cases op with
  | alloc_easy =>
    by_cases h0 : tbin.ncached = 0
    · obtain ⟨h1, h2⟩ := alloc_easy_empty tbin h0
      simp only [Op.apply]
      rw [h1, h2]
      refine ⟨by omega, by omega, by omega, fun _ => rfl, fun hh => absurd ⟨by first | rfl | trivial, h0⟩ hh⟩
    · obtain ⟨h1, h2⟩ := alloc_easy_pop tbin h0 (by omega)
      simp only [Op.apply]
      rw [h1, h2]
      by_cases hlt : ((tbin.ncached - 1 : Nat) : Int) < tbin.low_water
      · rw [if_pos hlt]
        refine ⟨by omega, by omega, by omega, fun hh => absurd hh.2 h0, fun _ => ?_⟩
        exact ⟨by omega, Or.inr rfl⟩
      · rw [if_neg hlt]
        refine ⟨by omega, by omega, by omega, fun hh => absurd hh.2 h0, fun _ => ?_⟩
        exact ⟨le_refl _, Or.inl rfl⟩
  | dalloc_small ptr binind slow_path =>
    have hne : tbin.ncached ≠ tbin_info.ncached_max := by
      simpa [Op.flushes] using hf
    obtain ⟨h1, h2⟩ :=
      dalloc_small_noflush env tbin tbin_info ptr binind slow_path hne (by omega)
    simp only [Op.apply]
    rw [h1, h2]
    refine ⟨hlo, by omega, by omega, fun hh => by simp at hh, fun _ => ?_⟩
    exact ⟨le_refl _, Or.inl rfl⟩
  | dalloc_large ptr binind slow_path =>
    have hne : tbin.ncached ≠ tbin_info.ncached_max := by
      simpa [Op.flushes] using hf
    obtain ⟨h1, h2⟩ :=
      dalloc_large_noflush env tbin tbin_info ptr binind slow_path hne (by omega)
    simp only [Op.apply]
    rw [h1, h2]
    refine ⟨hlo, by omega, by omega, fun hh => by simp at hh, fun _ => ?_⟩
    exact ⟨le_refl _, Or.inl rfl⟩

end Tcache

namespace Tcache

theorem trace_head_mem (env : Env) (tbin_info : tcache_bin_info_t) (tbin : tcache_bin_t)
    (ops : List Op) : tbin ∈ bin_trace env tbin_info tbin ops := by
  cases ops <;> simp [bin_trace]

theorem run_mem_trace (env : Env) (tbin_info : tcache_bin_info_t) :
    ∀ (ops : List Op) (tbin : tcache_bin_t),
      bin_run env tbin_info tbin ops ∈ bin_trace env tbin_info tbin ops := by
  intro ops
  induction ops with
  | nil => intro tbin; simp [bin_run, bin_trace]
  | cons op ops ih =>
    intro tbin
    simp only [bin_run, bin_trace, List.mem_cons]
    exact Or.inr (ih _)

/-- The low-water mark along a sequence of operations without a flush, from any bin with
`-1 ≤ low_water ≤ ncached ≤ ncached_max`. -/
theorem bin_run_low_water (env : Env) (tbin_info : tcache_bin_info_t)
    (hmax : tbin_info.ncached_max < 2 ^ 31) :
    ∀ (ops : List Op) (tbin : tcache_bin_t), -1 ≤ tbin.low_water →
      tbin.low_water ≤ (tbin.ncached : Int) → tbin.ncached ≤ tbin_info.ncached_max →
      bin_flushes env tbin_info tbin ops = false →
      (∀ s ∈ bin_trace env tbin_info tbin ops,
          -1 ≤ s.low_water ∧ s.low_water ≤ (s.ncached : Int) ∧
            s.ncached ≤ tbin_info.ncached_max) ∧
        (bin_alloc_on_empty env tbin_info tbin ops = true →
          (bin_run env tbin_info tbin ops).low_water = -1) ∧
        (bin_alloc_on_empty env tbin_info tbin ops = false →
          (bin_run env tbin_info tbin ops).low_water ≤ tbin.low_water ∧
            (∀ s ∈ bin_trace env tbin_info tbin ops,
              (bin_run env tbin_info tbin ops).low_water ≤ (s.ncached : Int)) ∧
            ((bin_run env tbin_info tbin ops).low_water = tbin.low_water ∨
              ∃ s ∈ bin_trace env tbin_info tbin ops,
                (bin_run env tbin_info tbin ops).low_water = (s.ncached : Int))) := by
  intro ops
  induction ops with
  | nil =>
    intro tbin hlo hhi hn _
    simp only [bin_trace, bin_run, bin_alloc_on_empty, List.mem_singleton]
    refine ⟨fun s hs => by subst hs; exact ⟨hlo, hhi, hn⟩, fun h => by simp at h, fun _ => ?_⟩
    exact ⟨le_refl _, fun s hs => by subst hs; exact hhi, Or.inl (by first | rfl | trivial)⟩
  | cons op ops ih =>
    intro tbin hlo hhi hn hf
    simp only [bin_flushes, Bool.or_eq_false_iff] at hf
    obtain ⟨s1, s2, s3, s4, s5⟩ := apply_step env tbin_info hmax tbin op hlo hhi hn hf.1
    obtain ⟨i1, i2, i3⟩ := ih (op.apply env tbin_info tbin) s1 s2 s3 hf.2
    have hrun := i1 _ (run_mem_trace env tbin_info ops (op.apply env tbin_info tbin))
    simp only [bin_trace, bin_run, bin_alloc_on_empty, List.mem_cons]
    refine ⟨?_, ?_, ?_⟩
    · rintro s (hs | hs)
      · subst hs; exact ⟨hlo, hhi, hn⟩
      · exact i1 s hs
    · intro ha
      cases hb : bin_alloc_on_empty env tbin_info (op.apply env tbin_info tbin) ops with
      | true => exact i2 hb
      | false =>
        rw [hb, Bool.or_false] at ha
        simp only [Bool.and_eq_true, decide_eq_true_eq] at ha
        have h1 := s4 ha
        have h2 := (i3 hb).1
        omega
    · intro ha
      simp only [Bool.or_eq_false_iff, Bool.and_eq_false_iff, decide_eq_false_iff_not] at ha
      obtain ⟨ha1, ha2⟩ := ha
      have hnot : ¬ (op = Op.alloc_easy ∧ tbin.ncached = 0) := by
        rintro ⟨x, y⟩
        rcases ha1 with h | h
        · exact h x
        · exact h y
      obtain ⟨t1, t2⟩ := s5 hnot
      obtain ⟨j1, j2, j3⟩ := i3 ha2
      refine ⟨by omega, ?_, ?_⟩
      · rintro s (hs | hs)
        · subst hs; omega
        · exact j2 s hs
      · rcases j3 with j3 | ⟨s, hs, j3⟩
        · rcases t2 with t2 | t2
          · exact Or.inl (by omega)
          · exact Or.inr ⟨_, Or.inr (trace_head_mem env tbin_info _ ops), by omega⟩
        · exact Or.inr ⟨s, Or.inr hs, j3⟩

/-- C22: for every sequence of `tcache_alloc_easy` and `tcache_dalloc_small`/`large`
operations, none of which flushes, applied to a bin whose `low_water` was reset to `ncached`
(the capacity `ncached_max` fits an `int`): after every operation `-1 ≤ low_water ≤ ncached`;
at the end `low_water` is `-1` if an allocation was attempted while the bin was empty, and
otherwise the smallest value `ncached` has taken during the sequence. -/
theorem tcache_low_water_tracks_min (env : Env) (tbin_info : tcache_bin_info_t)
    (tbin : tcache_bin_t) (ops : List Op) (hmax : tbin_info.ncached_max < 2 ^ 31)
    (hreset : tbin.low_water = (tbin.ncached : Int))
    (hn : tbin.ncached ≤ tbin_info.ncached_max)
    (hf : bin_flushes env tbin_info tbin ops = false) :
    (∀ s ∈ bin_trace env tbin_info tbin ops,
        -1 ≤ s.low_water ∧ s.low_water ≤ (s.ncached : Int)) ∧
      (bin_alloc_on_empty env tbin_info tbin ops = true →
        (bin_run env tbin_info tbin ops).low_water = -1) ∧
      (bin_alloc_on_empty env tbin_info tbin ops = false →
        (∀ s ∈ bin_trace env tbin_info tbin ops,
            (bin_run env tbin_info tbin ops).low_water ≤ (s.ncached : Int)) ∧
          ∃ s ∈ bin_trace env tbin_info tbin ops,
            (bin_run env tbin_info tbin ops).low_water = (s.ncached : Int)) := by
  obtain ⟨h1, h2, h3⟩ := bin_run_low_water env tbin_info hmax ops tbin (by omega) (by omega)
    hn hf
  refine ⟨fun s hs => ⟨(h1 s hs).1, (h1 s hs).2.1⟩, h2, fun ha => ?_⟩
  obtain ⟨_, j2, j3⟩ := h3 ha
  refine ⟨j2, ?_⟩
  rcases j3 with j3 | j3
  · exact ⟨tbin, trace_head_mem env tbin_info tbin ops, by omega⟩
  · exact j3

/-- C22 witness: from two cached pointers, a pop, a push, two pops and a push: the fill
count goes 2, 1, 2, 1, 0, 1 and the low-water mark ends at 0; one more pop attempt on the
empty bin would set it to `-1`. -/
theorem tcache_low_water_tracks_min_witness :
    ex_bin2.low_water = (ex_bin2.ncached : Int) ∧
      (bin_trace ex_env ex_info ex_bin2
        [Op.alloc_easy, Op.dalloc_small 0x7000 0 false, Op.alloc_easy, Op.alloc_easy,
          Op.dalloc_large 0x8000 0 false]).map (fun s => s.ncached) = [2, 1, 2, 1, 0, 1] ∧
      (bin_run ex_env ex_info ex_bin2
        [Op.alloc_easy, Op.dalloc_small 0x7000 0 false, Op.alloc_easy, Op.alloc_easy,
          Op.dalloc_large 0x8000 0 false]).low_water = 0 ∧
      (bin_run ex_env ex_info ex_bin2
        [Op.alloc_easy, Op.alloc_easy, Op.alloc_easy]).low_water = -1 :=
  ⟨by decide, by decide, by decide,
    (tcache_low_water_tracks_min ex_env ex_info ex_bin2
      [Op.alloc_easy, Op.alloc_easy, Op.alloc_easy] (by decide) (by decide) (by decide)
      (by decide)).2.1 (by decide)⟩

end Tcache

/-! ## `rtree.h`: the lock bit of a leaf slot -/

namespace Rtree

theorem sz_not_one {w : Nat} (hw : 0 < w) : sz_not w 1 = 2 ^ w - 2 ^ 1 := by
  unfold sz_not
  have h1 : 2 ≤ 2 ^ w := by
    calc 2 = 2 ^ 1 := by norm_num
      _ ≤ 2 ^ w := Nat.pow_le_pow_right (by norm_num) hw
  have h2 : 1 % 2 ^ w = 1 := Nat.mod_eq_of_lt (by omega)
  rw [h2]
  omega

theorem even_or_one {v : Nat} (hv : v % 2 = 0) : v ||| 1 = v + 1 := by
  apply Nat.eq_of_testBit_eq
  intro i
  rw [Nat.testBit_or]
  cases i with
  | zero =>
    simp only [Nat.testBit_zero]
    have : (v + 1) % 2 = 1 := by omega
    simp [this]
  | succ i =>
    simp only [Nat.testBit_succ]
    have h1 : (v + 1) / 2 = v / 2 := by omega
    rw [h1]
    simp

theorem two_pow_even {w : Nat} (hw : 0 < w) : 2 ^ w % 2 = 0 := by
  obtain ⟨k, rfl⟩ : ∃ k, w = k + 1 := ⟨w - 1, by omega⟩
  rw [pow_succ]
  omega

theorem mask_unlocked {w v : Nat} (hw : 0 < w) (hv : v < 2 ^ w) (h0 : v % 2 = 0) :
    v &&& sz_not w 1 = v := by
  rw [sz_not_one hw, and_high_mask hw hv, pow_one]
  omega

theorem mask_locked {w v : Nat} (hw : 0 < w) (hv : v < 2 ^ w) (h0 : v % 2 = 0) :
    (v ||| 1) &&& sz_not w 1 = v := by
  have h2 := two_pow_even hw
  have hv1 : v + 1 < 2 ^ w := by omega
  rw [even_or_one h0, sz_not_one hw, and_high_mask hw hv1, pow_one]
  omega

theorem mask_even (w v : Nat) (hw : 0 < w) : (v &&& sz_not w 1) % 2 = 0 := by
  rw [sz_not_one hw]
  have h := Nat.testBit_and v (2 ^ w - 2 ^ 1) 0
  rw [Nat.testBit_zero, Nat.testBit_zero, Nat.testBit_zero] at h
  have h2 := two_pow_even hw
  have h3 : 2 ≤ 2 ^ w := by
    calc 2 = 2 ^ 1 := by norm_num
      _ ≤ 2 ^ w := Nat.pow_le_pow_right (by norm_num) hw
  have h4 : (2 ^ w - 2 ^ 1) % 2 = 0 := by
    rw [pow_one]
    omega
  rw [h4] at h
  have h5 : ¬ ((v &&& (2 ^ w - 2 ^ 1)) % 2 = 1) := by
    intro h6
    rw [h6] at h
    simp at h
  omega

theorem mask_lt (w v : Nat) (hw : 0 < w) : v &&& sz_not w 1 < 2 ^ w := by
  rw [sz_not_one hw]
  have h := @Nat.and_le_right v (2 ^ w - 2 ^ 1)
  have : 0 < 2 ^ w := Nat.pow_pos (by norm_num)
  omega

end Rtree

namespace Rtree

theorem write_mem_same (st : State) (p : rtree_elm_t) (v : Nat) : (st.write p v).mem p = v := by
  simp [State.write]

theorem write_mem_other (st : State) (p q : rtree_elm_t) (v : Nat) (h : q ≠ p) :
    (st.write p v).mem q = st.mem q := by
  simp [State.write, h]

/-- The loop of `rtree_elm_acquire` ends in its first round when the slot is not locked. -/
theorem acquire_spin_unlocked (rt : rtree_t) (st : State) (elm : rtree_elm_t) (v fuel : Nat)
    (hw : 0 < rt.w) (hv : st.mem elm = v) (hlt : v < 2 ^ rt.w) (h0 : v % 2 = 0) :
    rtree_elm_acquire_spin rt (fuel + 1) st elm = some (st.write elm (v ||| 1)) := by
  have hread : rtree_elm_read rt st elm false = v := by
    simp only [rtree_elm_read, hv, if_false, Bool.false_eq_true]
    exact mask_unlocked hw hlt h0
  simp only [rtree_elm_acquire_spin, hread, atomic_cas_p, hv, if_true]

/-- C19: for every leaf slot `elm` holding an unlocked value `v` (low bit 0),
`rtree_elm_acquire` returns after one round of its loop and changes the slot to `v | 1`; while
the slot is held `rtree_elm_read` (in both modes) and `rtree_elm_read_acquired` return `v`;
`rtree_elm_write_acquired(e)` makes `rtree_elm_read_acquired` return `e` with the lock bit
still set; `rtree_elm_release` stores the current extent pointer with the lock bit cleared;
and acquire followed by release restores every word of the tree. -/
theorem rtree_elm_acquire_release (rt : rtree_t) (st st1 : State) (key : Nat)
    (dependent init_missing : Bool) (elm : rtree_elm_t) (v fuel : Nat) (hw : 0 < rt.w)
    (hl : rtree_elm_lookup rt st key dependent init_missing = some (some elm, st1))
    (hv : st1.mem elm = v) (hlt : v < 2 ^ rt.w) (h0 : v % 2 = 0) :
    ∃ st2, rtree_elm_acquire rt st key dependent init_missing (fuel + 1) = some (some elm, st2) ∧
      st2.mem elm = v ||| 1 ∧
      rtree_elm_read rt st2 elm false = v ∧ rtree_elm_read rt st2 elm true = v ∧
      rtree_elm_read_acquired rt st2 elm = v ∧
      (∀ e, e < 2 ^ rt.w → e % 2 = 0 →
        rtree_elm_read_acquired rt (rtree_elm_write_acquired st2 elm e) elm = e ∧
          (rtree_elm_write_acquired st2 elm e).mem elm = e ||| 1 ∧
          (rtree_elm_release rt (rtree_elm_write_acquired st2 elm e) elm).mem elm = e) ∧
      (rtree_elm_release rt st2 elm).mem = st1.mem := by
  have hspin := acquire_spin_unlocked rt st1 elm v fuel hw hv hlt h0
  refine ⟨st1.write elm (v ||| 1), ?_, write_mem_same _ _ _, ?_, ?_, ?_, ?_, ?_⟩
  · simp only [rtree_elm_acquire, hl, hspin]
  · simp only [rtree_elm_read, write_mem_same, if_false, Bool.false_eq_true]
    exact mask_locked hw hlt h0
  · simp only [rtree_elm_read, write_mem_same, if_true]
    exact mask_locked hw hlt h0
  · simp only [rtree_elm_read_acquired, write_mem_same]
    exact mask_locked hw hlt h0
  · intro e he he0
    refine ⟨?_, ?_, ?_⟩
    · simp only [rtree_elm_read_acquired, rtree_elm_write_acquired, write_mem_same]
      exact mask_locked hw he he0
    · simp only [rtree_elm_write_acquired, write_mem_same]
    · simp only [rtree_elm_release, rtree_elm_write, rtree_elm_read_acquired,
        rtree_elm_write_acquired, write_mem_same]
      exact mask_locked hw he he0
  · funext q
    by_cases hq : q = elm
    · subst hq
      simp only [rtree_elm_release, rtree_elm_write, rtree_elm_read_acquired, write_mem_same]
      rw [mask_locked hw hlt h0, hv]
    · simp only [rtree_elm_release, rtree_elm_write]
      rw [write_mem_other _ _ _ _ hq, write_mem_other _ _ _ _ hq]

/-- C19 witness: acquiring the slot of the key `0x4000000`, which holds `0x7000`. -/
theorem rtree_elm_acquire_release_witness :
    ∃ st2, rtree_elm_acquire ex_rtree ex_state1 0x4000000 false false 1 =
        some (some [2, 32], st2) ∧
      st2.mem [2, 32] = 0x7000 ||| 1 ∧
      rtree_elm_read ex_rtree st2 [2, 32] false = 0x7000 ∧
      rtree_elm_read ex_rtree st2 [2, 32] true = 0x7000 ∧
      rtree_elm_read_acquired ex_rtree st2 [2, 32] = 0x7000 ∧
      (∀ e, e < 2 ^ ex_rtree.w → e % 2 = 0 →
        rtree_elm_read_acquired ex_rtree (rtree_elm_write_acquired st2 [2, 32] e) [2, 32] = e ∧
          (rtree_elm_write_acquired st2 [2, 32] e).mem [2, 32] = e ||| 1 ∧
          (rtree_elm_release ex_rtree (rtree_elm_write_acquired st2 [2, 32] e) [2, 32]).mem
            [2, 32] = e) ∧
      (rtree_elm_release ex_rtree st2 [2, 32]).mem = ex_state1.mem :=
  rtree_elm_acquire_release ex_rtree ex_state1 ex_state1 0x4000000 false false [2, 32] 0x7000 0
    (by decide) rfl rfl (by decide) (by decide)

end Rtree

/-! ## `rtree.h`: lookups, writes and reads -/

namespace Rtree

theorem node_valid_iff (node : Nat) : rtree_node_valid node = true ↔ 1 < node := by
  simp [rtree_node_valid, RTREE_NODE_INITIALIZING]

theorem node_valid_zero : rtree_node_valid 0 = false := by decide

theorem concat_not_prefix_self (p : rtree_elm_t) (i : Nat) : ¬ (p ++ [i]) <+: p := by
  intro h
  have := h.length_le
  simp at this

theorem prefix_concat_inj {p q : rtree_elm_t} {a b : Nat} (ha : (p ++ [a]) <+: q)
    (hb : (p ++ [b]) <+: q) : a = b := by
  have h1 : (p ++ [a]) <+: (p ++ [b]) :=
    List.prefix_of_prefix_length_le ha hb (by simp)
  have h2 := h1.eq_of_length (by simp)
  simpa using h2

/-- What reading a pointer slot on behalf of an inserting lookup does: either the slot holds
a valid pointer and nothing changes, or it holds `NULL` and only words at or below the slot
change, the result being `NULL` or a fresh zeroed node whose pointer is now in the slot. -/
theorem node_read_cases (rt : rtree_t) (st stA : State) (lvl c : Nat) (e0 : rtree_elm_t)
    (hX : (if rtree_node_valid (st.mem e0) then some (st.mem e0, st)
      else rtree_node_init rt st lvl e0) = some (c, stA)) :
    (rtree_node_valid (st.mem e0) = true ∧ c = st.mem e0 ∧ stA = st) ∨
      (st.mem e0 = 0 ∧ (∀ q, ¬ e0 <+: q → stA.mem q = st.mem q) ∧
        (c = 0 ∨ (stA.mem e0 = c ∧ ∀ i, stA.mem (e0 ++ [i]) = 0))) := by
  by_cases hv : rtree_node_valid (st.mem e0) = true
  · rw [if_pos hv] at hX
    simp only [Option.some.injEq, Prod.mk.injEq] at hX
    exact Or.inl ⟨hv, hX.1.symm, hX.2.symm⟩
  · rw [if_neg hv] at hX
    right
    unfold rtree_node_init atomic_cas_p at hX
    by_cases h0 : st.mem e0 = 0
    · rw [if_pos h0] at hX
      simp only at hX
      refine ⟨h0, ?_⟩
      by_cases hn : rt.alloc (st.write e0 RTREE_NODE_INITIALIZING).nalloc
          (2 ^ (rt.levels lvl).bits) = 0
      · rw [if_pos hn] at hX
        simp only [Option.some.injEq, Prod.mk.injEq] at hX
        obtain ⟨hc, hs⟩ := hX
        subst hs
        refine ⟨?_, Or.inl hc.symm⟩
        intro q hq
        have hne : q ≠ e0 := fun h => hq (h ▸ List.prefix_rfl)
        simp [State.write, hne]
      · rw [if_neg hn] at hX
        simp only [Option.some.injEq, Prod.mk.injEq] at hX
        obtain ⟨hc, hs⟩ := hX
        subst hs
        refine ⟨?_, Or.inr ⟨?_, ?_⟩⟩
        · intro q hq
          have hne : q ≠ e0 := fun h => hq (h ▸ List.prefix_rfl)
          have hd : ¬ (q ≠ [] ∧ q.dropLast = e0) := by
            rintro ⟨h1, h2⟩
            apply hq
            rw [← h2]
            exact List.dropLast_prefix q
          simp [State.write, State.zero_node, hne, hd]
        · simp only [State.write, if_true]
          exact hc
        · intro i
          have h1 : e0 ++ [i] ≠ e0 := by simp
          simp [State.write, State.zero_node, h1]
    · rw [if_neg h0] at hX
      simp only at hX
      have h1 : st.mem e0 = RTREE_NODE_INITIALIZING := by
        have := (node_valid_iff (st.mem e0)).not.mp hv
        unfold RTREE_NODE_INITIALIZING
        omega
      rw [if_pos h1] at hX
      cases hX

theorem child_read_eq (rt : rtree_t) (st : State) (elm : rtree_elm_t) (level : Nat) :
    rtree_child_read rt st elm level false =
      (if rtree_node_valid (st.mem elm) then some (st.mem elm, st)
        else rtree_node_init rt st (level + 1) elm) := by
  unfold rtree_child_read rtree_child_tryread rtree_child_read_hard
  by_cases hv : rtree_node_valid (st.mem elm) = true <;> simp [hv]

theorem subtree_read_eq (rt : rtree_t) (st : State) (level : Nat) :
    rtree_subtree_read rt st level false =
      (if rtree_node_valid (st.mem [level]) then some (st.mem [level], st)
        else rtree_node_init rt st level [level]) := by
  unfold rtree_subtree_read rtree_subtree_tryread rtree_subtree_read_hard
  by_cases hv : rtree_node_valid (st.mem [level]) = true <;> simp [hv]

theorem child_tryread_eq (st : State) (elm : rtree_elm_t) (dependent : Bool) :
    rtree_child_tryread st elm dependent = st.mem elm := by
  unfold rtree_child_tryread
  simp

theorem subtree_tryread_eq (st : State) (level : Nat) (dependent : Bool) :
    rtree_subtree_tryread st level dependent = st.mem [level] := by
  unfold rtree_subtree_tryread
  simp

end Rtree

namespace Rtree

/-- A lookup that does not insert never spins and leaves the tree as it is. -/
theorem lookup_from_noninit (rt : rtree_t) (key : Nat) (dependent : Bool) :
    ∀ (n level node : Nat) (p : rtree_elm_t) (st : State),
      ∃ r, rtree_elm_lookup_from rt key dependent false n level node p st = some (r, st) := by
  intro n
  induction n with
  | zero =>
    intro level node p st
    simp only [rtree_elm_lookup_from]
    split
    · exact ⟨_, rfl⟩
    · exact ⟨_, rfl⟩
  | succ n ih =>
    intro level node p st
    simp only [rtree_elm_lookup_from, Bool.false_eq_true, if_false]
    split
    · exact ⟨_, rfl⟩
    · exact ih _ _ _ _

/-- An inserting lookup only changes words at or below the element of the current node
that the key selects. -/
theorem lookup_from_frame (rt : rtree_t) (key : Nat) :
    ∀ (n level node : Nat) (p : rtree_elm_t) (st st1 : State) (r : Option rtree_elm_t),
      rtree_elm_lookup_from rt key false true n level node p st = some (r, st1) →
      ∀ q, ¬ (p ++ [rtree_subkey rt key level]) <+: q → st1.mem q = st.mem q := by
  intro n
  induction n with
  | zero =>
    intro level node p st st1 r h q _
    simp only [rtree_elm_lookup_from] at h
    split at h <;>
      (simp only [Option.some.injEq, Prod.mk.injEq] at h; rw [← h.2])
  | succ n ih =>
    intro level node p st st1 r h q hq
    simp only [rtree_elm_lookup_from, if_true, child_read_eq] at h
    split at h
    · simp only [Option.some.injEq, Prod.mk.injEq] at h
      rw [← h.2]
    · cases hX : (if rtree_node_valid (st.mem (p ++ [rtree_subkey rt key level])) then
          some (st.mem (p ++ [rtree_subkey rt key level]), st)
        else rtree_node_init rt st (level + 1) (p ++ [rtree_subkey rt key level])) with
      | none => rw [hX] at h; cases h
      | some cs =>
        obtain ⟨c, stA⟩ := cs
        rw [hX] at h
        simp only at h
        have h1 : ¬ (p ++ [rtree_subkey rt key level] ++ [rtree_subkey rt key (level + 1)]) <+: q :=
          fun hp => hq ((List.prefix_append _ _).trans hp)
        rw [ih _ _ _ _ _ _ h q h1]
        rcases node_read_cases rt st stA _ c _ hX with ⟨_, _, hs⟩ | ⟨_, hf, _⟩
        · rw [hs]
        · exact hf q hq

/-- The element found by an inserting lookup lies in a valid node, below the element of the
current node that the key selects, `n` levels further down. -/
theorem lookup_from_init_elm (rt : rtree_t) (key : Nat) :
    ∀ (n level node : Nat) (p : rtree_elm_t) (st st1 : State) (elm : rtree_elm_t),
      rtree_elm_lookup_from rt key false true n level node p st = some (some elm, st1) →
      rtree_node_valid node = true ∧ (p ++ [rtree_subkey rt key level]) <+: elm ∧
        elm.length = p.length + n + 1 := by
  intro n
  induction n with
  | zero =>
    intro level node p st st1 elm h
    simp only [rtree_elm_lookup_from] at h
    by_cases hv : rtree_node_valid node = true
    · simp only [hv, Bool.not_true, Bool.and_false, Bool.false_eq_true, if_false,
        Option.some.injEq, Prod.mk.injEq] at h
      rw [← h.1]
      exact ⟨hv, List.prefix_rfl, by simp⟩
    · simp [hv] at h
  | succ n ih =>
    intro level node p st st1 elm h
    simp only [rtree_elm_lookup_from, if_true, child_read_eq] at h
    by_cases hv : rtree_node_valid node = true
    · simp only [hv, Bool.not_true, Bool.and_false, Bool.false_eq_true, if_false] at h
      cases hX : (if rtree_node_valid (st.mem (p ++ [rtree_subkey rt key level])) then
          some (st.mem (p ++ [rtree_subkey rt key level]), st)
        else rtree_node_init rt st (level + 1) (p ++ [rtree_subkey rt key level])) with
      | none => rw [hX] at h; cases h
      | some cs =>
        obtain ⟨c, stA⟩ := cs
        rw [hX] at h
        simp only at h
        obtain ⟨_, h2, h3⟩ := ih _ _ _ _ _ _ h
        refine ⟨hv, (List.prefix_append _ _).trans h2, ?_⟩
        rw [h3]
        simp
        omega
    · simp [hv] at h

end Rtree

namespace Rtree

theorem node_read_mem (rt : rtree_t) (st stA : State) (lvl c : Nat) (e0 : rtree_elm_t)
    (hX : (if rtree_node_valid (st.mem e0) then some (st.mem e0, st)
      else rtree_node_init rt st lvl e0) = some (c, stA))
    (hc : rtree_node_valid c = true) : stA.mem e0 = c := by
  rcases node_read_cases rt st stA lvl c e0 hX with ⟨_, h1, h2⟩ | ⟨_, _, h3 | h3⟩
  · rw [h2, h1]
  · rw [h3] at hc
    exact absurd hc (by decide)
  · exact h3.1

/-- Once an inserting lookup has found an element, a lookup of the same key that does not
insert finds it too, in both modes, whatever is stored in the element afterwards. -/
theorem lookup_from_after (rt : rtree_t) (key : Nat) :
    ∀ (n level node : Nat) (p : rtree_elm_t) (st st1 : State) (elm : rtree_elm_t),
      rtree_elm_lookup_from rt key false true n level node p st = some (some elm, st1) →
      ∀ st2 : State, (∀ e, e <+: elm → e ≠ elm → st2.mem e = st1.mem e) → ∀ dependent,
        rtree_elm_lookup_from rt key dependent false n level node p st2 =
          some (some elm, st2) := by
  intro n
  induction n with
  | zero =>
    intro level node p st st1 elm h st2 _ dependent
    obtain ⟨hv, _, _⟩ := lookup_from_init_elm rt key _ _ _ _ _ _ _ h
    simp only [rtree_elm_lookup_from, hv, Bool.not_true, Bool.and_false, Bool.false_eq_true,
      if_false, Option.some.injEq, Prod.mk.injEq] at h ⊢
    exact ⟨h.1, trivial⟩
  | succ n ih =>
    intro level node p st st1 elm h st2 hag dependent
    obtain ⟨hv, hpre, hlen⟩ := lookup_from_init_elm rt key _ _ _ _ _ _ _ h
    simp only [rtree_elm_lookup_from, if_true, child_read_eq, hv, Bool.not_true,
      Bool.and_false, Bool.false_eq_true, if_false] at h
    cases hX : (if rtree_node_valid (st.mem (p ++ [rtree_subkey rt key level])) then
        some (st.mem (p ++ [rtree_subkey rt key level]), st)
      else rtree_node_init rt st (level + 1) (p ++ [rtree_subkey rt key level])) with
    | none => rw [hX] at h; cases h
    | some cs =>
      obtain ⟨c, stA⟩ := cs
      rw [hX] at h
      simp only at h
      obtain ⟨hc, _, _⟩ := lookup_from_init_elm rt key _ _ _ _ _ _ _ h
      have hne : p ++ [rtree_subkey rt key level] ≠ elm := by
        intro he
        rw [← he] at hlen
        simp at hlen
      have hmem : st2.mem (p ++ [rtree_subkey rt key level]) = c := by
        rw [hag _ hpre hne, lookup_from_frame rt key _ _ _ _ _ _ _ h _ (concat_not_prefix_self _ _)]
        exact node_read_mem rt st stA _ c _ hX hc
      simp only [rtree_elm_lookup_from, hv, Bool.not_true, Bool.and_false, Bool.false_eq_true,
        if_false, child_tryread_eq, hmem]
      exact ih _ _ _ _ _ _ h st2 hag dependent

theorem read_from_invalid (rt : rtree_t) (st : State) (key n level node : Nat)
    (p : rtree_elm_t) (hv : rtree_node_valid node = false) :
    rtree_read_from rt st key false n level node p = some 0 := by
  cases n <;> simp [rtree_read_from, rtree_elm_lookup_from, hv]

theorem read_from_leaf (rt : rtree_t) (st : State) (key level node : Nat)
    (p : rtree_elm_t) (hv : rtree_node_valid node = true) :
    rtree_read_from rt st key false 0 level node p =
      some (st.mem (p ++ [rtree_subkey rt key level]) &&& sz_not rt.w 1) := by
  simp [rtree_read_from, rtree_elm_lookup_from, hv, rtree_elm_read]

theorem read_from_step (rt : rtree_t) (st : State) (key n level node : Nat)
    (p : rtree_elm_t) (hv : rtree_node_valid node = true) :
    rtree_read_from rt st key false (n + 1) level node p =
      rtree_read_from rt st key false n (level + 1) (st.mem (p ++ [rtree_subkey rt key level]))
        (p ++ [rtree_subkey rt key level]) := by
  simp [rtree_read_from, rtree_elm_lookup_from, hv, child_tryread_eq]

/-- Reading through a node all of whose elements are zero yields `NULL`. -/
theorem read_from_fresh (rt : rtree_t) (st : State) (key n level node : Nat)
    (p : rtree_elm_t) (hz : ∀ i, st.mem (p ++ [i]) = 0) :
    rtree_read_from rt st key false n level node p = some 0 := by
  cases hv : rtree_node_valid node
  · exact read_from_invalid rt st key n level node p hv
  · cases n with
    | zero => rw [read_from_leaf rt st key level node p hv, hz, Nat.zero_and]
    | succ n =>
      rw [read_from_step rt st key n level node p hv, hz]
      exact read_from_invalid rt st key n _ 0 _ node_valid_zero

end Rtree

namespace Rtree

theorem path_from_pre (rt : rtree_t) (key : Nat) :
    ∀ (n level : Nat) (p : rtree_elm_t),
      (p ++ [rtree_subkey rt key level]) <+: rtree_path_from rt key n level p ∧
        (rtree_path_from rt key n level p).length = p.length + n + 1 := by
  intro n
  induction n with
  | zero =>
    intro level p
    exact ⟨List.prefix_rfl, by simp [rtree_path_from]⟩
  | succ n ih =>
    intro level p
    obtain ⟨h1, h2⟩ := ih (level + 1) (p ++ [rtree_subkey rt key level])
    refine ⟨(List.prefix_append _ _).trans h1, ?_⟩
    simp only [rtree_path_from]
    rw [h2]
    simp
    omega

/-- An inserting lookup that finds an element finds the leaf element of the key. -/
theorem lookup_from_init_path (rt : rtree_t) (key : Nat) :
    ∀ (n level node : Nat) (p : rtree_elm_t) (st st1 : State) (elm : rtree_elm_t),
      rtree_elm_lookup_from rt key false true n level node p st = some (some elm, st1) →
      elm = rtree_path_from rt key n level p := by
  intro n
  induction n with
  | zero =>
    intro level node p st st1 elm h
    obtain ⟨_, h2, h3⟩ := lookup_from_init_elm rt key _ _ _ _ _ _ _ h
    exact (h2.eq_of_length (by simp [h3])).symm
  | succ n ih =>
    intro level node p st st1 elm h
    obtain ⟨hv, _, _⟩ := lookup_from_init_elm rt key _ _ _ _ _ _ _ h
    simp only [rtree_elm_lookup_from, if_true, child_read_eq, hv, Bool.not_true,
      Bool.and_false, Bool.false_eq_true, if_false] at h
    cases hX : (if rtree_node_valid (st.mem (p ++ [rtree_subkey rt key level])) then
        some (st.mem (p ++ [rtree_subkey rt key level]), st)
      else rtree_node_init rt st (level + 1) (p ++ [rtree_subkey rt key level])) with
    | none => rw [hX] at h; cases h
    | some cs =>
      obtain ⟨c, stA⟩ := cs
      rw [hX] at h
      exact ih _ _ _ _ _ _ h

/-- After an inserting lookup has found an element, every pointer slot strictly between the
slot `p` of the current node and the element holds a valid pointer. -/
theorem lookup_from_init_valid (rt : rtree_t) (key : Nat) :
    ∀ (n level node : Nat) (p : rtree_elm_t) (st st1 : State) (elm : rtree_elm_t),
      rtree_elm_lookup_from rt key false true n level node p st = some (some elm, st1) →
      ∀ e, e <+: elm → e ≠ elm → p.length < e.length → rtree_node_valid (st1.mem e) = true := by
  intro n
  induction n with
  | zero =>
    intro level node p st st1 elm h e he hne hlen
    obtain ⟨_, _, h3⟩ := lookup_from_init_elm rt key _ _ _ _ _ _ _ h
    exfalso
    apply hne
    exact he.eq_of_length (by have := he.length_le; omega)
  | succ n ih =>
    intro level node p st st1 elm h e he hne hlen
    obtain ⟨hv, hpre, _⟩ := lookup_from_init_elm rt key _ _ _ _ _ _ _ h
    simp only [rtree_elm_lookup_from, if_true, child_read_eq, hv, Bool.not_true,
      Bool.and_false, Bool.false_eq_true, if_false] at h
    cases hX : (if rtree_node_valid (st.mem (p ++ [rtree_subkey rt key level])) then
        some (st.mem (p ++ [rtree_subkey rt key level]), st)
      else rtree_node_init rt st (level + 1) (p ++ [rtree_subkey rt key level])) with
    | none => rw [hX] at h; cases h
    | some cs =>
      obtain ⟨c, stA⟩ := cs
      rw [hX] at h
      simp only at h
      obtain ⟨hc, _, _⟩ := lookup_from_init_elm rt key _ _ _ _ _ _ _ h
      by_cases hl : (p ++ [rtree_subkey rt key level]).length < e.length
      · exact ih _ _ _ _ _ _ h e he hne hl
      · have h1 : e <+: (p ++ [rtree_subkey rt key level]) :=
          List.prefix_of_prefix_length_le he hpre (by omega)
        have h2 : e = p ++ [rtree_subkey rt key level] :=
          h1.eq_of_length (by have := h1.length_le; simp at this ⊢; omega)
        rw [h2, lookup_from_frame rt key _ _ _ _ _ _ _ h _ (concat_not_prefix_self _ _),
          node_read_mem rt st stA _ c _ hX hc]
        exact hc

/-- Every word that an inserting lookup changes lies at or below a pointer slot on the way
to the element that held no valid pointer before. -/
theorem lookup_from_frame_invalid (rt : rtree_t) (key : Nat) :
    ∀ (n level node : Nat) (p : rtree_elm_t) (st st1 : State) (r : Option rtree_elm_t),
      rtree_elm_lookup_from rt key false true n level node p st = some (r, st1) →
      ∀ q, st1.mem q ≠ st.mem q →
        ∃ e0, e0 <+: q ∧ e0 <+: rtree_path_from rt key n level p ∧
          e0 ≠ rtree_path_from rt key n level p ∧ p.length < e0.length ∧
          rtree_node_valid (st.mem e0) = false := by
  intro n
  induction n with
  | zero =>
    intro level node p st st1 r h q hq
    exfalso
    apply hq
    simp only [rtree_elm_lookup_from] at h
    split at h <;>
      (simp only [Option.some.injEq, Prod.mk.injEq] at h; rw [← h.2])
  | succ n ih =>
    intro level node p st st1 r h q hq
    have hfr := lookup_from_frame rt key _ _ _ _ _ _ _ h q
    simp only [rtree_elm_lookup_from, if_true, child_read_eq] at h
    split at h
    · simp only [Option.some.injEq, Prod.mk.injEq] at h
      rw [← h.2] at hq
      exact absurd rfl hq
    · cases hX : (if rtree_node_valid (st.mem (p ++ [rtree_subkey rt key level])) then
          some (st.mem (p ++ [rtree_subkey rt key level]), st)
        else rtree_node_init rt st (level + 1) (p ++ [rtree_subkey rt key level])) with
      | none => rw [hX] at h; cases h
      | some cs =>
        obtain ⟨c, stA⟩ := cs
        rw [hX] at h
        simp only at h
        rcases node_read_cases rt st stA _ c _ hX with ⟨_, _, hs⟩ | ⟨h0, _, _⟩
        · subst hs
          obtain ⟨e0, h1, h2, h3, h4, h5⟩ := ih _ _ _ _ _ _ h q hq
          refine ⟨e0, h1, h2, h3, ?_, h5⟩
          simp at h4
          omega
        · have hunder : (p ++ [rtree_subkey rt key level]) <+: q := by
            by_contra hc
            exact hq (hfr hc)
          obtain ⟨hp1, hp2⟩ := path_from_pre rt key (n + 1) level p
          refine ⟨_, hunder, hp1, ?_, by simp, ?_⟩
          · intro he
            rw [← he] at hp2
            simp at hp2
          · rw [h0]
            exact node_valid_zero

end Rtree

namespace Rtree

/-- A read only depends on the words on the way to the leaf element of the key. -/
theorem read_from_congr (rt : rtree_t) (key : Nat) :
    ∀ (n level node : Nat) (p : rtree_elm_t) (st st2 : State),
      (∀ q, q <+: rtree_path_from rt key n level p → p.length < q.length →
        st2.mem q = st.mem q) →
      rtree_read_from rt st2 key false n level node p =
        rtree_read_from rt st key false n level node p := by
  intro n
  induction n with
  | zero =>
    intro level node p st st2 hag
    cases hv : rtree_node_valid node
    · rw [read_from_invalid _ _ _ _ _ _ _ hv, read_from_invalid _ _ _ _ _ _ _ hv]
    · have h1 : st2.mem (p ++ [rtree_subkey rt key level]) =
          st.mem (p ++ [rtree_subkey rt key level]) :=
        hag _ (path_from_pre rt key 0 level p).1 (by simp)
      rw [read_from_leaf _ _ _ _ _ _ hv, read_from_leaf _ _ _ _ _ _ hv, h1]
  | succ n ih =>
    intro level node p st st2 hag
    cases hv : rtree_node_valid node
    · rw [read_from_invalid _ _ _ _ _ _ _ hv, read_from_invalid _ _ _ _ _ _ _ hv]
    · have h1 : st2.mem (p ++ [rtree_subkey rt key level]) =
          st.mem (p ++ [rtree_subkey rt key level]) :=
        hag _ (path_from_pre rt key (n + 1) level p).1 (by simp)
      rw [read_from_step _ _ _ _ _ _ _ hv, read_from_step _ _ _ _ _ _ _ hv, h1]
      apply ih
      intro q hq hl
      apply hag q hq
      simp at hl
      omega

/-- One step down on behalf of a read, after an inserting lookup of another key went through
the same pointer slot `e0`. -/
theorem read_descend (rt : rtree_t) (key key2 n L lvl c : Nat) (e0 elm : rtree_elm_t)
    (st stA st1 st2 : State)
    (hX : (if rtree_node_valid (st.mem e0) then some (st.mem e0, st)
      else rtree_node_init rt st lvl e0) = some (c, stA))
    (hL : rtree_elm_lookup_from rt key false true n L c e0 stA = some (some elm, st1))
    (hm : st2.mem e0 = st1.mem e0)
    (hsim : rtree_read_from rt st2 key2 false n L c e0 =
      rtree_read_from rt stA key2 false n L c e0) :
    rtree_read_from rt st2 key2 false n L (st2.mem e0) e0 =
      rtree_read_from rt st key2 false n L (st.mem e0) e0 := by
  obtain ⟨hc, _, _⟩ := lookup_from_init_elm rt key _ _ _ _ _ _ _ hL
  have hmem : st2.mem e0 = c := by
    rw [hm, lookup_from_frame rt key _ _ _ _ _ _ _ hL _ (concat_not_prefix_self _ _)]
    exact node_read_mem rt st stA _ c _ hX hc
  rw [hmem, hsim]
  rcases node_read_cases rt st stA lvl c e0 hX with ⟨_, h1, h2⟩ | ⟨h0, _, h3 | h3⟩
  · rw [h2, h1]
  · rw [h3] at hc
    exact absurd hc (by decide)
  · rw [read_from_fresh rt stA key2 n L c e0 h3.2, h0]
    exact (read_from_invalid rt st key2 n L 0 e0 node_valid_zero).symm

/-- An inserting lookup of `key` does not change what a read of a key with another leaf
element obtains, whatever is stored afterwards in words that are not on the way to that other
element. -/
theorem read_from_sim (rt : rtree_t) (key key2 : Nat) :
    ∀ (n level node : Nat) (p : rtree_elm_t) (st st1 : State) (elm : rtree_elm_t),
      rtree_elm_lookup_from rt key false true n level node p st = some (some elm, st1) →
      rtree_path_from rt key n level p ≠ rtree_path_from rt key2 n level p →
      ∀ st2 : State,
        (∀ q, q <+: rtree_path_from rt key2 n level p → p.length < q.length →
          st2.mem q = st1.mem q) →
        rtree_read_from rt st2 key2 false n level node p =
          rtree_read_from rt st key2 false n level node p := by
  have hneg : ∀ (n level node : Nat) (p : rtree_elm_t) (st st1 : State) (elm : rtree_elm_t),
      rtree_elm_lookup_from rt key false true n level node p st = some (some elm, st1) →
      rtree_subkey rt key level ≠ rtree_subkey rt key2 level →
      ∀ st2 : State,
        (∀ q, q <+: rtree_path_from rt key2 n level p → p.length < q.length →
          st2.mem q = st1.mem q) →
        rtree_read_from rt st2 key2 false n level node p =
          rtree_read_from rt st key2 false n level node p := by
    intro n level node p st st1 elm h hsk st2 hag
    apply read_from_congr
    intro q hq hl
    rw [hag q hq hl]
    apply lookup_from_frame rt key _ _ _ _ _ _ _ h q
    intro hpre
    have h2 : (p ++ [rtree_subkey rt key2 level]) <+: q :=
      List.prefix_of_prefix_length_le (path_from_pre rt key2 n level p).1 hq
        (by simp; omega)
    exact hsk (prefix_concat_inj hpre h2)
  intro n
  induction n with
  | zero =>
    intro level node p st st1 elm h hne st2 hag
    apply hneg 0 level node p st st1 elm h _ st2 hag
    intro hsk
    apply hne
    simp only [rtree_path_from, hsk]
  | succ n ih =>
    intro level node p st st1 elm h hne st2 hag
    by_cases hsk : rtree_subkey rt key level = rtree_subkey rt key2 level
    · obtain ⟨hv, _, _⟩ := lookup_from_init_elm rt key _ _ _ _ _ _ _ h
      simp only [rtree_elm_lookup_from, if_true, child_read_eq, hv, Bool.not_true,
        Bool.and_false, Bool.false_eq_true, if_false] at h
      cases hX : (if rtree_node_valid (st.mem (p ++ [rtree_subkey rt key level])) then
          some (st.mem (p ++ [rtree_subkey rt key level]), st)
        else rtree_node_init rt st (level + 1) (p ++ [rtree_subkey rt key level])) with
      | none => rw [hX] at h; cases h
      | some cs =>
        obtain ⟨c, stA⟩ := cs
        rw [hX] at h
        simp only at h
        simp only [rtree_path_from] at hne hag
        rw [← hsk] at hne hag
        rw [read_from_step _ _ _ _ _ _ _ hv, read_from_step _ _ _ _ _ _ _ hv, ← hsk]
        have hpre : (p ++ [rtree_subkey rt key level]) <+:
            rtree_path_from rt key2 n (level + 1) (p ++ [rtree_subkey rt key level]) :=
          (List.prefix_append _ _).trans (path_from_pre rt key2 n (level + 1) _).1
        apply read_descend rt key key2 n (level + 1) (level + 1) c _ elm st stA st1 st2 hX h
          (hag _ hpre (by simp))
        apply ih _ _ _ _ _ _ h hne st2
        intro q hq hl
        apply hag q hq
        simp at hl
        omega
    · exact hneg (n + 1) level node p st st1 elm h hsk st2 hag

end Rtree

namespace Rtree

theorem rtree_read_eq (rt : rtree_t) (st : State) (key : Nat) :
    rtree_read rt st key false =
      rtree_read_from rt st key false (rt.height - 1 - rtree_start_level rt key)
        (rtree_start_level rt key) (st.mem [rtree_start_level rt key])
        [rtree_start_level rt key] := by
  simp only [rtree_read, rtree_elm_lookup, rtree_read_from, subtree_tryread_eq,
    Bool.false_eq_true, if_false]

theorem rtree_read_of_lookup (rt : rtree_t) (st : State) (key : Nat) (dependent : Bool)
    (elm : rtree_elm_t)
    (h : rtree_elm_lookup rt st key dependent false = some (some elm, st)) :
    rtree_read rt st key dependent = some (st.mem elm &&& sz_not rt.w 1) := by
  simp only [rtree_read, h, rtree_elm_read, ite_self]

theorem path_cons (rt : rtree_t) (key : Nat) :
    ∃ t, rtree_path rt key = rtree_start_level rt key :: t ∧
      t.length = rt.height - 1 - rtree_start_level rt key + 1 := by
  obtain ⟨h1, h2⟩ := path_from_pre rt key (rt.height - 1 - rtree_start_level rt key)
    (rtree_start_level rt key) [rtree_start_level rt key]
  obtain ⟨t, ht⟩ := h1
  refine ⟨[rtree_subkey rt key (rtree_start_level rt key)] ++ t, ?_, ?_⟩
  · unfold rtree_path
    rw [← ht]
    simp
  · have h3 := congrArg List.length ht
    rw [h2] at h3
    simp at h3 ⊢
    omega

/-- The leaf element of a key is never a proper prefix of the leaf element of another. -/
theorem path_prefix_eq (rt : rtree_t) (key key2 : Nat)
    (h : rtree_path rt key2 <+: rtree_path rt key) : rtree_path rt key2 = rtree_path rt key := by
  obtain ⟨t, ht, hl⟩ := path_cons rt key
  obtain ⟨t2, ht2, hl2⟩ := path_cons rt key2
  rw [ht, ht2] at h ⊢
  have hs : rtree_start_level rt key2 = rtree_start_level rt key := by
    obtain ⟨r, hr⟩ := h
    simp only [List.cons_append, List.cons.injEq] at hr
    exact hr.1
  apply h.eq_of_length
  simp only [List.length_cons, hl, hl2, hs]

/-- The two steps of an inserting `rtree_elm_lookup` that finds an element: the read of the
subtree pointer and the walk down. -/
theorem elm_lookup_init_split (rt : rtree_t) (st st1 : State) (key : Nat) (elm : rtree_elm_t)
    (hL : rtree_elm_lookup rt st key false true = some (some elm, st1)) :
    ∃ c stA,
      (if rtree_node_valid (st.mem [rtree_start_level rt key]) then
          some (st.mem [rtree_start_level rt key], st)
        else rtree_node_init rt st (rtree_start_level rt key) [rtree_start_level rt key]) =
        some (c, stA) ∧
      rtree_elm_lookup_from rt key false true (rt.height - 1 - rtree_start_level rt key)
        (rtree_start_level rt key) c [rtree_start_level rt key] stA = some (some elm, st1) := by
  simp only [rtree_elm_lookup, if_true, subtree_read_eq] at hL
  cases hX : (if rtree_node_valid (st.mem [rtree_start_level rt key]) then
      some (st.mem [rtree_start_level rt key], st)
    else rtree_node_init rt st (rtree_start_level rt key) [rtree_start_level rt key]) with
  | none => rw [hX] at hL; cases hL
  | some cs =>
    obtain ⟨c, stA⟩ := cs
    rw [hX] at hL
    exact ⟨c, stA, rfl, hL⟩

/-- An inserting lookup that finds an element finds the leaf element of the key. -/
theorem elm_lookup_init_path (rt : rtree_t) (st st1 : State) (key : Nat) (elm : rtree_elm_t)
    (hL : rtree_elm_lookup rt st key false true = some (some elm, st1)) :
    elm = rtree_path rt key := by
  obtain ⟨c, stA, _, hF⟩ := elm_lookup_init_split rt st st1 key elm hL
  exact lookup_from_init_path rt key _ _ _ _ _ _ _ hF

theorem elm_lookup_init_root (rt : rtree_t) (st st1 : State) (key : Nat) (elm : rtree_elm_t)
    (hL : rtree_elm_lookup rt st key false true = some (some elm, st1)) :
    rtree_node_valid (st1.mem [rtree_start_level rt key]) = true := by
  obtain ⟨c, stA, hX, hF⟩ := elm_lookup_init_split rt st st1 key elm hL
  obtain ⟨hc, _, _⟩ := lookup_from_init_elm rt key _ _ _ _ _ _ _ hF
  have h1 : ¬ ([rtree_start_level rt key] ++
      [rtree_subkey rt key (rtree_start_level rt key)]) <+: [rtree_start_level rt key] :=
    concat_not_prefix_self _ _
  rw [lookup_from_frame rt key _ _ _ _ _ _ _ hF _ h1, node_read_mem rt st stA _ c _ hX hc]
  exact hc

/-- After an inserting lookup has found an element, every pointer slot on the way to it holds
a valid pointer. -/
theorem elm_lookup_init_valid (rt : rtree_t) (st st1 : State) (key : Nat) (elm : rtree_elm_t)
    (hL : rtree_elm_lookup rt st key false true = some (some elm, st1)) :
    ∀ e, e <+: elm → e ≠ elm → e ≠ [] → rtree_node_valid (st1.mem e) = true := by
  intro e he hne hnil
  obtain ⟨c, stA, hX, hF⟩ := elm_lookup_init_split rt st st1 key elm hL
  by_cases hl : [rtree_start_level rt key].length < e.length
  · exact lookup_from_init_valid rt key _ _ _ _ _ _ _ hF e he hne hl
  · obtain ⟨t, ht, _⟩ := path_cons rt key
    rw [elm_lookup_init_path rt st st1 key elm hL, ht] at he
    have h1 : e = [rtree_start_level rt key] := by
      cases e with
      | nil => exact absurd rfl hnil
      | cons a e2 =>
        simp at hl
        subst hl
        obtain ⟨r, hr⟩ := he
        simp at hr
        rw [hr.1]
    rw [h1]
    exact elm_lookup_init_root rt st st1 key elm hL

/-- Every word that an inserting lookup changes lies at or below a pointer slot on the way
to the leaf element of the key that held no valid pointer before. -/
theorem elm_lookup_init_frame (rt : rtree_t) (st st1 : State) (key : Nat) (elm : rtree_elm_t)
    (hL : rtree_elm_lookup rt st key false true = some (some elm, st1)) :
    ∀ q, st1.mem q ≠ st.mem q →
      ∃ e0, e0 <+: q ∧ e0 <+: elm ∧ e0 ≠ elm ∧ e0 ≠ [] ∧
        rtree_node_valid (st.mem e0) = false := by
  intro q hq
  obtain ⟨c, stA, hX, hF⟩ := elm_lookup_init_split rt st st1 key elm hL
  have hp := elm_lookup_init_path rt st st1 key elm hL
  rcases node_read_cases rt st stA _ c _ hX with ⟨_, _, hs⟩ | ⟨h0, hfr, _⟩
  · subst hs
    obtain ⟨e0, h1, h2, h3, h4, h5⟩ := lookup_from_frame_invalid rt key _ _ _ _ _ _ _ hF q hq
    refine ⟨e0, h1, hp ▸ h2, hp ▸ h3, ?_, h5⟩
    intro he
    rw [he] at h4
    simp at h4
  · obtain ⟨t, ht, hlen⟩ := path_cons rt key
    have hunder : [rtree_start_level rt key] <+: q := by
      by_contra hc
      apply hq
      have h1 : ¬ ([rtree_start_level rt key] ++
          [rtree_subkey rt key (rtree_start_level rt key)]) <+: q :=
        fun h => hc ((List.prefix_append _ _).trans h)
      rw [lookup_from_frame rt key _ _ _ _ _ _ _ hF q h1]
      exact hfr q hc
    refine ⟨_, hunder, ?_, ?_, by simp, ?_⟩
    · rw [hp, ht]
      exact ⟨t, rfl⟩
    · rw [hp, ht]
      intro he
      have h2 : t = [] := by simpa using he.symm
      rw [h2] at hlen
      exact absurd hlen (by simp)
    · rw [h0]
      exact node_valid_zero

end Rtree

namespace Rtree

theorem prefix_head {e0 t : rtree_elm_t} {a : Nat} (hne : e0 ≠ []) (h : e0 <+: a :: t) :
    ∃ r, e0 = a :: r := by
  cases e0 with
  | nil => exact absurd rfl hne
  | cons b r =>
    obtain ⟨u, hu⟩ := h
    simp only [List.cons_append, List.cons.injEq] at hu
    exact ⟨r, by rw [hu.1]⟩

/-- Once an inserting lookup has found an element, a lookup of the same key that does not
insert finds it too, in both modes, as long as the pointer slots on the way are untouched. -/
theorem elm_lookup_after (rt : rtree_t) (st st1 : State) (key : Nat) (elm : rtree_elm_t)
    (hL : rtree_elm_lookup rt st key false true = some (some elm, st1)) (st2 : State)
    (hag : ∀ e, e <+: elm → e ≠ elm → st2.mem e = st1.mem e) (dependent : Bool) :
    rtree_elm_lookup rt st2 key dependent false = some (some elm, st2) := by
  obtain ⟨c, stA, hX, hF⟩ := elm_lookup_init_split rt st st1 key elm hL
  obtain ⟨hc, hpre, hlen⟩ := lookup_from_init_elm rt key _ _ _ _ _ _ _ hF
  have h1 : ¬ ([rtree_start_level rt key] ++
      [rtree_subkey rt key (rtree_start_level rt key)]) <+: [rtree_start_level rt key] :=
    concat_not_prefix_self _ _
  have hroot : st2.mem [rtree_start_level rt key] = c := by
    rw [hag _ ((List.prefix_append _ _).trans hpre) (by
        intro he
        rw [← he] at hlen
        simp at hlen),
      lookup_from_frame rt key _ _ _ _ _ _ _ hF _ h1]
    exact node_read_mem rt st stA _ c _ hX hc
  simp only [rtree_elm_lookup, subtree_tryread_eq, Bool.false_eq_true, if_false, hroot]
  exact lookup_from_after rt key _ _ _ _ _ _ _ hF st2 hag dependent

/-- An inserting lookup of `key` does not change what a read of a key with another leaf
element obtains, whatever is stored afterwards in words that are not on the way to that other
element. -/
theorem rtree_read_sim (rt : rtree_t) (st st1 : State) (key : Nat) (elm : rtree_elm_t)
    (hL : rtree_elm_lookup rt st key false true = some (some elm, st1)) (key2 : Nat)
    (hne : rtree_path rt key2 ≠ rtree_path rt key) (st2 : State)
    (hag : ∀ q, q <+: rtree_path rt key2 → st2.mem q = st1.mem q) :
    rtree_read rt st2 key2 false = rtree_read rt st key2 false := by
  obtain ⟨c, stA, hX, hF⟩ := elm_lookup_init_split rt st st1 key elm hL
  obtain ⟨t2, ht2, _⟩ := path_cons rt key2
  obtain ⟨t, ht, _⟩ := path_cons rt key
  have hroot2 : [rtree_start_level rt key2] <+: rtree_path rt key2 := by
    rw [ht2]
    exact ⟨t2, rfl⟩
  rw [rtree_read_eq, rtree_read_eq]
  by_cases hs : rtree_start_level rt key2 = rtree_start_level rt key
  · unfold rtree_path at hne hag hroot2
    rw [hs] at hne hag hroot2 ⊢
    apply read_descend rt key key2 _ _ _ c _ elm st stA st1 st2 hX hF (hag _ hroot2)
    exact read_from_sim rt key key2 _ _ _ _ _ _ _ hF (fun h => hne h.symm) st2
      (fun q hq _ => hag q hq)
  · have hsame : ∀ q, q <+: rtree_path rt key2 → q ≠ [] → st2.mem q = st.mem q := by
      intro q hq hnil
      rw [hag q hq]
      by_contra hch
      obtain ⟨e0, h1, h2, _, h4, _⟩ := elm_lookup_init_frame rt st st1 key elm hL q hch
      rw [elm_lookup_init_path rt st st1 key elm hL, ht] at h2
      have h3 : e0 <+: rtree_start_level rt key2 :: t2 := ht2 ▸ h1.trans hq
      obtain ⟨r, hr⟩ := prefix_head h4 h2
      obtain ⟨r2, hr2⟩ := prefix_head h4 h3
      rw [hr] at hr2
      simp only [List.cons.injEq] at hr2
      exact hs hr2.1.symm
    rw [hsame _ hroot2 (by simp)]
    apply read_from_congr
    intro q hq hl
    apply hsame q hq
    intro hq0
    rw [hq0] at hl
    simp at hl

end Rtree

namespace Rtree

theorem path_from_inj (rt : rtree_t) (key key2 : Nat) :
    ∀ (n level : Nat) (p : rtree_elm_t),
      rtree_path_from rt key n level p = rtree_path_from rt key2 n level p →
      ∀ j, j ≤ n → rtree_subkey rt key (level + j) = rtree_subkey rt key2 (level + j) := by
  intro n
  induction n with
  | zero =>
    intro level p h j hj
    have hj0 : j = 0 := by omega
    subst hj0
    simpa [rtree_path_from] using h
  | succ n ih =>
    intro level p h j hj
    have h1 := (path_from_pre rt key (n + 1) level p).1
    have h2 := (path_from_pre rt key2 (n + 1) level p).1
    rw [h] at h1
    have hsk := prefix_concat_inj h1 h2
    cases j with
    | zero => exact hsk
    | succ j =>
      simp only [rtree_path_from] at h
      rw [← hsk] at h
      have := ih (level + 1) _ h j (by omega)
      have e : level + (j + 1) = level + 1 + j := by omega
      rw [e]
      exact this

theorem cumbits_mono (rt : rtree_t)
    (hC : ∀ l, l + 1 < rt.height →
      (rt.levels (l + 1)).cumbits = (rt.levels l).cumbits + (rt.levels (l + 1)).bits) :
    ∀ m, m < rt.height → ∀ l, l ≤ m → (rt.levels l).cumbits ≤ (rt.levels m).cumbits := by
  intro m
  induction m with
  | zero =>
    intro _ l hl
    have : l = 0 := by omega
    rw [this]
  | succ m ih =>
    intro hm l hl
    by_cases h : l = m + 1
    · rw [h]
    · have := ih (by omega) l (by omega)
      rw [hC m hm]
      omega

/-- Every key bit among the bits that the tree distinguishes belongs to the subkey of one
level. -/
theorem level_cover (rt : rtree_t)
    (hC0 : (rt.levels 0).cumbits = (rt.levels 0).bits)
    (hC : ∀ l, l + 1 < rt.height →
      (rt.levels (l + 1)).cumbits = (rt.levels l).cumbits + (rt.levels (l + 1)).bits)
    (hW : (rt.levels (rt.height - 1)).cumbits ≤ rt.w) :
    ∀ m, m < rt.height → ∀ b, rt.w - (rt.levels m).cumbits ≤ b → b < rt.w →
      ∃ l, l ≤ m ∧ rt.w - (rt.levels l).cumbits ≤ b ∧
        b < rt.w - (rt.levels l).cumbits + (rt.levels l).bits := by
  intro m
  induction m with
  | zero =>
    intro hm b hb hbw
    have h0 := cumbits_mono rt hC (rt.height - 1) (by omega) 0 (by omega)
    exact ⟨0, le_refl _, hb, by omega⟩
  | succ m ih =>
    intro hm b hb hbw
    by_cases h : rt.w - (rt.levels m).cumbits ≤ b
    · obtain ⟨l, h1, h2, h3⟩ := ih (by omega) b h hbw
      exact ⟨l, by omega, h2, h3⟩
    · have h1 := cumbits_mono rt hC (rt.height - 1) (by omega) (m + 1) (by omega)
      have h2 := hC m hm
      exact ⟨m + 1, le_refl _, hb, by omega⟩

theorem subkey_testBit (rt : rtree_t) (key level j : Nat) (hj : j < (rt.levels level).bits) :
    (rtree_subkey rt key level).testBit j =
      key.testBit (rt.w - (rt.levels level).cumbits + j) := by
  unfold rtree_subkey
  rw [Nat.testBit_and, Nat.testBit_shiftRight, Nat.testBit_two_pow_sub_one]
  simp [hj]

/-- Two keys with the same subkey at every level agree on the bits that the tree
distinguishes. -/
theorem distinguished_bits_eq (rt : rtree_t) (key key2 : Nat)
    (hk : key < 2 ^ rt.w) (hk2 : key2 < 2 ^ rt.w) (hH : 0 < rt.height)
    (hC0 : (rt.levels 0).cumbits = (rt.levels 0).bits)
    (hC : ∀ l, l + 1 < rt.height →
      (rt.levels (l + 1)).cumbits = (rt.levels l).cumbits + (rt.levels (l + 1)).bits)
    (hW : (rt.levels (rt.height - 1)).cumbits ≤ rt.w)
    (heq : ∀ l, l < rt.height → rtree_subkey rt key l = rtree_subkey rt key2 l) :
    key >>> (rt.w - (rt.levels (rt.height - 1)).cumbits) =
      key2 >>> (rt.w - (rt.levels (rt.height - 1)).cumbits) := by
  apply Nat.eq_of_testBit_eq
  intro i
  rw [Nat.testBit_shiftRight, Nat.testBit_shiftRight]
  by_cases hb : rt.w - (rt.levels (rt.height - 1)).cumbits + i < rt.w
  · obtain ⟨l, h1, h2, h3⟩ := level_cover rt hC0 hC hW (rt.height - 1) (by omega) _
      (Nat.le_add_right _ _) hb
    obtain ⟨j, hj⟩ : ∃ j, rt.w - (rt.levels (rt.height - 1)).cumbits + i =
        rt.w - (rt.levels l).cumbits + j := ⟨_, (Nat.add_sub_cancel' h2).symm⟩
    have hjb : j < (rt.levels l).bits := by omega
    rw [hj, ← subkey_testBit rt key l j hjb, ← subkey_testBit rt key2 l j hjb,
      heq l (by omega)]
  · have hp : 2 ^ rt.w ≤ 2 ^ (rt.w - (rt.levels (rt.height - 1)).cumbits + i) :=
      Nat.pow_le_pow_right (by norm_num) (by omega)
    rw [Nat.testBit_lt_two_pow (lt_of_lt_of_le hk hp),
      Nat.testBit_lt_two_pow (lt_of_lt_of_le hk2 hp)]

/-- Two keys that differ in a bit that the tree distinguishes have different leaf
elements. -/
theorem path_ne_of_bits (rt : rtree_t) (key key2 : Nat)
    (hk : key < 2 ^ rt.w) (hk2 : key2 < 2 ^ rt.w)
    (hC0 : (rt.levels 0).cumbits = (rt.levels 0).bits)
    (hC : ∀ l, l + 1 < rt.height →
      (rt.levels (l + 1)).cumbits = (rt.levels l).cumbits + (rt.levels (l + 1)).bits)
    (hW : (rt.levels (rt.height - 1)).cumbits ≤ rt.w)
    (hS : ∀ x, x < 2 ^ rt.w → rtree_start_level rt x < rt.height)
    (hZ : ∀ x, x < 2 ^ rt.w → ∀ l, l < rtree_start_level rt x → rtree_subkey rt x l = 0)
    (hne : key2 >>> (rt.w - (rt.levels (rt.height - 1)).cumbits) ≠
      key >>> (rt.w - (rt.levels (rt.height - 1)).cumbits)) :
    rtree_path rt key2 ≠ rtree_path rt key := by
  intro hp
  apply hne
  have hH : 0 < rt.height := lt_of_le_of_lt (Nat.zero_le _) (hS key hk)
  apply distinguished_bits_eq rt key2 key hk2 hk hH hC0 hC hW
  obtain ⟨t, ht, _⟩ := path_cons rt key
  obtain ⟨t2, ht2, _⟩ := path_cons rt key2
  have hs : rtree_start_level rt key2 = rtree_start_level rt key := by
    rw [ht, ht2] at hp
    simp only [List.cons.injEq] at hp
    exact hp.1
  intro l hl
  by_cases hlt : l < rtree_start_level rt key
  · rw [hZ key hk l hlt, hZ key2 hk2 l (hs ▸ hlt)]
  · unfold rtree_path at hp
    rw [hs] at hp
    have := path_from_inj rt key2 key _ _ _ hp (l - rtree_start_level rt key) (by omega)
    have e : rtree_start_level rt key + (l - rtree_start_level rt key) = l := by omega
    rw [e] at this
    exact this

end Rtree

namespace Rtree

theorem lg_floor_lt : ∀ (n x : Nat), x < 2 ^ n → x < 2 ^ (lg_floor n x + 1) := by
  intro n
  induction n with
  | zero =>
    intro x hx
    simp only [lg_floor]
    simp at hx
    omega
  | succ n ih =>
    intro x hx
    simp only [lg_floor]
    by_cases h1 : x ≤ 1
    · rw [if_pos h1]
      simp
      omega
    · rw [if_neg h1]
      have h2 : x / 2 < 2 ^ n := by
        rw [pow_succ] at hx
        omega
      have h3 := ih (x / 2) h2
      rw [pow_succ]
      omega

theorem ex_rtree_start_level_lt (x : Nat) : rtree_start_level ex_rtree x < ex_rtree.height := by
  unfold rtree_start_level
  split
  · decide
  · have : min (4 - 1 - (lg_floor ex_rtree.w x >>> LG_RTREE_BITS_PER_LEVEL)) 2 ≤ 2 :=
      Nat.min_le_right _ _
    show min (4 - 1 - (lg_floor ex_rtree.w x >>> LG_RTREE_BITS_PER_LEVEL)) 2 < 3
    omega

theorem ex_rtree_cumbits (l : Nat) (hl : l + 1 < ex_rtree.height) :
    (ex_rtree.levels (l + 1)).cumbits =
      (ex_rtree.levels l).cumbits + (ex_rtree.levels (l + 1)).bits := by
  have h3 : l + 1 < 3 := hl
  have h : l = 0 ∨ l = 1 := by omega
  rcases h with h | h <;> subst h <;> rfl

theorem ex_rtree_zero_above (x : Nat) (hx : x < 2 ^ ex_rtree.w) (l : Nat)
    (hl : l < rtree_start_level ex_rtree x) : rtree_subkey ex_rtree x l = 0 := by
  have hsub : ∀ m, x < 2 ^ m → x >>> m = 0 := by
    intro m hm
    rw [Nat.shiftRight_eq_div_pow]
    exact Nat.div_eq_of_lt hm
  by_cases h0 : x = 0
  · subst h0
    simp [rtree_subkey]
  · unfold rtree_start_level at hl
    rw [if_neg h0] at hl
    have hl2 : l < min (4 - 1 - (lg_floor ex_rtree.w x >>> LG_RTREE_BITS_PER_LEVEL)) 2 := hl
    have hlg := lg_floor_lt ex_rtree.w x hx
    rw [Nat.shiftRight_eq_div_pow] at hl2
    have hl3 : l < 4 - 1 - lg_floor ex_rtree.w x / 2 ^ LG_RTREE_BITS_PER_LEVEL :=
      lt_of_lt_of_le hl2 (Nat.min_le_left _ _)
    have hl4 : l < 2 := lt_of_lt_of_le hl2 (Nat.min_le_right _ _)
    have h16 : (2 : Nat) ^ LG_RTREE_BITS_PER_LEVEL = 16 := by decide
    rw [h16] at hl3
    have hcase : l = 0 ∨ l = 1 := by omega
    rcases hcase with h | h
    · subst h
      have h5 : lg_floor ex_rtree.w x + 1 ≤ 48 := by omega
      have h6 : x < 2 ^ 48 := lt_of_lt_of_le hlg (Nat.pow_le_pow_right (by norm_num) h5)
      have h7 : x >>> 48 = 0 := hsub 48 h6
      show (x >>> (64 - 16)) &&& (2 ^ 16 - 1) = 0
      rw [show 64 - 16 = 48 from rfl, h7, Nat.zero_and]
    · subst h
      have h5 : lg_floor ex_rtree.w x + 1 ≤ 32 := by omega
      have h6 : x < 2 ^ 32 := lt_of_lt_of_le hlg (Nat.pow_le_pow_right (by norm_num) h5)
      have h7 : x >>> 32 = 0 := hsub 32 h6
      show (x >>> (64 - 32)) &&& (2 ^ 16 - 1) = 0
      rw [show 64 - 32 = 32 from rfl, h7, Nat.zero_and]

end Rtree

namespace Rtree

/-- A dependent lookup performs no check and arrives at the leaf element of the key. -/
theorem lookup_from_dependent (rt : rtree_t) (key : Nat) :
    ∀ (n level node : Nat) (p : rtree_elm_t) (st : State),
      rtree_elm_lookup_from rt key true false n level node p st =
        some (some (rtree_path_from rt key n level p), st) := by
  intro n
  induction n with
  | zero =>
    intro level node p st
    simp [rtree_elm_lookup_from, rtree_path_from]
  | succ n ih =>
    intro level node p st
    simp only [rtree_elm_lookup_from, rtree_path_from, Bool.not_true, Bool.false_and,
      Bool.false_eq_true, if_false]
    exact ih _ _ _ _

theorem rtree_read_dependent (rt : rtree_t) (st : State) (key : Nat) :
    rtree_read rt st key true = some (st.mem (rtree_path rt key) &&& sz_not rt.w 1) := by
  simp only [rtree_read, rtree_elm_lookup, Bool.false_eq_true, if_false, lookup_from_dependent,
    rtree_elm_read, if_true, rtree_path]

/-- A lookup that finds an element without inserting has found the leaf element of the key
through valid pointers. -/
theorem lookup_from_found (rt : rtree_t) (key : Nat) :
    ∀ (n level node : Nat) (p : rtree_elm_t) (st st1 : State) (elm : rtree_elm_t),
      rtree_elm_lookup_from rt key false false n level node p st = some (some elm, st1) →
      elm = rtree_path_from rt key n level p ∧ rtree_node_valid node = true ∧
        ∀ e, e <+: elm → e ≠ elm → p.length < e.length →
          rtree_node_valid (st.mem e) = true := by
  intro n
  induction n with
  | zero =>
    intro level node p st st1 elm h
    simp only [rtree_elm_lookup_from] at h
    by_cases hv : rtree_node_valid node = true
    · simp only [hv, Bool.not_true, Bool.and_false, Bool.false_eq_true, if_false,
        Option.some.injEq, Prod.mk.injEq] at h
      refine ⟨h.1.symm, hv, ?_⟩
      intro e he hne hl
      exfalso
      apply hne
      apply he.eq_of_length
      have := he.length_le
      rw [← h.1] at this ⊢
      simp at this ⊢
      omega
    · simp [hv] at h
  | succ n ih =>
    intro level node p st st1 elm h
    simp only [rtree_elm_lookup_from, Bool.false_eq_true, if_false, child_tryread_eq] at h
    by_cases hv : rtree_node_valid node = true
    · simp only [hv, Bool.not_true, Bool.and_false, Bool.false_eq_true, if_false] at h
      obtain ⟨h1, h2, h3⟩ := ih _ _ _ _ _ _ h
      refine ⟨h1, hv, ?_⟩
      intro e he hne hl
      by_cases hl2 : (p ++ [rtree_subkey rt key level]).length < e.length
      · exact h3 e he hne hl2
      · have hpre : (p ++ [rtree_subkey rt key level]) <+: elm := by
          rw [h1]
          exact (List.prefix_append _ _).trans (path_from_pre rt key n (level + 1) _).1
        have h4 : e <+: (p ++ [rtree_subkey rt key level]) :=
          List.prefix_of_prefix_length_le he hpre (by omega)
        have h5 : e = p ++ [rtree_subkey rt key level] :=
          h4.eq_of_length (by have := h4.length_le; simp at this hl2 ⊢; omega)
        rw [h5]
        exact h2
    · simp [hv] at h

theorem elm_lookup_found (rt : rtree_t) (st st1 : State) (key : Nat) (elm : rtree_elm_t)
    (h : rtree_elm_lookup rt st key false false = some (some elm, st1)) :
    elm = rtree_path rt key ∧
      ∀ e, e <+: elm → e ≠ elm → e ≠ [] → rtree_node_valid (st.mem e) = true := by
  simp only [rtree_elm_lookup, Bool.false_eq_true, if_false, subtree_tryread_eq] at h
  obtain ⟨h1, h2, h3⟩ := lookup_from_found rt key _ _ _ _ _ _ _ h
  refine ⟨h1, ?_⟩
  intro e he hne hnil
  by_cases hl : [rtree_start_level rt key].length < e.length
  · exact h3 e he hne hl
  · obtain ⟨t, ht, _⟩ := path_cons rt key
    have h4 : elm = rtree_path rt key := h1
    rw [h4, ht] at he
    obtain ⟨r, hr⟩ := prefix_head hnil he
    have h5 : r = [] := by
      rw [hr] at hl
      simp at hl
      exact hl
    rw [hr, h5]
    exact h2

/-- A dependent read of a key that could be looked up is not changed by an inserting lookup
of a key with another leaf element and by stores to that element. -/
theorem rtree_read_dependent_sim (rt : rtree_t) (st st1 : State) (key : Nat)
    (elm : rtree_elm_t)
    (hL : rtree_elm_lookup rt st key false true = some (some elm, st1)) (key2 : Nat)
    (hne : rtree_path rt key2 ≠ rtree_path rt key) (st2 : State)
    (hag : ∀ q, q ≠ elm → st2.mem q = st1.mem q) (elm2 : rtree_elm_t) (s : State)
    (hfound : rtree_elm_lookup rt st key2 false false = some (some elm2, s)) :
    rtree_read rt st2 key2 true = rtree_read rt st key2 true := by
  obtain ⟨hp2, hval⟩ := elm_lookup_found rt st s key2 elm2 hfound
  have hp := elm_lookup_init_path rt st st1 key elm hL
  rw [rtree_read_dependent, rtree_read_dependent]
  have h1 : st2.mem (rtree_path rt key2) = st1.mem (rtree_path rt key2) :=
    hag _ (by rw [hp]; exact hne)
  have h2 : st1.mem (rtree_path rt key2) = st.mem (rtree_path rt key2) := by
    by_contra hch
    obtain ⟨e0, e1, e2, e3, e4, e5⟩ := elm_lookup_init_frame rt st st1 key elm hL _ hch
    have h6 : e0 ≠ rtree_path rt key2 := by
      intro h
      rw [h, hp] at e2
      exact hne (path_prefix_eq rt key key2 e2)
    have := hval e0 (hp2 ▸ e1) (hp2 ▸ h6) e4
    rw [e5] at this
    cases this
  rw [h1, h2]

end Rtree

namespace Rtree

/-- Clearing the slot of a key whose element was found by an earlier inserting lookup and
is not locked: the slot becomes `NULL`, every other word is kept. -/
theorem clear_after (rt : rtree_t) (st st1 : State) (key : Nat) (elm : rtree_elm_t)
    (hL : rtree_elm_lookup rt st key false true = some (some elm, st1)) (st2 : State)
    (hag : ∀ e, e <+: elm → e ≠ elm → st2.mem e = st1.mem e) (hw : 0 < rt.w)
    (hlt : st2.mem elm < 2 ^ rt.w) (h0 : st2.mem elm % 2 = 0) (fuel : Nat) :
    ∃ st3, rtree_clear rt st2 key (fuel + 1) = some st3 ∧ st3.mem elm = 0 ∧
      ∀ q, q ≠ elm → st3.mem q = st2.mem q := by
  have h1 := elm_lookup_after rt st st1 key elm hL st2 hag true
  have h2 := acquire_spin_unlocked rt st2 elm (st2.mem elm) fuel hw rfl hlt h0
  refine ⟨rtree_elm_release rt
    (rtree_elm_write_acquired (st2.write elm (st2.mem elm ||| 1)) elm 0) elm, ?_, ?_, ?_⟩
  · simp only [rtree_clear, rtree_elm_acquire, h1, h2]
  · simp only [rtree_elm_release, rtree_elm_write, rtree_elm_read_acquired,
      rtree_elm_write_acquired, write_mem_same]
    exact mask_locked hw (Nat.pow_pos (by norm_num)) (by norm_num)
  · intro q hq
    simp only [rtree_elm_release, rtree_elm_write, rtree_elm_write_acquired]
    rw [write_mem_other _ _ _ _ hq, write_mem_other _ _ _ _ hq, write_mem_other _ _ _ _ hq]

/-- C18: for every radix tree with consistent level tables (the cumulative bit counts add up,
stay within the pointer width, the start level is a level of the tree and the subkeys of the
levels above the start level of a key are zero), every key `k` and every extent pointer `e`
with low bit 0: after `rtree_write(k, e)` returns false, `rtree_read(k)` returns `e` in
dependent and in non-dependent mode; for every key `k2` that differs from `k` in a key bit
that the tree distinguishes, a non-dependent `rtree_read(k2)` returns what it returned before,
and so does a dependent one if `k2` could be looked up before; and `rtree_clear(k)` then
returns and leaves `rtree_read(k)` returning `NULL` in both modes. -/
theorem rtree_write_read_clear (rt : rtree_t) (st st2 : State) (k e : Nat)
    (hw : 0 < rt.w) (hk : k < 2 ^ rt.w) (he : e < 2 ^ rt.w) (he0 : e % 2 = 0)
    (hC0 : (rt.levels 0).cumbits = (rt.levels 0).bits)
    (hC : ∀ l, l + 1 < rt.height →
      (rt.levels (l + 1)).cumbits = (rt.levels l).cumbits + (rt.levels (l + 1)).bits)
    (hW : (rt.levels (rt.height - 1)).cumbits ≤ rt.w)
    (hS : ∀ x, x < 2 ^ rt.w → rtree_start_level rt x < rt.height)
    (hZ : ∀ x, x < 2 ^ rt.w → ∀ l, l < rtree_start_level rt x → rtree_subkey rt x l = 0)
    (hwr : rtree_write rt st k e = some (false, st2)) :
    (∀ dependent, rtree_read rt st2 k dependent = some e) ∧
      (∀ k2, k2 < 2 ^ rt.w →
        k2 >>> (rt.w - (rt.levels (rt.height - 1)).cumbits) ≠
          k >>> (rt.w - (rt.levels (rt.height - 1)).cumbits) →
        rtree_read rt st2 k2 false = rtree_read rt st k2 false ∧
          ∀ elm2 s, rtree_elm_lookup rt st k2 false false = some (some elm2, s) →
            rtree_read rt st2 k2 true = rtree_read rt st k2 true) ∧
      (∀ fuel, ∃ st3, rtree_clear rt st2 k (fuel + 1) = some st3 ∧
        ∀ dependent, rtree_read rt st3 k dependent = some 0) := by
  unfold rtree_write at hwr
  cases hL : rtree_elm_lookup rt st k false true with
  | none => rw [hL] at hwr; cases hwr
  | some rs =>
    obtain ⟨r, st1⟩ := rs
    cases r with
    | none =>
      rw [hL] at hwr
      simp at hwr
    | some elm =>
      rw [hL] at hwr
      simp only [Option.some.injEq, Prod.mk.injEq, true_and] at hwr
      subst hwr
      have hag : ∀ q, q ≠ elm → (rtree_elm_write st1 elm e).mem q = st1.mem q :=
        fun q hq => write_mem_other _ _ _ _ hq
      have hself : (rtree_elm_write st1 elm e).mem elm = e := write_mem_same _ _ _
      refine ⟨?_, ?_, ?_⟩
      · intro dependent
        rw [rtree_read_of_lookup rt _ k dependent elm
          (elm_lookup_after rt st st1 k elm hL _ (fun q _ hq => hag q hq) dependent), hself,
          mask_unlocked hw he he0]
      · intro k2 hk2 hne
        have hpne := path_ne_of_bits rt k k2 hk hk2 hC0 hC hW hS hZ hne
        constructor
        · apply rtree_read_sim rt st st1 k elm hL k2 hpne
          intro q hq
          apply hag
          intro hqe
          rw [hqe, elm_lookup_init_path rt st st1 k elm hL] at hq
          exact hpne (path_prefix_eq rt k2 k hq).symm
        · intro elm2 s hfound
          exact rtree_read_dependent_sim rt st st1 k elm hL k2 hpne _ hag elm2 s hfound
      · intro fuel
        obtain ⟨st3, h1, h2, h3⟩ := clear_after rt st st1 k elm hL _
          (fun q _ hq => hag q hq) hw (by rw [hself]; exact he) (by rw [hself]; exact he0) fuel
        refine ⟨st3, h1, ?_⟩
        intro dependent
        rw [rtree_read_of_lookup rt st3 k dependent elm
          (elm_lookup_after rt st st1 k elm hL st3
            (fun q _ hq => (h3 q hq).trans (hag q hq)) dependent), h2, Nat.zero_and]

/-- C18 witness: writing the key `0x7f0000200000` into an empty three-level tree. -/
theorem rtree_write_read_clear_witness :
    ∃ st2, rtree_write ex_rtree ex_state 0x7f0000200000 0x7000 = some (false, st2) ∧
      (∀ dependent, rtree_read ex_rtree st2 0x7f0000200000 dependent = some 0x7000) ∧
      (∀ k2, k2 < 2 ^ ex_rtree.w →
        k2 >>> (ex_rtree.w - (ex_rtree.levels (ex_rtree.height - 1)).cumbits) ≠
          0x7f0000200000 >>> (ex_rtree.w - (ex_rtree.levels (ex_rtree.height - 1)).cumbits) →
        rtree_read ex_rtree st2 k2 false = rtree_read ex_rtree ex_state k2 false ∧
          ∀ elm2 s, rtree_elm_lookup ex_rtree ex_state k2 false false = some (some elm2, s) →
            rtree_read ex_rtree st2 k2 true = rtree_read ex_rtree ex_state k2 true) ∧
      (∀ fuel, ∃ st3, rtree_clear ex_rtree st2 0x7f0000200000 (fuel + 1) = some st3 ∧
        ∀ dependent, rtree_read ex_rtree st3 0x7f0000200000 dependent = some 0) :=
  ⟨_, rfl, rtree_write_read_clear ex_rtree ex_state _ 0x7f0000200000 0x7000 (by decide)
    (by decide) (by decide) (by decide) rfl ex_rtree_cumbits (by decide)
    (fun x _ => ex_rtree_start_level_lt x) ex_rtree_zero_above rfl⟩

end Rtree

namespace Rtree

/-- When the loop of `rtree_elm_acquire` ends, it has changed the slot only. -/
theorem acquire_spin_some (rt : rtree_t) (elm : rtree_elm_t) :
    ∀ (fuel : Nat) (st st1 : State), rtree_elm_acquire_spin rt fuel st elm = some st1 →
      ∃ v, st1 = st.write elm v := by
  intro fuel
  induction fuel with
  | zero =>
    intro st st1 h
    simp [rtree_elm_acquire_spin] at h
  | succ fuel ih =>
    intro st st1 h
    simp only [rtree_elm_acquire_spin, atomic_cas_p] at h
    by_cases hc : st.mem elm = rtree_elm_read rt st elm false
    · rw [if_pos hc] at h
      simp only [Option.some.injEq] at h
      exact ⟨_, h.symm⟩
    · rw [if_neg hc] at h
      exact ih st st1 h

/-- An inserting acquisition that returns an element has looked it up and then changed the
slot only. -/
theorem acquire_cases (rt : rtree_t) (st r : State) (key fuel : Nat) (elm : rtree_elm_t)
    (h : rtree_elm_acquire rt st key false true fuel = some (some elm, r)) :
    ∃ s1 v, rtree_elm_lookup rt st key false true = some (some elm, s1) ∧ r = s1.write elm v := by
  unfold rtree_elm_acquire at h
  cases hL : rtree_elm_lookup rt st key false true with
  | none => rw [hL] at h; cases h
  | some rs =>
    obtain ⟨r0, s1⟩ := rs
    cases r0 with
    | none =>
      rw [hL] at h
      simp at h
    | some elm0 =>
      rw [hL] at h
      simp only at h
      cases hS : rtree_elm_acquire_spin rt fuel s1 elm0 with
      | none => rw [hS] at h; cases h
      | some s2 =>
        rw [hS] at h
        simp only [Option.some.injEq, Prod.mk.injEq] at h
        obtain ⟨h1, h2⟩ := h
        subst h1 h2
        obtain ⟨v, hv⟩ := acquire_spin_some rt elm0 fuel s1 s2 hS
        exact ⟨s1, v, rfl, hv⟩

/-- An inserting lookup of one key keeps every word on the way to the leaf element of a key
that an earlier inserting lookup has found. -/
theorem lookup_preserves_path (rt : rtree_t) (st s1 r2 s3 : State) (ka kb : Nat)
    (elm_a elm_b : rtree_elm_t)
    (hLa : rtree_elm_lookup rt st ka false true = some (some elm_a, s1))
    (hr2 : ∀ e, e <+: elm_a → e ≠ elm_a → r2.mem e = s1.mem e)
    (hLb : rtree_elm_lookup rt r2 kb false true = some (some elm_b, s3))
    (hne : elm_a ≠ elm_b) : ∀ e, e <+: elm_a → s3.mem e = r2.mem e := by
  intro e he
  by_contra hch
  obtain ⟨e0, h1, h2, _, h4, h5⟩ := elm_lookup_init_frame rt r2 s3 kb elm_b hLb e hch
  have h6 : e0 <+: elm_a := h1.trans he
  have h7 : e0 ≠ elm_a := by
    intro h
    rw [h, elm_lookup_init_path rt st s1 ka elm_a hLa,
      elm_lookup_init_path rt r2 s3 kb elm_b hLb] at h2
    apply hne
    rw [elm_lookup_init_path rt st s1 ka elm_a hLa, elm_lookup_init_path rt r2 s3 kb elm_b hLb]
    exact path_prefix_eq rt kb ka h2
  have h8 := elm_lookup_init_valid rt st s1 ka elm_a hLa e0 h6 h7 h4
  rw [← hr2 e0 h6 h7, h5] at h8
  cases h8

end Rtree

namespace Chunk

theorem chunk_register_stats_rtree (env : Env) (g : Registry) (size : Nat) :
    (chunk_register_stats env g size).1.rtree = g.rtree := by
  unfold chunk_register_stats
  split <;> rfl

/-- The address `last` that `chunk_register` computes for an extent larger than a chunk is
the base of the last chunk that the extent touches. -/
theorem chunk_register_last (env : Env) (chunk size : Nat)
    (hal : chunk % env.chunksize = 0) (hsz : env.chunksize < size) (hsize : size < 2 ^ env.w)
    (hend : chunk + size ≤ 2 ^ env.w) :
    sz_add env.w chunk (CHUNK_CEILING env (sz_sub env.w size env.chunksize)) % env.chunksize = 0 ∧
      chunk < sz_add env.w chunk (CHUNK_CEILING env (sz_sub env.w size env.chunksize)) ∧
      sz_add env.w chunk (CHUNK_CEILING env (sz_sub env.w size env.chunksize)) < chunk + size ∧
      chunk + size ≤
        sz_add env.w chunk (CHUNK_CEILING env (sz_sub env.w size env.chunksize)) + env.chunksize ∧
      sz_add env.w chunk (CHUNK_CEILING env (sz_sub env.w size env.chunksize)) / env.chunksize ≠
        chunk / env.chunksize := by
  have hC : 0 < env.chunksize := Nat.pow_pos (by norm_num)
  have hlg : env.opt_lg_chunk < env.w := by
    apply pow_lt_pow_iff_two
    exact lt_trans hsz hsize
  have hx : sz_sub env.w size env.chunksize = size - env.chunksize := by
    unfold sz_sub
    rw [Nat.mod_eq_of_lt (lt_trans hsz hsize)]
    have : size + (2 ^ env.w - env.chunksize) = (size - env.chunksize) + 2 ^ env.w := by omega
    rw [this, Nat.add_mod_right, Nat.mod_eq_of_lt (by omega)]
  have hceil : CHUNK_CEILING env (size - env.chunksize) =
      (size - 1) - (size - 1) % env.chunksize := by
    unfold CHUNK_CEILING Env.chunksize_mask sz_add
    have h1 : size - env.chunksize + (env.chunksize - 1) = size - 1 := by omega
    rw [h1, Nat.mod_eq_of_lt (by omega)]
    unfold Env.chunksize
    rw [sz_not_mask (le_of_lt hlg), and_high_mask (le_of_lt hlg) (by omega)]
  have hr : (size - 1) % env.chunksize < env.chunksize := Nat.mod_lt _ hC
  have hle : (size - 1) % env.chunksize ≤ size - 1 := Nat.mod_le _ _
  have hdvd : env.chunksize ∣ (size - 1) - (size - 1) % env.chunksize := Nat.dvd_sub_mod _
  rw [hx, hceil]
  have hlast : sz_add env.w chunk ((size - 1) - (size - 1) % env.chunksize) =
      chunk + ((size - 1) - (size - 1) % env.chunksize) := by
    unfold sz_add
    exact Nat.mod_eq_of_lt (by omega)
  rw [hlast]
  obtain ⟨b, hb⟩ := hdvd
  obtain ⟨a, ha⟩ : env.chunksize ∣ chunk := Nat.dvd_of_mod_eq_zero hal
  have hbpos : 0 < b := by
    rcases Nat.eq_zero_or_pos b with h | h
    · rw [h] at hb
      omega
    · exact h
  refine ⟨?_, by omega, by omega, by omega, ?_⟩
  · rw [hb, ha, ← Nat.mul_add]
    exact Nat.mul_mod_right _ _
  · rw [hb, ha, ← Nat.mul_add, Nat.mul_div_cancel_left _ hC, Nat.mul_div_cancel_left _ hC]
    omega

end Chunk

namespace Rtree

/-- Reads after an inserting lookup of `ka` followed by stores to its leaf element only. -/
theorem register_one (rt : rtree_t) (st s1 F : State) (ka : Nat) (elm_a : rtree_elm_t)
    (hLa : rtree_elm_lookup rt st ka false true = some (some elm_a, s1))
    (hF : ∀ q, q ≠ elm_a → F.mem q = s1.mem q) :
    (∀ dependent, rtree_read rt F ka dependent = some (F.mem elm_a &&& sz_not rt.w 1)) ∧
      (∀ k2, rtree_path rt k2 ≠ rtree_path rt ka →
        rtree_read rt F k2 false = rtree_read rt st k2 false) := by
  constructor
  · intro dependent
    exact rtree_read_of_lookup rt F ka dependent elm_a
      (elm_lookup_after rt st s1 ka elm_a hLa F (fun q _ hq => hF q hq) dependent)
  · intro k2 hne
    apply rtree_read_sim rt st s1 ka elm_a hLa k2 hne
    intro q hq
    apply hF
    intro hqe
    rw [hqe, elm_lookup_init_path rt st s1 ka elm_a hLa] at hq
    exact hne (path_prefix_eq rt k2 ka hq).symm

/-- Reads after an inserting lookup of `ka`, stores to its leaf element, an inserting lookup
of `kb` and stores to the two leaf elements only. -/
theorem register_two (rt : rtree_t) (st s1 r2 s3 F : State) (ka kb : Nat)
    (elm_a elm_b : rtree_elm_t)
    (hLa : rtree_elm_lookup rt st ka false true = some (some elm_a, s1))
    (hr2 : ∀ q, q ≠ elm_a → r2.mem q = s1.mem q)
    (hLb : rtree_elm_lookup rt r2 kb false true = some (some elm_b, s3))
    (hne : rtree_path rt kb ≠ rtree_path rt ka)
    (hF : ∀ q, q ≠ elm_a → q ≠ elm_b → F.mem q = s3.mem q) :
    (∀ dependent, rtree_read rt F ka dependent = some (F.mem elm_a &&& sz_not rt.w 1)) ∧
      (∀ dependent, rtree_read rt F kb dependent = some (F.mem elm_b &&& sz_not rt.w 1)) ∧
      s3.mem elm_a = r2.mem elm_a ∧
      (∀ k2, rtree_path rt k2 ≠ rtree_path rt ka → rtree_path rt k2 ≠ rtree_path rt kb →
        rtree_read rt F k2 false = rtree_read rt st k2 false) := by
  have hpa := elm_lookup_init_path rt st s1 ka elm_a hLa
  have hpb := elm_lookup_init_path rt r2 s3 kb elm_b hLb
  have hab : elm_a ≠ elm_b := by
    rw [hpa, hpb]
    exact fun h => hne h.symm
  have hpres := lookup_preserves_path rt st s1 r2 s3 ka kb elm_a elm_b hLa
    (fun e _ hq => hr2 e hq) hLb hab
  have hnpre_b : ∀ e, e <+: elm_a → e ≠ elm_b := by
    intro e he hq
    rw [hq, hpa, hpb] at he
    exact hne (path_prefix_eq rt ka kb he)
  have hnpre_a : ∀ e, e <+: elm_b → e ≠ elm_a := by
    intro e he hq
    rw [hq, hpa, hpb] at he
    exact hne (path_prefix_eq rt kb ka he).symm
  refine ⟨?_, ?_, hpres elm_a List.prefix_rfl, ?_⟩
  · intro dependent
    apply rtree_read_of_lookup rt F ka dependent elm_a
    apply elm_lookup_after rt st s1 ka elm_a hLa F _ dependent
    intro e he hq
    rw [hF e hq (hnpre_b e he), hpres e he, hr2 e hq]
  · intro dependent
    apply rtree_read_of_lookup rt F kb dependent elm_b
    apply elm_lookup_after rt r2 s3 kb elm_b hLb F _ dependent
    intro e he hq
    exact hF e (hnpre_a e he) hq
  · intro k2 hna hnb
    have h1 : rtree_read rt F k2 false = rtree_read rt r2 k2 false := by
      apply rtree_read_sim rt r2 s3 kb elm_b hLb k2 hnb
      intro q hq
      apply hF
      · intro hqe
        rw [hqe, hpa] at hq
        exact hna (path_prefix_eq rt k2 ka hq).symm
      · intro hqe
        rw [hqe, hpb] at hq
        exact hnb (path_prefix_eq rt k2 kb hq).symm
    rw [h1]
    apply rtree_read_sim rt st s1 ka elm_a hLa k2 hna
    intro q hq
    apply hr2
    intro hqe
    rw [hqe, hpa] at hq
    exact hna (path_prefix_eq rt k2 ka hq).symm

end Rtree

namespace Chunk

/-- Two addresses in different chunks have different leaf elements in `chunks_rtree`. -/
theorem path_ne_of_chunk (env : Env) (rt : Rtree.rtree_t) (k k2 : Nat)
    (hw : rt.w = env.w) (hlg : env.opt_lg_chunk ≤ env.w)
    (hC0 : (rt.levels 0).cumbits = (rt.levels 0).bits)
    (hC : ∀ l, l + 1 < rt.height →
      (rt.levels (l + 1)).cumbits = (rt.levels l).cumbits + (rt.levels (l + 1)).bits)
    (htot : (rt.levels (rt.height - 1)).cumbits = env.w - env.opt_lg_chunk)
    (hS : ∀ x, x < 2 ^ rt.w → Rtree.rtree_start_level rt x < rt.height)
    (hZ : ∀ x, x < 2 ^ rt.w → ∀ l, l < Rtree.rtree_start_level rt x →
      Rtree.rtree_subkey rt x l = 0)
    (hk : k < 2 ^ env.w) (hk2 : k2 < 2 ^ env.w)
    (hne : k2 / env.chunksize ≠ k / env.chunksize) :
    Rtree.rtree_path rt k2 ≠ Rtree.rtree_path rt k := by
  have hsh : rt.w - (rt.levels (rt.height - 1)).cumbits = env.opt_lg_chunk := by
    rw [htot, hw]
    omega
  apply Rtree.path_ne_of_bits rt k k2 (hw ▸ hk) (hw ▸ hk2) hC0 hC (by rw [htot, hw]; omega) hS hZ
  rw [hsh, Nat.shiftRight_eq_div_pow, Nat.shiftRight_eq_div_pow]
  exact hne

/-- C17: for every extent descriptor `extent` (a pointer with low bit 0) of a range with
chunk-aligned base `chunk` and size `size` that ends within the address space, and
`chunks_rtree` with consistent level tables that distinguish the address bits above the chunk
offset: after `chunk_register` returns false, the leaf slot of `chunk` holds `extent` and reads
of `chunk` return it; if `size > chunksize`, so does the slot of
`last = chunk + CHUNK_CEILING(size - chunksize)`, where `last` is chunk-aligned,
`chunk < last < chunk + size` and `last + chunksize ≥ chunk + size`; both slots are left
unlocked (they hold `extent` itself); and a read of an address in any other chunk returns what
it returned before. -/
theorem chunk_register_writes (env : Env) (rt : Rtree.rtree_t) (g g2 : Registry)
    (chunk extent size fuel : Nat) (evs : List Event)
    (hw : rt.w = env.w) (hw0 : 0 < env.w) (hlg : env.opt_lg_chunk ≤ env.w)
    (hC0 : (rt.levels 0).cumbits = (rt.levels 0).bits)
    (hC : ∀ l, l + 1 < rt.height →
      (rt.levels (l + 1)).cumbits = (rt.levels l).cumbits + (rt.levels (l + 1)).bits)
    (htot : (rt.levels (rt.height - 1)).cumbits = env.w - env.opt_lg_chunk)
    (hS : ∀ x, x < 2 ^ rt.w → Rtree.rtree_start_level rt x < rt.height)
    (hZ : ∀ x, x < 2 ^ rt.w → ∀ l, l < Rtree.rtree_start_level rt x →
      Rtree.rtree_subkey rt x l = 0)
    (hal : chunk % env.chunksize = 0) (hchunk : chunk < 2 ^ env.w) (hsize : size < 2 ^ env.w)
    (hend : chunk + size ≤ 2 ^ env.w) (he : extent < 2 ^ env.w) (he0 : extent % 2 = 0)
    (hr : chunk_register env rt g chunk extent size fuel = some (false, g2, evs)) :
    g2.rtree.mem (Rtree.rtree_path rt chunk) = extent ∧
      (∀ dependent, Rtree.rtree_read rt g2.rtree chunk dependent = some extent) ∧
      (size > env.chunksize →
        sz_add env.w chunk (CHUNK_CEILING env (sz_sub env.w size env.chunksize)) %
            env.chunksize = 0 ∧
          chunk < sz_add env.w chunk (CHUNK_CEILING env (sz_sub env.w size env.chunksize)) ∧
          sz_add env.w chunk (CHUNK_CEILING env (sz_sub env.w size env.chunksize)) <
            chunk + size ∧
          chunk + size ≤
            sz_add env.w chunk (CHUNK_CEILING env (sz_sub env.w size env.chunksize)) +
              env.chunksize ∧
          g2.rtree.mem (Rtree.rtree_path rt
            (sz_add env.w chunk (CHUNK_CEILING env (sz_sub env.w size env.chunksize)))) =
            extent ∧
          ∀ dependent, Rtree.rtree_read rt g2.rtree
            (sz_add env.w chunk (CHUNK_CEILING env (sz_sub env.w size env.chunksize)))
            dependent = some extent) ∧
      (∀ k2, k2 < 2 ^ env.w → k2 / env.chunksize ≠ chunk / env.chunksize →
        (size > env.chunksize → k2 / env.chunksize ≠
          sz_add env.w chunk (CHUNK_CEILING env (sz_sub env.w size env.chunksize)) /
            env.chunksize) →
        Rtree.rtree_read rt g2.rtree k2 false = Rtree.rtree_read rt g.rtree k2 false) := by
  have hw1 : 0 < rt.w := hw ▸ hw0
  have he1 : extent < 2 ^ rt.w := hw ▸ he
  have hpne := fun k k2 => path_ne_of_chunk env rt k k2 hw hlg hC0 hC htot hS hZ
  unfold chunk_register at hr
  cases hA : Rtree.rtree_elm_acquire rt g.rtree chunk false true fuel with
  | none => rw [hA] at hr; cases hr
  | some ra =>
    obtain ⟨oa, r1⟩ := ra
    cases oa with
    | none =>
      rw [hA] at hr
      simp at hr
    | some elm_a =>
      rw [hA] at hr
      simp only at hr
      obtain ⟨s1, va, hLa, hr1⟩ := Rtree.acquire_cases rt g.rtree r1 chunk fuel elm_a hA
      have hpa := Rtree.elm_lookup_init_path rt g.rtree s1 chunk elm_a hLa
      have hr2 : ∀ q, q ≠ elm_a →
          (Rtree.rtree_elm_write_acquired r1 elm_a extent).mem q = s1.mem q := by
        intro q hq
        rw [hr1]
        simp only [Rtree.rtree_elm_write_acquired]
        rw [Rtree.write_mem_other _ _ _ _ hq, Rtree.write_mem_other _ _ _ _ hq]
      by_cases hbig : size > env.chunksize
      · rw [if_pos hbig] at hr
        obtain ⟨ha1, ha2, ha3, ha4, ha5⟩ := chunk_register_last env chunk size hal hbig hsize hend
        cases hB : Rtree.rtree_elm_acquire rt (Rtree.rtree_elm_write_acquired r1 elm_a extent)
            (sz_add env.w chunk (CHUNK_CEILING env (sz_sub env.w size env.chunksize)))
            false true fuel with
        | none => rw [hB] at hr; cases hr
        | some rb =>
          obtain ⟨ob, r3⟩ := rb
          cases ob with
          | none =>
            rw [hB] at hr
            simp at hr
          | some elm_b =>
            rw [hB] at hr
            simp only [Option.some.injEq, Prod.mk.injEq, true_and] at hr
            obtain ⟨hg2, _⟩ := hr
            subst hg2
            obtain ⟨s3, vb, hLb, hr3⟩ := Rtree.acquire_cases rt _ r3 _ fuel elm_b hB
            have hpb := Rtree.elm_lookup_init_path rt _ s3 _ elm_b hLb
            have hlast : sz_add env.w chunk
                (CHUNK_CEILING env (sz_sub env.w size env.chunksize)) < 2 ^ env.w := by omega
            have hne := hpne chunk _ hchunk hlast ha5
            have hab : elm_a ≠ elm_b := by
              rw [hpa, hpb]
              exact fun h => hne h.symm
            obtain ⟨h1, h2, h3, h4⟩ := Rtree.register_two rt g.rtree s1
              (Rtree.rtree_elm_write_acquired r1 elm_a extent) s3
              (Rtree.rtree_elm_release rt (Rtree.rtree_elm_release rt
                (Rtree.rtree_elm_write_acquired r3 elm_b extent) elm_b) elm_a)
              chunk _ elm_a elm_b hLa hr2 hLb hne (by
                intro q hqa hqb
                rw [hr3]
                simp only [Rtree.rtree_elm_release, Rtree.rtree_elm_write,
                  Rtree.rtree_elm_write_acquired]
                rw [Rtree.write_mem_other _ _ _ _ hqa, Rtree.write_mem_other _ _ _ _ hqb,
                  Rtree.write_mem_other _ _ _ _ hqb, Rtree.write_mem_other _ _ _ _ hqb])
            have hma : (Rtree.rtree_elm_release rt (Rtree.rtree_elm_release rt
                (Rtree.rtree_elm_write_acquired r3 elm_b extent) elm_b) elm_a).mem elm_a =
                extent := by
              simp only [Rtree.rtree_elm_release, Rtree.rtree_elm_write,
                Rtree.rtree_elm_read_acquired, Rtree.write_mem_same]
              rw [Rtree.write_mem_other _ _ _ _ hab]
              simp only [Rtree.rtree_elm_write_acquired]
              rw [Rtree.write_mem_other _ _ _ _ hab, hr3, Rtree.write_mem_other _ _ _ _ hab, h3]
              simp only [Rtree.rtree_elm_write_acquired, Rtree.write_mem_same]
              exact Rtree.mask_locked hw1 he1 he0
            have hmb : (Rtree.rtree_elm_release rt (Rtree.rtree_elm_release rt
                (Rtree.rtree_elm_write_acquired r3 elm_b extent) elm_b) elm_a).mem elm_b =
                extent := by
              simp only [Rtree.rtree_elm_release, Rtree.rtree_elm_write]
              rw [Rtree.write_mem_other _ _ _ _ (Ne.symm hab)]
              simp only [Rtree.rtree_elm_read_acquired, Rtree.rtree_elm_write_acquired,
                Rtree.write_mem_same]
              exact Rtree.mask_locked hw1 he1 he0
            simp only [chunk_register_stats_rtree]
            refine ⟨hpa ▸ hma, ?_, ?_, ?_⟩
            · intro dependent
              rw [h1 dependent, hma, Rtree.mask_unlocked hw1 he1 he0]
            · intro _
              refine ⟨ha1, ha2, ha3, ha4, hpb ▸ hmb, ?_⟩
              intro dependent
              rw [h2 dependent, hmb, Rtree.mask_unlocked hw1 he1 he0]
            · intro k2 hk2 hn1 hn2
              exact h4 k2 (hpne chunk k2 hchunk hk2 hn1) (hpne _ k2 hlast hk2 (hn2 hbig))
      · rw [if_neg hbig] at hr
        simp only [Option.some.injEq, Prod.mk.injEq, true_and] at hr
        obtain ⟨hg2, _⟩ := hr
        subst hg2
        obtain ⟨h1, h4⟩ := Rtree.register_one rt g.rtree s1
          (Rtree.rtree_elm_release rt (Rtree.rtree_elm_write_acquired r1 elm_a extent) elm_a)
          chunk elm_a hLa (by
            intro q hq
            simp only [Rtree.rtree_elm_release, Rtree.rtree_elm_write]
            rw [Rtree.write_mem_other _ _ _ _ hq]
            exact hr2 q hq)
        have hma : (Rtree.rtree_elm_release rt
            (Rtree.rtree_elm_write_acquired r1 elm_a extent) elm_a).mem elm_a = extent := by
          simp only [Rtree.rtree_elm_release, Rtree.rtree_elm_write,
            Rtree.rtree_elm_read_acquired, Rtree.rtree_elm_write_acquired,
            Rtree.write_mem_same]
          exact Rtree.mask_locked hw1 he1 he0
        simp only [chunk_register_stats_rtree]
        refine ⟨hpa ▸ hma, ?_, fun h => absurd h hbig, ?_⟩
        · intro dependent
          rw [h1 dependent, hma, Rtree.mask_unlocked hw1 he1 he0]
        · intro k2 hk2 hn1 _
          exact h4 k2 (hpne chunk k2 hchunk hk2 hn1)

/-- C17 witness: registering a 6 MiB extent in an empty tree. -/
theorem chunk_register_writes_witness :
    ∃ g2 evs, chunk_register ex_env Rtree.ex_rtree ex_registry 0x7f0000200000 0x7000 0x600000 1 =
        some (false, g2, evs) ∧
      g2.rtree.mem (Rtree.rtree_path Rtree.ex_rtree 0x7f0000200000) = 0x7000 ∧
      (∀ dependent,
        Rtree.rtree_read Rtree.ex_rtree g2.rtree 0x7f0000200000 dependent = some 0x7000) ∧
      (0x600000 > ex_env.chunksize →
        ∀ dependent, Rtree.rtree_read Rtree.ex_rtree g2.rtree
          (sz_add ex_env.w 0x7f0000200000
            (CHUNK_CEILING ex_env (sz_sub ex_env.w 0x600000 ex_env.chunksize)))
          dependent = some 0x7000) :=
  ⟨_, _, rfl,
    (chunk_register_writes ex_env Rtree.ex_rtree ex_registry _ 0x7f0000200000 0x7000 0x600000 1 _
      rfl (by decide) (by decide) rfl Rtree.ex_rtree_cumbits rfl
      (fun x _ => Rtree.ex_rtree_start_level_lt x) Rtree.ex_rtree_zero_above (by decide)
      (by decide) (by decide) (by decide) (by decide) (by decide) rfl).1,
    (chunk_register_writes ex_env Rtree.ex_rtree ex_registry _ 0x7f0000200000 0x7000 0x600000 1 _
      rfl (by decide) (by decide) rfl Rtree.ex_rtree_cumbits rfl
      (fun x _ => Rtree.ex_rtree_start_level_lt x) Rtree.ex_rtree_zero_above (by decide)
      (by decide) (by decide) (by decide) (by decide) (by decide) rfl).2.1,
    fun h => ((chunk_register_writes ex_env Rtree.ex_rtree ex_registry _ 0x7f0000200000 0x7000
      0x600000 1 _
      rfl (by decide) (by decide) rfl Rtree.ex_rtree_cumbits rfl
      (fun x _ => Rtree.ex_rtree_start_level_lt x) Rtree.ex_rtree_zero_above (by decide)
      (by decide) (by decide) (by decide) (by decide) (by decide) rfl).2.2.1 h).2.2.2.2.2⟩

end Chunk

/-! ## `mutex.c` and the fork handlers of `jemalloc.c` -/

namespace Mutex

/-- C26 (amended): for every mutex and every value of the run-time options, if
re-initialising the mutex fails in `malloc_mutex_postfork_child` (`malloc_mutex_init`
returns `true`), the error message is printed and the process aborts if and only if
`opt_abort` is set, otherwise the function returns; if re-initialisation succeeds nothing is
printed and the process does not abort. -/
theorem malloc_mutex_postfork_child_abort_iff (env : Env) (opt_abort : Bool)
    (mutex : malloc_mutex_t) :
    ((malloc_mutex_init env mutex).2 = true →
        ((malloc_mutex_postfork_child env opt_abort mutex).2 = Exit.aborted ↔
          opt_abort = true) ∧
        (opt_abort = false →
          (malloc_mutex_postfork_child env opt_abort mutex).2 = Exit.returned) ∧
        (malloc_mutex_postfork_child env opt_abort mutex).1 =
          (malloc_mutex_init env mutex).1 ++
            [Event.malloc_printf "<jemalloc>: Error re-initializing mutex in child\n"]) ∧
      ((malloc_mutex_init env mutex).2 = false →
        (malloc_mutex_postfork_child env opt_abort mutex).2 = Exit.returned ∧
          (malloc_mutex_postfork_child env opt_abort mutex).1 =
            (malloc_mutex_init env mutex).1 ∧
          ∀ e ∈ (malloc_mutex_postfork_child env opt_abort mutex).1, e.isPrintf = false) := by
  constructor
  · intro h
    unfold malloc_mutex_postfork_child
    simp only [h, if_true]
    cases opt_abort <;> simp
  · intro h
    unfold malloc_mutex_postfork_child
    simp only [h]
    refine ⟨by simp, by simp, ?_⟩
    intro e he
    simp only [Bool.false_eq_true, if_false] at he
    unfold malloc_mutex_init at he h
    split at he
    · simp only [List.mem_singleton] at he
      subst he; rfl
    · split at he
      · rw [if_neg (by assumption), if_pos (by assumption)] at h
        simp at h
      · split at he
        · rw [if_neg (by assumption), if_neg (by assumption), if_pos (by assumption)] at h
          simp at h
        · simp only [List.mem_cons, List.mem_singleton, List.not_mem_nil, or_false] at he
          rcases he with he | he | he | he <;> subst he <;> rfl

/-- C26 witness: with `pthread_mutex_init` failing, the child handler aborts under
`opt_abort`. -/
theorem malloc_mutex_postfork_child_abort_iff_witness :
    (malloc_mutex_init ex_env_fail malloc_mutex_t.base_mtx).2 = true ∧
      ((malloc_mutex_postfork_child ex_env_fail true malloc_mutex_t.base_mtx).2 =
        Exit.aborted ↔ true = true) :=
  ⟨by decide,
    ((malloc_mutex_postfork_child_abort_iff ex_env_fail true malloc_mutex_t.base_mtx).1
      (by decide)).1⟩

/-- C26 counterexample: with `opt_abort` off, a failed re-initialisation in the child is
reported and the function returns: the process does not abort. -/
theorem malloc_mutex_postfork_child_abort_iff_counterexample :
    ¬ (∀ (env : Env) (opt_abort : Bool) (mutex : malloc_mutex_t),
      (malloc_mutex_init env mutex).2 = true →
        (malloc_mutex_postfork_child env opt_abort mutex).2 = Exit.aborted) := by
  intro h
  have h1 := h ex_env_fail false malloc_mutex_t.base_mtx (by decide)
  revert h1
  decide

end Mutex

namespace Init

open Mutex (malloc_mutex_t)

theorem filterMap_locked_lock (l : List malloc_mutex_t) :
    (l.map Mutex.Event.malloc_mutex_lock).filterMap Mutex.Event.locked = l := by
  induction l with
  | nil => rfl
  | cons a l ih => simp [List.filterMap_cons, Mutex.Event.locked, ih]

theorem filterMap_unlocked_unlock (l : List malloc_mutex_t) :
    (l.map Mutex.Event.malloc_mutex_unlock).filterMap Mutex.Event.unlocked = l := by
  induction l with
  | nil => rfl
  | cons a l ih => simp [List.filterMap_cons, Mutex.Event.unlocked, ih]

/-- The mutexes locked by `jemalloc_prefork`, in the order in which it locks them. -/
theorem prefork_locked (env : Env) (st : State) :
    (jemalloc_prefork env st).filterMap Mutex.Event.locked =
      [malloc_mutex_t.arenas_lock] ++ arena_locks st
        ++ [malloc_mutex_t.base_mtx, malloc_mutex_t.huge_mtx]
        ++ (if env.JEMALLOC_DSS then [malloc_mutex_t.dss_mtx] else [])
        ++ (if env.JEMALLOC_SWAP then [malloc_mutex_t.swap_mtx] else []) := by
  unfold jemalloc_prefork
  simp only [List.filterMap_append, filterMap_locked_lock]
  cases env.JEMALLOC_DSS <;> cases env.JEMALLOC_SWAP <;> rfl

/-- The mutexes unlocked by `jemalloc_postfork`, in the order in which it unlocks them. -/
theorem postfork_unlocked (env : Env) (st : State) :
    (jemalloc_postfork env st).filterMap Mutex.Event.unlocked =
      (if env.JEMALLOC_SWAP then [malloc_mutex_t.swap_mtx] else [])
        ++ (if env.JEMALLOC_DSS then [malloc_mutex_t.dss_mtx] else [])
        ++ [malloc_mutex_t.huge_mtx, malloc_mutex_t.base_mtx]
        ++ arena_locks st ++ [malloc_mutex_t.arenas_lock] := by
  unfold jemalloc_postfork
  simp only [List.filterMap_append, filterMap_unlocked_unlock]
  cases env.JEMALLOC_DSS <;> cases env.JEMALLOC_SWAP <;> rfl

theorem prefork_all_lock (env : Env) (st : State) :
    ∀ e ∈ jemalloc_prefork env st, ∃ m, e = Mutex.Event.malloc_mutex_lock m := by
  intro e he
  unfold jemalloc_prefork at he
  simp only [List.mem_append, List.mem_map, List.mem_cons, List.mem_singleton,
    List.not_mem_nil, or_false] at he
  rcases he with (((he | ⟨m, _, he⟩) | he | he) | he) | he
  · exact ⟨_, he⟩
  · exact ⟨m, he.symm⟩
  · exact ⟨_, he⟩
  · exact ⟨_, he⟩
  · split at he
    · exact ⟨_, List.mem_singleton.mp he⟩
    · simp at he
  · split at he
    · exact ⟨_, List.mem_singleton.mp he⟩
    · simp at he

theorem postfork_all_unlock (env : Env) (st : State) :
    ∀ e ∈ jemalloc_postfork env st, ∃ m, e = Mutex.Event.malloc_mutex_unlock m := by
  intro e he
  unfold jemalloc_postfork at he
  simp only [List.mem_append, List.mem_map, List.mem_cons, List.mem_singleton,
    List.not_mem_nil, or_false] at he
  rcases he with (((he | he) | he | he) | ⟨m, _, he⟩) | he
  · split at he
    · exact ⟨_, List.mem_singleton.mp he⟩
    · simp at he
  · split at he
    · exact ⟨_, List.mem_singleton.mp he⟩
    · simp at he
  · exact ⟨_, he⟩
  · exact ⟨_, he⟩
  · exact ⟨m, he.symm⟩
  · exact ⟨_, he⟩

theorem arena_locks_eq (st : State) :
    arena_locks st =
      ((List.range st.narenas).filter (fun i => decide (st.arenas i ≠ 0))).map
        (fun i => malloc_mutex_t.arena_lock (st.arenas i)) := by
  unfold arena_locks
  induction List.range st.narenas with
  | nil => rfl
  | cons i l ih =>
    by_cases h : st.arenas i = 0
    · simpa [List.filterMap_cons, List.filter_cons, h] using ih
    · simpa [List.filterMap_cons, List.filter_cons, h] using ih

theorem arena_locks_nodup (st : State)
    (hd : ∀ i j, i < st.narenas → j < st.narenas → st.arenas i ≠ 0 →
      st.arenas i = st.arenas j → i = j) :
    (arena_locks st).Nodup := by
  rw [arena_locks_eq]
  refine List.Nodup.map_on ?_ (List.nodup_range _ |>.filter _)
  intro i hi j hj hij
  simp only [List.mem_filter, List.mem_range, decide_eq_true_eq] at hi hj
  exact hd i j hi.1 hj.1 hi.2 (by injection hij)

theorem arena_locks_mem (st : State) (m : malloc_mutex_t) (hm : m ∈ arena_locks st) :
    ∃ p, m = malloc_mutex_t.arena_lock p := by
  rw [arena_locks_eq] at hm
  obtain ⟨i, _, hi⟩ := List.mem_map.mp hm
  exact ⟨_, hi.symm⟩

end Init

namespace Init

open Mutex (malloc_mutex_t)

theorem prefork_locked_nodup (env : Env) (st : State)
    (hd : ∀ i j, i < st.narenas → j < st.narenas → st.arenas i ≠ 0 →
      st.arenas i = st.arenas j → i = j) :
    ((jemalloc_prefork env st).filterMap Mutex.Event.locked).Nodup := by
  rw [prefork_locked]
  have hn := arena_locks_nodup st hd
  have hm := arena_locks_mem st
  have h1 : malloc_mutex_t.arenas_lock ∉ arena_locks st := fun h => by
    obtain ⟨p, hp⟩ := hm _ h
    cases hp
  have h2 : malloc_mutex_t.base_mtx ∉ arena_locks st := fun h => by
    obtain ⟨p, hp⟩ := hm _ h
    cases hp
  have h3 : malloc_mutex_t.huge_mtx ∉ arena_locks st := fun h => by
    obtain ⟨p, hp⟩ := hm _ h
    cases hp
  have h4 : malloc_mutex_t.dss_mtx ∉ arena_locks st := fun h => by
    obtain ⟨p, hp⟩ := hm _ h
    cases hp
  have h5 : malloc_mutex_t.swap_mtx ∉ arena_locks st := fun h => by
    obtain ⟨p, hp⟩ := hm _ h
    cases hp
  cases env.JEMALLOC_DSS <;> cases env.JEMALLOC_SWAP <;>
    simp [List.nodup_append, List.nodup_cons, hn, h1, h2, h3, h4, h5]

/-- C23 (amended): for every arena array, the sequence of mutexes locked by
`jemalloc_prefork` is `arenas_lock`, then the lock of every arena that is not `NULL` in
increasing index order, then `base_mtx`, then `huge_mtx`, then `dss_mtx` when DSS is
configured, then `swap_mtx` when swap is configured; every effect of the handler is a lock,
so no mutex is released; and no mutex is locked twice, given that different slots of the
array hold different arenas. -/
theorem jemalloc_prefork_lock_sequence (env : Env) (st : State) :
    (jemalloc_prefork env st).filterMap Mutex.Event.locked =
        [malloc_mutex_t.arenas_lock] ++ arena_locks st
          ++ [malloc_mutex_t.base_mtx, malloc_mutex_t.huge_mtx]
          ++ (if env.JEMALLOC_DSS then [malloc_mutex_t.dss_mtx] else [])
          ++ (if env.JEMALLOC_SWAP then [malloc_mutex_t.swap_mtx] else []) ∧
      arena_locks st =
        ((List.range st.narenas).filter (fun i => decide (st.arenas i ≠ 0))).map
          (fun i => malloc_mutex_t.arena_lock (st.arenas i)) ∧
      (∀ e ∈ jemalloc_prefork env st, ∃ m, e = Mutex.Event.malloc_mutex_lock m) ∧
      ((∀ i j, i < st.narenas → j < st.narenas → st.arenas i ≠ 0 →
          st.arenas i = st.arenas j → i = j) →
        ((jemalloc_prefork env st).filterMap Mutex.Event.locked).Nodup) :=
  ⟨prefork_locked env st, arena_locks_eq st, prefork_all_lock env st,
    prefork_locked_nodup env st⟩

/-- C23 witness: with arenas in slots 0 and 2 of four and swap support, seven mutexes are
locked, the last of them `swap_mtx`, none twice, and every effect is a lock. -/
theorem jemalloc_prefork_lock_sequence_witness :
    (jemalloc_prefork ex_env_swap ex_state).filterMap Mutex.Event.locked =
        [malloc_mutex_t.arenas_lock, malloc_mutex_t.arena_lock 0x100000,
          malloc_mutex_t.arena_lock 0x200000, malloc_mutex_t.base_mtx,
          malloc_mutex_t.huge_mtx, malloc_mutex_t.dss_mtx, malloc_mutex_t.swap_mtx] ∧
      ((jemalloc_prefork ex_env_swap ex_state).filterMap Mutex.Event.locked).Nodup ∧
      (∀ e ∈ jemalloc_prefork ex_env_swap ex_state,
        ∃ m, e = Mutex.Event.malloc_mutex_lock m) :=
  ⟨by decide, by decide, (jemalloc_prefork_lock_sequence ex_env_swap ex_state).2.2.1⟩

/-- C23 counterexample: in a build with swap support the handler locks `swap_mtx` after
`dss_mtx`, so the sequence does not end with `dss_mtx`. -/
theorem jemalloc_prefork_lock_sequence_counterexample :
    (jemalloc_prefork ex_env_swap ex_state).filterMap Mutex.Event.locked ≠
      [malloc_mutex_t.arenas_lock] ++ arena_locks ex_state
        ++ [malloc_mutex_t.base_mtx, malloc_mutex_t.huge_mtx]
        ++ (if ex_env_swap.JEMALLOC_DSS then [malloc_mutex_t.dss_mtx] else []) := by
  decide

end Init

namespace Init

open Mutex (malloc_mutex_t)

theorem prefork_locked_reverse (env : Env) (st : State) :
    ((jemalloc_prefork env st).filterMap Mutex.Event.locked).reverse =
      (if env.JEMALLOC_SWAP then [malloc_mutex_t.swap_mtx] else [])
        ++ (if env.JEMALLOC_DSS then [malloc_mutex_t.dss_mtx] else [])
        ++ [malloc_mutex_t.huge_mtx, malloc_mutex_t.base_mtx]
        ++ (arena_locks st).reverse ++ [malloc_mutex_t.arenas_lock] := by
  rw [prefork_locked]
  cases env.JEMALLOC_DSS <;> cases env.JEMALLOC_SWAP <;> simp

theorem postfork_perm_prefork (env : Env) (st : State) :
    ((jemalloc_postfork env st).filterMap Mutex.Event.unlocked).Perm
      ((jemalloc_prefork env st).filterMap Mutex.Event.locked) := by
  refine List.Perm.trans ?_ (List.reverse_perm _)
  rw [prefork_locked_reverse, postfork_unlocked]
  exact List.Perm.append_right _ (List.Perm.append_left _ (List.reverse_perm _).symm)

theorem postfork_reverse_iff (env : Env) (st : State) :
    (jemalloc_postfork env st).filterMap Mutex.Event.unlocked =
        ((jemalloc_prefork env st).filterMap Mutex.Event.locked).reverse ↔
      arena_locks st = (arena_locks st).reverse := by
  rw [prefork_locked_reverse, postfork_unlocked]
  constructor
  · intro h
    exact List.append_cancel_left (List.append_cancel_right h)
  · intro h
    rw [← h]

/-- C24 (amended): for every arena array left unchanged between the two handlers,
`jemalloc_postfork` unlocks exactly the mutexes that `jemalloc_prefork` locked and does
nothing else; it unlocks `swap_mtx`, `dss_mtx`, `huge_mtx` and `base_mtx` in the reverse of
the order in which they were locked, then the arena locks in increasing index order, the
order in which they were locked, then `arenas_lock`; the whole sequence is the reverse of
the locking sequence exactly when the sequence of arena locks reads the same in both
directions. -/
theorem jemalloc_postfork_unlock_sequence (env : Env) (st : State) :
    ((jemalloc_postfork env st).filterMap Mutex.Event.unlocked).Perm
        ((jemalloc_prefork env st).filterMap Mutex.Event.locked) ∧
      (∀ e ∈ jemalloc_postfork env st, ∃ m, e = Mutex.Event.malloc_mutex_unlock m) ∧
      (jemalloc_postfork env st).filterMap Mutex.Event.unlocked =
        (if env.JEMALLOC_SWAP then [malloc_mutex_t.swap_mtx] else [])
          ++ (if env.JEMALLOC_DSS then [malloc_mutex_t.dss_mtx] else [])
          ++ [malloc_mutex_t.huge_mtx, malloc_mutex_t.base_mtx]
          ++ arena_locks st ++ [malloc_mutex_t.arenas_lock] ∧
      ((jemalloc_postfork env st).filterMap Mutex.Event.unlocked =
          ((jemalloc_prefork env st).filterMap Mutex.Event.locked).reverse ↔
        arena_locks st = (arena_locks st).reverse) :=
  ⟨postfork_perm_prefork env st, postfork_all_unlock env st, postfork_unlocked env st,
    postfork_reverse_iff env st⟩

/-- C24 witness: with arenas in slots 0 and 2 the handler unlocks the lock of slot 0
before that of slot 2, and the unlocked mutexes are the locked ones. -/
theorem jemalloc_postfork_unlock_sequence_witness :
    (jemalloc_postfork ex_env ex_state).filterMap Mutex.Event.unlocked =
        [malloc_mutex_t.dss_mtx, malloc_mutex_t.huge_mtx, malloc_mutex_t.base_mtx,
          malloc_mutex_t.arena_lock 0x100000, malloc_mutex_t.arena_lock 0x200000,
          malloc_mutex_t.arenas_lock] ∧
      ((jemalloc_postfork ex_env ex_state).filterMap Mutex.Event.unlocked).Perm
        ((jemalloc_prefork ex_env ex_state).filterMap Mutex.Event.locked) :=
  ⟨by decide, (jemalloc_postfork_unlock_sequence ex_env ex_state).1⟩

/-- C24 counterexample: with two arenas the unlocking sequence is not the reverse of the
locking sequence. -/
theorem jemalloc_postfork_unlock_sequence_counterexample :
    (jemalloc_postfork ex_env ex_state).filterMap Mutex.Event.unlocked ≠
      ((jemalloc_prefork ex_env ex_state).filterMap Mutex.Event.locked).reverse := by
  decide

end Init

/-! ## `jemalloc.c`: binding threads to arenas -/

namespace Init

open Mutex (malloc_mutex_t)

theorem arenas_extend_success (env : Env) (st : State) (ind : Nat)
    (h1 : env.base_alloc st.nbase (arena_size env) ≠ 0)
    (h2 : env.arena_new (env.base_alloc st.nbase (arena_size env)) ind = false) :
    arenas_extend env st ind =
      (({ st with nbase := st.nbase + 1 }).set_arena ind
          (env.base_alloc st.nbase (arena_size env)),
        [Event.base_alloc (arena_size env),
          Event.arena_new (env.base_alloc st.nbase (arena_size env)) ind],
        Outcome.returned (env.base_alloc st.nbase (arena_size env))) := by
  unfold arenas_extend
  simp only [if_pos h1, h2, if_true]

theorem arenas_extend_failure (env : Env) (st : State) (ind : Nat)
    (h : env.base_alloc st.nbase (arena_size env) = 0 ∨
      env.arena_new (env.base_alloc st.nbase (arena_size env)) ind = true) :
    ∃ evs, Event.malloc_write4 "<jemalloc>" ": Error initializing arena\n" "" "" ∈ evs ∧
      arenas_extend env st ind =
        ({ st with nbase := st.nbase + 1 }, evs,
          if st.opt_abort then Outcome.aborted else Outcome.returned (st.arenas 0)) := by
  unfold arenas_extend
  by_cases h1 : env.base_alloc st.nbase (arena_size env) = 0
  · simp only [h1, ne_eq, not_true_eq_false, if_false]
    cases st.opt_abort
    · exact ⟨_, by simp, rfl⟩
    · exact ⟨_, by simp, rfl⟩
  · have h2 : env.arena_new (env.base_alloc st.nbase (arena_size env)) ind = true := by
      rcases h with h | h
      · exact absurd h h1
      · exact h
    simp only [ne_eq, h1, not_false_eq_true, if_true, h2, Bool.true_eq_false, if_false]
    cases st.opt_abort
    · exact ⟨_, by simp, rfl⟩
    · exact ⟨_, by simp, rfl⟩

end Init

namespace Init

open Mutex (malloc_mutex_t)

theorem next_mod (n narenas : Nat) (h2 : n < narenas) (h3 : narenas < 2 ^ 32) :
    ((n + 1) % 2 ^ 32) % narenas = (n + 1) % narenas := by
  rw [Nat.mod_eq_of_lt (by omega : n + 1 < 2 ^ 32)]

theorem choose_slot (env : Env) (st : State) (self : Nat) (h1 : 1 < st.narenas)
    (h2 : st.next_arena < st.narenas) (h3 : st.narenas < 2 ^ 32)
    (hs : st.arenas st.next_arena ≠ 0) :
    choose_arena_hard env st self =
      (({ st with next_arena := (st.next_arena + 1) % st.narenas }).bind self
          (st.arenas st.next_arena),
        [lock malloc_mutex_t.arenas_lock, unlock malloc_mutex_t.arenas_lock],
        Outcome.returned (st.arenas st.next_arena)) := by
  unfold choose_arena_hard
  rw [if_pos h1, if_neg hs, next_mod _ _ h2 h3]

theorem choose_create (env : Env) (st : State) (self : Nat) (h1 : 1 < st.narenas)
    (h2 : st.next_arena < st.narenas) (h3 : st.narenas < 2 ^ 32)
    (hs : st.arenas st.next_arena = 0)
    (hb : env.base_alloc st.nbase (arena_size env) ≠ 0)
    (hn : env.arena_new (env.base_alloc st.nbase (arena_size env)) st.next_arena = false) :
    choose_arena_hard env st self =
      (({ ({ st with nbase := st.nbase + 1 }).set_arena st.next_arena
            (env.base_alloc st.nbase (arena_size env)) with
          next_arena := (st.next_arena + 1) % st.narenas }).bind self
          (env.base_alloc st.nbase (arena_size env)),
        [lock malloc_mutex_t.arenas_lock, Event.base_alloc (arena_size env),
          Event.arena_new (env.base_alloc st.nbase (arena_size env)) st.next_arena,
          unlock malloc_mutex_t.arenas_lock],
        Outcome.returned (env.base_alloc st.nbase (arena_size env))) := by
  unfold choose_arena_hard
  rw [if_pos h1, if_pos hs, arenas_extend_success env st _ hb hn]
  simp only [State.set_arena, next_mod _ _ h2 h3, List.cons_append, List.nil_append]

theorem choose_fail (env : Env) (st : State) (self : Nat) (h1 : 1 < st.narenas)
    (h2 : st.next_arena < st.narenas) (h3 : st.narenas < 2 ^ 32)
    (hs : st.arenas st.next_arena = 0)
    (hf : env.base_alloc st.nbase (arena_size env) = 0 ∨
      env.arena_new (env.base_alloc st.nbase (arena_size env)) st.next_arena = true) :
    (st.opt_abort = true → (choose_arena_hard env st self).2.2 = Outcome.aborted) ∧
      (st.opt_abort = false →
        ∃ evs, Event.malloc_write4 "<jemalloc>" ": Error initializing arena\n" "" "" ∈ evs ∧
          choose_arena_hard env st self =
            (({ st with nbase := st.nbase + 1,
                        next_arena := (st.next_arena + 1) % st.narenas }).bind self
                (st.arenas 0), evs, Outcome.returned (st.arenas 0))) := by
  obtain ⟨evs, hmem, he⟩ := arenas_extend_failure env st st.next_arena hf
  unfold choose_arena_hard
  rw [if_pos h1, if_pos hs, he]
  constructor
  · intro ha
    simp only [ha, if_true]
  · intro ha
    simp only [ha, Bool.false_eq_true, if_false, next_mod _ _ h2 h3]
    exact ⟨_, by simp [hmem], rfl⟩

theorem choose_single (env : Env) (st : State) (self : Nat) (h : st.narenas ≤ 1) :
    choose_arena_hard env st self =
      (st.bind self (st.arenas 0), [], Outcome.returned (st.arenas 0)) := by
  unfold choose_arena_hard
  rw [if_neg (by omega)]

/-- A call of `choose_arena_hard` that returns advances `next_arena` by one modulo
`narenas` and leaves `narenas` alone. -/
theorem choose_next (env : Env) (st : State) (self : Nat) (h1 : 1 < st.narenas)
    (h2 : st.next_arena < st.narenas) (h3 : st.narenas < 2 ^ 32) (st1 : State)
    (evs : List Event) (ret : Nat)
    (hr : choose_arena_hard env st self = (st1, evs, Outcome.returned ret)) :
    st1.narenas = st.narenas ∧ st1.next_arena = (st.next_arena + 1) % st.narenas := by
  by_cases hs : st.arenas st.next_arena = 0
  · by_cases hf : env.base_alloc st.nbase (arena_size env) = 0 ∨
        env.arena_new (env.base_alloc st.nbase (arena_size env)) st.next_arena = true
    · obtain ⟨ha, hb⟩ := choose_fail env st self h1 h2 h3 hs hf
      cases hab : st.opt_abort with
      | true =>
        have := ha hab
        rw [hr] at this
        cases this
      | false =>
        obtain ⟨evs2, _, he⟩ := hb hab
        rw [he] at hr
        injection hr with hr1 _
        subst hr1
        exact ⟨rfl, rfl⟩
    · have hb : env.base_alloc st.nbase (arena_size env) ≠ 0 := fun h => hf (Or.inl h)
      have hn : env.arena_new (env.base_alloc st.nbase (arena_size env)) st.next_arena
          = false := by
        cases h : env.arena_new (env.base_alloc st.nbase (arena_size env)) st.next_arena
        · rfl
        · exact absurd (Or.inr h) hf
      rw [choose_create env st self h1 h2 h3 hs hb hn] at hr
      injection hr with hr1 _
      subst hr1
      exact ⟨rfl, rfl⟩
  · rw [choose_slot env st self h1 h2 h3 hs] at hr
    injection hr with hr1 _
    subst hr1
    exact ⟨rfl, rfl⟩

/-- After `k` calls of `choose_arena_hard` that return, `next_arena` has advanced by `k`
modulo `narenas`. -/
theorem choose_calls_next (env : Env) :
    ∀ (threads : List Nat) (st st1 : State), 1 < st.narenas → st.next_arena < st.narenas →
      st.narenas < 2 ^ 32 → choose_arena_calls env st threads = some st1 →
      st1.narenas = st.narenas ∧
        st1.next_arena = (st.next_arena + threads.length) % st.narenas := by
  intro threads
  induction threads with
  | nil =>
    intro st st1 _ h2 _ h
    simp only [choose_arena_calls, Option.some.injEq] at h
    subst h
    exact ⟨rfl, by simp [Nat.mod_eq_of_lt h2]⟩
  | cons t ts ih =>
    intro st st1 h1 h2 h3 h
    unfold choose_arena_calls at h
    rcases hc : choose_arena_hard env st t with ⟨st2, evs, out⟩
    rw [hc] at h
    cases out with
    | aborted => simp at h
    | returned ret =>
      simp only at h
      obtain ⟨hn, hx⟩ := choose_next env st t h1 h2 h3 st2 evs ret hc
      have hlt : st2.next_arena < st2.narenas := by
        rw [hn, hx]
        exact Nat.mod_lt _ (by omega)
      obtain ⟨i1, i2⟩ := ih st2 st1 (by omega) hlt (by omega) h
      refine ⟨by omega, ?_⟩
      rw [i2, hn, hx, List.length_cons, Nat.mod_add_mod]
      congr 1
      omega

end Init

namespace Init

open Mutex (malloc_mutex_t)

/-- A call of `choose_arena_hard` that returns binds the calling thread to the arena it
returns. -/
theorem choose_binds (env : Env) (st : State) (self : Nat) (ret : Nat)
    (hr : (choose_arena_hard env st self).2.2 = Outcome.returned ret) :
    (choose_arena_hard env st self).1.arenas_map self = ret := by
  unfold choose_arena_hard at hr ⊢
  split at hr
  · rw [if_pos (by assumption)]
    split at hr
    · rw [if_pos (by assumption)]
      rcases he : arenas_extend env st st.next_arena with ⟨st2, evs, out⟩
      rw [he] at hr
      cases out with
      | aborted => simp at hr
      | returned r =>
        simp only [Outcome.returned.injEq] at hr
        simp [State.bind, hr]
    · rw [if_neg (by assumption)]
      simp only [Outcome.returned.injEq] at hr
      simp [State.bind, hr]
  · rw [if_neg (by assumption)]
    simp only [Outcome.returned.injEq] at hr
    simp [State.bind, hr]

/-- C28 (amended): with `narenas > 1` and `next_arena < narenas`, a call of
`choose_arena_hard` binds the caller to `arenas[next_arena]` if that slot holds an arena or
an arena can be created for it, and advances `next_arena` to `(next_arena + 1) mod narenas`;
if the slot is empty and the arena cannot be created, an error is printed and the call
aborts under `opt_abort` and otherwise binds the caller to `arenas[0]`, leaves the slot empty
and still advances `next_arena`. Hence `next_arena < narenas` is invariant and after `k`
calls that return `next_arena` has advanced by `k` modulo `narenas`. With `narenas ≤ 1` the
call returns `arenas[0]`. -/
theorem choose_arena_hard_round_robin (env : Env) (st : State) (self : Nat)
    (h1 : 1 < st.narenas) (h2 : st.next_arena < st.narenas) (h3 : st.narenas < 2 ^ 32) :
    (st.arenas st.next_arena ≠ 0 →
        choose_arena_hard env st self =
          (({ st with next_arena := (st.next_arena + 1) % st.narenas }).bind self
              (st.arenas st.next_arena),
            [lock malloc_mutex_t.arenas_lock, unlock malloc_mutex_t.arenas_lock],
            Outcome.returned (st.arenas st.next_arena))) ∧
      (st.arenas st.next_arena = 0 → env.base_alloc st.nbase (arena_size env) ≠ 0 →
        env.arena_new (env.base_alloc st.nbase (arena_size env)) st.next_arena = false →
        choose_arena_hard env st self =
          (({ ({ st with nbase := st.nbase + 1 }).set_arena st.next_arena
                (env.base_alloc st.nbase (arena_size env)) with
              next_arena := (st.next_arena + 1) % st.narenas }).bind self
              (env.base_alloc st.nbase (arena_size env)),
            [lock malloc_mutex_t.arenas_lock, Event.base_alloc (arena_size env),
              Event.arena_new (env.base_alloc st.nbase (arena_size env)) st.next_arena,
              unlock malloc_mutex_t.arenas_lock],
            Outcome.returned (env.base_alloc st.nbase (arena_size env)))) ∧
      (st.arenas st.next_arena = 0 →
        (env.base_alloc st.nbase (arena_size env) = 0 ∨
          env.arena_new (env.base_alloc st.nbase (arena_size env)) st.next_arena = true) →
        (st.opt_abort = true → (choose_arena_hard env st self).2.2 = Outcome.aborted) ∧
          (st.opt_abort = false →
            ∃ evs,
              Event.malloc_write4 "<jemalloc>" ": Error initializing arena\n" "" "" ∈ evs ∧
              choose_arena_hard env st self =
                (({ st with nbase := st.nbase + 1,
                            next_arena := (st.next_arena + 1) % st.narenas }).bind self
                    (st.arenas 0), evs, Outcome.returned (st.arenas 0)))) ∧
      (∀ ret, (choose_arena_hard env st self).2.2 = Outcome.returned ret →
        (choose_arena_hard env st self).1.arenas_map self = ret ∧
          (choose_arena_hard env st self).1.narenas = st.narenas ∧
          (choose_arena_hard env st self).1.next_arena = (st.next_arena + 1) % st.narenas ∧
          (choose_arena_hard env st self).1.next_arena < st.narenas) ∧
      (∀ threads st1, choose_arena_calls env st threads = some st1 →
        st1.narenas = st.narenas ∧
          st1.next_arena = (st.next_arena + threads.length) % st.narenas) ∧
      (∀ st0 : State, st0.narenas ≤ 1 →
        choose_arena_hard env st0 self =
          (st0.bind self (st0.arenas 0), [], Outcome.returned (st0.arenas 0))) := by
  refine ⟨choose_slot env st self h1 h2 h3, choose_create env st self h1 h2 h3,
    choose_fail env st self h1 h2 h3, ?_, ?_, fun st0 h0 => choose_single env st0 self h0⟩
  · intro ret hr
    have hn := choose_next env st self h1 h2 h3 (choose_arena_hard env st self).1
      (choose_arena_hard env st self).2.1 ret (Prod.ext rfl (Prod.ext rfl hr))
    refine ⟨choose_binds env st self ret hr, hn.1, hn.2, ?_⟩
    rw [hn.2]
    exact Nat.mod_lt _ (by omega)
  · intro threads st1 hc
    exact choose_calls_next env threads st st1 h1 h2 h3 hc

/-- C28 witness: with four slots and `next_arena = 0`, thread 4 is bound to the arena of
slot 0 and `next_arena` becomes 1. -/
theorem choose_arena_hard_round_robin_witness :
    1 < ex_state.narenas ∧ ex_state.next_arena < ex_state.narenas ∧
      ex_state.arenas ex_state.next_arena = 0x100000 ∧
      (choose_arena_hard ex_env ex_state 4).1.arenas_map 4 = 0x100000 ∧
      (choose_arena_hard ex_env ex_state 4).1.next_arena = (0 + 1) % 4 :=
  ⟨by decide, by decide, by decide,
    ((choose_arena_hard_round_robin ex_env ex_state 4 (by decide) (by decide)
      (by decide)).2.2.2.1 0x100000 (by decide)).1,
    ((choose_arena_hard_round_robin ex_env ex_state 4 (by decide) (by decide)
      (by decide)).2.2.2.1 0x100000 (by decide)).2.2.1⟩

/-- C28 counterexample: when the arena of the empty slot 1 cannot be created, the caller
is bound to `arenas[0]` and not to `arenas[next_arena]`, which stays `NULL`. -/
theorem choose_arena_hard_round_robin_counterexample :
    ¬ (∀ (env : Env) (st : State) (self ret : Nat), 1 < st.narenas →
      st.next_arena < st.narenas →
      (choose_arena_hard env st self).2.2 = Outcome.returned ret →
      (choose_arena_hard env st self).1.arenas_map self =
        (choose_arena_hard env st self).1.arenas st.next_arena) := by
  intro h
  have h1 := h ex_env_oom ex_state1 4 0x100000 (by decide) (by decide) (by decide)
  revert h1
  decide

end Init

namespace Init

open Mutex (malloc_mutex_t)

theorem arenas_extend_bindings (env : Env) (st : State) (ind : Nat) (m : Nat → Nat) :
    (arenas_extend env { st with arenas_map := m } ind).2 = (arenas_extend env st ind).2 ∧
      (arenas_extend env { st with arenas_map := m } ind).1 =
        { (arenas_extend env st ind).1 with arenas_map := m } := by
  unfold arenas_extend
  simp only []
  split_ifs <;> exact ⟨rfl, rfl⟩

/-- C29 (amended): `choose_arena_hard` does not consult how many live threads are bound to
each arena: for every pair of states that differ only in the bindings of threads to arenas
(`arenas_map`), it makes the same choice, with the same effects, and leaves the same
`next_arena`, arena array and arena count; the only binding it changes is the
caller's. The choice is the round robin over the slots of the arena array. -/
theorem choose_arena_hard_ignores_bindings (env : Env) (st : State) (self : Nat)
    (m : Nat → Nat) :
    (choose_arena_hard env { st with arenas_map := m } self).2 =
        (choose_arena_hard env st self).2 ∧
      (choose_arena_hard env { st with arenas_map := m } self).1.next_arena =
        (choose_arena_hard env st self).1.next_arena ∧
      (choose_arena_hard env { st with arenas_map := m } self).1.arenas =
        (choose_arena_hard env st self).1.arenas ∧
      (choose_arena_hard env { st with arenas_map := m } self).1.narenas =
        (choose_arena_hard env st self).1.narenas ∧
      (∀ t, t ≠ self →
        (choose_arena_hard env st self).2.2 ≠ Outcome.aborted →
        (choose_arena_hard env st self).1.arenas_map t = st.arenas_map t) := by
  obtain ⟨e1, e2⟩ := arenas_extend_bindings env st st.next_arena m
  unfold choose_arena_hard
  by_cases h1 : st.narenas > 1
  · simp only [if_pos h1]
    by_cases hs : st.arenas st.next_arena = 0
    · simp only [if_pos hs]
      rcases he : arenas_extend env st st.next_arena with ⟨st2, evs, out⟩
      rcases he2 : arenas_extend env { st with arenas_map := m } st.next_arena with
        ⟨st3, evs3, out3⟩
      rw [he, he2] at e1 e2
      simp only [Prod.mk.injEq] at e1
      obtain ⟨e1a, e1b⟩ := e1
      simp only at e2
      subst e1a e1b e2
      have hmap : st2.arenas_map = st.arenas_map := by
        unfold arenas_extend at he
        simp only [] at he
        split_ifs at he <;> (injection he with he _; subst he; rfl)
      cases out3 with
      | aborted =>
        exact ⟨rfl, rfl, rfl, rfl, fun _ _ hc => absurd rfl hc⟩
      | returned r =>
        refine ⟨rfl, rfl, rfl, rfl, fun t ht _ => ?_⟩
        simp [State.bind, ht, hmap]
    · simp only [if_neg hs]
      refine ⟨trivial, rfl, rfl, rfl, fun t ht _ => ?_⟩
      simp [State.bind, ht]
  · simp only [if_neg h1]
    refine ⟨trivial, rfl, rfl, rfl, fun t ht _ => ?_⟩
    simp [State.bind, ht]

/-- C29 witness: forgetting every binding of the example state changes neither the arena
chosen for thread 4 nor the effects, and the call leaves the binding of thread 1 alone. -/
theorem choose_arena_hard_ignores_bindings_witness :
    (choose_arena_hard ex_env { ex_state with arenas_map := fun _ => 0 } 4).2 =
        (choose_arena_hard ex_env ex_state 4).2 ∧
      (choose_arena_hard ex_env ex_state 4).1.arenas_map 1 = ex_state.arenas_map 1 :=
  ⟨(choose_arena_hard_ignores_bindings ex_env ex_state 4 (fun _ => 0)).1,
    (choose_arena_hard_ignores_bindings ex_env ex_state 4 (fun _ => 0)).2.2.2.2 1
      (by decide) (by decide)⟩

/-- C29 counterexample: threads 1, 2 and 3 are bound to the arena of slot 0 and no thread
to the arena of slot 2; the next caller is bound to the arena of slot 0 all the same. -/
theorem choose_arena_hard_ignores_bindings_counterexample :
    ¬ (∀ (env : Env) (st : State) (self : Nat) (threads : List Nat) (ret : Nat),
      (choose_arena_hard env st self).2.2 = Outcome.returned ret →
      ∀ i, i < st.narenas → st.arenas i ≠ 0 →
        live_count st threads ret ≤ live_count st threads (st.arenas i)) := by
  intro h
  have h1 := h ex_env ex_state 4 [1, 2, 3] 0x100000 (by decide) 2 (by decide) (by decide)
  revert h1
  decide

end Init

/-! ## `jemalloc.c`: the number of arenas -/

namespace Init

/-- The clamp of the branch `opt_narenas_lshift > 0`, when the product
`narenas * sizeof(arena_t *)` does not wrap: the result is the minimum of the count and
the chunk limit, is at least one and fits a chunk. -/
theorem clamp_spec (w chunksize n : Nat) (hn1 : 1 ≤ n) (hn : n < 2 ^ 32)
    (hp : 1 ≤ SIZEOF_PTR w) (hnw : n * SIZEOF_PTR w < 2 ^ w)
    (hc : SIZEOF_PTR w ≤ chunksize) :
    (if sz_mul w n (SIZEOF_PTR w) > chunksize then
        some ((chunksize / SIZEOF_PTR w) % 2 ^ 32) else some n) =
      some (min n (chunksize / SIZEOF_PTR w)) ∧
      1 ≤ min n (chunksize / SIZEOF_PTR w) ∧
      min n (chunksize / SIZEOF_PTR w) * SIZEOF_PTR w ≤ chunksize := by
  have hmul : sz_mul w n (SIZEOF_PTR w) = n * SIZEOF_PTR w := Nat.mod_eq_of_lt hnw
  rw [hmul]
  have hdpos : 1 ≤ chunksize / SIZEOF_PTR w := Nat.div_pos hc hp
  have hdm : chunksize / SIZEOF_PTR w * SIZEOF_PTR w ≤ chunksize := Nat.div_mul_le_self _ _
  by_cases h : n * SIZEOF_PTR w > chunksize
  · have hlt : chunksize / SIZEOF_PTR w < n :=
      Nat.div_lt_of_lt_mul (by rw [Nat.mul_comm]; exact h)
    rw [if_pos h, Nat.mod_eq_of_lt (by omega), min_eq_right (le_of_lt hlt)]
    exact ⟨rfl, hdpos, hdm⟩
  · have hle : n ≤ chunksize / SIZEOF_PTR w :=
      (Nat.le_div_iff_mul_le hp).mpr (by omega)
    rw [if_neg h, min_eq_left hle]
    exact ⟨rfl, hn1, by omega⟩

/-- The clamp of the branch `opt_narenas_lshift > 0` never yields zero, also when the
product wraps. -/
theorem clamp_pos (w chunksize n m : Nat) (hn1 : 1 ≤ n) (hn : n < 2 ^ 32)
    (hp : 1 ≤ SIZEOF_PTR w) (hc : SIZEOF_PTR w ≤ chunksize) (hcs : chunksize < 2 ^ w)
    (h : (if sz_mul w n (SIZEOF_PTR w) > chunksize then
        some ((chunksize / SIZEOF_PTR w) % 2 ^ 32) else some n) = some m) : 1 ≤ m := by
  split at h
  · rename_i hgt
    injection h with h
    subst h
    have hlt : chunksize < SIZEOF_PTR w * n := by
      by_cases hnw : n * SIZEOF_PTR w < 2 ^ w
      · have hmul : sz_mul w n (SIZEOF_PTR w) = n * SIZEOF_PTR w := Nat.mod_eq_of_lt hnw
        rw [hmul] at hgt
        rw [Nat.mul_comm]
        exact hgt
      · rw [Nat.mul_comm]
        omega
    have hd : chunksize / SIZEOF_PTR w < n := Nat.div_lt_of_lt_mul hlt
    rw [Nat.mod_eq_of_lt (by omega)]
    exact Nat.div_pos hc hp
  · injection h with h
    omega

theorem ptr_mul_no_wrap (w n : Nat) (hn : n < 2 ^ 32) (hp : 1 ≤ SIZEOF_PTR w)
    (hw : 2 ^ 32 * SIZEOF_PTR w ≤ 2 ^ w) : n * SIZEOF_PTR w < 2 ^ w := by
  have : n * SIZEOF_PTR w < 2 ^ 32 * SIZEOF_PTR w := Nat.mul_lt_mul_of_pos_right hn hp
  omega

end Init

namespace Init

theorem narenas_derive_zero (w chunksize ncpus : Nat) :
    narenas_derive w chunksize ncpus 0 = some ncpus := by
  simp [narenas_derive]

theorem narenas_derive_pos (w chunksize ncpus : Nat) (s : Int) (h0 : 0 < s) (h32 : s < 32) :
    narenas_derive w chunksize ncpus s =
      (if sz_mul w (if (ncpus * 2 ^ s.toNat) % 2 ^ 32 > ncpus then
            (ncpus * 2 ^ s.toNat) % 2 ^ 32 else ncpus) (SIZEOF_PTR w) > chunksize then
        some ((chunksize / SIZEOF_PTR w) % 2 ^ 32)
      else some (if (ncpus * 2 ^ s.toNat) % 2 ^ 32 > ncpus then
        (ncpus * 2 ^ s.toNat) % 2 ^ 32 else ncpus)) := by
  unfold narenas_derive
  simp only [if_pos h0, if_neg (not_le.mpr h32)]

theorem narenas_derive_neg (w chunksize ncpus : Nat) (s : Int) (h0 : s < 0) (h32 : -32 < s)
    (hcpu : 1 ≤ ncpus) :
    narenas_derive w chunksize ncpus s = some (max 1 (ncpus / 2 ^ (-s).toNat)) := by
  unfold narenas_derive
  have hk : 1 ≤ (-s).toNat := by omega
  have h2 : 2 ≤ 2 ^ (-s).toNat := by
    calc 2 = 2 ^ 1 := rfl
      _ ≤ 2 ^ (-s).toNat := Nat.pow_le_pow_right (by decide) hk
  have hlt : ncpus / 2 ^ (-s).toNat < ncpus := Nat.div_lt_self (by omega) (by omega)
  simp only [if_neg (by omega : ¬ 0 < s), if_pos h0, if_neg (by omega : ¬ 32 ≤ -s), if_pos hlt]
  by_cases hz : ncpus / 2 ^ (-s).toNat = 0
  · rw [if_pos hz, hz]
    rfl
  · rw [if_neg hz, max_eq_right (Nat.one_le_iff_ne_zero.mpr hz)]

theorem narenas_derive_undefined (w chunksize ncpus : Nat) (s : Int)
    (h : 32 ≤ s ∨ s ≤ -32) : narenas_derive w chunksize ncpus s = none := by
  unfold narenas_derive
  rcases h with h | h
  · simp only [if_pos (by omega : 0 < s), if_pos h]
  · simp only [if_neg (by omega : ¬ 0 < s), if_pos (by omega : s < 0),
      if_pos (by omega : 32 ≤ -s)]

/-- C30 (amended): for every `ncpus ≥ 1` (an `unsigned`) and every value `s` of
`opt_narenas_lshift` after the SMP adjustment, with a chunk that holds at least one
pointer: `narenas = ncpus` if `s = 0`;
`narenas = min(ncpus * 2^s, chunksize / sizeof(arena_t *))` if `0 < s < 32` and neither the
shift nor the product with the pointer size wraps; `narenas = max(1, ncpus >> -s)` if
`-32 < s < 0`; a shift by 32 or more is undefined. Whenever a value is derived,
`narenas ≥ 1`; `narenas * sizeof(arena_t *) ≤ chunksize` holds when `s > 0` (on a target
where `2^32` pointers fit the address space), and when `s ≤ 0` the value is at most `ncpus`
and is not compared with the chunk size. -/
theorem narenas_derive_shift (w chunksize ncpus : Nat) (s : Int) (hcpu : 1 ≤ ncpus)
    (hty : ncpus < 2 ^ 32) (hp : 1 ≤ SIZEOF_PTR w) (hc : SIZEOF_PTR w ≤ chunksize)
    (hcs : chunksize < 2 ^ w) :
    (s = 0 → narenas_derive w chunksize ncpus s = some ncpus) ∧
      (0 < s → s < 32 → ncpus * 2 ^ s.toNat < 2 ^ 32 →
        ncpus * 2 ^ s.toNat * SIZEOF_PTR w < 2 ^ w →
        narenas_derive w chunksize ncpus s =
          some (min (ncpus * 2 ^ s.toNat) (chunksize / SIZEOF_PTR w))) ∧
      (s < 0 → -32 < s →
        narenas_derive w chunksize ncpus s = some (max 1 (ncpus / 2 ^ (-s).toNat))) ∧
      (32 ≤ s ∨ s ≤ -32 → narenas_derive w chunksize ncpus s = none) ∧
      (∀ n, narenas_derive w chunksize ncpus s = some n →
        1 ≤ n ∧ (0 < s → 2 ^ 32 * SIZEOF_PTR w ≤ 2 ^ w → n * SIZEOF_PTR w ≤ chunksize) ∧
          (s ≤ 0 → n ≤ ncpus)) := by
  refine ⟨fun h => by rw [h]; exact narenas_derive_zero w chunksize ncpus, ?_,
    fun h0 h32 => narenas_derive_neg w chunksize ncpus s h0 h32 hcpu,
    narenas_derive_undefined w chunksize ncpus s, ?_⟩
  · intro h0 h32 hnw hpw
    have hk : 1 ≤ s.toNat := by omega
    have h2 : 2 ≤ 2 ^ s.toNat := by
      calc 2 = 2 ^ 1 := rfl
        _ ≤ 2 ^ s.toNat := Nat.pow_le_pow_right (by decide) hk
    have hgt : ncpus * 2 ^ s.toNat > ncpus := by
      calc ncpus < ncpus * 2 := by omega
        _ ≤ ncpus * 2 ^ s.toNat := Nat.mul_le_mul_left _ h2
    rw [narenas_derive_pos w chunksize ncpus s h0 h32, Nat.mod_eq_of_lt hnw, if_pos hgt]
    exact (clamp_spec w chunksize _ (by omega) hnw hp hpw hc).1
  · intro n hn
    by_cases h0 : 0 < s
    · by_cases h32 : s < 32
      · rw [narenas_derive_pos w chunksize ncpus s h0 h32] at hn
        have hm : (ncpus * 2 ^ s.toNat) % 2 ^ 32 < 2 ^ 32 := Nat.mod_lt _ (by decide)
        have hn1 : 1 ≤ (if (ncpus * 2 ^ s.toNat) % 2 ^ 32 > ncpus then
            (ncpus * 2 ^ s.toNat) % 2 ^ 32 else ncpus) := by split <;> omega
        have hn2 : (if (ncpus * 2 ^ s.toNat) % 2 ^ 32 > ncpus then
            (ncpus * 2 ^ s.toNat) % 2 ^ 32 else ncpus) < 2 ^ 32 := by split <;> omega
        refine ⟨clamp_pos w chunksize _ n hn1 hn2 hp hc hcs hn, fun _ hw => ?_,
          fun h => absurd h0 (by omega)⟩
        obtain ⟨c1, _, c3⟩ := clamp_spec w chunksize _ hn1 hn2 hp
          (ptr_mul_no_wrap w _ hn2 hp hw) hc
        rw [c1] at hn
        injection hn with hn
        subst hn
        exact c3
      · rw [narenas_derive_undefined w chunksize ncpus s (Or.inl (by omega))] at hn
        cases hn
    · by_cases hz : s = 0
      · subst hz
        rw [narenas_derive_zero] at hn
        injection hn with hn
        subst hn
        exact ⟨hcpu, fun h => absurd h (by omega), fun _ => le_refl _⟩
      · by_cases h32 : -32 < s
        · rw [narenas_derive_neg w chunksize ncpus s (by omega) h32 hcpu] at hn
          injection hn with hn
          subst hn
          have hle : ncpus / 2 ^ (-s).toNat ≤ ncpus := Nat.div_le_self _ _
          refine ⟨le_max_left _ _, fun h => absurd h h0, fun _ => ?_⟩
          exact max_le hcpu hle
        · rw [narenas_derive_undefined w chunksize ncpus s (Or.inr (by omega))] at hn
          cases hn

/-- C30 witness: four processors and a shift of two give sixteen arenas on a 64-bit
target with 4 MiB chunks. -/
theorem narenas_derive_shift_witness :
    (1 : Nat) ≤ 4 ∧ (2 : Int) < 32 ∧
      narenas_derive 64 0x400000 4 2 =
        some (min (4 * 2 ^ (2 : Int).toNat) (0x400000 / SIZEOF_PTR 64)) ∧
      narenas_derive 64 0x400000 4 2 = some 16 :=
  ⟨by decide, by decide,
    (narenas_derive_shift 64 0x400000 4 2 (by decide) (by decide) (by decide) (by decide)
      (by decide)).2.1 (by decide) (by decide) (by decide) (by decide),
    by decide⟩

/-- C30 counterexample: with no shift the count is the number of processors and is not
limited by the chunk size: `2^20` processors give `2^20` arenas, whose pointers take 8 MiB,
more than a chunk of 4 MiB. -/
theorem narenas_derive_shift_counterexample :
    ¬ (∀ (w chunksize ncpus : Nat) (s : Int) (n : Nat), 1 ≤ ncpus → ncpus < 2 ^ 32 →
      SIZEOF_PTR w ≤ chunksize → narenas_derive w chunksize ncpus s = some n →
      1 ≤ n ∧ n * SIZEOF_PTR w ≤ chunksize) := by
  intro h
  have h1 := h 64 0x400000 (2 ^ 20) 0 (2 ^ 20) (by decide) (by decide) (by decide)
    (by decide)
  revert h1
  decide

end Init

/-! ## `jemalloc.c`: the option strings of `malloc_init_hard` -/

namespace Init

open Mutex (malloc_mutex_t)

/-- One execution of the option switch has no effect, adjusts a size option, or reports
the character. -/
theorem opt_apply_events_mem (env : Env) (st : State) (c : Char) :
    (opt_apply env st c).2 ∈ [[], [Event.opt_lg c], opt_unsupported c] := by
  have m1 : ∀ s : State, (s, ([] : List Event)).2 ∈
      [[], [Event.opt_lg c], opt_unsupported c] := fun _ => List.mem_cons_self _ _
  have m2 : (st, [Event.opt_lg c]).2 ∈ [[], [Event.opt_lg c], opt_unsupported c] :=
    List.mem_cons_of_mem _ (List.mem_cons_self _ _)
  have m3 : (st, opt_unsupported c).2 ∈ [[], [Event.opt_lg c], opt_unsupported c] :=
    List.mem_cons_of_mem _ (List.mem_cons_of_mem _ (List.mem_cons_self _ _))
  unfold opt_apply
  by_cases h0 : c = 'a'
  · rw [if_pos h0]
    exact m1 _
  rw [if_neg h0]
  by_cases h1 : c = 'A'
  · rw [if_pos h1]
    exact m1 _
  rw [if_neg h1]
  by_cases h2 : c = 'c' ∨ c = 'C' ∨ c = 'd' ∨ c = 'D'
  · rw [if_pos h2]
    exact m2
  rw [if_neg h2]
  by_cases h3 : c = 'g' ∨ c = 'G' ∨ c = 'h' ∨ c = 'H'
  · rw [if_pos h3]
    by_cases hf : env.JEMALLOC_TCACHE = true
    · rw [if_pos hf]
      exact m2
    · rw [if_neg hf]
      exact m3
  rw [if_neg h3]
  by_cases h4 : c = 'j'
  · rw [if_pos h4]
    by_cases hf : env.JEMALLOC_FILL = true
    · rw [if_pos hf]
      exact m1 _
    · rw [if_neg hf]
      exact m3
  rw [if_neg h4]
  by_cases h5 : c = 'J'
  · rw [if_pos h5]
    by_cases hf : env.JEMALLOC_FILL = true
    · rw [if_pos hf]
      exact m1 _
    · rw [if_neg hf]
      exact m3
  rw [if_neg h5]
  by_cases h6 : c = 'k' ∨ c = 'K' ∨ c = 'm' ∨ c = 'M'
  · rw [if_pos h6]
    exact m2
  rw [if_neg h6]
  by_cases h7 : c = 'n'
  · rw [if_pos h7]
    exact m1 _
  rw [if_neg h7]
  by_cases h8 : c = 'N'
  · rw [if_pos h8]
    exact m1 _
  rw [if_neg h8]
  by_cases h9 : c = 'o'
  · rw [if_pos h9]
    by_cases hf : env.JEMALLOC_SWAP = true
    · rw [if_pos hf]
      exact m1 _
    · rw [if_neg hf]
      exact m3
  rw [if_neg h9]
  by_cases h10 : c = 'O'
  · rw [if_pos h10]
    by_cases hf : env.JEMALLOC_SWAP = true
    · rw [if_pos hf]
      exact m1 _
    · rw [if_neg hf]
      exact m3
  rw [if_neg h10]
  by_cases h11 : c = 'p'
  · rw [if_pos h11]
    exact m1 _
  rw [if_neg h11]
  by_cases h12 : c = 'P'
  · rw [if_pos h12]
    exact m1 _
  rw [if_neg h12]
  by_cases h13 : c = 'q' ∨ c = 'Q'
  · rw [if_pos h13]
    exact m2
  rw [if_neg h13]
  by_cases h14 : c = 't'
  · rw [if_pos h14]
    by_cases hf : env.JEMALLOC_TRACE = true
    · rw [if_pos hf]
      exact m1 _
    · rw [if_neg hf]
      exact m3
  rw [if_neg h14]
  by_cases h15 : c = 'T'
  · rw [if_pos h15]
    by_cases hf : env.JEMALLOC_TRACE = true
    · rw [if_pos hf]
      exact m1 _
    · rw [if_neg hf]
      exact m3
  rw [if_neg h15]
  by_cases h16 : c = 'v'
  · rw [if_pos h16]
    by_cases hf : env.JEMALLOC_SYSV = true
    · rw [if_pos hf]
      exact m1 _
    · rw [if_neg hf]
      exact m3
  rw [if_neg h16]
  by_cases h17 : c = 'V'
  · rw [if_pos h17]
    by_cases hf : env.JEMALLOC_SYSV = true
    · rw [if_pos hf]
      exact m1 _
    · rw [if_neg hf]
      exact m3
  rw [if_neg h17]
  by_cases h18 : c = 'x'
  · rw [if_pos h18]
    by_cases hf : env.JEMALLOC_XMALLOC = true
    · rw [if_pos hf]
      exact m1 _
    · rw [if_neg hf]
      exact m3
  rw [if_neg h18]
  by_cases h19 : c = 'X'
  · rw [if_pos h19]
    by_cases hf : env.JEMALLOC_XMALLOC = true
    · rw [if_pos hf]
      exact m1 _
    · rw [if_neg hf]
      exact m3
  rw [if_neg h19]
  by_cases h20 : c = 'z'
  · rw [if_pos h20]
    by_cases hf : env.JEMALLOC_FILL = true
    · rw [if_pos hf]
      exact m1 _
    · rw [if_neg hf]
      exact m3
  rw [if_neg h20]
  by_cases h21 : c = 'Z'
  · rw [if_pos h21]
    by_cases hf : env.JEMALLOC_FILL = true
    · rw [if_pos hf]
      exact m1 _
    · rw [if_neg hf]
      exact m3
  rw [if_neg h21]
  exact m3

theorem opt_apply_events (env : Env) (st : State) (c : Char) :
    (opt_apply env st c).2 = [] ∨ (opt_apply env st c).2 = [Event.opt_lg c] ∨
      (opt_apply env st c).2 = opt_unsupported c := by
  have h := opt_apply_events_mem env st c
  simp only [List.mem_cons, List.mem_singleton, List.not_mem_nil, or_false] at h
  exact h

theorem opt_apply_filter (env : Env) (st : State) (c : Char) (p : Event → Bool)
    (hlg : ∀ c, p (Event.opt_lg c) = false)
    (hw : ∀ a b c d, p (Event.malloc_write4 a b c d) = false) :
    (opt_apply env st c).2.filter p = [] := by
  rcases opt_apply_events env st c with h | h | h
  · rw [h]; rfl
  · rw [h]; simp [hlg]
  · rw [h]; simp [opt_unsupported, hw]

theorem opt_repeat_filter (env : Env) (p : Event → Bool)
    (hlg : ∀ c, p (Event.opt_lg c) = false)
    (hw : ∀ a b c d, p (Event.malloc_write4 a b c d) = false) :
    ∀ (n : Nat) (st : State) (c : Char), (opt_repeat env n st c).2.filter p = [] := by
  intro n
  induction n with
  | zero => intro st c; rfl
  | succ n ih =>
    intro st c
    simp only [opt_repeat, List.filter_append, opt_apply_filter env st c p hlg hw, ih,
      List.append_nil]

theorem opts_parse_filter (env : Env) (p : Event → Bool)
    (hlg : ∀ c, p (Event.opt_lg c) = false)
    (hw : ∀ a b c d, p (Event.malloc_write4 a b c d) = false) :
    ∀ (cs : List Char) (nreps : Nat) (nseen : Bool) (st : State) (evs : List Event)
      (r : State × List Event), opts_parse env cs nreps nseen st evs = some r →
      r.2.filter p = evs.filter p := by
  intro cs
  induction cs with
  | nil =>
    intro nreps nseen st evs r h
    unfold opts_parse at h
    split at h
    · cases h
    · injection h with h
      subst h
      rfl
  | cons c cs ih =>
    intro nreps nseen st evs r h
    unfold opts_parse at h
    split at h
    · exact ih _ _ _ _ _ h
    · have := ih _ _ _ _ _ h
      rw [this, List.filter_append, opt_repeat_filter env p hlg hw, List.append_nil]

/-- The effects of the three rounds over the option strings, seen through a filter that
drops option adjustments and messages: the two calls that fetch the strings. -/
theorem opts_rounds_filter (env : Env) (p : Event → Bool)
    (hlg : ∀ c, p (Event.opt_lg c) = false)
    (hw : ∀ a b c d, p (Event.malloc_write4 a b c d) = false)
    (st : State) (evs : List Event) (r : State × List Event)
    (h : opts_rounds env 3 0 st evs = some r) :
    r.2.filter p = evs.filter p ++ [Event.readlink "/etc/jemalloc.conf"].filter p
      ++ [Event.getenv "JEMALLOC_OPTIONS"].filter p := by
  simp only [opts_rounds] at h
  cases h1 : opts_parse env (opts_source env 0).2 0 false st (evs ++ (opts_source env 0).1)
    with
  | none => rw [h1] at h; cases h
  | some r1 =>
    rw [h1] at h
    simp only at h
    cases h2 : opts_parse env (opts_source env (0 + 1)).2 0 false r1.1
      (r1.2 ++ (opts_source env (0 + 1)).1) with
    | none => rw [h2] at h; cases h
    | some r2 =>
      rw [h2] at h
      simp only at h
      cases h3 : opts_parse env (opts_source env (0 + 1 + 1)).2 0 false r2.1
        (r2.2 ++ (opts_source env (0 + 1 + 1)).1) with
      | none => rw [h3] at h; cases h
      | some r3 =>
        rw [h3] at h
        simp only [Option.some.injEq] at h
        subst h
        have e1 := opts_parse_filter env p hlg hw _ _ _ _ _ _ h1
        have e2 := opts_parse_filter env p hlg hw _ _ _ _ _ _ h2
        have e3 := opts_parse_filter env p hlg hw _ _ _ _ _ _ h3
        rw [e3, List.filter_append, e2, List.filter_append, e1, List.filter_append]
        simp [opts_source]

end Init

/-! ## `jemalloc.c`: the steps of a successful `malloc_init_hard` -/

namespace Init

open Mutex (malloc_mutex_t)

theorem filter_isStep_mutex (l : List Mutex.Event) :
    (l.map Event.mutex).filter Event.isStep = [] := by
  induction l with
  | nil => rfl
  | cons a l ih => simp [List.filter_cons, Event.isStep, ih]

theorem arenas_steps (env : Env) (st : State) (evs : List Event) (arena0 : Nat)
    (h : (malloc_init_hard_arenas env st evs arena0).out = InitOutcome.returned false) :
    (malloc_init_hard_arenas env st evs arena0).evs.filter Event.isStep =
        evs.filter Event.isStep ++
          [Event.base_alloc (sz_mul env.w (SIZEOF_PTR env.w) st.narenas)] ∧
      (malloc_init_hard_arenas env st evs arena0).st.narenas = st.narenas ∧
      (malloc_init_hard_arenas env st evs arena0).st.arenas 0 = arena0 ∧
      (malloc_init_hard_arenas env st evs arena0).st.ncpus = st.ncpus ∧
      (malloc_init_hard_arenas env st evs arena0).st.opt_narenas_lshift =
        st.opt_narenas_lshift ∧
      (malloc_init_hard_arenas env st evs arena0).st.malloc_initialized = true := by
  unfold malloc_init_hard_arenas at h ⊢
  simp only [] at h ⊢
  split at h
  · cases h
  · rw [if_neg (by assumption)]
    simp [List.filter_append, Event.isStep, unlock]

theorem narenas_steps (env : Env) (st : State) (evs : List Event) (arena0 : Nat)
    (h : (malloc_init_hard_narenas env st evs arena0).out = InitOutcome.returned false) :
    (malloc_init_hard_narenas env st evs arena0).evs.filter Event.isStep =
        evs.filter Event.isStep ++
          [Event.base_alloc (sz_mul env.w (SIZEOF_PTR env.w)
            (malloc_init_hard_narenas env st evs arena0).st.narenas)] ∧
      (malloc_init_hard_narenas env st evs arena0).st.arenas 0 = arena0 ∧
      (malloc_init_hard_narenas env st evs arena0).st.ncpus = st.ncpus ∧
      (malloc_init_hard_narenas env st evs arena0).st.malloc_initialized = true ∧
      (∃ n, narenas_derive env.w env.chunksize
            (malloc_init_hard_narenas env st evs arena0).st.ncpus
            (malloc_init_hard_narenas env st evs arena0).st.opt_narenas_lshift = some n ∧
        (malloc_init_hard_narenas env st evs arena0).st.narenas =
          if env.NO_TLS && decide (n > 1) then parenas n else n) := by
  unfold malloc_init_hard_narenas at h ⊢
  simp only [] at h ⊢
  cases hd : narenas_derive env.w env.chunksize st.ncpus (smp_lshift env st) with
  | none =>
    rw [hd] at h
    cases h
  | some narenas =>
    rw [hd] at h
    simp only [] at h ⊢
    cases hT : env.NO_TLS with
    | true =>
      rw [hT] at h
      simp only [if_true] at h ⊢
      split at h
      · rename_i hgt
        split at h
        · cases h
        · rw [if_pos hgt, if_neg (by assumption)]
          obtain ⟨a1, a2, a3, a4, a5, a6⟩ := arenas_steps env _ evs arena0 h
          refine ⟨by rw [a2]; exact a1, a3, a4, a6, narenas, ?_, ?_⟩
          · rw [a4, a5]
            exact hd
          · rw [a2]
            simp [hgt]
      · rename_i hgt
        rw [if_neg hgt]
        obtain ⟨a1, a2, a3, a4, a5, a6⟩ := arenas_steps env _ evs arena0 h
        refine ⟨by rw [a2]; exact a1, a3, a4, a6, narenas, ?_, ?_⟩
        · rw [a4, a5]
          exact hd
        · rw [a2]
          simp [hgt]
    | false =>
      rw [hT] at h
      simp only [Bool.false_eq_true, if_false] at h ⊢
      obtain ⟨a1, a2, a3, a4, a5, a6⟩ := arenas_steps env _ evs arena0 h
      refine ⟨?_, a3, a4, a6, narenas, ?_, ?_⟩
      · rw [a2]
        exact a1
      · rw [a4, a5]
        exact hd
      · rw [a2]
        simp

end Init

namespace Init

open Mutex (malloc_mutex_t)

theorem ncpus_steps (env : Env) (st : State) (evs : List Event) (self : Nat)
    (h : (malloc_init_hard_ncpus env st evs self).out = InitOutcome.returned false) :
    (malloc_init_hard_ncpus env st evs self).evs.filter Event.isStep =
        evs.filter Event.isStep ++
          [Event.sysconf "_SC_NPROCESSORS_ONLN",
            Event.base_alloc (sz_mul env.w (SIZEOF_PTR env.w)
              (malloc_init_hard_ncpus env st evs self).st.narenas)] ∧
      (malloc_init_hard_ncpus env st evs self).st.arenas 0 = st.arenas 0 ∧
      (malloc_init_hard_ncpus env st evs self).st.ncpus =
        malloc_ncpus env.sysconf_nprocessors ∧
      (malloc_init_hard_ncpus env st evs self).st.malloc_initialized = true ∧
      (∃ n, narenas_derive env.w env.chunksize
            (malloc_init_hard_ncpus env st evs self).st.ncpus
            (malloc_init_hard_ncpus env st evs self).st.opt_narenas_lshift = some n ∧
        (malloc_init_hard_ncpus env st evs self).st.narenas =
          if env.NO_TLS && decide (n > 1) then parenas n else n) := by
  unfold malloc_init_hard_ncpus at h ⊢
  simp only [] at h ⊢
  obtain ⟨a1, a2, a3, a4, a5⟩ := narenas_steps env _ _ _ h
  refine ⟨?_, a2, a3, a4, a5⟩
  rw [a1]
  simp [List.filter_append, filter_isStep_mutex, Event.isStep, unlock, lock]

theorem arena0_steps (env : Env) (st : State) (evs : List Event) (self : Nat)
    (h : (malloc_init_hard_arena0 env st evs self).out = InitOutcome.returned false) :
    ∃ arena0, success_facts env (malloc_init_hard_arena0 env st evs self) arena0 ∧
      (malloc_init_hard_arena0 env st evs self).evs.filter Event.isStep =
        evs.filter Event.isStep ++
          success_tail env (malloc_init_hard_arena0 env st evs self) arena0 := by
  unfold malloc_init_hard_arena0 at h ⊢
  simp only [] at h ⊢
  by_cases hf : env.base_alloc st.nbase (arena_size env) = 0 ∨
      env.arena_new (env.base_alloc st.nbase (arena_size env)) 0 = true
  · obtain ⟨evs2, _, he⟩ := arenas_extend_failure env
      { st with narenas := 1, arenas_addr := env.init_arenas, arenas := fun _ => 0 } 0 hf
    rw [he] at h
    cases ha : st.opt_abort with
    | true =>
      simp only [ha, if_true] at h
      cases h
    | false =>
      simp only [ha, Bool.false_eq_true, if_false, if_true] at h
      cases h
  · have hb : env.base_alloc st.nbase (arena_size env) ≠ 0 := fun h => hf (Or.inl h)
    have hn : env.arena_new (env.base_alloc st.nbase (arena_size env)) 0 = false := by
      cases h : env.arena_new (env.base_alloc st.nbase (arena_size env)) 0
      · rfl
      · exact absurd (Or.inr h) hf
    have he := arenas_extend_success env
      { st with narenas := 1, arenas_addr := env.init_arenas, arenas := fun _ => 0 } 0 hb hn
    rw [he] at h ⊢
    simp only [State.set_arena, if_true, if_neg hb] at h ⊢
    obtain ⟨a1, a2, a3, a4, a5⟩ := ncpus_steps env _ _ self h
    refine ⟨env.base_alloc st.nbase (arena_size env), ⟨hb, hn, ?_, a3, a4, a5⟩, ?_⟩
    · rw [a2]
      simp
    · rw [a1]
      simp [List.filter_append, Event.isStep, success_tail]

end Init

namespace Init

open Mutex (malloc_mutex_t)

theorem boot_steps (env : Env) (st : State) (evs : List Event) (self : Nat)
    (h : (malloc_init_hard_boot env st evs self).out = InitOutcome.returned false) :
    ∃ arena0, success_facts env (malloc_init_hard_boot env st evs self) arena0 ∧
      (malloc_init_hard_boot env st evs self).evs.filter Event.isStep =
        evs.filter Event.isStep ++ [Event.chunk_boot, Event.base_boot, Event.arena_boot] ++
          success_tail env (malloc_init_hard_boot env st evs self) arena0 := by
  unfold malloc_init_hard_boot at h ⊢
  simp only [] at h ⊢
  split at h
  · cases h
  · split at h
    · cases h
    · split at h
      · cases h
      · split at h
        · cases h
        · rw [if_neg (by assumption), if_neg (by assumption), if_neg (by assumption),
            if_neg (by assumption)]
          obtain ⟨a0, hf, he⟩ := arena0_steps env _ _ self h
          refine ⟨a0, hf, ?_⟩
          rw [he]
          cases env.JEMALLOC_TCACHE <;> simp [List.filter_append, Event.isStep]

theorem atexit_steps (env : Env) (st : State) (evs : List Event) (self : Nat)
    (h : (malloc_init_hard_atexit env st evs self).out = InitOutcome.returned false) :
    ∃ arena0, success_facts env (malloc_init_hard_atexit env st evs self) arena0 ∧
      (malloc_init_hard_atexit env st evs self).evs.filter Event.isStep =
        evs.filter Event.isStep ++ [Event.chunk_boot, Event.base_boot, Event.arena_boot] ++
          success_tail env (malloc_init_hard_atexit env st evs self) arena0 := by
  unfold malloc_init_hard_atexit at h ⊢
  split at h
  · split at h
    · split at h
      · cases h
      · rw [if_pos (by assumption), if_pos (by assumption), if_neg (by assumption)]
        obtain ⟨a0, hf, he⟩ := boot_steps env _ _ self h
        refine ⟨a0, hf, ?_⟩
        rw [he]
        simp [List.filter_append, Event.isStep]
    · rw [if_pos (by assumption), if_neg (by assumption)]
      obtain ⟨a0, hf, he⟩ := boot_steps env _ _ self h
      refine ⟨a0, hf, ?_⟩
      rw [he]
      simp [List.filter_append, Event.isStep]
  · rw [if_neg (by assumption)]
    exact boot_steps env _ _ self h

theorem ctl_steps (env : Env) (st : State) (evs : List Event) (self : Nat)
    (h : (malloc_init_hard_ctl env st evs self).out = InitOutcome.returned false) :
    ∃ arena0, success_facts env (malloc_init_hard_ctl env st evs self) arena0 ∧
      (malloc_init_hard_ctl env st evs self).evs.filter Event.isStep =
        evs.filter Event.isStep ++ [Event.chunk_boot, Event.base_boot, Event.arena_boot] ++
          success_tail env (malloc_init_hard_ctl env st evs self) arena0 := by
  unfold malloc_init_hard_ctl at h ⊢
  split at h
  · cases h
  · split at h
    · split at h
      · cases h
      · rw [if_neg (by assumption), if_pos (by assumption), if_neg (by assumption)]
        obtain ⟨a0, hf, he⟩ := atexit_steps env _ _ self h
        refine ⟨a0, hf, ?_⟩
        rw [he]
        simp [List.filter_append, Event.isStep]
    · rw [if_neg (by assumption), if_neg (by assumption)]
      obtain ⟨a0, hf, he⟩ := atexit_steps env _ _ self h
      refine ⟨a0, hf, ?_⟩
      rw [he]
      simp [List.filter_append, Event.isStep]

theorem atfork_steps (env : Env) (st : State) (evs : List Event) (self : Nat)
    (h : (malloc_init_hard_atfork env st evs self).out = InitOutcome.returned false) :
    ∃ arena0, success_facts env (malloc_init_hard_atfork env st evs self) arena0 ∧
      (malloc_init_hard_atfork env st evs self).evs.filter Event.isStep =
        evs.filter Event.isStep ++
          [Event.pthread_atfork Handler.jemalloc_prefork Handler.jemalloc_postfork
            Handler.jemalloc_postfork,
            Event.chunk_boot, Event.base_boot, Event.arena_boot] ++
          success_tail env (malloc_init_hard_atfork env st evs self) arena0 := by
  unfold malloc_init_hard_atfork at h ⊢
  simp only [] at h ⊢
  split at h
  · split at h
    · cases h
    · rw [if_pos (by assumption), if_neg (by assumption)]
      obtain ⟨a0, hf, he⟩ := ctl_steps env _ _ self h
      refine ⟨a0, hf, ?_⟩
      rw [he]
      simp [List.filter_append, Event.isStep]
  · rw [if_neg (by assumption)]
    obtain ⟨a0, hf, he⟩ := ctl_steps env _ _ self h
    refine ⟨a0, hf, ?_⟩
    rw [he]
    simp [List.filter_append, Event.isStep]

end Init

namespace Init

open Mutex (malloc_mutex_t)

theorem opts_steps (env : Env) (st : State) (evs : List Event) (self : Nat)
    (h : (malloc_init_hard_opts env st evs self).out = InitOutcome.returned false) :
    ∃ arena0, success_facts env (malloc_init_hard_opts env st evs self) arena0 ∧
      (malloc_init_hard_opts env st evs self).evs.filter Event.isStep =
        evs.filter Event.isStep ++
          [Event.readlink "/etc/jemalloc.conf", Event.getenv "JEMALLOC_OPTIONS",
            Event.pthread_atfork Handler.jemalloc_prefork Handler.jemalloc_postfork
              Handler.jemalloc_postfork,
            Event.chunk_boot, Event.base_boot, Event.arena_boot] ++
          success_tail env (malloc_init_hard_opts env st evs self) arena0 := by
  unfold malloc_init_hard_opts at h ⊢
  cases hr : opts_rounds env 3 0 st evs with
  | none =>
    rw [hr] at h
    cases h
  | some r =>
    rw [hr] at h
    simp only [] at h ⊢
    obtain ⟨a0, hf, he⟩ := atfork_steps env _ _ self h
    refine ⟨a0, hf, ?_⟩
    rw [he, opts_rounds_filter env Event.isStep (fun _ => rfl) (fun _ _ _ _ => rfl) st evs r hr]
    simp [Event.isStep]

theorem page_steps (env : Env) (st : State) (evs : List Event) (self : Nat)
    (h : (malloc_init_hard_page env st evs self).out = InitOutcome.returned false) :
    ∃ arena0, success_facts env (malloc_init_hard_page env st evs self) arena0 ∧
      (malloc_init_hard_page env st evs self).evs.filter Event.isStep =
        evs.filter Event.isStep ++
          [Event.readlink "/etc/jemalloc.conf", Event.getenv "JEMALLOC_OPTIONS",
            Event.pthread_atfork Handler.jemalloc_prefork Handler.jemalloc_postfork
              Handler.jemalloc_postfork,
            Event.chunk_boot, Event.base_boot, Event.arena_boot] ++
          success_tail env (malloc_init_hard_page env st evs self) arena0 := by
  unfold malloc_init_hard_page at h ⊢
  simp only [] at h ⊢
  split at h
  · split at h
    · cases h
    · rw [if_pos (by assumption), if_neg (by assumption)]
      obtain ⟨a0, hf, he⟩ := opts_steps env _ _ self h
      refine ⟨a0, hf, ?_⟩
      rw [he]
      have hs : Event.isStep (Event.sysconf "_SC_PAGESIZE") = false := by decide
      simp [List.filter_append, hs]
  · rw [if_neg (by assumption)]
    exact opts_steps env _ _ self h

/-- The steps of a successful run of `malloc_init_hard` by the initialising thread. -/
theorem init_steps (env : Env) (st : State) (self : Nat)
    (hi : st.malloc_initialized = false) (h0 : st.malloc_initializer = 0) (hself : self ≠ 0)
    (hok : (malloc_init_hard env st self).out = InitOutcome.returned false) :
    ∃ arena0, success_facts env (malloc_init_hard env st self) arena0 ∧
      (malloc_init_hard env st self).evs.filter Event.isStep =
        [Event.readlink "/etc/jemalloc.conf", Event.getenv "JEMALLOC_OPTIONS",
          Event.pthread_atfork Handler.jemalloc_prefork Handler.jemalloc_postfork
            Handler.jemalloc_postfork,
          Event.chunk_boot, Event.base_boot, Event.arena_boot] ++
          success_tail env (malloc_init_hard env st self) arena0 := by
  have hne : ¬ (st.malloc_initializer = self) := by
    rw [h0]
    exact fun h => hself h.symm
  have hrun : malloc_init_hard env st self =
      malloc_init_hard_page env st [lock malloc_mutex_t.init_lock] self := by
    unfold malloc_init_hard
    rw [if_neg (by simp [hi, hne]), if_neg (by simp [h0])]
  rw [hrun] at hok ⊢
  obtain ⟨a0, hf, he⟩ := page_steps env st _ self hok
  refine ⟨a0, hf, ?_⟩
  rw [he]
  simp [Event.isStep, lock]

/-- C27 (amended): in every successful run of `malloc_init_hard` by the initialising
thread, the steps occur in this order: the option strings are fetched and parsed, the fork
handlers are installed, the chunk, base and arena subsystems are booted, arena zero is
allocated and created (in a one-slot array), `ncpus` is computed and `narenas` derived from
it (and replaced by a prime above it in builds without TLS), and the arena array is
allocated, with arena zero in its slot 0. -/
theorem malloc_init_hard_step_order (env : Env) (st : State) (self : Nat)
    (hi : st.malloc_initialized = false) (h0 : st.malloc_initializer = 0) (hself : self ≠ 0)
    (hok : (malloc_init_hard env st self).out = InitOutcome.returned false) :
    ∃ arena0, arena0 ≠ 0 ∧ env.arena_new arena0 0 = false ∧
      (malloc_init_hard env st self).st.arenas 0 = arena0 ∧
      (malloc_init_hard env st self).st.ncpus = malloc_ncpus env.sysconf_nprocessors ∧
      (malloc_init_hard env st self).st.malloc_initialized = true ∧
      (∃ n, narenas_derive env.w env.chunksize (malloc_init_hard env st self).st.ncpus
            (malloc_init_hard env st self).st.opt_narenas_lshift = some n ∧
        (malloc_init_hard env st self).st.narenas =
          if env.NO_TLS && decide (n > 1) then parenas n else n) ∧
      (malloc_init_hard env st self).evs.filter Event.isStep =
        [Event.readlink "/etc/jemalloc.conf", Event.getenv "JEMALLOC_OPTIONS",
          Event.pthread_atfork Handler.jemalloc_prefork Handler.jemalloc_postfork
            Handler.jemalloc_postfork,
          Event.chunk_boot, Event.base_boot, Event.arena_boot,
          Event.base_alloc (arena_size env), Event.arena_new arena0 0,
          Event.sysconf "_SC_NPROCESSORS_ONLN",
          Event.base_alloc (sz_mul env.w (SIZEOF_PTR env.w)
            (malloc_init_hard env st self).st.narenas)] := by
  obtain ⟨a0, ⟨f1, f2, f3, f4, f5, f6⟩, he⟩ := init_steps env st self hi h0 hself hok
  exact ⟨a0, f1, f2, f3, f4, f5, f6, he⟩

/-- C27 witness: the initialisation of the example build succeeds; it creates arena zero,
then finds four processors, derives four arenas (one `n` option and the SMP adjustment
cancel) and allocates the array of four pointers. -/
theorem malloc_init_hard_step_order_witness :
    ex_state0.malloc_initialized = false ∧ ex_state0.malloc_initializer = 0 ∧
      (malloc_init_hard ex_env ex_state0 1).out = InitOutcome.returned false ∧
      ∃ arena0, arena0 ≠ 0 ∧ ex_env.arena_new arena0 0 = false ∧
        (malloc_init_hard ex_env ex_state0 1).st.arenas 0 = arena0 ∧
        (malloc_init_hard ex_env ex_state0 1).st.ncpus =
          malloc_ncpus ex_env.sysconf_nprocessors ∧
        (malloc_init_hard ex_env ex_state0 1).st.malloc_initialized = true ∧
        (∃ n, narenas_derive ex_env.w ex_env.chunksize
              (malloc_init_hard ex_env ex_state0 1).st.ncpus
              (malloc_init_hard ex_env ex_state0 1).st.opt_narenas_lshift = some n ∧
          (malloc_init_hard ex_env ex_state0 1).st.narenas =
            if ex_env.NO_TLS && decide (n > 1) then parenas n else n) ∧
        (malloc_init_hard ex_env ex_state0 1).evs.filter Event.isStep =
          [Event.readlink "/etc/jemalloc.conf", Event.getenv "JEMALLOC_OPTIONS",
            Event.pthread_atfork Handler.jemalloc_prefork Handler.jemalloc_postfork
              Handler.jemalloc_postfork,
            Event.chunk_boot, Event.base_boot, Event.arena_boot,
            Event.base_alloc (arena_size ex_env), Event.arena_new arena0 0,
            Event.sysconf "_SC_NPROCESSORS_ONLN",
            Event.base_alloc (sz_mul ex_env.w (SIZEOF_PTR ex_env.w)
              (malloc_init_hard ex_env ex_state0 1).st.narenas)] :=
  ⟨rfl, rfl, by decide,
    malloc_init_hard_step_order ex_env ex_state0 1 rfl rfl (by decide) (by decide)⟩

/-- C27 counterexample: in the successful run of the example build arena zero is created
before the number of processors is asked for, and the arena array is allocated after
that. -/
theorem malloc_init_hard_step_order_counterexample :
    (malloc_init_hard ex_env ex_state0 1).out = InitOutcome.returned false ∧
      (malloc_init_hard ex_env ex_state0 1).evs.filter Event.isStep =
        [Event.readlink "/etc/jemalloc.conf", Event.getenv "JEMALLOC_OPTIONS",
          Event.pthread_atfork Handler.jemalloc_prefork Handler.jemalloc_postfork
            Handler.jemalloc_postfork,
          Event.chunk_boot, Event.base_boot, Event.arena_boot,
          Event.base_alloc 2368, Event.arena_new 0x100000 0,
          Event.sysconf "_SC_NPROCESSORS_ONLN", Event.base_alloc 32] ∧
      (malloc_init_hard ex_env ex_state0 1).evs.indexOf (Event.arena_new 0x100000 0) <
        (malloc_init_hard ex_env ex_state0 1).evs.indexOf
          (Event.sysconf "_SC_NPROCESSORS_ONLN") := by
  decide

end Init

/-! ## `jemalloc.c`: the fork handlers registered by `malloc_init_hard` -/

namespace Init

open Mutex (malloc_mutex_t)

theorem filter_isAtfork_mutex (l : List Mutex.Event) :
    (l.map Event.mutex).filter Event.isAtfork = [] := by
  induction l with
  | nil => rfl
  | cons a l ih => simp [List.filter_cons, Event.isAtfork, ih]

theorem arenas_extend_atfork (env : Env) (st : State) (ind : Nat) :
    (arenas_extend env st ind).2.1.filter Event.isAtfork = [] := by
  unfold arenas_extend
  simp only []
  split_ifs <;> rfl

theorem arenas_atfork (env : Env) (st : State) (evs : List Event) (arena0 : Nat) :
    (malloc_init_hard_arenas env st evs arena0).evs.filter Event.isAtfork =
      evs.filter Event.isAtfork := by
  unfold malloc_init_hard_arenas
  simp only []
  split_ifs <;> simp [List.filter_append, Event.isAtfork, unlock]

theorem narenas_atfork (env : Env) (st : State) (evs : List Event) (arena0 : Nat) :
    (malloc_init_hard_narenas env st evs arena0).evs.filter Event.isAtfork =
      evs.filter Event.isAtfork := by
  unfold malloc_init_hard_narenas
  simp only []
  split
  · rfl
  · split_ifs <;> first | rfl | exact arenas_atfork env _ evs arena0

theorem ncpus_atfork (env : Env) (st : State) (evs : List Event) (self : Nat) :
    (malloc_init_hard_ncpus env st evs self).evs.filter Event.isAtfork =
      evs.filter Event.isAtfork := by
  unfold malloc_init_hard_ncpus
  simp only []
  rw [narenas_atfork]
  simp [List.filter_append, filter_isAtfork_mutex, Event.isAtfork, unlock, lock]

theorem arena0_atfork (env : Env) (st : State) (evs : List Event) (self : Nat) :
    (malloc_init_hard_arena0 env st evs self).evs.filter Event.isAtfork =
      evs.filter Event.isAtfork := by
  unfold malloc_init_hard_arena0
  simp only []
  have hx := arenas_extend_atfork env
    { st with narenas := 1, arenas_addr := env.init_arenas, arenas := fun _ => 0 } 0
  rcases he : arenas_extend env
    { st with narenas := 1, arenas_addr := env.init_arenas, arenas := fun _ => 0 } 0 with
    ⟨st2, evs2, out⟩
  rw [he] at hx
  simp only at hx
  cases out with
  | aborted => simp [List.filter_append, hx]
  | returned r =>
    simp only []
    split
    · simp [List.filter_append, hx, Event.isAtfork, unlock]
    · rw [ncpus_atfork]
      simp [List.filter_append, hx]

theorem boot_atfork (env : Env) (st : State) (evs : List Event) (self : Nat) :
    (malloc_init_hard_boot env st evs self).evs.filter Event.isAtfork =
      evs.filter Event.isAtfork := by
  unfold malloc_init_hard_boot
  simp only []
  split_ifs <;> simp [List.filter_append, Event.isAtfork, unlock, arena0_atfork]

theorem atexit_atfork (env : Env) (st : State) (evs : List Event) (self : Nat) :
    (malloc_init_hard_atexit env st evs self).evs.filter Event.isAtfork =
      evs.filter Event.isAtfork := by
  unfold malloc_init_hard_atexit
  split_ifs <;> simp [List.filter_append, Event.isAtfork, boot_atfork]

theorem ctl_atfork (env : Env) (st : State) (evs : List Event) (self : Nat) :
    (malloc_init_hard_ctl env st evs self).evs.filter Event.isAtfork =
      evs.filter Event.isAtfork := by
  unfold malloc_init_hard_ctl
  split_ifs <;> simp [List.filter_append, Event.isAtfork, unlock, atexit_atfork]

theorem atfork_atfork (env : Env) (st : State) (evs : List Event) (self : Nat) :
    (malloc_init_hard_atfork env st evs self).evs.filter Event.isAtfork =
      evs.filter Event.isAtfork ++
        [Event.pthread_atfork Handler.jemalloc_prefork Handler.jemalloc_postfork
          Handler.jemalloc_postfork] := by
  unfold malloc_init_hard_atfork
  simp only []
  split_ifs <;> simp [List.filter_append, Event.isAtfork, ctl_atfork]

end Init

namespace Init

open Mutex (malloc_mutex_t)

theorem opts_atfork (env : Env) (st : State) (evs : List Event) (self : Nat) :
    (malloc_init_hard_opts env st evs self).evs.filter Event.isAtfork =
        evs.filter Event.isAtfork ++
          [Event.pthread_atfork Handler.jemalloc_prefork Handler.jemalloc_postfork
            Handler.jemalloc_postfork] ∨
      (malloc_init_hard_opts env st evs self).evs.filter Event.isAtfork =
        evs.filter Event.isAtfork := by
  unfold malloc_init_hard_opts
  cases hr : opts_rounds env 3 0 st evs with
  | none => exact Or.inr rfl
  | some r =>
    left
    simp only []
    rw [atfork_atfork,
      opts_rounds_filter env Event.isAtfork (fun _ => rfl) (fun _ _ _ _ => rfl) st evs r hr]
    simp [Event.isAtfork]

theorem page_atfork (env : Env) (st : State) (evs : List Event) (self : Nat) :
    (malloc_init_hard_page env st evs self).evs.filter Event.isAtfork =
        evs.filter Event.isAtfork ++
          [Event.pthread_atfork Handler.jemalloc_prefork Handler.jemalloc_postfork
            Handler.jemalloc_postfork] ∨
      (malloc_init_hard_page env st evs self).evs.filter Event.isAtfork =
        evs.filter Event.isAtfork := by
  unfold malloc_init_hard_page
  simp only []
  split
  · split
    · right
      simp [List.filter_append, Event.isAtfork]
    · rcases opts_atfork env
          { st with
            pagesize := (env.sysconf_pagesize % 2 ^ 32).toNat
            pagesize_mask := ((env.sysconf_pagesize - 1) % 2 ^ env.w).toNat
            lg_pagesize := sz_sub env.w (ffs (env.sysconf_pagesize % 2 ^ 32).toNat) 1 }
          (evs ++ [Event.sysconf "_SC_PAGESIZE"]) self with h | h
      · left
        rw [h]
        simp [List.filter_append, Event.isAtfork]
      · right
        rw [h]
        simp [List.filter_append, Event.isAtfork]
  · exact opts_atfork env st evs self

theorem spin_rounds_atfork (n : Nat) : (spin_rounds n).filter Event.isAtfork = [] := by
  induction n with
  | zero => rfl
  | succ n ih => simp [spin_rounds, List.filter_append, Event.isAtfork, unlock, lock, ih]

/-- Every run of `malloc_init_hard` registers the fork handlers at most once, and with
`jemalloc_postfork` for the parent and for the child. -/
theorem init_atfork (env : Env) (st : State) (self : Nat) :
    (malloc_init_hard env st self).evs.filter Event.isAtfork =
        [Event.pthread_atfork Handler.jemalloc_prefork Handler.jemalloc_postfork
          Handler.jemalloc_postfork] ∨
      (malloc_init_hard env st self).evs.filter Event.isAtfork = [] := by
  unfold malloc_init_hard
  split
  · exact Or.inr rfl
  · split
    · right
      cases env.init_wait with
      | none => rfl
      | some n =>
        simp only [List.filter_cons, lock, Event.isAtfork, Bool.false_eq_true, if_false]
        exact spin_rounds_atfork (n + 1)
    · rcases page_atfork env st [lock malloc_mutex_t.init_lock] self with h | h
      · exact Or.inl h
      · exact Or.inr h

theorem registered_child_filter (evs : List Event) :
    registered_child (evs.filter Event.isStep) = registered_child evs := by
  induction evs with
  | nil => rfl
  | cons e evs ih =>
    cases e <;> simp [List.filter_cons, Event.isStep, registered_child, ih]
    split <;> simp [registered_child, ih]

theorem registered_parent_filter (evs : List Event) :
    registered_parent (evs.filter Event.isStep) = registered_parent evs := by
  induction evs with
  | nil => rfl
  | cons e evs ih =>
    cases e <;> simp [List.filter_cons, Event.isStep, registered_parent, ih]
    split <;> simp [registered_parent, ih]

theorem postfork_no_init (env : Env) (st : State) :
    ∀ e ∈ jemalloc_postfork env st, e.isInit = false := by
  intro e he
  obtain ⟨m, hm⟩ := postfork_all_unlock env st e he
  rw [hm]
  rfl

end Init

namespace Init

open Mutex (malloc_mutex_t)

/-- C25 (amended): the handler that `malloc_init_hard` registers with `pthread_atfork` to
run in the child after `fork` is `jemalloc_postfork`, the handler it registers for the
parent: every registration of every run names it, and a successful run of the initialising
thread makes the registration. That handler unlocks the mutexes that `jemalloc_prefork`
locked; it initialises no mutex, so `malloc_mutex_postfork_child` and `malloc_mutex_init`
are not what runs in the child. -/
theorem malloc_init_hard_child_handler (env : Env) (st : State) (self : Nat) :
    (∀ p q c, Event.pthread_atfork p q c ∈ (malloc_init_hard env st self).evs →
        p = Handler.jemalloc_prefork ∧ q = Handler.jemalloc_postfork ∧
          c = Handler.jemalloc_postfork) ∧
      (st.malloc_initialized = false → st.malloc_initializer = 0 → self ≠ 0 →
        (malloc_init_hard env st self).out = InitOutcome.returned false →
        registered_child (malloc_init_hard env st self).evs =
            some Handler.jemalloc_postfork ∧
          registered_parent (malloc_init_hard env st self).evs =
            some Handler.jemalloc_postfork) ∧
      (∀ st1 : State,
        Handler.run env st1 Handler.jemalloc_postfork = jemalloc_postfork env st1 ∧
          (∀ e ∈ Handler.run env st1 Handler.jemalloc_postfork,
            ∃ m, e = Mutex.Event.malloc_mutex_unlock m) ∧
          (∀ e ∈ Handler.run env st1 Handler.jemalloc_postfork, e.isInit = false) ∧
          ((Handler.run env st1 Handler.jemalloc_postfork).filterMap
              Mutex.Event.unlocked).Perm
            ((Handler.run env st1 Handler.jemalloc_prefork).filterMap
              Mutex.Event.locked)) := by
  refine ⟨?_, ?_, ?_⟩
  · intro p q c hm
    have hf : Event.pthread_atfork p q c ∈
        (malloc_init_hard env st self).evs.filter Event.isAtfork :=
      List.mem_filter.mpr ⟨hm, rfl⟩
    rcases init_atfork env st self with h | h
    · rw [h, List.mem_singleton] at hf
      injection hf with h1 h2 h3
      exact ⟨h1, h2, h3⟩
    · rw [h] at hf
      cases hf
  · intro hi h0 hself hok
    obtain ⟨a0, _, he⟩ := init_steps env st self hi h0 hself hok
    rw [← registered_child_filter, ← registered_parent_filter, he]
    exact ⟨rfl, rfl⟩
  · intro st1
    exact ⟨rfl, postfork_all_unlock env st1, postfork_no_init env st1,
      postfork_perm_prefork env st1⟩

/-- C25 witness: the initialisation of the example build registers `jemalloc_postfork`
for the child. -/
theorem malloc_init_hard_child_handler_witness :
    ex_state0.malloc_initialized = false ∧ ex_state0.malloc_initializer = 0 ∧
      (malloc_init_hard ex_env ex_state0 1).out = InitOutcome.returned false ∧
      registered_child (malloc_init_hard ex_env ex_state0 1).evs =
        some Handler.jemalloc_postfork :=
  ⟨rfl, rfl, by decide,
    ((malloc_init_hard_child_handler ex_env ex_state0 1).2.1 rfl rfl (by decide)
      (by decide)).1⟩

/-- C25 counterexample: the handler registered for the child unlocks mutexes; in the
example state it unlocks six of them and initialises none. -/
theorem malloc_init_hard_child_handler_counterexample :
    ¬ (∀ (env : Env) (st : State) (self : Nat) (child : Handler) (st1 : State),
      registered_child (malloc_init_hard env st self).evs = some child →
      ∀ e ∈ Handler.run env st1 child, e.unlocked = none) := by
  intro h
  have h1 := h ex_env ex_state0 1 Handler.jemalloc_postfork ex_state (by decide)
    (Mutex.Event.malloc_mutex_unlock malloc_mutex_t.arenas_lock) (by decide)
  revert h1
  decide

end Init


namespace Init

/-- Claim C34, settled against the code: `malloc_ncpus` returns the answer of `sysconf`
converted to `unsigned` in every case, because the assignment `ret = (unsigned)result` is not
guarded by an `else`; on the error answer `-1` it returns `4294967295`, not `1`, while an
answer between `1` and `2^32 - 1` is returned as it is. -/
theorem malloc_ncpus_error_overwritten :
    malloc_ncpus (-1) = 4294967295 ∧ malloc_ncpus (-1) ≠ 1 ∧
    (∀ result : Int, malloc_ncpus result = (result % 2 ^ 32).toNat) ∧
    (∀ n : Nat, n < 2 ^ 32 → malloc_ncpus (n : Int) = n) := by
  refine ⟨by decide, by decide, fun result => rfl, fun n hn => ?_⟩
  show ((n : Int) % 2 ^ 32).toNat = n
  have h : ((n : Int) % 2 ^ 32) = (n : Int) := Int.emod_eq_of_lt (by omega) (by omega)
  rw [h]
  exact Int.toNat_natCast n

end Init

namespace Large

/-- A failed `large_ralloc_no_move_expand` leaves the descriptor as it was. -/
theorem expand_failure_extent (env : Env) (extent : extent_t) (usize : Nat) (zero : Bool)
    (h : (large_ralloc_no_move_expand env extent usize zero).2.2 = true) :
    (large_ralloc_no_move_expand env extent usize zero).1 = extent := by
  unfold large_ralloc_no_move_expand at h ⊢
  simp only at h ⊢
  split
  · rfl
  · split
    · rfl
    · rename_i h1 _ _ h2
      rw [h1] at h
      simp only [h2] at h
      exact absurd h (by simp)

/-- Claim C35, settled against the code: the number of times `large_dalloc_maybe_junk` writes
the region with `JEMALLOC_FREE_JUNK`. Because the `memset` after the inner `if` is outside
its body, the region is filled once when the chunk is about to be unmapped (`config_munmap`
and not in the DSS) and twice when it is not. -/
theorem large_dalloc_maybe_junk_fill_count (env : Env) (ptr usize : Nat) :
    (large_dalloc_maybe_junk env ptr usize).count (Event.memset ptr JEMALLOC_FREE_JUNK usize) =
      (if env.config_fill && env.have_dss && env.opt_junk_free then
        (if !env.config_munmap || env.chunk_in_dss ptr then 2 else 1)
       else 0) ∧
    large_dalloc_maybe_junk ex_env_junk 0x40000000 0x200000 =
      [Event.chunk_in_dss 0x40000000, Event.memset 0x40000000 JEMALLOC_FREE_JUNK 0x200000] ∧
    large_dalloc_maybe_junk ex_env_dss 0x40000000 0x200000 =
      [Event.chunk_in_dss 0x40000000, Event.memset 0x40000000 JEMALLOC_FREE_JUNK 0x200000,
        Event.memset 0x40000000 JEMALLOC_FREE_JUNK 0x200000] := by
  refine ⟨?_, by decide, by decide⟩
  unfold large_dalloc_maybe_junk
  cases h1 : env.config_fill <;> cases h2 : env.have_dss <;> cases h3 : env.opt_junk_free <;>
    cases h4 : env.config_munmap <;> cases h5 : env.chunk_in_dss ptr <;> simp [h5]

/-- Claim C31, settled against the code: when the expansion to `usize_max` fails and the
second attempt, to `usize_min`, fails as well, `large_ralloc_no_move` returns `false`
(allocation kept in place) with the descriptor unchanged, so with a usable size below
`usize_min`; the test of the second attempt lacks the negation that the first one has. -/
theorem large_ralloc_no_move_second_attempt (env : Env) (extent : extent_t)
    (usize_min usize_max : Nat) (zero : Bool)
    (hmax : usize_max > extent.e_usize)
    (h1 : (large_ralloc_no_move_expand env extent usize_max zero).2.2 = true)
    (hlt : usize_min < usize_max) (hmin : usize_min > extent.e_usize)
    (h2 : (large_ralloc_no_move_expand env extent usize_min zero).2.2 = true) :
    (large_ralloc_no_move env extent usize_min usize_max zero).2.2 = false ∧
    (large_ralloc_no_move env extent usize_min usize_max zero).1 = extent ∧
    (large_ralloc_no_move env extent usize_min usize_max zero).1.e_usize < usize_min := by
  have e1 := expand_failure_extent env extent usize_max zero h1
  have e2 := expand_failure_extent env extent usize_min zero h2
  have key : large_ralloc_no_move env extent usize_min usize_max zero =
      (extent, (large_ralloc_no_move_expand env extent usize_max zero).2.1 ++
        (large_ralloc_no_move_expand env extent usize_min zero).2.1 ++
        [Event.arena_decay_tick extent.e_arena], false) := by
    unfold large_ralloc_no_move
    simp only [if_pos hmax, h1, e1, Bool.not_true, Bool.false_eq_true, if_false]
    rw [if_pos ⟨hlt, hmin⟩]
    simp only [h2, e2, if_true]
  rw [key]
  exact ⟨rfl, rfl, hmin⟩

/-- The second attempt on a 2 MiB extent asked to grow to between 3 MiB and 4 MiB when the
chunk layer refuses every request. -/
theorem large_ralloc_no_move_second_attempt_witness :
    (large_ralloc_no_move ex_env_oom ex_extent_2m 0x300000 0x400000 false).2.2 = false ∧
    (large_ralloc_no_move ex_env_oom ex_extent_2m 0x300000 0x400000 false).1 = ex_extent_2m ∧
    (large_ralloc_no_move ex_env_oom ex_extent_2m 0x300000 0x400000 false).1.e_usize
      < 0x300000 :=
  large_ralloc_no_move_second_attempt ex_env_oom ex_extent_2m 0x300000 0x400000 false
    (by decide) (by decide) (by decide) (by decide) (by decide)

end Large


/-! ## `tcache_inlines.h`: the bin is a stack -/

namespace Tcache

theorem alloc_easy_avail (tbin : tcache_bin_t) :
    (tcache_alloc_easy tbin).1.avail = tbin.avail := by
  unfold tcache_alloc_easy
  split <;> rfl

theorem alloc_easy_top (tbin : tcache_bin_t) (h : tbin.ncached ≠ 0)
    (hn : tbin.ncached < 2 ^ 32) :
    (tcache_alloc_easy tbin).2 = (true, tbin.avail tbin.ncached) ∧
      (tcache_alloc_easy tbin).1.ncached = tbin.ncached - 1 := by
  have hdec : (tbin.ncached + (2 ^ 32 - 1)) % 2 ^ 32 = tbin.ncached - 1 := by omega
  unfold tcache_alloc_easy
  simp only [if_neg h, hdec]
  exact ⟨trivial, trivial⟩

theorem alloc_easy_seq_succ (n : Nat) (tbin : tcache_bin_t) :
    tcache_alloc_easy_seq (n + 1) tbin =
      ((tcache_alloc_easy (tcache_alloc_easy_seq n tbin).1).1,
        (tcache_alloc_easy_seq n tbin).2 ++
          [(tcache_alloc_easy (tcache_alloc_easy_seq n tbin).1).2]) := by
  induction n generalizing tbin with
  | zero => rfl
  | succ n ih =>
    have h : tcache_alloc_easy_seq (n + 1 + 1) tbin =
        ((tcache_alloc_easy_seq (n + 1) (tcache_alloc_easy tbin).1).1,
          (tcache_alloc_easy tbin).2 ::
            (tcache_alloc_easy_seq (n + 1) (tcache_alloc_easy tbin).1).2) := rfl
    rw [h, ih (tcache_alloc_easy tbin).1]
    rfl

theorem dalloc_small_push (env : Env) (tbin : tcache_bin_t) (tbin_info : tcache_bin_info_t)
    (ptr binind : Nat) (slow_path : Bool) (h : tbin.ncached ≠ tbin_info.ncached_max) :
    (tcache_dalloc_small env tbin tbin_info ptr binind slow_path).1 =
      tcache_bin_push tbin ptr := by
  have hf : tcache_dalloc_small_flushed tbin tbin_info = tbin := by
    unfold tcache_dalloc_small_flushed
    rw [if_neg h]
  unfold tcache_dalloc_small
  rw [hf]

/-- Pushes that do not fill the bin, followed by as many pops: the pops succeed and return
the pointers in reverse order, and the fill count and the entries up to the old top are as
before. -/
theorem push_pop_seq (env : Env) (tbin_info : tcache_bin_info_t) (binind : Nat)
    (slow_path : Bool) (hmax : tbin_info.ncached_max < 2 ^ 32) (ptrs : List Nat) :
    ∀ tbin : tcache_bin_t, tbin.ncached + ptrs.length ≤ tbin_info.ncached_max →
      (tcache_alloc_easy_seq ptrs.length
        (tcache_dalloc_small_seq env tbin_info binind slow_path tbin ptrs)).2 =
          ptrs.reverse.map (fun p => (true, p)) ∧
      (tcache_alloc_easy_seq ptrs.length
        (tcache_dalloc_small_seq env tbin_info binind slow_path tbin ptrs)).1.ncached =
          tbin.ncached ∧
      ∀ k, k ≤ tbin.ncached →
        (tcache_alloc_easy_seq ptrs.length
          (tcache_dalloc_small_seq env tbin_info binind slow_path tbin ptrs)).1.avail k =
            tbin.avail k := by
  induction ptrs with
  | nil => intro tbin _; exact ⟨rfl, rfl, fun _ _ => rfl⟩
  | cons p ps ih =>
    intro tbin hlen
    have hl : (p :: ps).length = ps.length + 1 := rfl
    rw [hl] at hlen
    have hne : tbin.ncached ≠ tbin_info.ncached_max := by omega
    have hpush := dalloc_small_push env tbin tbin_info p binind slow_path hne
    have hnc : (tcache_bin_push tbin p).ncached = tbin.ncached + 1 :=
      push_ncached tbin p (by omega)
    have hseq : tcache_dalloc_small_seq env tbin_info binind slow_path tbin (p :: ps) =
        tcache_dalloc_small_seq env tbin_info binind slow_path (tcache_bin_push tbin p) ps := by
      show tcache_dalloc_small_seq env tbin_info binind slow_path
        (tcache_dalloc_small env tbin tbin_info p binind slow_path).1 ps = _
      rw [hpush]
    obtain ⟨i1, i2, i3⟩ := ih (tcache_bin_push tbin p) (by rw [hnc]; omega)
    rw [hnc] at i2 i3
    rw [hl, hseq, alloc_easy_seq_succ]
    have htop := alloc_easy_top
      (tcache_alloc_easy_seq ps.length
        (tcache_dalloc_small_seq env tbin_info binind slow_path (tcache_bin_push tbin p) ps)).1
      (by rw [i2]; omega) (by rw [i2]; omega)
    rw [i2, i3 (tbin.ncached + 1) (Nat.le_refl _)] at htop
    have hp : (tcache_bin_push tbin p).avail (tbin.ncached + 1) = p := by
      rw [← hnc]; exact push_top tbin p
    rw [hp] at htop
    refine ⟨?_, ?_, ?_⟩
    · show _ ++ [_] = _
      rw [htop.1, i1]
      simp
    · show (tcache_alloc_easy _).1.ncached = _
      rw [htop.2]
      omega
    · intro k hk
      show (tcache_alloc_easy _).1.avail k = _
      rw [alloc_easy_avail, i3 k (by omega)]
      exact push_below tbin p k (by rw [hnc]; omega)

/-- Claim C39: on a bin with `ncached < ncached_max`, `tcache_dalloc_small(ptr)` followed by
`tcache_alloc_easy` returns `ptr` with `*tcache_success = true` and leaves `ncached` and
every entry up to the old top as they were; and any pushes that do not fill the bin,
followed by as many pops, are returned in reverse order with the same restoration. -/
theorem tcache_bin_lifo (env : Env) (tbin : tcache_bin_t) (tbin_info : tcache_bin_info_t)
    (binind : Nat) (slow_path : Bool) (hmax : tbin_info.ncached_max < 2 ^ 32) :
    (∀ ptr, tbin.ncached < tbin_info.ncached_max →
      (tcache_alloc_easy (tcache_dalloc_small env tbin tbin_info ptr binind slow_path).1).2 =
        (true, ptr) ∧
      (tcache_alloc_easy
        (tcache_dalloc_small env tbin tbin_info ptr binind slow_path).1).1.ncached =
          tbin.ncached ∧
      ∀ k, k ≤ tbin.ncached →
        (tcache_alloc_easy
          (tcache_dalloc_small env tbin tbin_info ptr binind slow_path).1).1.avail k =
            tbin.avail k) ∧
    (∀ ptrs : List Nat, tbin.ncached + ptrs.length ≤ tbin_info.ncached_max →
      (tcache_alloc_easy_seq ptrs.length
        (tcache_dalloc_small_seq env tbin_info binind slow_path tbin ptrs)).2 =
          ptrs.reverse.map (fun p => (true, p)) ∧
      (tcache_alloc_easy_seq ptrs.length
        (tcache_dalloc_small_seq env tbin_info binind slow_path tbin ptrs)).1.ncached =
          tbin.ncached ∧
      ∀ k, k ≤ tbin.ncached →
        (tcache_alloc_easy_seq ptrs.length
          (tcache_dalloc_small_seq env tbin_info binind slow_path tbin ptrs)).1.avail k =
            tbin.avail k) := by
  refine ⟨fun ptr hlt => ?_, fun ptrs h => push_pop_seq env tbin_info binind slow_path hmax ptrs tbin h⟩
  obtain ⟨h1, h2, h3⟩ := push_pop_seq env tbin_info binind slow_path hmax [ptr] tbin
    (by show tbin.ncached + 1 ≤ _; omega)
  have h1b : [(tcache_alloc_easy
      (tcache_dalloc_small env tbin tbin_info ptr binind slow_path).1).2] = [(true, ptr)] := h1
  exact ⟨(List.cons.inj h1b).1, h2, h3⟩

/-- The bin `ex_bin2` (two cached pointers) with room for five: pushing `0x5000` and popping
returns it, and three pushes come back in reverse order. -/
theorem tcache_bin_lifo_witness :
    ex_bin2.ncached < 5 ∧
    (tcache_alloc_easy (tcache_dalloc_small ex_env ex_bin2 ⟨5⟩ 0x5000 0 false).1).2 =
      (true, 0x5000) ∧
    (tcache_alloc_easy_seq 3
      (tcache_dalloc_small_seq ex_env ⟨5⟩ 0 false ex_bin2 [0x5000, 0x6000, 0x7000])).2 =
        [(true, 0x7000), (true, 0x6000), (true, 0x5000)] ∧
    (tcache_alloc_easy_seq 3
      (tcache_dalloc_small_seq ex_env ⟨5⟩ 0 false ex_bin2
        [0x5000, 0x6000, 0x7000])).1.ncached = 2 :=
  ⟨by decide,
    ((tcache_bin_lifo ex_env ex_bin2 ⟨5⟩ 0 false (by decide)).1 0x5000 (by decide)).1,
    ((tcache_bin_lifo ex_env ex_bin2 ⟨5⟩ 0 false (by decide)).2 [0x5000, 0x6000, 0x7000]
      (by decide)).1,
    ((tcache_bin_lifo ex_env ex_bin2 ⟨5⟩ 0 false (by decide)).2 [0x5000, 0x6000, 0x7000]
      (by decide)).2.1⟩

end Tcache


/-! ## `jemalloc.c`: `init_lock` along the paths of `malloc_init_hard` -/

namespace Init

open Mutex (malloc_mutex_t)

theorem held_append (a b : List Event) :
    init_lock_held (a ++ b) = init_lock_held a + init_lock_held b := by
  unfold init_lock_held
  simp only [List.filter_append, List.length_append]
  push_cast
  omega

theorem held_unlock : init_lock_held [unlock malloc_mutex_t.init_lock] = -1 := by decide

theorem held_lock : init_lock_held [lock malloc_mutex_t.init_lock] = 1 := by decide

theorem held_mutex_init (env : Mutex.Env) (m : malloc_mutex_t) :
    init_lock_held ((Mutex.malloc_mutex_init env m).1.map Event.mutex) = 0 := by
  unfold Mutex.malloc_mutex_init
  split_ifs <;> rfl

theorem held_arenas_extend (env : Env) (st : State) (ind : Nat) :
    init_lock_held (arenas_extend env st ind).2.1 = 0 := by
  unfold arenas_extend
  simp only []
  split_ifs <;> rfl

theorem arenas_held (env : Env) (st : State) (evs : List Event) (arena0 : Nat) :
    init_lock_held (malloc_init_hard_arenas env st evs arena0).evs = init_lock_held evs - 1 := by
  unfold malloc_init_hard_arenas
  simp only []
  split_ifs <;> simp only [held_append] <;>
    simp [init_lock_held, Event.isInitLock, Event.isInitUnlock, unlock] <;> omega

theorem narenas_held (env : Env) (st : State) (evs : List Event) (arena0 : Nat) (b : Bool)
    (h : (malloc_init_hard_narenas env st evs arena0).out = InitOutcome.returned b) :
    init_lock_held (malloc_init_hard_narenas env st evs arena0).evs = init_lock_held evs - 1 := by
  unfold malloc_init_hard_narenas at h ⊢
  simp only [] at h ⊢
  cases hn : narenas_derive env.w env.chunksize st.ncpus (smp_lshift env st) with
  | none => rw [hn] at h; cases h
  | some n =>
    rw [hn] at h
    simp only [] at h ⊢
    split_ifs at h ⊢
    all_goals exact arenas_held env _ evs arena0

theorem ncpus_held (env : Env) (st : State) (evs : List Event) (self : Nat) (b : Bool)
    (h : (malloc_init_hard_ncpus env st evs self).out = InitOutcome.returned b) :
    init_lock_held (malloc_init_hard_ncpus env st evs self).evs = init_lock_held evs - 1 := by
  unfold malloc_init_hard_ncpus at h ⊢
  simp only [] at h ⊢
  rw [narenas_held env _ _ _ b h]
  simp only [held_append, held_mutex_init]
  have e : init_lock_held [unlock malloc_mutex_t.init_lock,
      Event.sysconf "_SC_NPROCESSORS_ONLN", lock malloc_mutex_t.init_lock] = 0 := by decide
  rw [e]
  omega

end Init


namespace Init

open Mutex (malloc_mutex_t)

theorem arena0_held (env : Env) (st : State) (evs : List Event) (self : Nat) (b : Bool)
    (h : (malloc_init_hard_arena0 env st evs self).out = InitOutcome.returned b) :
    init_lock_held (malloc_init_hard_arena0 env st evs self).evs = init_lock_held evs - 1 := by
  unfold malloc_init_hard_arena0 at h ⊢
  simp only [] at h ⊢
  have hx := held_arenas_extend env
    { st with narenas := 1, arenas_addr := env.init_arenas, arenas := fun _ => 0 } 0
  rcases he : arenas_extend env
    { st with narenas := 1, arenas_addr := env.init_arenas, arenas := fun _ => 0 } 0 with
    ⟨st2, evs2, out⟩
  rw [he] at hx h
  simp only at hx
  cases out with
  | aborted => cases h
  | returned r =>
    simp only [] at h ⊢
    split_ifs at h ⊢
    · simp only [held_append, hx, held_unlock]
      omega
    · rw [ncpus_held env st2 (evs ++ evs2) self b h, held_append, hx]
      omega

theorem held_single (e : Event) (h1 : e.isInitLock = false) (h2 : e.isInitUnlock = false) :
    init_lock_held [e] = 0 := by
  simp [init_lock_held, List.filter_cons, h1, h2]

theorem boot_held (env : Env) (st : State) (evs : List Event) (self : Nat) (b : Bool)
    (h : (malloc_init_hard_boot env st evs self).out = InitOutcome.returned b) :
    init_lock_held (malloc_init_hard_boot env st evs self).evs = init_lock_held evs - 1 := by
  have e1 : init_lock_held [Event.chunk_boot, unlock malloc_mutex_t.init_lock] = -1 := by
    decide
  have e2 : init_lock_held [Event.chunk_boot, Event.base_boot,
      unlock malloc_mutex_t.init_lock] = -1 := by decide
  have e3 : init_lock_held [Event.chunk_boot, Event.base_boot, Event.arena_boot,
      unlock malloc_mutex_t.init_lock] = -1 := by decide
  have e4 : init_lock_held [Event.chunk_boot, Event.base_boot, Event.arena_boot] = 0 := by
    decide
  have e5 : init_lock_held [Event.huge_boot, unlock malloc_mutex_t.init_lock] = -1 := by
    decide
  have e6 : init_lock_held [Event.huge_boot] = 0 := by decide
  have e7 : init_lock_held (if env.JEMALLOC_TCACHE then [Event.tcache_boot] else []) = 0 := by
    split <;> decide
  unfold malloc_init_hard_boot at h ⊢
  by_cases c1 : env.chunk_boot = true
  · rw [if_pos c1, held_append, e1]; omega
  · rw [if_neg c1] at h ⊢
    by_cases c2 : env.base_boot = true
    · rw [if_pos c2, held_append, e2]; omega
    · rw [if_neg c2] at h ⊢
      by_cases c3 : env.arena_boot = true
      · rw [if_pos c3, held_append, e3]; omega
      · rw [if_neg c3] at h ⊢
        simp only [] at h ⊢
        by_cases c4 : env.huge_boot = true
        · rw [if_pos c4, held_append, held_append, held_append, e4, e5, e7]; omega
        · rw [if_neg c4] at h ⊢
          rw [arena0_held env st _ self b h, held_append, held_append, held_append, e4, e6,
            e7]
          omega

theorem atexit_held (env : Env) (st : State) (evs : List Event) (self : Nat) (b : Bool)
    (h : (malloc_init_hard_atexit env st evs self).out = InitOutcome.returned b) :
    init_lock_held (malloc_init_hard_atexit env st evs self).evs = init_lock_held evs - 1 := by
  have e1 : init_lock_held [Event.atexit,
      Event.malloc_write4 "<jemalloc>" ": Error in atexit()\n" "" ""] = 0 := by decide
  have e2 : init_lock_held [Event.atexit] = 0 := by decide
  unfold malloc_init_hard_atexit at h ⊢
  split_ifs at h ⊢
  · rw [boot_held env st _ self b h, held_append, e1]; omega
  · rw [boot_held env st _ self b h, held_append, e2]; omega
  · exact boot_held env st evs self b h

theorem ctl_held (env : Env) (st : State) (evs : List Event) (self : Nat) (b : Bool)
    (h : (malloc_init_hard_ctl env st evs self).out = InitOutcome.returned b) :
    init_lock_held (malloc_init_hard_ctl env st evs self).evs = init_lock_held evs - 1 := by
  have e1 : init_lock_held [Event.ctl_boot, unlock malloc_mutex_t.init_lock] = -1 := by decide
  have e2 : init_lock_held [Event.ctl_boot, Event.trace_boot,
      unlock malloc_mutex_t.init_lock] = -1 := by decide
  have e3 : init_lock_held [Event.ctl_boot, Event.trace_boot] = 0 := by decide
  have e4 : init_lock_held [Event.ctl_boot] = 0 := by decide
  unfold malloc_init_hard_ctl at h ⊢
  split_ifs at h ⊢
  · rw [held_append, e1]; omega
  · rw [held_append, e2]; omega
  · rw [atexit_held env st _ self b h, held_append, e3]; omega
  · rw [atexit_held env st _ self b h, held_append, e4]; omega

theorem atfork_held (env : Env) (st : State) (evs : List Event) (self : Nat) (b : Bool)
    (h : (malloc_init_hard_atfork env st evs self).out = InitOutcome.returned b) :
    init_lock_held (malloc_init_hard_atfork env st evs self).evs = init_lock_held evs - 1 := by
  have e1 : init_lock_held [Event.pthread_atfork Handler.jemalloc_prefork
      Handler.jemalloc_postfork Handler.jemalloc_postfork,
      Event.malloc_write4 "<jemalloc>" ": Error in pthread_atfork()\n" "" ""] = 0 := by decide
  have e2 : init_lock_held [Event.pthread_atfork Handler.jemalloc_prefork
      Handler.jemalloc_postfork Handler.jemalloc_postfork] = 0 := by decide
  unfold malloc_init_hard_atfork at h ⊢
  simp only [] at h ⊢
  split_ifs at h ⊢
  · rw [ctl_held env st _ self b h, held_append, e1]; omega
  · rw [ctl_held env st _ self b h, held_append, e2]; omega

theorem opts_held (env : Env) (st : State) (evs : List Event) (self : Nat) (b : Bool)
    (h : (malloc_init_hard_opts env st evs self).out = InitOutcome.returned b) :
    init_lock_held (malloc_init_hard_opts env st evs self).evs = init_lock_held evs - 1 := by
  unfold malloc_init_hard_opts at h ⊢
  cases hr : opts_rounds env 3 0 st evs with
  | none => rw [hr] at h; cases h
  | some r =>
    rw [hr] at h
    simp only [] at h ⊢
    rw [atfork_held env r.1 r.2 self b h]
    have f1 := opts_rounds_filter env Event.isInitLock (fun _ => rfl) (fun _ _ _ _ => rfl)
      st evs r hr
    have f2 := opts_rounds_filter env Event.isInitUnlock (fun _ => rfl) (fun _ _ _ _ => rfl)
      st evs r hr
    have g : init_lock_held r.2 = init_lock_held evs := by
      unfold init_lock_held
      rw [f1, f2]
      simp [Event.isInitLock, Event.isInitUnlock]
    rw [g]

theorem page_held (env : Env) (st : State) (evs : List Event) (self : Nat) (b : Bool)
    (h : (malloc_init_hard_page env st evs self).out = InitOutcome.returned b) :
    init_lock_held (malloc_init_hard_page env st evs self).evs = init_lock_held evs - 1 := by
  have e1 : init_lock_held [Event.sysconf "_SC_PAGESIZE"] = 0 := by decide
  unfold malloc_init_hard_page at h ⊢
  simp only [] at h ⊢
  split_ifs at h ⊢
  · rw [opts_held env _ _ self b h, held_append, e1]; omega
  · exact opts_held env st evs self b h

theorem held_spin_rounds (n : Nat) : init_lock_held (spin_rounds n) = 0 := by
  induction n with
  | zero => rfl
  | succ n ih =>
    have e : init_lock_held [unlock malloc_mutex_t.init_lock, Event.CPU_SPINWAIT,
        lock malloc_mutex_t.init_lock] = 0 := by decide
    show init_lock_held (_ ++ spin_rounds n) = 0
    rw [held_append, ih, e]
    rfl

/-- Claim C33, settled against the code: on every path on which `malloc_init_hard` returns,
`init_lock` has been unlocked as often as it was locked, except the busy-wait path (another
thread is initialising), which returns right after `malloc_mutex_lock(&init_lock)`: there
the calling thread still holds `init_lock`. -/
theorem malloc_init_hard_init_lock (env : Env) (st : State) (self : Nat) (b : Bool)
    (h : (malloc_init_hard env st self).out = InitOutcome.returned b) :
    init_lock_held (malloc_init_hard env st self).evs =
      if st.malloc_initialized = false ∧ st.malloc_initializer ≠ self ∧
          st.malloc_initializer ≠ 0 then 1 else 0 := by
  unfold malloc_init_hard at h ⊢
  by_cases h1 : (st.malloc_initialized || decide (st.malloc_initializer = self)) = true
  · rw [if_pos h1]
    have hc : ¬ (st.malloc_initialized = false ∧ st.malloc_initializer ≠ self ∧
        st.malloc_initializer ≠ 0) := by
      intro ⟨a, c, _⟩
      rw [a] at h1
      simp at h1
      exact c h1
    rw [if_neg hc]
    show init_lock_held [lock malloc_mutex_t.init_lock, unlock malloc_mutex_t.init_lock] = 0
    decide
  · rw [if_neg h1] at h ⊢
    have h1a : st.malloc_initialized = false := by
      cases hi : st.malloc_initialized
      · rfl
      · rw [hi] at h1; simp at h1
    have h1b : st.malloc_initializer ≠ self := by
      intro hc
      rw [hc] at h1
      simp at h1
    by_cases h2 : st.malloc_initializer ≠ 0
    · rw [if_pos h2] at h ⊢
      rw [if_pos ⟨h1a, h1b, h2⟩]
      cases hw : env.init_wait with
      | none => rw [hw] at h; cases h
      | some n =>
        simp only []
        show init_lock_held ([lock malloc_mutex_t.init_lock] ++ spin_rounds (n + 1)) = 1
        rw [held_append, held_spin_rounds, held_lock]
        rfl
    · rw [if_neg h2] at h ⊢
      rw [if_neg (fun hc => h2 hc.2.2), page_held env st _ self b h, held_lock]
      rfl

/-- Thread 2 calls `malloc_init_hard` while thread 1 is initialising: the call returns
`false` after one round of the busy-wait loop, and thread 2 holds `init_lock`. -/
theorem malloc_init_hard_init_lock_witness :
    (malloc_init_hard ex_env ex_state_busy 2).out = InitOutcome.returned false ∧
    (malloc_init_hard ex_env ex_state_busy 2).evs =
      [lock malloc_mutex_t.init_lock, unlock malloc_mutex_t.init_lock, Event.CPU_SPINWAIT,
        lock malloc_mutex_t.init_lock] ∧
    init_lock_held (malloc_init_hard ex_env ex_state_busy 2).evs = 1 :=
  ⟨by decide, by decide,
    (malloc_init_hard_init_lock ex_env ex_state_busy 2 false (by decide)).trans (by decide)⟩

end Init


/-! ## `jemalloc.c`: the reads of the option-parsing loop -/

namespace Init

/-- Whether a string read after a digit (`nseen`) or not ends in a digit, one character on. -/
theorem getLast_digit_cons (c : Char) (cs : List Char) (nseen : Bool) :
    ((c :: cs).getLast?.map Char.isDigit).getD nseen =
      (cs.getLast?.map Char.isDigit).getD c.isDigit := by
  cases cs with
  | nil => rfl
  | cons d ds => rw [List.getLast?_cons_cons]; rfl

theorem opts_reads_bound (cs : List Char) :
    ∀ j nreps nseen, ∀ i ∈ opts_reads cs j nreps nseen, i ≤ j + cs.length + 1 := by
  induction cs with
  | nil =>
    intro j nreps nseen i hi
    unfold opts_reads at hi
    split at hi
    · simp only [List.mem_append, List.mem_singleton, List.mem_replicate] at hi
      rcases hi with (h | h) | h
      · omega
      · omega
      · rw [h]; simp
    · simp only [List.mem_singleton] at hi
      omega
  | cons c cs ih =>
    intro j nreps nseen i hi
    unfold opts_reads at hi
    simp only [] at hi
    have hl : (c :: cs).length = cs.length + 1 := rfl
    split at hi
    · simp only [List.mem_append, List.mem_singleton] at hi
      rcases hi with (h | h) | h
      · have : i = j := by
          split at h
          · cases h
          · exact List.mem_singleton.mp h
        omega
      · omega
      · have := ih _ _ _ i h
        omega
    · simp only [List.mem_append, List.mem_singleton, List.mem_replicate] at hi
      rcases hi with ((h | h) | h) | h
      · have : i = j := by
          split at h
          · cases h
          · exact List.mem_singleton.mp h
        omega
      · omega
      · omega
      · have := ih _ _ _ i h
        omega

theorem opts_reads_past (cs : List Char) :
    ∀ j nreps nseen, (j + cs.length + 1 ∈ opts_reads cs j nreps nseen ↔
      (cs.getLast?.map Char.isDigit).getD nseen = true) := by
  induction cs with
  | nil =>
    intro j nreps nseen
    unfold opts_reads
    cases nseen
    · simp
    · simp
  | cons c cs ih =>
    intro j nreps nseen
    rw [getLast_digit_cons]
    have hl : j + (c :: cs).length + 1 = (j + 1) + cs.length + 1 := by
      show j + (cs.length + 1) + 1 = _
      omega
    rw [hl]
    unfold opts_reads
    simp only []
    have ht : (j + 1) + cs.length + 1 ∉ (if nseen = true then [] else [j]) := by
      split
      · simp
      · simp only [List.mem_singleton]; omega
    by_cases hd : c.isDigit = true
    · rw [if_pos hd, hd]
      simp only [List.mem_append, List.mem_singleton]
      rw [← ih (j + 1) ((nreps * 10 + (c.toNat - '0'.toNat)) % 2 ^ 32) true]
      constructor
      · rintro ((h | h) | h)
        · exact absurd h ht
        · omega
        · exact h
      · exact fun h => Or.inr h
    · rw [if_neg hd]
      have hd2 : c.isDigit = false := by simpa using hd
      rw [hd2]
      simp only [List.mem_append, List.mem_singleton, List.mem_replicate]
      rw [← ih (j + 1) 0 false]
      constructor
      · rintro (((h | h) | h) | h)
        · exact absurd h ht
        · omega
        · omega
        · exact h
      · exact fun h => Or.inr h

theorem opts_parse_none (env : Env) (cs : List Char) :
    ∀ nreps nseen st evs, (opts_parse env cs nreps nseen st evs = none ↔
      (cs.getLast?.map Char.isDigit).getD nseen = true) := by
  induction cs with
  | nil =>
    intro nreps nseen st evs
    unfold opts_parse
    cases nseen <;> simp
  | cons c cs ih =>
    intro nreps nseen st evs
    rw [getLast_digit_cons]
    unfold opts_parse
    by_cases hd : c.isDigit = true
    · rw [if_pos hd, hd]
      exact ih _ _ _ _
    · rw [if_neg hd]
      have hd2 : c.isDigit = false := by simpa using hd
      rw [hd2]
      exact ih _ _ _ _

/-- Claim C32, settled against the code: the option loop reads `opts[j]` at the index after
the terminating NUL exactly when the string ends in a digit (a repetition count with no
option after it), and never further in the part of the run that the string determines;
for the string `"2"`, whose terminator is at index 1, the loop reads index 2. -/
theorem opts_reads_past_terminator (env : Env) (cs : List Char) (st : State)
    (evs : List Event) :
    (cs.length + 1 ∈ opts_reads cs 0 0 false ↔
      ∃ c, cs.getLast? = some c ∧ c.isDigit = true) ∧
    (opts_parse env cs 0 false st evs = none ↔
      ∃ c, cs.getLast? = some c ∧ c.isDigit = true) ∧
    (∀ i ∈ opts_reads cs 0 0 false, i ≤ cs.length + 1) ∧
    opts_reads ['2'] 0 0 false = [0, 0, 1, 1, 1, 2] ∧
    opts_parse env ['2'] 0 false st evs = none := by
  have hx : ((cs.getLast?.map Char.isDigit).getD false = true) ↔
      ∃ c, cs.getLast? = some c ∧ c.isDigit = true := by
    cases cs.getLast? with
    | none => simp
    | some c => simp
  have h1 := opts_reads_past cs 0 0 false
  rw [Nat.zero_add] at h1
  refine ⟨h1.trans hx, (opts_parse_none env cs 0 false st evs).trans hx, ?_, by decide, ?_⟩
  · intro i hi
    have := opts_reads_bound cs 0 0 false i hi
    omega
  · exact (opts_parse_none env ['2'] 0 false st evs).mpr (by decide)

end Init


/-! ## `jemalloc.c`: the options `k`, `K`, `m` and `M` keep the chunk large enough -/

namespace Init

theorem shl_unsigned_small (L : LgEnv) (a n : Nat) (hn : n < 32) (h : a * 2 ^ n < 2 ^ 32) :
    shl_unsigned L a n = a * 2 ^ n := by
  unfold shl_unsigned
  rw [if_pos hn, Nat.mod_eq_of_lt h]

theorem shl_unsigned_one_le (L : LgEnv) (n : Nat) : shl_unsigned L 1 n ≤ 2 ^ 31 := by
  have hp : ∀ k, k < 32 → (1 * 2 ^ k) % 2 ^ 32 ≤ 2 ^ 31 := by
    intro k hk
    have h1 : 2 ^ k ≤ 2 ^ 31 := Nat.pow_le_pow_right (by decide) (by omega)
    have h2 : (1 * 2 ^ k) % 2 ^ 32 ≤ 1 * 2 ^ k := Nat.mod_le _ _
    omega
  unfold shl_unsigned
  split
  · exact hp n (by assumption)
  · split
    · exact hp (n % 32) (Nat.mod_lt _ (by decide))
    · exact Nat.zero_le _

theorem lg_sz_sub_one (w c : Nat) (h1 : 1 ≤ c) (h2 : c < 2 ^ w) : sz_sub w c 1 = c - 1 := by
  unfold sz_sub
  have hw : 1 < 2 ^ w := by omega
  have e : 1 % 2 ^ w = 1 := Nat.mod_eq_of_lt hw
  rw [e]
  have e2 : c + (2 ^ w - 1) = (c - 1) + 2 ^ w := by omega
  rw [e2, Nat.add_mod_right]
  exact Nat.mod_eq_of_lt (by omega)

theorem lg_sz_add_one (w c : Nat) (h : c + 1 < 2 ^ w) : sz_add w c 1 = c + 1 := by
  unfold sz_add
  exact Nat.mod_eq_of_lt h

theorem pow_two_succ_le (a b : Nat) (h : a < b) : 2 * 2 ^ a ≤ 2 ^ b := by
  have h1 : 2 ^ (a + 1) ≤ 2 ^ b := Nat.pow_le_pow_right (by decide) h
  rw [Nat.pow_succ] at h1
  omega

theorem lg_invariant_mk (L : LgEnv) (c m : Nat)
    (h1 : 2 ^ c ≥ 2 * 2 ^ L.PAGE_SHIFT + 2 ^ m) (h2 : L.PAGE_SHIFT ≤ m) (h3 : m < c)
    (h4 : c < 8 * SIZEOF_PTR L.w) : lg_invariant L ⟨c, m⟩ := ⟨h1, h2, h3, h4⟩

/-- The option `k` keeps the invariant. -/
theorem lg_k (L : LgEnv) (o : LgState) (hw : L.w = 32 ∨ L.w = 64) (hps : L.PAGE_SHIFT ≤ 29)
    (h : lg_invariant L o) : lg_invariant L (opt_lg_apply L o 'k') := by
  obtain ⟨h1, h2, h3, h4⟩ := h
  have hW : 8 * SIZEOF_PTR L.w ≤ 64 := by
    rcases hw with e | e <;> simp [SIZEOF_PTR, e]
  have hc64 : o.opt_lg_chunk < 64 := by omega
  have hcw : o.opt_lg_chunk < 2 ^ L.w := by
    rcases hw with e | e <;> rw [e] <;> omega
  have hsub : sz_sub L.w o.opt_lg_chunk 1 = o.opt_lg_chunk - 1 :=
    lg_sz_sub_one L.w o.opt_lg_chunk (by omega) hcw
  have hA : 2 * 2 ^ L.PAGE_SHIFT ≤ 2 ^ 30 := pow_two_succ_le _ _ (by omega)
  have hshlA : shl_unsigned L 2 L.PAGE_SHIFT = 2 * 2 ^ L.PAGE_SHIFT :=
    shl_unsigned_small L 2 L.PAGE_SHIFT (by omega) (by omega)
  have hk : opt_lg_apply L o 'k' =
      if shl_unsigned L 1 (sz_sub L.w o.opt_lg_chunk 1) ≥
        (shl_unsigned L 2 L.PAGE_SHIFT + shl_unsigned L 1 o.opt_lg_medium_max) % 2 ^ 32 then
        { o with opt_lg_chunk := sz_sub L.w o.opt_lg_chunk 1 }
      else o := by
    unfold opt_lg_apply
    rw [if_pos rfl]
  rw [hk, hsub, hshlA]
  have hM := shl_unsigned_one_le L o.opt_lg_medium_max
  have hsum : (2 * 2 ^ L.PAGE_SHIFT + shl_unsigned L 1 o.opt_lg_medium_max) % 2 ^ 32 =
      2 * 2 ^ L.PAGE_SHIFT + shl_unsigned L 1 o.opt_lg_medium_max :=
    Nat.mod_eq_of_lt (by omega)
  rw [hsum]
  split
  · rename_i ht
    have key : 2 ^ (o.opt_lg_chunk - 1) ≥ 2 * 2 ^ L.PAGE_SHIFT + 2 ^ o.opt_lg_medium_max := by
      by_cases hc : o.opt_lg_chunk - 1 < 32
      · have hm31 : 2 ^ o.opt_lg_medium_max ≤ 2 ^ 31 :=
          Nat.pow_le_pow_right (by decide) (by omega)
        have hc31 : 2 ^ (o.opt_lg_chunk - 1) ≤ 2 ^ 31 :=
          Nat.pow_le_pow_right (by decide) (by omega)
        rw [shl_unsigned_small L 1 (o.opt_lg_chunk - 1) hc (by omega),
          shl_unsigned_small L 1 o.opt_lg_medium_max (by omega) (by omega)] at ht
        omega
      · by_cases hm : o.opt_lg_medium_max = o.opt_lg_chunk - 1
        · rw [← hm] at ht
          have hpos : 0 < 2 * 2 ^ L.PAGE_SHIFT := by positivity
          omega
        · have hlt : o.opt_lg_medium_max < o.opt_lg_chunk - 1 := by omega
          have e1 := pow_two_succ_le o.opt_lg_medium_max (o.opt_lg_chunk - 1) hlt
          have e2 : 2 ^ 31 ≤ 2 ^ (o.opt_lg_chunk - 1) :=
            Nat.pow_le_pow_right (by decide) (by omega)
          have e3 := pow_two_succ_le (o.opt_lg_chunk - 2) (o.opt_lg_chunk - 1) (by omega)
          have e4 : 2 ^ o.opt_lg_medium_max ≤ 2 ^ (o.opt_lg_chunk - 2) :=
            Nat.pow_le_pow_right (by decide) (by omega)
          have e5 : 2 ^ 30 ≤ 2 ^ (o.opt_lg_chunk - 2) :=
            Nat.pow_le_pow_right (by decide) (by omega)
          omega
    refine lg_invariant_mk L _ _ key h2 ?_ (by omega)
    by_contra hn
    have hge : 2 ^ (o.opt_lg_chunk - 1) ≤ 2 ^ o.opt_lg_medium_max :=
      Nat.pow_le_pow_right (by decide) (by omega)
    have hpos : 0 < 2 * 2 ^ L.PAGE_SHIFT := by positivity
    omega
  · exact ⟨h1, h2, h3, h4⟩

/-- The options `K`, `m` and `M` keep the invariant. -/
theorem lg_Kmm (L : LgEnv) (o : LgState) (hw : L.w = 32 ∨ L.w = 64)
    (h : lg_invariant L o) :
    lg_invariant L (opt_lg_apply L o 'K') ∧ lg_invariant L (opt_lg_apply L o 'm') ∧
      lg_invariant L (opt_lg_apply L o 'M') := by
  obtain ⟨h1, h2, h3, h4⟩ := h
  have hW : 8 * SIZEOF_PTR L.w ≤ 64 := by
    rcases hw with e | e <;> simp [SIZEOF_PTR, e]
  have hcw : o.opt_lg_chunk + 1 < 2 ^ L.w := by
    rcases hw with e | e <;> rw [e] <;> omega
  have hbits : sz_shl L.w (SIZEOF_PTR L.w) 3 = 8 * SIZEOF_PTR L.w := by
    unfold sz_shl SIZEOF_PTR
    rcases hw with e | e <;> rw [e] <;> rfl
  refine ⟨?_, ?_, ?_⟩
  · have hk : opt_lg_apply L o 'K' =
        if sz_add L.w o.opt_lg_chunk 1 < sz_shl L.w (SIZEOF_PTR L.w) 3 then
          { o with opt_lg_chunk := sz_add L.w o.opt_lg_chunk 1 }
        else o := by
      unfold opt_lg_apply
      rw [if_neg (by decide), if_pos rfl]
    rw [hk, lg_sz_add_one L.w _ hcw, hbits]
    split
    · have e : 2 ^ o.opt_lg_chunk ≤ 2 ^ (o.opt_lg_chunk + 1) :=
        Nat.pow_le_pow_right (by decide) (by omega)
      exact lg_invariant_mk L _ _ (by omega) h2 (by omega) (by assumption)
    · exact ⟨h1, h2, h3, h4⟩
  · have hk : opt_lg_apply L o 'm' =
        if o.opt_lg_medium_max > L.PAGE_SHIFT then
          { o with opt_lg_medium_max := sz_sub L.w o.opt_lg_medium_max 1 }
        else o := by
      unfold opt_lg_apply
      rw [if_neg (by decide), if_neg (by decide), if_pos rfl]
    rw [hk]
    split
    · rw [lg_sz_sub_one L.w o.opt_lg_medium_max (by omega) (by omega)]
      have e : 2 ^ (o.opt_lg_medium_max - 1) ≤ 2 ^ o.opt_lg_medium_max :=
        Nat.pow_le_pow_right (by decide) (by omega)
      exact lg_invariant_mk L _ _ (by omega) (by omega) (by omega) h4
    · exact ⟨h1, h2, h3, h4⟩
  · have hk : opt_lg_apply L o 'M' =
        if sz_add L.w o.opt_lg_medium_max 1 < o.opt_lg_chunk then
          { o with opt_lg_medium_max := sz_add L.w o.opt_lg_medium_max 1 }
        else o := by
      unfold opt_lg_apply
      rw [if_neg (by decide), if_neg (by decide), if_neg (by decide), if_pos rfl]
    rw [hk, lg_sz_add_one L.w _ (by omega)]
    split
    · rename_i ht
      have e1 := pow_two_succ_le (o.opt_lg_medium_max + 1) o.opt_lg_chunk ht
      have e2 : 2 ^ (o.opt_lg_medium_max + 1) = 2 * 2 ^ o.opt_lg_medium_max := by
        rw [Nat.pow_succ]; omega
      have e3 : 2 ^ L.PAGE_SHIFT ≤ 2 ^ o.opt_lg_medium_max :=
        Nat.pow_le_pow_right (by decide) h2
      exact lg_invariant_mk L _ _ (by omega) (by omega) ht h4
    · exact ⟨h1, h2, h3, h4⟩

end Init


namespace Init

theorem lg_apply_inv (L : LgEnv) (o : LgState) (hw : L.w = 32 ∨ L.w = 64)
    (hps : L.PAGE_SHIFT ≤ 29) (h : lg_invariant L o) (c : Char) :
    lg_invariant L (opt_lg_apply L o c) := by
  by_cases c1 : c = 'k'
  · rw [c1]; exact lg_k L o hw hps h
  · by_cases c2 : c = 'K'
    · rw [c2]; exact (lg_Kmm L o hw h).1
    · by_cases c3 : c = 'm'
      · rw [c3]; exact (lg_Kmm L o hw h).2.1
      · by_cases c4 : c = 'M'
        · rw [c4]; exact (lg_Kmm L o hw h).2.2
        · unfold opt_lg_apply
          rw [if_neg c1, if_neg c2, if_neg c3, if_neg c4]
          exact h

theorem lg_repeat_inv (L : LgEnv) (hw : L.w = 32 ∨ L.w = 64) (hps : L.PAGE_SHIFT ≤ 29)
    (c : Char) (n : Nat) :
    ∀ o, lg_invariant L o → lg_invariant L (opt_lg_repeat L n o c) := by
  induction n with
  | zero => intro o h; exact h
  | succ n ih => intro o h; exact ih _ (lg_apply_inv L o hw hps h c)

theorem lg_run_inv (L : LgEnv) (hw : L.w = 32 ∨ L.w = 64) (hps : L.PAGE_SHIFT ≤ 29)
    (evs : List Event) :
    ∀ o, lg_invariant L o → lg_invariant L (opt_lg_run L o evs) := by
  induction evs with
  | nil => intro o h; exact h
  | cons e evs ih =>
    intro o h
    cases e
    case opt_lg c => exact ih _ (lg_apply_inv L o hw hps h c)
    all_goals exact ih o h

theorem lg_run_append (L : LgEnv) (a b : List Event) :
    ∀ o, opt_lg_run L o (a ++ b) = opt_lg_run L (opt_lg_run L o a) b := by
  induction a with
  | nil => intro o; rfl
  | cons e a ih =>
    intro o
    cases e
    case opt_lg c => exact ih _
    all_goals exact ih o

/-- The effects of `nreps` executions of one of the four options act on the two variables
as the repeated `switch` does. -/
theorem lg_run_repeat (L : LgEnv) (env : Env) (c : Char)
    (hc : c = 'k' ∨ c = 'K' ∨ c = 'm' ∨ c = 'M') (n : Nat) :
    ∀ (o : LgState) (st : State),
      opt_lg_run L o (opt_repeat env n st c).2 = opt_lg_repeat L n o c := by
  have hap : ∀ st, opt_apply env st c = (st, [Event.opt_lg c]) := by
    intro st
    rcases hc with e | e | e | e <;> rw [e] <;> rfl
  induction n with
  | zero => intro o st; rfl
  | succ n ih =>
    intro o st
    show opt_lg_run L o ((opt_apply env st c).2 ++ (opt_repeat env n (opt_apply env st c).1 c).2)
      = opt_lg_repeat L n (opt_lg_apply L o c) c
    rw [hap st, lg_run_append]
    exact ih _ _

/-- The bound on `PAGE_SHIFT` is needed on a 64-bit target: with pages of `2^30` bytes,
`opt_lg_medium_max = 31` and `opt_lg_chunk = 32`, the sum `(2U << 30) + (1U << 31)` wraps to
`0` and the option `k` lowers `opt_lg_chunk` to `opt_lg_medium_max`. -/
theorem lg_k_page_shift_30 :
    lg_invariant ⟨64, 30, true⟩ ⟨32, 31⟩ ∧
      opt_lg_apply ⟨64, 30, true⟩ ⟨32, 31⟩ 'k' = ⟨31, 31⟩ ∧
      ¬ lg_invariant ⟨64, 30, true⟩ (opt_lg_apply ⟨64, 30, true⟩ ⟨32, 31⟩ 'k') := by
  refine ⟨by unfold lg_invariant; decide, by decide, ?_⟩
  have e : opt_lg_apply ⟨64, 30, true⟩ ⟨32, 31⟩ 'k' = ⟨31, 31⟩ := by decide
  rw [e]
  unfold lg_invariant
  decide

/-- Claim C36: on a 32-bit or 64-bit target with `PAGE_SHIFT ≤ 29`, from settings with
`2^opt_lg_chunk ≥ 2 * PAGE_SIZE + 2^opt_lg_medium_max` and
`PAGE_SHIFT ≤ opt_lg_medium_max < opt_lg_chunk < 8 * sizeof(size_t)`, both stay true after
any option character with any repetition count, after any sequence of option effects, and
so after every option string that is parsed; the effects of a repeated `k`, `K`, `m` or
`M` act as the repeated `switch`. -/
theorem opt_lg_chunk_room (L : LgEnv) (o : LgState) (hw : L.w = 32 ∨ L.w = 64)
    (hps : L.PAGE_SHIFT ≤ 29) (h : lg_invariant L o) :
    (∀ c n, lg_invariant L (opt_lg_repeat L n o c)) ∧
    (∀ evs, lg_invariant L (opt_lg_run L o evs)) ∧
    (∀ env cs st r, opts_parse env cs 0 false st [] = some r →
      lg_invariant L (opt_lg_run L o r.2)) ∧
    (∀ env st c n, c = 'k' ∨ c = 'K' ∨ c = 'm' ∨ c = 'M' →
      opt_lg_run L o (opt_repeat env n st c).2 = opt_lg_repeat L n o c) :=
  ⟨fun c n => lg_repeat_inv L hw hps c n o h,
    fun evs => lg_run_inv L hw hps evs o h,
    fun _ _ _ r _ => lg_run_inv L hw hps r.2 o h,
    fun env st c n hc => lg_run_repeat L env c hc n o st⟩

/-- From 4 MiB chunks and a 32 KiB medium limit with 4 KiB pages, seven `k` options stop
at 64 KiB chunks, and the option string `7k3M` leaves chunks of 64 KiB and a medium limit
of 32 KiB. -/
theorem opt_lg_chunk_room_witness :
    lg_invariant ex_lg_env ex_lg ∧
    lg_invariant ex_lg_env (opt_lg_repeat ex_lg_env 7 ex_lg 'k') ∧
    opt_lg_repeat ex_lg_env 7 ex_lg 'k' = ⟨16, 15⟩ ∧
    (opts_parse ex_env ['7', 'k', '3', 'M'] 0 false ex_state0 []).map
      (fun r => opt_lg_run ex_lg_env ex_lg r.2) = some ⟨16, 15⟩ :=
  ⟨by unfold lg_invariant; decide,
    (opt_lg_chunk_room ex_lg_env ex_lg (Or.inr rfl) (by decide)
      (by unfold lg_invariant; decide)).1 'k' 7,
    rfl, rfl⟩

end Init


/-! ## `ipalloc`: the size of the run on the page-aligned path -/

/-- The value of `PAGE_CEILING(s)` in terms of ordinary arithmetic. -/
theorem PAGE_CEILING_eq (P : Params) (s : Nat) (hp : P.PAGE_SHIFT ≤ P.w) :
    PAGE_CEILING P s =
      (s + (2 ^ P.PAGE_SHIFT - 1)) % 2 ^ P.w -
        ((s + (2 ^ P.PAGE_SHIFT - 1)) % 2 ^ P.w) % 2 ^ P.PAGE_SHIFT := by
  unfold PAGE_CEILING Params.PAGE_MASK Params.PAGE_SIZE
  rw [sz_not_mask hp]
  have hpw : 0 < 2 ^ P.w := Nat.pow_pos (by decide)
  rw [and_high_mask hp (by unfold sz_add; exact Nat.mod_lt _ hpw)]
  rfl

/-- A `PAGE_CEILING` that wraps is zero; one that does not wrap is the least multiple of
the page size that is no less than its argument. -/
theorem PAGE_CEILING_cases (P : Params) (s : Nat) (hp : P.PAGE_SHIFT ≤ P.w)
    (hs : s < 2 ^ P.w) :
    (2 ^ P.w ≤ s + (2 ^ P.PAGE_SHIFT - 1) → PAGE_CEILING P s = 0) ∧
    (s + (2 ^ P.PAGE_SHIFT - 1) < 2 ^ P.w →
      s ≤ PAGE_CEILING P s ∧ 2 ^ P.PAGE_SHIFT ∣ PAGE_CEILING P s ∧
        ∀ m, 2 ^ P.PAGE_SHIFT ∣ m → s ≤ m → PAGE_CEILING P s ≤ m) := by
  have hpp : 0 < 2 ^ P.PAGE_SHIFT := Nat.pow_pos (by decide)
  have hle : 2 ^ P.PAGE_SHIFT ≤ 2 ^ P.w := Nat.pow_le_pow_right (by decide) hp
  rw [PAGE_CEILING_eq P s hp]
  constructor
  · intro hwrap
    have hx : (s + (2 ^ P.PAGE_SHIFT - 1)) % 2 ^ P.w = s + (2 ^ P.PAGE_SHIFT - 1) - 2 ^ P.w := by
      rw [Nat.mod_eq_sub_mod hwrap, Nat.mod_eq_of_lt (by omega)]
    rw [hx]
    have hsmall : s + (2 ^ P.PAGE_SHIFT - 1) - 2 ^ P.w < 2 ^ P.PAGE_SHIFT := by omega
    rw [Nat.mod_eq_of_lt hsmall]
    omega
  · intro hno
    rw [Nat.mod_eq_of_lt hno]
    exact round_up_least s hpp

/-- The rounded alignment is a power of two between the page size and `2^w`. -/
theorem PAGE_CEILING_pow (P : Params) (k : Nat) (hk : 2 ^ k < 2 ^ P.w)
    (hps : P.PAGE_SHIFT < P.w) :
    ∃ j, PAGE_CEILING P (2 ^ k) = 2 ^ j ∧ P.PAGE_SHIFT ≤ j ∧ j < P.w := by
  have hkw := pow_lt_pow_iff_two hk
  have hpp : 0 < 2 ^ P.PAGE_SHIFT := Nat.pow_pos (by decide)
  have hpk : 0 < 2 ^ k := Nat.pow_pos (by decide)
  have h1 : 2 * 2 ^ k ≤ 2 ^ P.w := by
    have : 2 ^ (k + 1) ≤ 2 ^ P.w := Nat.pow_le_pow_right (by decide) hkw
    rw [Nat.pow_succ] at this
    omega
  have h2 : 2 * 2 ^ P.PAGE_SHIFT ≤ 2 ^ P.w := by
    have : 2 ^ (P.PAGE_SHIFT + 1) ≤ 2 ^ P.w := Nat.pow_le_pow_right (by decide) hps
    rw [Nat.pow_succ] at this
    omega
  obtain ⟨c1, c2, c3⟩ := (PAGE_CEILING_cases P (2 ^ k) (Nat.le_of_lt hps) hk).2 (by omega)
  by_cases hc : P.PAGE_SHIFT ≤ k
  · refine ⟨k, ?_, hc, hkw⟩
    have := c3 (2 ^ k) (Nat.pow_dvd_pow 2 hc) (Nat.le_refl _)
    omega
  · refine ⟨P.PAGE_SHIFT, ?_, Nat.le_refl _, hps⟩
    have hlt : 2 ^ k ≤ 2 ^ P.PAGE_SHIFT := Nat.pow_le_pow_right (by decide) (by omega)
    have hub := c3 (2 ^ P.PAGE_SHIFT) (Nat.dvd_refl _) hlt
    have hpos : 0 < PAGE_CEILING P (2 ^ k) := by omega
    have hlb := Nat.le_of_dvd hpos c2
    omega


/-- On the page-aligned path `ipalloc` returns `NULL` when one of the two overflow tests
fires. -/
theorem ipalloc_page_overflow (P : Params) (env : Env) (alignment size : Nat)
    (h1 : ¬ ipalloc_ceil_size P.w alignment size < size)
    (h2 : ¬ (ipalloc_ceil_size P.w alignment size ≤ P.PAGE_SIZE ∨
      (alignment ≤ P.PAGE_SIZE ∧ ipalloc_ceil_size P.w alignment size ≤ P.arena_maxclass)))
    (h3 : PAGE_CEILING P size < size ∨
      sz_add P.w (PAGE_CEILING P size) (PAGE_CEILING P alignment) < PAGE_CEILING P size) :
    ipalloc P env alignment size = ([], 0) := by
  unfold ipalloc
  simp only []
  rw [if_neg h1, if_neg h2, if_pos h3]

/-- What a call of `arena_palloc` by `ipalloc` is given. -/
theorem ipalloc_palloc_args (P : Params) (env : Env) (alignment size a s r : Nat)
    (h : Event.arena_palloc a s r ∈ (ipalloc P env alignment size).1) :
    a = PAGE_CEILING P alignment ∧ s = PAGE_CEILING P size ∧ r ≤ P.arena_maxclass ∧
    ¬ (sz_add P.w (PAGE_CEILING P size) (PAGE_CEILING P alignment) < PAGE_CEILING P size) ∧
    r = (if PAGE_CEILING P size ≥ PAGE_CEILING P alignment then
          sz_sub P.w (sz_add P.w (PAGE_CEILING P size) (PAGE_CEILING P alignment)) P.PAGE_SIZE
        else sz_sub P.w (sz_shl P.w (PAGE_CEILING P alignment) 1) P.PAGE_SIZE) := by
  unfold ipalloc at h
  simp only [] at h
  by_cases c1 : ipalloc_ceil_size P.w alignment size < size
  · rw [if_pos c1] at h; cases h
  · rw [if_neg c1] at h
    by_cases c2 : ipalloc_ceil_size P.w alignment size ≤ P.PAGE_SIZE ∨
        (alignment ≤ P.PAGE_SIZE ∧ ipalloc_ceil_size P.w alignment size ≤ P.arena_maxclass)
    · rw [if_pos c2] at h
      simp at h
    · rw [if_neg c2] at h
      by_cases c3 : PAGE_CEILING P size < size ∨
          sz_add P.w (PAGE_CEILING P size) (PAGE_CEILING P alignment) < PAGE_CEILING P size
      · rw [if_pos c3] at h; cases h
      · rw [if_neg c3] at h
        by_cases c4 : (if PAGE_CEILING P size ≥ PAGE_CEILING P alignment then
            sz_sub P.w (sz_add P.w (PAGE_CEILING P size) (PAGE_CEILING P alignment)) P.PAGE_SIZE
          else sz_sub P.w (sz_shl P.w (PAGE_CEILING P alignment) 1) P.PAGE_SIZE)
            ≤ P.arena_maxclass
        · rw [if_pos c4] at h
          simp only [List.mem_cons, List.mem_singleton, Event.arena_palloc.injEq,
            List.not_mem_nil, or_false, false_or, reduceCtorEq] at h
          obtain ⟨rfl, rfl, rfl⟩ := h
          exact ⟨rfl, rfl, c4, fun hc => c3 (Or.inr hc), rfl⟩
        · rw [if_neg c4] at h
          split_ifs at h <;> simp at h

/-- Claim C40: for a power-of-two alignment and a size on the page-aligned path of `ipalloc`,
with `arena_maxclass < 2^w - PAGE_SIZE`: a call of `arena_palloc` gets the rounded alignment
and size and a `run_size ≤ arena_maxclass` that is the exact value of
`ceil_size + alignment - PAGE_SIZE` (the sum below `2^w`) when `ceil_size ≥ alignment` and
of `2 * alignment - PAGE_SIZE` (the product below `2^w`) otherwise; and `ipalloc` returns
`NULL` when `PAGE_CEILING(size)` or `ceil_size + alignment` overflows. -/
theorem ipalloc_run_size_exact (P : Params) (env : Env) (k size : Nat)
    (hk : 2 ^ k < 2 ^ P.w) (hps : P.PAGE_SHIFT < P.w) (hsize : size < 2 ^ P.w)
    (hmax : P.arena_maxclass + P.PAGE_SIZE < 2 ^ P.w)
    (h1 : ¬ ipalloc_ceil_size P.w (2 ^ k) size < size)
    (h2 : ¬ (ipalloc_ceil_size P.w (2 ^ k) size ≤ P.PAGE_SIZE ∨
      (2 ^ k ≤ P.PAGE_SIZE ∧ ipalloc_ceil_size P.w (2 ^ k) size ≤ P.arena_maxclass))) :
    (∀ a s r, Event.arena_palloc a s r ∈ (ipalloc P env (2 ^ k) size).1 →
      a = PAGE_CEILING P (2 ^ k) ∧ s = PAGE_CEILING P size ∧ r ≤ P.arena_maxclass ∧
      (PAGE_CEILING P size ≥ PAGE_CEILING P (2 ^ k) →
        PAGE_CEILING P size + PAGE_CEILING P (2 ^ k) < 2 ^ P.w ∧
        r + P.PAGE_SIZE = PAGE_CEILING P size + PAGE_CEILING P (2 ^ k)) ∧
      (PAGE_CEILING P size < PAGE_CEILING P (2 ^ k) →
        2 * PAGE_CEILING P (2 ^ k) < 2 ^ P.w ∧
        r + P.PAGE_SIZE = 2 * PAGE_CEILING P (2 ^ k))) ∧
    (2 ^ P.w ≤ size + P.PAGE_MASK → ipalloc P env (2 ^ k) size = ([], 0)) ∧
    (2 ^ P.w ≤ PAGE_CEILING P size + PAGE_CEILING P (2 ^ k) →
      ipalloc P env (2 ^ k) size = ([], 0)) := by
  obtain ⟨j, hj, hj1, hj2⟩ := PAGE_CEILING_pow P k hk hps
  have hpp : 0 < 2 ^ P.PAGE_SHIFT := Nat.pow_pos (by decide)
  have hA1 : 2 ^ P.PAGE_SHIFT ≤ 2 ^ j := Nat.pow_le_pow_right (by decide) hj1
  have hA2 : 2 * 2 ^ j ≤ 2 ^ P.w := by
    have : 2 ^ (j + 1) ≤ 2 ^ P.w := Nat.pow_le_pow_right (by decide) hj2
    rw [Nat.pow_succ] at this
    omega
  have hpw : 0 < 2 ^ P.w := Nat.pow_pos (by decide)
  have hPS : P.PAGE_SIZE = 2 ^ P.PAGE_SHIFT := rfl
  have hC : PAGE_CEILING P size < 2 ^ P.w := by
    rw [PAGE_CEILING_eq P size (Nat.le_of_lt hps)]
    have := Nat.mod_lt (size + (2 ^ P.PAGE_SHIFT - 1)) hpw
    omega
  rw [hj]
  rw [hPS] at hmax
  refine ⟨?_, ?_, ?_⟩
  · intro a s r hmem
    obtain ⟨e1, e2, e3, e4, e5⟩ := ipalloc_palloc_args P env (2 ^ k) size a s r hmem
    rw [hj] at e1 e4 e5
    have hsum : PAGE_CEILING P size + 2 ^ j < 2 ^ P.w := by
      by_contra hge
      apply e4
      unfold sz_add
      have : (PAGE_CEILING P size + 2 ^ j) % 2 ^ P.w = PAGE_CEILING P size + 2 ^ j - 2 ^ P.w := by
        rw [Nat.mod_eq_sub_mod (by omega), Nat.mod_eq_of_lt (by omega)]
      rw [this]
      omega
    refine ⟨e1, e2, e3, ?_, ?_⟩
    · intro hge
      rw [if_pos hge, Chunk.sz_add_of_lt hsum, Chunk.sz_sub_of_le (by rw [hPS]; omega) hsum] at e5
      rw [e5, hPS]
      exact ⟨hsum, by omega⟩
    · intro hlt
      rw [if_neg (by omega)] at e5
      have hshl : sz_shl P.w (2 ^ j) 1 = (2 * 2 ^ j) % 2 ^ P.w := by
        unfold sz_shl
        rw [Nat.mul_comm, Nat.pow_one]
      by_cases hw2 : 2 * 2 ^ j < 2 ^ P.w
      · rw [hshl, Nat.mod_eq_of_lt hw2, Chunk.sz_sub_of_le (by rw [hPS]; omega) hw2] at e5
        rw [e5, hPS]
        exact ⟨hw2, by omega⟩
      · exfalso
        have hz : (2 * 2 ^ j) % 2 ^ P.w = 0 := by
          have : 2 * 2 ^ j = 2 ^ P.w := by omega
          rw [this, Nat.mod_self]
        rw [hshl, hz] at e5
        have hsub : sz_sub P.w 0 P.PAGE_SIZE = 2 ^ P.w - 2 ^ P.PAGE_SHIFT := by
          unfold sz_sub
          have hlt1 : 2 ^ P.PAGE_SHIFT < 2 ^ P.w := by omega
          rw [hPS, Nat.mod_eq_of_lt hlt1, Nat.zero_add,
            Nat.mod_eq_of_lt (show 2 ^ P.w - 2 ^ P.PAGE_SHIFT < 2 ^ P.w by omega)]
        rw [hsub] at e5
        omega
  · intro hwrap
    apply ipalloc_page_overflow P env (2 ^ k) size h1 h2
    left
    have hmask : P.PAGE_MASK = 2 ^ P.PAGE_SHIFT - 1 := rfl
    rw [hmask] at hwrap
    rw [(PAGE_CEILING_cases P size (Nat.le_of_lt hps) hsize).1 hwrap]
    have : 2 ^ P.PAGE_SHIFT ≤ 2 ^ P.w := Nat.pow_le_pow_right (by decide) (Nat.le_of_lt hps)
    omega
  · intro hwrap
    apply ipalloc_page_overflow P env (2 ^ k) size h1 h2
    right
    rw [hj]
    unfold sz_add
    have : (PAGE_CEILING P size + 2 ^ j) % 2 ^ P.w = PAGE_CEILING P size + 2 ^ j - 2 ^ P.w := by
      rw [Nat.mod_eq_sub_mod hwrap, Nat.mod_eq_of_lt (by omega)]
    rw [this]
    omega

/-- Alignment `2^13` and size 8193 on a 64-bit target with 4 KiB pages:
`arena_palloc` is asked for a run of `12288 + 8192 - 4096 = 16384` bytes. -/
theorem ipalloc_run_size_exact_witness :
    (ipalloc ex_params ex_env (2 ^ 13) 8193).1 =
      [Event.choose_arena, Event.arena_palloc 8192 12288 16384] ∧
    PAGE_CEILING ex_params 8193 = 12288 ∧ PAGE_CEILING ex_params (2 ^ 13) = 8192 ∧
    (16384 : Nat) ≤ ex_params.arena_maxclass ∧
    (PAGE_CEILING ex_params 8193 ≥ PAGE_CEILING ex_params (2 ^ 13) →
      PAGE_CEILING ex_params 8193 + PAGE_CEILING ex_params (2 ^ 13) < 2 ^ ex_params.w ∧
      16384 + ex_params.PAGE_SIZE =
        PAGE_CEILING ex_params 8193 + PAGE_CEILING ex_params (2 ^ 13)) :=
  ⟨by decide, by decide, by decide,
    ((ipalloc_run_size_exact ex_params ex_env 13 8193 (by decide) (by decide) (by decide)
      (by decide) (by decide) (by decide)).1 8192 12288 16384 (by decide)).2.2.1,
    ((ipalloc_run_size_exact ex_params ex_env 13 8193 (by decide) (by decide) (by decide)
      (by decide) (by decide) (by decide)).1 8192 12288 16384 (by decide)).2.2.2.1⟩


/-! ## `chunk.c`: the extent selected by `chunk_recycle` is large enough -/

namespace Chunk

/-- A `CHUNK_CEILING` that wraps is zero; one that does not wrap is a multiple of the
chunk size between its argument and its argument plus the mask. -/
theorem CHUNK_CEILING_cases (env : Env) (s : Nat) (hp : env.opt_lg_chunk ≤ env.w)
    (hs : s < 2 ^ env.w) :
    (2 ^ env.w ≤ s + env.chunksize_mask → CHUNK_CEILING env s = 0) ∧
    (s + env.chunksize_mask < 2 ^ env.w → s ≤ CHUNK_CEILING env s) ∧
    CHUNK_CEILING env s ≤ s + env.chunksize_mask := by
  have hpp : 0 < 2 ^ env.opt_lg_chunk := Nat.pow_pos (by decide)
  have hpw : 0 < 2 ^ env.w := Nat.pow_pos (by decide)
  have hle : 2 ^ env.opt_lg_chunk ≤ 2 ^ env.w := Nat.pow_le_pow_right (by decide) hp
  have hm : env.chunksize_mask = 2 ^ env.opt_lg_chunk - 1 := rfl
  have he : CHUNK_CEILING env s =
      (s + (2 ^ env.opt_lg_chunk - 1)) % 2 ^ env.w -
        ((s + (2 ^ env.opt_lg_chunk - 1)) % 2 ^ env.w) % 2 ^ env.opt_lg_chunk := by
    unfold CHUNK_CEILING
    rw [hm, sz_not_mask hp, and_high_mask hp (by unfold sz_add; exact Nat.mod_lt _ hpw)]
    rfl
  rw [he, hm]
  refine ⟨?_, ?_, ?_⟩
  · intro hwrap
    have hx : (s + (2 ^ env.opt_lg_chunk - 1)) % 2 ^ env.w =
        s + (2 ^ env.opt_lg_chunk - 1) - 2 ^ env.w := by
      rw [Nat.mod_eq_sub_mod hwrap, Nat.mod_eq_of_lt (by omega)]
    rw [hx]
    have hsmall : s + (2 ^ env.opt_lg_chunk - 1) - 2 ^ env.w < 2 ^ env.opt_lg_chunk := by
      omega
    rw [Nat.mod_eq_of_lt hsmall]
    omega
  · intro hno
    rw [Nat.mod_eq_of_lt hno]
    exact (round_up_least s hpp).1
  · have := Nat.mod_le (s + (2 ^ env.opt_lg_chunk - 1)) (2 ^ env.w)
    omega

/-- From a chunk-aligned base, the distance to the next multiple of an alignment that is a
power-of-two multiple of the chunk size is at most `alignment - chunksize`. -/
theorem leadsize_le (env : Env) (e : extent_t) (k : Nat) (hk : 2 ^ k < 2 ^ env.w)
    (hck : env.opt_lg_chunk ≤ k) (ha : e.e_addr < 2 ^ env.w)
    (hal : env.chunksize ∣ e.e_addr) :
    chunk_recycle_leadsize env e (2 ^ k) + env.chunksize ≤ 2 ^ k := by
  have hpk : 0 < 2 ^ k := Nat.pow_pos (by decide)
  have hpw : 0 < 2 ^ env.w := Nat.pow_pos (by decide)
  have hcs : env.chunksize = 2 ^ env.opt_lg_chunk := rfl
  have hpc : 0 < env.chunksize := Nat.pow_pos (by decide)
  have hkw := pow_lt_pow_iff_two hk
  have hdk : env.chunksize ∣ 2 ^ k := Nat.pow_dvd_pow 2 hck
  have hdw : env.chunksize ∣ 2 ^ env.w := Nat.pow_dvd_pow 2 (by omega)
  have hC : ALIGNMENT_CEILING env e.e_addr (2 ^ k) =
      (e.e_addr + (2 ^ k - 1)) % 2 ^ env.w - ((e.e_addr + (2 ^ k - 1)) % 2 ^ env.w) % 2 ^ k :=
    ipalloc_ceil_size_eq e.e_addr hk
  have hL : chunk_recycle_leadsize env e (2 ^ k) =
      (ALIGNMENT_CEILING env e.e_addr (2 ^ k) + (2 ^ env.w - e.e_addr)) % 2 ^ env.w := by
    unfold chunk_recycle_leadsize sz_sub
    rw [Nat.mod_eq_of_lt ha]
  -- the lead is a multiple of the chunk size below the alignment
  have hmul : ∀ d, env.chunksize ∣ d → d < 2 ^ k → d + env.chunksize ≤ 2 ^ k := by
    intro d hd hlt
    obtain ⟨q, hq⟩ := hd
    obtain ⟨r, hr⟩ := hdk
    rw [hq, hr] at hlt ⊢
    have hqr : q < r := Nat.lt_of_mul_lt_mul_left hlt
    have : env.chunksize * (q + 1) ≤ env.chunksize * r := Nat.mul_le_mul_left _ hqr
    rw [Nat.mul_add] at this
    omega
  by_cases hwrap : e.e_addr + (2 ^ k - 1) < 2 ^ env.w
  · rw [Nat.mod_eq_of_lt hwrap] at hC
    obtain ⟨r1, r2, _⟩ := round_up_least e.e_addr hpk
    rw [← hC] at r1 r2
    have hm := Nat.mod_lt (e.e_addr + (2 ^ k - 1)) hpk
    have hlt : ALIGNMENT_CEILING env e.e_addr (2 ^ k) < 2 ^ env.w := by rw [hC]; omega
    have hL2 : chunk_recycle_leadsize env e (2 ^ k) =
        ALIGNMENT_CEILING env e.e_addr (2 ^ k) - e.e_addr := by
      unfold chunk_recycle_leadsize
      exact sz_sub_of_le r1 hlt
    rw [hL2]
    apply hmul
    · exact (Nat.dvd_sub (by omega) (Nat.dvd_trans hdk r2) hal)
    · rw [hC]; omega
  · have hx : (e.e_addr + (2 ^ k - 1)) % 2 ^ env.w = e.e_addr + (2 ^ k - 1) - 2 ^ env.w := by
      rw [Nat.mod_eq_sub_mod (by omega), Nat.mod_eq_of_lt (by omega)]
    have hz : ALIGNMENT_CEILING env e.e_addr (2 ^ k) = 0 := by
      rw [hC, hx]
      have hsmall : e.e_addr + (2 ^ k - 1) - 2 ^ env.w < 2 ^ k := by omega
      rw [Nat.mod_eq_of_lt hsmall]
      omega
    rw [hL, hz, Nat.zero_add, Nat.mod_eq_of_lt (by omega)]
    apply hmul
    · exact Nat.dvd_sub (by omega) hdw hal
    · omega

end Chunk


namespace Chunk

/-- The extent found by `chunk_first_best_fit` is at least as large as the size asked
for. -/
theorem first_best_fit_size (env : Env) (szad ad : extent_tree_t) (size : Nat) (e : extent_t)
    (h : chunk_first_best_fit env szad ad size = some e) : size ≤ e.e_size := by
  unfold chunk_first_best_fit extent_tree_szad_nsearch tree_nsearch at h
  simp only [] at h
  have hp := List.find?_some h
  exact (szad_key_test env.ind size e).mp hp

/-- The argument of `s2u` in `chunk_recycle`, `size + alignment - chunksize`, in ordinary
arithmetic: the difference, less `2^w` if it does not fit. -/
theorem recycle_sum (env : Env) (size k : Nat) (hk : 2 ^ k < 2 ^ env.w)
    (hck : env.opt_lg_chunk ≤ k) (hsize : size < 2 ^ env.w) (hpos : env.chunksize ≤ size) :
    sz_sub env.w (sz_add env.w size (2 ^ k)) env.chunksize =
      if size + 2 ^ k < 2 ^ env.w + env.chunksize then size + 2 ^ k - env.chunksize
      else size + 2 ^ k - env.chunksize - 2 ^ env.w := by
  have hcs : env.chunksize = 2 ^ env.opt_lg_chunk := rfl
  have hpc : 0 < env.chunksize := Nat.pow_pos (by decide)
  have hle : env.chunksize ≤ 2 ^ k := Nat.pow_le_pow_right (by decide) hck
  unfold sz_sub sz_add
  rw [Nat.mod_eq_of_lt (show env.chunksize < 2 ^ env.w by omega)]
  by_cases h1 : size + 2 ^ k < 2 ^ env.w
  · rw [Nat.mod_eq_of_lt h1, if_pos (by omega)]
    have e : size + 2 ^ k + (2 ^ env.w - env.chunksize) =
        (size + 2 ^ k - env.chunksize) + 2 ^ env.w := by omega
    rw [e, Nat.add_mod_right, Nat.mod_eq_of_lt (by omega)]
  · have hx : (size + 2 ^ k) % 2 ^ env.w = size + 2 ^ k - 2 ^ env.w := by
      rw [Nat.mod_eq_sub_mod (by omega), Nat.mod_eq_of_lt (by omega)]
    rw [hx]
    by_cases h2 : size + 2 ^ k < 2 ^ env.w + env.chunksize
    · rw [if_pos h2]
      have e : size + 2 ^ k - 2 ^ env.w + (2 ^ env.w - env.chunksize) =
          size + 2 ^ k - env.chunksize := by omega
      rw [e, Nat.mod_eq_of_lt (by omega)]
    · rw [if_neg h2]
      have e : size + 2 ^ k - 2 ^ env.w + (2 ^ env.w - env.chunksize) =
          (size + 2 ^ k - env.chunksize - 2 ^ env.w) + 2 ^ env.w := by omega
      rw [e, Nat.add_mod_right, Nat.mod_eq_of_lt (by omega)]

/-- When `alloc_size` passes the test `alloc_size < size`, neither the sum nor the ceiling
wrapped, and `alloc_size` is at least `size + alignment - chunksize`. -/
theorem alloc_size_ge (env : Env) (size k : Nat) (hk : 2 ^ k < 2 ^ env.w)
    (hck : env.opt_lg_chunk ≤ k) (hsize : size < 2 ^ env.w) (hpos : env.chunksize ≤ size)
    (hs2u : ∀ x, x < 2 ^ env.w → x ≤ env.s2u x ∧ env.s2u x < 2 ^ env.w)
    (hguard : size + 2 ^ k < 2 ^ env.w + env.chunksize ∨
      ∀ x, x < 2 ^ env.w → env.s2u x < x + 2 ^ (env.w - 1))
    (hge : size ≤ chunk_recycle_alloc_size env size (2 ^ k)) :
    size + 2 ^ k < 2 ^ env.w + env.chunksize ∧
      size + 2 ^ k ≤ chunk_recycle_alloc_size env size (2 ^ k) + env.chunksize := by
  have hcs : env.chunksize = 2 ^ env.opt_lg_chunk := rfl
  have hm : env.chunksize_mask = env.chunksize - 1 := rfl
  have hpc : 0 < env.chunksize := Nat.pow_pos (by decide)
  have hle : env.chunksize ≤ 2 ^ k := Nat.pow_le_pow_right (by decide) hck
  have hkw := pow_lt_pow_iff_two hk
  have hhalf : 2 ^ k ≤ 2 ^ (env.w - 1) := Nat.pow_le_pow_right (by decide) (by omega)
  have hw2 : 2 ^ env.w = 2 * 2 ^ (env.w - 1) := by
    have : env.w = (env.w - 1) + 1 := by omega
    rw [this, Nat.pow_succ]
    simp
    omega
  have hv := recycle_sum env size k hk hck hsize hpos
  unfold chunk_recycle_alloc_size at hge ⊢
  have hvlt : sz_sub env.w (sz_add env.w size (2 ^ k)) env.chunksize < 2 ^ env.w := by
    unfold sz_sub
    exact Nat.mod_lt _ (Nat.pow_pos (by decide))
  generalize sz_sub env.w (sz_add env.w size (2 ^ k)) env.chunksize = v at hv hvlt hge ⊢
  obtain ⟨u1, u2⟩ := hs2u v hvlt
  obtain ⟨c1, c2, c3⟩ := CHUNK_CEILING_cases env (env.s2u v) (by omega) u2
  have hnw : env.s2u v + env.chunksize_mask < 2 ^ env.w := by
    by_contra hc
    rw [c1 (by omega)] at hge
    omega
  have c2b := c2 hnw
  by_cases hsum : size + 2 ^ k < 2 ^ env.w + env.chunksize
  · rw [if_pos hsum] at hv
    exact ⟨hsum, by omega⟩
  · exfalso
    rw [if_neg hsum] at hv
    rcases hguard with hg | hg
    · exact hsum hg
    · have := hg v hvlt
      omega

/-- Claim C37: for a size that is a non-zero multiple of the chunk size, an alignment that
is a power-of-two multiple of it and `s2u(x) ≥ x`, where `size + alignment - chunksize` fits
in `size_t` or `s2u` adds less than `2^(w-1)` to its argument, as rounding up to a size
class does: `chunk_recycle` returns `NULL` without effects when `alloc_size < size`, which
is the case when the sum or the ceiling wraps; otherwise every extent that first-best-fit
selects for `alloc_size` at a chunk-aligned base has `leadsize + size ≤` its size, and
`trailsize` is the plain difference. -/
theorem chunk_recycle_fit (env : Env) (size k : Nat) (hk : 2 ^ k < 2 ^ env.w)
    (hck : env.opt_lg_chunk ≤ k) (hsize : size < 2 ^ env.w) (hpos : 0 < size)
    (hmul : env.chunksize ∣ size)
    (hs2u : ∀ x, x < 2 ^ env.w → x ≤ env.s2u x ∧ env.s2u x < 2 ^ env.w)
    (hguard : size + 2 ^ k < 2 ^ env.w + env.chunksize ∨
      ∀ x, x < 2 ^ env.w → env.s2u x < x + 2 ^ (env.w - 1)) :
    (chunk_recycle_alloc_size env size (2 ^ k) < size →
      ∀ T cache new_addr zero commit dalloc_extent,
        chunk_recycle env T cache new_addr size (2 ^ k) zero commit dalloc_extent =
          ⟨0, zero, commit, T, []⟩) ∧
    (2 ^ env.w + env.chunksize ≤ size + 2 ^ k ∨
      2 ^ env.w ≤ env.s2u (sz_sub env.w (sz_add env.w size (2 ^ k)) env.chunksize) +
        env.chunksize_mask →
      chunk_recycle_alloc_size env size (2 ^ k) < size) ∧
    (size ≤ chunk_recycle_alloc_size env size (2 ^ k) →
      ∀ (T : Trees) (e : extent_t),
        chunk_first_best_fit env T.szad T.ad (chunk_recycle_alloc_size env size (2 ^ k)) =
          some e →
        env.chunksize ∣ e.e_addr → e.e_addr < 2 ^ env.w → e.e_size < 2 ^ env.w →
        chunk_recycle_leadsize env e (2 ^ k) + size ≤ e.e_size ∧
          chunk_recycle_trailsize env e size (2 ^ k) =
            e.e_size - chunk_recycle_leadsize env e (2 ^ k) - size) := by
  have hpc : 0 < env.chunksize := Nat.pow_pos (by decide)
  have hcle : env.chunksize ≤ size := Nat.le_of_dvd hpos hmul
  refine ⟨?_, ?_, ?_⟩
  · intro hlt T cache new_addr zero commit dalloc_extent
    unfold chunk_recycle
    simp only []
    rw [if_pos hlt]
  · intro hw
    by_contra hge
    have h := alloc_size_ge env size k hk hck hsize hcle hs2u hguard (by omega)
    rcases hw with hw | hw
    · omega
    · have hvlt : sz_sub env.w (sz_add env.w size (2 ^ k)) env.chunksize < 2 ^ env.w := by
        unfold sz_sub
        exact Nat.mod_lt _ (Nat.pow_pos (by decide))
      have hkw := pow_lt_pow_iff_two hk
      have c1 := (CHUNK_CEILING_cases env
        (env.s2u (sz_sub env.w (sz_add env.w size (2 ^ k)) env.chunksize)) (by omega)
        (hs2u _ hvlt).2).1 hw
      unfold chunk_recycle_alloc_size at hge
      rw [c1] at hge
      omega
  · intro hge T e hsel hal ha hes
    obtain ⟨_, h2⟩ := alloc_size_ge env size k hk hck hsize hcle hs2u hguard hge
    have hfit := first_best_fit_size env T.szad T.ad _ e hsel
    have hlead := leadsize_le env e k hk hck ha hal
    have hle : chunk_recycle_leadsize env e (2 ^ k) + size ≤ e.e_size := by omega
    refine ⟨hle, ?_⟩
    unfold chunk_recycle_trailsize
    rw [sz_sub_of_le (by omega) hes, sz_sub_of_le (by omega) (by omega)]

end Chunk


namespace Chunk

/-- A request for 2 MiB aligned to 4 MiB from the cached extents `ex_trees`: `alloc_size` is
4 MiB, first-best-fit selects the 4 MiB extent at 10 MiB, whose lead of 2 MiB and the
2 MiB requested fill it exactly. -/
theorem chunk_recycle_fit_witness :
    0x200000 ≤ chunk_recycle_alloc_size ex_env 0x200000 (2 ^ 22) ∧
    chunk_first_best_fit ex_env ex_trees.szad ex_trees.ad
      (chunk_recycle_alloc_size ex_env 0x200000 (2 ^ 22)) =
        some (ex_extent 0xa00000 0x400000) ∧
    chunk_recycle_leadsize ex_env (ex_extent 0xa00000 0x400000) (2 ^ 22) + 0x200000 ≤
      (ex_extent 0xa00000 0x400000).e_size ∧
    chunk_recycle_trailsize ex_env (ex_extent 0xa00000 0x400000) 0x200000 (2 ^ 22) =
      (ex_extent 0xa00000 0x400000).e_size -
        chunk_recycle_leadsize ex_env (ex_extent 0xa00000 0x400000) (2 ^ 22) - 0x200000 :=
  ⟨by decide, by decide,
    (chunk_recycle_fit ex_env 0x200000 22 (by decide) (by decide) (by decide) (by decide)
      (by decide) (fun _ hx => ⟨Nat.le_refl _, hx⟩) (Or.inl (by decide))).2.2 (by decide)
      ex_trees (ex_extent 0xa00000 0x400000) (by decide) (by decide) (by decide) (by decide)⟩

/-- Why the bound on `s2u` is assumed: the test `alloc_size < size` relies on `s2u` staying
near its argument. For a function that has `s2u(x) ≥ x` but answers `2^63 + 2^21` for
small arguments, which no rounding to a size class does, `size = 2^63 + 2^21` and
`alignment = 2^63` on a 64-bit target with 2 MiB chunks make the sum wrap to `0` and
`alloc_size` equal `size`, and the extent selected is too small for lead and request. -/
theorem alloc_size_needs_bounded_s2u :
    (∀ x, x < 2 ^ ex_env_s2u.w → x ≤ ex_env_s2u.s2u x ∧ ex_env_s2u.s2u x < 2 ^ ex_env_s2u.w) ∧
    ex_env_s2u.chunksize ∣ 2 ^ 63 + 2 ^ 21 ∧ ex_env_s2u.chunksize ∣ 2 ^ 63 ∧
    sz_sub ex_env_s2u.w (sz_add ex_env_s2u.w (2 ^ 63 + 2 ^ 21) (2 ^ 63)) ex_env_s2u.chunksize
      = 0 ∧
    chunk_recycle_alloc_size ex_env_s2u (2 ^ 63 + 2 ^ 21) (2 ^ 63) = 2 ^ 63 + 2 ^ 21 ∧
    chunk_first_best_fit ex_env_s2u ex_trees_huge.szad ex_trees_huge.ad
      (chunk_recycle_alloc_size ex_env_s2u (2 ^ 63 + 2 ^ 21) (2 ^ 63)) =
        some (ex_extent 0x200000 (2 ^ 63 + 2 ^ 21)) ∧
    ex_env_s2u.chunksize ∣ (ex_extent 0x200000 (2 ^ 63 + 2 ^ 21)).e_addr ∧
    chunk_recycle_leadsize ex_env_s2u (ex_extent 0x200000 (2 ^ 63 + 2 ^ 21)) (2 ^ 63) =
      2 ^ 63 - 2 ^ 21 ∧
    ¬ (chunk_recycle_leadsize ex_env_s2u (ex_extent 0x200000 (2 ^ 63 + 2 ^ 21)) (2 ^ 63) +
        (2 ^ 63 + 2 ^ 21) ≤ (ex_extent 0x200000 (2 ^ 63 + 2 ^ 21)).e_size) ∧
    chunk_recycle_trailsize ex_env_s2u (ex_extent 0x200000 (2 ^ 63 + 2 ^ 21))
      (2 ^ 63 + 2 ^ 21) (2 ^ 63) = 2 ^ 63 + 2 ^ 21 := by
  refine ⟨?_, by decide, by decide, by decide, by decide, by decide, by decide, by decide,
    by decide, by decide⟩
  intro x hx
  show x ≤ (if x < 2 ^ 63 + 2 ^ 21 then 2 ^ 63 + 2 ^ 21 else x) ∧
    (if x < 2 ^ 63 + 2 ^ 21 then 2 ^ 63 + 2 ^ 21 else x) < 2 ^ 64
  have hx2 : x < 2 ^ 64 := hx
  split <;> omega

end Chunk


/-! ## `rtree.h`: lookups that fail to create a node -/

namespace Rtree

/-- When the read of a pointer slot on behalf of an inserting lookup yields `NULL`, the slot
holds no valid pointer afterwards. -/
theorem node_read_null (rt : rtree_t) (st stA : State) (lvl : Nat) (e0 : rtree_elm_t)
    (hX : (if rtree_node_valid (st.mem e0) then some (st.mem e0, st)
      else rtree_node_init rt st lvl e0) = some (0, stA)) :
    rtree_node_valid (stA.mem e0) = false := by
  by_cases hv : rtree_node_valid (st.mem e0) = true
  · rw [if_pos hv] at hX
    simp only [Option.some.injEq, Prod.mk.injEq] at hX
    rw [hX.1] at hv
    exact absurd hv (by decide)
  · rw [if_neg hv] at hX
    unfold rtree_node_init atomic_cas_p at hX
    by_cases h0 : st.mem e0 = 0
    · rw [if_pos h0] at hX
      simp only at hX
      by_cases hn : rt.alloc (st.write e0 RTREE_NODE_INITIALIZING).nalloc
          (2 ^ (rt.levels lvl).bits) = 0
      · rw [if_pos hn] at hX
        simp only [Option.some.injEq, Prod.mk.injEq] at hX
        rw [← hX.2]
        simp [State.write, RTREE_NODE_INITIALIZING, rtree_node_valid]
      · rw [if_neg hn] at hX
        simp only [Option.some.injEq, Prod.mk.injEq] at hX
        exact absurd hX.1 hn
    · rw [if_neg h0] at hX
      simp only at hX
      split at hX
      · cases hX
      · simp only [Option.some.injEq, Prod.mk.injEq] at hX
        exact absurd hX.1 h0

/-- Every word that the read of a pointer slot on behalf of an inserting lookup changes is
the slot itself or holds zero afterwards. -/
theorem node_read_changed (rt : rtree_t) (st stA : State) (lvl c : Nat) (e0 : rtree_elm_t)
    (hX : (if rtree_node_valid (st.mem e0) then some (st.mem e0, st)
      else rtree_node_init rt st lvl e0) = some (c, stA)) :
    ∀ q, stA.mem q ≠ st.mem q → q = e0 ∨ stA.mem q = 0 := by
  intro q hq
  by_cases hqe : q = e0
  · exact Or.inl hqe
  · right
    by_cases hv : rtree_node_valid (st.mem e0) = true
    · rw [if_pos hv] at hX
      simp only [Option.some.injEq, Prod.mk.injEq] at hX
      rw [hX.2] at hq
      exact absurd rfl hq
    · rw [if_neg hv] at hX
      unfold rtree_node_init atomic_cas_p at hX
      by_cases h0 : st.mem e0 = 0
      · rw [if_pos h0] at hX
        simp only at hX
        by_cases hn : rt.alloc (st.write e0 RTREE_NODE_INITIALIZING).nalloc
            (2 ^ (rt.levels lvl).bits) = 0
        · rw [if_pos hn] at hX
          simp only [Option.some.injEq, Prod.mk.injEq] at hX
          rw [← hX.2] at hq
          simp [State.write, hqe] at hq
        · rw [if_neg hn] at hX
          simp only [Option.some.injEq, Prod.mk.injEq] at hX
          rw [← hX.2] at hq ⊢
          simp only [State.write, State.zero_node, if_neg hqe] at hq ⊢
          by_cases hd : q ≠ [] ∧ q.dropLast = e0
          · rw [if_pos hd]
          · rw [if_neg hd] at hq
            exact absurd rfl hq
      · rw [if_neg h0] at hX
        simp only at hX
        split at hX
        · cases hX
        · simp only [Option.some.injEq, Prod.mk.injEq] at hX
          rw [hX.2] at hq
          exact absurd rfl hq

end Rtree


namespace Rtree

/-- Two prefixes of a list that extend `p` by one word are equal. -/
theorem concat_prefix_same {p q : rtree_elm_t} {a b : Nat} (ha : (p ++ [a]) <+: q)
    (hb : (p ++ [b]) <+: q) : a = b :=
  prefix_concat_inj ha hb

/-- A prefix of the way of `key2` below `p` that is longer than `p` lies below the element
of `key2` in the node at `p`. -/
theorem prefix_below (rt : rtree_t) (key2 n level : Nat) (p q : rtree_elm_t)
    (hq : q <+: rtree_path_from rt key2 n level p) (hl : p.length < q.length) :
    (p ++ [rtree_subkey rt key2 level]) <+: q := by
  have hp := (path_from_pre rt key2 n level p).1
  exact List.prefix_of_prefix_length_le hp hq (by simp; omega)

/-- An inserting lookup that returns `NULL` changes no read that enters the `switch` at the
same node. -/
theorem lookup_from_null_read (rt : rtree_t) (key : Nat) :
    ∀ (n level node : Nat) (p : rtree_elm_t) (st st1 : State),
      rtree_elm_lookup_from rt key false true n level node p st = some (none, st1) →
      ∀ key2, rtree_read_from rt st1 key2 false n level node p =
        rtree_read_from rt st key2 false n level node p := by
  intro n
  induction n with
  | zero =>
    intro level node p st st1 h key2
    simp only [rtree_elm_lookup_from] at h
    split at h <;>
      (simp only [Option.some.injEq, Prod.mk.injEq] at h; rw [← h.2])
  | succ n ih =>
    intro level node p st st1 h key2
    have hfr := lookup_from_frame rt key _ _ _ _ _ _ _ h
    simp only [rtree_elm_lookup_from, if_true, child_read_eq] at h
    split at h
    · simp only [Option.some.injEq, Prod.mk.injEq] at h
      rw [← h.2]
    · rename_i hnv
      have hv : rtree_node_valid node = true := by
        cases hv : rtree_node_valid node
        · simp [hv] at hnv
        · rfl
      cases hX : (if rtree_node_valid (st.mem (p ++ [rtree_subkey rt key level])) then
          some (st.mem (p ++ [rtree_subkey rt key level]), st)
        else rtree_node_init rt st (level + 1) (p ++ [rtree_subkey rt key level])) with
      | none => rw [hX] at h; cases h
      | some cs =>
        obtain ⟨c, stA⟩ := cs
        rw [hX] at h
        simp only at h
        by_cases hs : rtree_subkey rt key2 level = rtree_subkey rt key level
        · have hm : st1.mem (p ++ [rtree_subkey rt key level]) =
              stA.mem (p ++ [rtree_subkey rt key level]) :=
            lookup_from_frame rt key _ _ _ _ _ _ _ h _ (concat_not_prefix_self _ _)
          rw [read_from_step _ _ _ _ _ _ _ hv, read_from_step _ _ _ _ _ _ _ hv, hs, hm]
          have hih := ih _ _ _ _ _ h key2
          rcases node_read_cases rt st stA _ c _ hX with ⟨_, h1, h2⟩ | ⟨h0, _, h3 | h3⟩
          · rw [h2] at hih ⊢
            rw [← h1]
            exact hih
          · rw [h0, read_from_invalid _ _ _ _ _ _ _ node_valid_zero]
            rw [h3] at hX
            exact read_from_invalid _ _ _ _ _ _ _ (node_read_null rt st stA _ _ hX)
          · rw [h0, read_from_invalid _ _ _ _ _ _ _ node_valid_zero, h3.1, hih]
            exact read_from_fresh rt stA key2 n _ c _ h3.2
        · apply read_from_congr
          intro q hq hl
          apply hfr
          intro hpre
          exact hs (concat_prefix_same (prefix_below rt key2 _ _ p q hq hl) hpre)

/-- Every word that an inserting lookup changes holds zero afterwards or is a pointer slot
on the way to the leaf element of the key. -/
theorem lookup_from_changed (rt : rtree_t) (key : Nat) :
    ∀ (n level node : Nat) (p : rtree_elm_t) (st st1 : State) (r : Option rtree_elm_t),
      rtree_elm_lookup_from rt key false true n level node p st = some (r, st1) →
      ∀ q, st1.mem q ≠ st.mem q →
        st1.mem q = 0 ∨ (q <+: rtree_path_from rt key n level p ∧
          q ≠ rtree_path_from rt key n level p) := by
  intro n
  induction n with
  | zero =>
    intro level node p st st1 r h q hq
    exfalso
    apply hq
    simp only [rtree_elm_lookup_from] at h
    split at h <;>
      (simp only [Option.some.injEq, Prod.mk.injEq] at h; rw [← h.2])
  | succ n ih =>
    intro level node p st st1 r h q hq
    simp only [rtree_elm_lookup_from, if_true, child_read_eq] at h
    split at h
    · simp only [Option.some.injEq, Prod.mk.injEq] at h
      rw [← h.2] at hq
      exact absurd rfl hq
    · cases hX : (if rtree_node_valid (st.mem (p ++ [rtree_subkey rt key level])) then
          some (st.mem (p ++ [rtree_subkey rt key level]), st)
        else rtree_node_init rt st (level + 1) (p ++ [rtree_subkey rt key level])) with
      | none => rw [hX] at h; cases h
      | some cs =>
        obtain ⟨c, stA⟩ := cs
        rw [hX] at h
        simp only at h
        by_cases h1 : st1.mem q = stA.mem q
        · rw [h1] at hq ⊢
          rcases node_read_changed rt st stA _ c _ hX q hq with he | hz
          · right
            obtain ⟨hp1, hp2⟩ := path_from_pre rt key (n + 1) level p
            rw [he]
            refine ⟨hp1, ?_⟩
            intro hh
            rw [← hh] at hp2
            simp at hp2
          · exact Or.inl hz
        · exact ih _ _ _ _ _ _ h q h1

end Rtree


namespace Rtree

/-- The two steps of an inserting `rtree_elm_lookup`: the read of the subtree pointer and the
walk down. -/
theorem elm_lookup_split (rt : rtree_t) (st st1 : State) (key : Nat) (r : Option rtree_elm_t)
    (hL : rtree_elm_lookup rt st key false true = some (r, st1)) :
    ∃ c stA,
      (if rtree_node_valid (st.mem [rtree_start_level rt key]) then
          some (st.mem [rtree_start_level rt key], st)
        else rtree_node_init rt st (rtree_start_level rt key) [rtree_start_level rt key]) =
        some (c, stA) ∧
      rtree_elm_lookup_from rt key false true (rt.height - 1 - rtree_start_level rt key)
        (rtree_start_level rt key) c [rtree_start_level rt key] stA = some (r, st1) := by
  simp only [rtree_elm_lookup, if_true, subtree_read_eq] at hL
  cases hX : (if rtree_node_valid (st.mem [rtree_start_level rt key]) then
      some (st.mem [rtree_start_level rt key], st)
    else rtree_node_init rt st (rtree_start_level rt key) [rtree_start_level rt key]) with
  | none => rw [hX] at hL; cases hL
  | some cs =>
    obtain ⟨c, stA⟩ := cs
    rw [hX] at hL
    exact ⟨c, stA, rfl, hL⟩

/-- An inserting lookup only changes words at or below the subtree pointer of the key. -/
theorem elm_lookup_frame_root (rt : rtree_t) (st st1 : State) (key : Nat)
    (r : Option rtree_elm_t)
    (hL : rtree_elm_lookup rt st key false true = some (r, st1)) :
    ∀ q, ¬ [rtree_start_level rt key] <+: q → st1.mem q = st.mem q := by
  intro q hq
  obtain ⟨c, stA, hX, hF⟩ := elm_lookup_split rt st st1 key r hL
  have h1 : ¬ ([rtree_start_level rt key] ++
      [rtree_subkey rt key (rtree_start_level rt key)]) <+: q :=
    fun hp => hq ((List.prefix_append _ _).trans hp)
  rw [lookup_from_frame rt key _ _ _ _ _ _ _ hF q h1]
  rcases node_read_cases rt st stA _ c _ hX with ⟨_, _, hs⟩ | ⟨_, hf, _⟩
  · rw [hs]
  · exact hf q hq

/-- An inserting lookup that returns `NULL` changes no read. -/
theorem elm_lookup_null_read (rt : rtree_t) (st st1 : State) (key : Nat)
    (hL : rtree_elm_lookup rt st key false true = some (none, st1)) (key2 : Nat) :
    rtree_read rt st1 key2 false = rtree_read rt st key2 false := by
  obtain ⟨c, stA, hX, hF⟩ := elm_lookup_split rt st st1 key none hL
  have hfr := elm_lookup_frame_root rt st st1 key none hL
  rw [rtree_read_eq, rtree_read_eq]
  by_cases hs : rtree_start_level rt key2 = rtree_start_level rt key
  · rw [hs]
    have hm : st1.mem [rtree_start_level rt key] = stA.mem [rtree_start_level rt key] :=
      lookup_from_frame rt key _ _ _ _ _ _ _ hF _ (concat_not_prefix_self _ _)
    have hih := lookup_from_null_read rt key _ _ _ _ _ _ hF key2
    rw [hm]
    rcases node_read_cases rt st stA _ c _ hX with ⟨_, h1, h2⟩ | ⟨h0, _, h3 | h3⟩
    · rw [h2] at hih ⊢
      rw [← h1]
      exact hih
    · rw [h0, read_from_invalid _ _ _ _ _ _ _ node_valid_zero]
      rw [h3] at hX
      exact read_from_invalid _ _ _ _ _ _ _ (node_read_null rt st stA _ _ hX)
    · rw [h0, read_from_invalid _ _ _ _ _ _ _ node_valid_zero, h3.1, hih]
      exact read_from_fresh rt stA key2 _ _ c _ h3.2
  · have hroot : st1.mem [rtree_start_level rt key2] = st.mem [rtree_start_level rt key2] := by
      apply hfr
      intro hp
      obtain ⟨t, ht⟩ := hp
      simp only [List.singleton_append, List.cons.injEq] at ht
      exact hs ht.1.symm
    rw [hroot]
    apply read_from_congr
    intro q hq hl
    apply hfr
    intro hp
    have h2 := prefix_below rt key2 _ _ _ q hq hl
    obtain ⟨t, ht⟩ := hp
    obtain ⟨t2, ht2⟩ := h2
    rw [← ht2] at ht
    simp only [List.singleton_append, List.cons_append, List.cons.injEq] at ht
    exact hs ht.1.symm

/-- After an inserting lookup, found or not, every leaf element holds what it held before
or zero. -/
theorem elm_lookup_leaf (rt : rtree_t) (st st1 : State) (key : Nat) (r : Option rtree_elm_t)
    (hL : rtree_elm_lookup rt st key false true = some (r, st1)) (key2 : Nat) :
    st1.mem (rtree_path rt key2) = st.mem (rtree_path rt key2) ∨
      st1.mem (rtree_path rt key2) = 0 := by
  by_cases hq : st1.mem (rtree_path rt key2) = st.mem (rtree_path rt key2)
  · exact Or.inl hq
  · right
    obtain ⟨c, stA, hX, hF⟩ := elm_lookup_split rt st st1 key r hL
    by_cases h1 : st1.mem (rtree_path rt key2) = stA.mem (rtree_path rt key2)
    · rw [h1] at hq ⊢
      rcases node_read_changed rt st stA _ c _ hX _ hq with he | hz
      · exfalso
        obtain ⟨t, ht, hl⟩ := path_cons rt key2
        rw [ht] at he
        simp only [List.cons.injEq] at he
        rw [he.2] at hl
        simp at hl
      · exact hz
    · rcases lookup_from_changed rt key _ _ _ _ _ _ _ hF _ h1 with hz | ⟨hp, hne⟩
      · exact hz
      · exact absurd (path_prefix_eq rt key key2 hp) hne

/-- Every word that an inserting lookup changes, found or not, holds zero afterwards or is
a pointer slot on the way to the leaf element of the key. -/
theorem elm_lookup_changed (rt : rtree_t) (st st1 : State) (key : Nat) (r : Option rtree_elm_t)
    (hL : rtree_elm_lookup rt st key false true = some (r, st1)) :
    ∀ q, st1.mem q ≠ st.mem q →
      st1.mem q = 0 ∨ (q <+: rtree_path rt key ∧ q ≠ rtree_path rt key) := by
  intro q hq
  obtain ⟨c, stA, hX, hF⟩ := elm_lookup_split rt st st1 key r hL
  by_cases h1 : st1.mem q = stA.mem q
  · rw [h1] at hq ⊢
    rcases node_read_changed rt st stA _ c _ hX q hq with he | hz
    · right
      obtain ⟨t, ht, hl⟩ := path_cons rt key
      rw [he, ht]
      refine ⟨⟨t, rfl⟩, ?_⟩
      intro hh
      simp only [List.cons.injEq, true_and] at hh
      rw [← hh] at hl
      simp at hl
    · exact Or.inl hz
  · exact lookup_from_changed rt key _ _ _ _ _ _ _ hF q h1

end Rtree


/-! ## `chunk.c`: the failure paths of `chunk_register` -/

namespace Rtree

/-- An inserting acquisition that returns `NULL` is a lookup that returned `NULL`. -/
theorem acquire_null (rt : rtree_t) (st r : State) (key fuel : Nat)
    (h : rtree_elm_acquire rt st key false true fuel = some (none, r)) :
    rtree_elm_lookup rt st key false true = some (none, r) := by
  unfold rtree_elm_acquire at h
  cases hL : rtree_elm_lookup rt st key false true with
  | none => rw [hL] at h; cases h
  | some rs =>
    obtain ⟨r0, s1⟩ := rs
    cases r0 with
    | none =>
      rw [hL] at h
      simp only [Bool.not_false, if_true, Option.some.injEq, Prod.mk.injEq, true_and] at h
      rw [h]
    | some elm0 =>
      rw [hL] at h
      simp only at h
      cases hS : rtree_elm_acquire_spin rt fuel s1 elm0 with
      | none => rw [hS] at h; cases h
      | some s2 =>
        rw [hS] at h
        simp at h

/-- A read only depends on the words on the way to the leaf element of the key. -/
theorem rtree_read_congr (rt : rtree_t) (st st2 : State) (key : Nat)
    (hag : ∀ q, q <+: rtree_path rt key → q ≠ [] → st2.mem q = st.mem q) :
    rtree_read rt st2 key false = rtree_read rt st key false := by
  obtain ⟨t, ht, _⟩ := path_cons rt key
  rw [rtree_read_eq, rtree_read_eq]
  have hroot : st2.mem [rtree_start_level rt key] = st.mem [rtree_start_level rt key] := by
    apply hag
    · rw [ht]
      exact ⟨t, rfl⟩
    · simp
  rw [hroot]
  apply read_from_congr
  intro q hq hl
  apply hag q hq
  intro hq0
  rw [hq0] at hl
  simp at hl

/-- A read of a key whose leaf element holds zero yields `NULL`. -/
theorem rtree_read_zero (rt : rtree_t) (st : State) (key : Nat)
    (hz : st.mem (rtree_path rt key) = 0) : rtree_read rt st key false = some 0 := by
  have hnon : ∃ r, rtree_elm_lookup rt st key false false = some (r, st) := by
    simp only [rtree_elm_lookup, Bool.false_eq_true, if_false]
    exact lookup_from_noninit rt key false _ _ _ _ _
  obtain ⟨r, hr⟩ := hnon
  cases r with
  | none => simp only [rtree_read, hr]
  | some elm =>
    have he := (elm_lookup_found rt st st key elm hr).1
    simp only [rtree_read, hr, rtree_elm_read, ite_self]
    rw [he, hz, Nat.zero_and]

end Rtree


namespace Chunk

/-- The first acquisition of `chunk_register` fails: the call returns true, and the globals
are as before but for what the lookup left in the tree, which changes no read. -/
theorem register_first_null (env : Env) (rt : Rtree.rtree_t) (g : Registry)
    (chunk extent size fuel : Nat) (r1 : Rtree.State)
    (h1 : Rtree.rtree_elm_acquire rt g.rtree chunk false true fuel = some (none, r1)) :
    chunk_register env rt g chunk extent size fuel = some (true, { g with rtree := r1 }, []) ∧
      (∀ key, Rtree.rtree_read rt r1 key false = Rtree.rtree_read rt g.rtree key false) ∧
      (∀ key, r1.mem (Rtree.rtree_path rt key) = g.rtree.mem (Rtree.rtree_path rt key) ∨
        r1.mem (Rtree.rtree_path rt key) = 0) := by
  have hL := Rtree.acquire_null rt g.rtree r1 chunk fuel h1
  refine ⟨?_, fun key => Rtree.elm_lookup_null_read rt g.rtree r1 chunk hL key,
    fun key => Rtree.elm_lookup_leaf rt g.rtree r1 chunk none hL key⟩
  unfold chunk_register
  rw [h1]

/-- The second acquisition of `chunk_register` fails: the call returns true, the first
slot holds `NULL` without the lock bit, and every other read is as before. -/
theorem register_second_null (env : Env) (rt : Rtree.rtree_t) (g : Registry)
    (chunk extent size fuel : Nat) (elm_a : Rtree.rtree_elm_t) (r1 r3 : Rtree.State)
    (hw : 0 < rt.w) (hbig : size > env.chunksize)
    (h1 : Rtree.rtree_elm_acquire rt g.rtree chunk false true fuel = some (some elm_a, r1))
    (h2 : Rtree.rtree_elm_acquire rt (Rtree.rtree_elm_write_acquired r1 elm_a extent)
      (sz_add env.w chunk (CHUNK_CEILING env (sz_sub env.w size env.chunksize)))
      false true fuel = some (none, r3)) :
    chunk_register env rt g chunk extent size fuel =
        some (true,
          { g with
            rtree := Rtree.rtree_elm_release rt
              (Rtree.rtree_elm_write_acquired r3 elm_a 0) elm_a }, []) ∧
      elm_a = Rtree.rtree_path rt chunk ∧
      (Rtree.rtree_elm_release rt (Rtree.rtree_elm_write_acquired r3 elm_a 0) elm_a).mem elm_a
        = 0 ∧
      (∀ key, Rtree.rtree_path rt key ≠ Rtree.rtree_path rt chunk →
        Rtree.rtree_read rt
          (Rtree.rtree_elm_release rt (Rtree.rtree_elm_write_acquired r3 elm_a 0) elm_a) key
          false = Rtree.rtree_read rt g.rtree key false) ∧
      (∀ key,
        (Rtree.rtree_elm_release rt (Rtree.rtree_elm_write_acquired r3 elm_a 0) elm_a).mem
            (Rtree.rtree_path rt key) = g.rtree.mem (Rtree.rtree_path rt key) ∨
          (Rtree.rtree_elm_release rt (Rtree.rtree_elm_write_acquired r3 elm_a 0) elm_a).mem
            (Rtree.rtree_path rt key) = 0) := by
  obtain ⟨s1, v, hLa, hr1⟩ := Rtree.acquire_cases rt g.rtree r1 chunk fuel elm_a h1
  have hLb := Rtree.acquire_null rt _ r3 _ fuel h2
  have hpa := Rtree.elm_lookup_init_path rt g.rtree s1 chunk elm_a hLa
  have hr2 : ∀ q, q ≠ elm_a →
      (Rtree.rtree_elm_write_acquired r1 elm_a extent).mem q = s1.mem q := by
    intro q hq
    rw [hr1]
    simp [Rtree.rtree_elm_write_acquired, Rtree.State.write, hq]
  have hF : ∀ q, q ≠ elm_a →
      (Rtree.rtree_elm_release rt (Rtree.rtree_elm_write_acquired r3 elm_a 0) elm_a).mem q =
        r3.mem q := by
    intro q hq
    simp [Rtree.rtree_elm_release, Rtree.rtree_elm_write, Rtree.rtree_elm_write_acquired,
      Rtree.State.write, hq]
  have hFa :
      (Rtree.rtree_elm_release rt (Rtree.rtree_elm_write_acquired r3 elm_a 0) elm_a).mem elm_a
        = 0 := by
    have hm := Rtree.mask_locked hw (Nat.pow_pos (by decide) : 0 < 2 ^ rt.w) (by decide : 0 % 2 = 0)
    simp only [Rtree.rtree_elm_release, Rtree.rtree_elm_write, Rtree.rtree_elm_write_acquired,
      Rtree.rtree_elm_read_acquired, Rtree.State.write, if_true]
    exact hm
  refine ⟨?_, hpa, hFa, ?_, ?_⟩
  · unfold chunk_register
    rw [h1]
    simp only []
    rw [if_pos hbig, h2]
  · intro key hne
    have e1 : Rtree.rtree_read rt
        (Rtree.rtree_elm_release rt (Rtree.rtree_elm_write_acquired r3 elm_a 0) elm_a) key false
          = Rtree.rtree_read rt r3 key false := by
      apply Rtree.rtree_read_congr
      intro q hq _
      apply hF
      intro hqe
      rw [hqe, hpa] at hq
      exact hne (Rtree.path_prefix_eq rt key chunk hq).symm
    rw [e1, Rtree.elm_lookup_null_read rt _ r3 _ hLb key]
    exact (Rtree.register_one rt g.rtree s1 _ chunk elm_a hLa hr2).2 key hne
  · intro key
    by_cases hk : Rtree.rtree_path rt key = elm_a
    · right
      rw [hk]
      exact hFa
    · rw [hF _ hk]
      rcases Rtree.elm_lookup_leaf rt _ r3 _ none hLb key with e | e
      · rw [e, hr2 _ hk]
        exact Rtree.elm_lookup_leaf rt g.rtree s1 chunk (some elm_a) hLa key
      · exact Or.inr e

/-- When `chunk_register` returns true, it failed to obtain the slot of the first address, or
that of the last address of an extent larger than a chunk, and it reports nothing, leaves
the counters as they were and leaves every leaf slot and every read as before or `NULL`. -/
theorem register_true_cases (env : Env) (rt : Rtree.rtree_t) (g g2 : Registry)
    (chunk extent size fuel : Nat) (evs : List Event) (hw : 0 < rt.w)
    (hr : chunk_register env rt g chunk extent size fuel = some (true, g2, evs)) :
    evs = [] ∧ g2.curchunks = g.curchunks ∧ g2.highchunks = g.highchunks ∧
    (∀ key, g2.rtree.mem (Rtree.rtree_path rt key) = g.rtree.mem (Rtree.rtree_path rt key) ∨
      g2.rtree.mem (Rtree.rtree_path rt key) = 0) ∧
    (∀ key, Rtree.rtree_read rt g2.rtree key false = Rtree.rtree_read rt g.rtree key false ∨
      Rtree.rtree_read rt g2.rtree key false = some 0) ∧
    ((Rtree.rtree_elm_acquire rt g.rtree chunk false true fuel = some (none, g2.rtree) ∧
        ∀ key, Rtree.rtree_read rt g2.rtree key false = Rtree.rtree_read rt g.rtree key false) ∨
      (size > env.chunksize ∧
        (∃ r1 r3, Rtree.rtree_elm_acquire rt g.rtree chunk false true fuel =
            some (some (Rtree.rtree_path rt chunk), r1) ∧
          Rtree.rtree_elm_acquire rt
            (Rtree.rtree_elm_write_acquired r1 (Rtree.rtree_path rt chunk) extent)
            (sz_add env.w chunk (CHUNK_CEILING env (sz_sub env.w size env.chunksize)))
            false true fuel = some (none, r3)) ∧
        g2.rtree.mem (Rtree.rtree_path rt chunk) = 0 ∧
        Rtree.rtree_read rt g2.rtree chunk false = some 0 ∧
        ∀ key, Rtree.rtree_path rt key ≠ Rtree.rtree_path rt chunk →
          Rtree.rtree_read rt g2.rtree key false = Rtree.rtree_read rt g.rtree key false)) := by
  obtain ⟨a1, h1⟩ : ∃ a1, Rtree.rtree_elm_acquire rt g.rtree chunk false true fuel = a1 :=
    ⟨_, rfl⟩
  cases a1 with
  | none =>
    unfold chunk_register at hr
    rw [h1] at hr
    cases hr
  | some rs =>
    obtain ⟨r0, r1⟩ := rs
    cases r0 with
    | none =>
      obtain ⟨e1, e2, e3⟩ := register_first_null env rt g chunk extent size fuel r1 h1
      rw [e1] at hr
      simp only [Option.some.injEq, Prod.mk.injEq, true_and] at hr
      obtain ⟨hg, hev⟩ := hr
      subst hg
      exact ⟨hev.symm, rfl, rfl, e3, fun key => Or.inl (e2 key), Or.inl ⟨h1, e2⟩⟩
    | some elm_a =>
      by_cases hbig : size > env.chunksize
      · obtain ⟨a2, h2⟩ : ∃ a2, Rtree.rtree_elm_acquire rt
            (Rtree.rtree_elm_write_acquired r1 elm_a extent)
            (sz_add env.w chunk (CHUNK_CEILING env (sz_sub env.w size env.chunksize)))
            false true fuel = a2 := ⟨_, rfl⟩
        cases a2 with
        | none =>
          unfold chunk_register at hr
          rw [h1] at hr
          simp only [] at hr
          rw [if_pos hbig, h2] at hr
          cases hr
        | some rs2 =>
          obtain ⟨rb, r3⟩ := rs2
          cases rb with
          | none =>
            obtain ⟨e1, e2, e3, e4, e5⟩ :=
              register_second_null env rt g chunk extent size fuel elm_a r1 r3 hw hbig h1 h2
            rw [e1] at hr
            simp only [Option.some.injEq, Prod.mk.injEq, true_and] at hr
            obtain ⟨hg, hev⟩ := hr
            subst hg
            have hz : (Rtree.rtree_elm_release rt
                (Rtree.rtree_elm_write_acquired r3 elm_a 0) elm_a).mem
                  (Rtree.rtree_path rt chunk) = 0 := by
              rw [← e2]
              exact e3
            refine ⟨hev.symm, rfl, rfl, e5, ?_, Or.inr ⟨hbig, ⟨r1, r3, e2 ▸ h1, e2 ▸ h2⟩, hz,
              Rtree.rtree_read_zero rt _ chunk hz, e4⟩⟩
            intro key
            by_cases hk : Rtree.rtree_path rt key = Rtree.rtree_path rt chunk
            · right
              apply Rtree.rtree_read_zero
              rw [hk]
              exact hz
            · exact Or.inl (e4 key hk)
          | some elm_b =>
            exfalso
            unfold chunk_register at hr
            rw [h1] at hr
            simp only [] at hr
            rw [if_pos hbig, h2] at hr
            simp at hr
      · exfalso
        unfold chunk_register at hr
        rw [h1] at hr
        simp only [] at hr
        rw [if_neg hbig] at hr
        simp at hr

/-- Claim C38, corrected: if `chunk_register` cannot obtain the slot of the first address it
returns true and no read of the radix tree changes, but the tree is not as it was: the words
that differ are pointer slots on the way to the leaf slot of the address (nodes the lookup
created, the slot it reserved) or hold zero. If it cannot obtain the slot of the last
address of an extent larger than a chunk it returns true after resetting the first slot to
`NULL` and releasing it. Whenever it returns true it was on one of these two paths, it
reports nothing, the counters `curchunks` and `highchunks` are as before, every leaf slot
holds what it held before or `NULL` with the lock bit clear, so none is left locked, and
every read yields what it yielded before or `NULL`, so none maps to the extent. -/
theorem chunk_register_failure (env : Env) (rt : Rtree.rtree_t) (g : Registry)
    (chunk extent size fuel : Nat) (hw : 0 < rt.w) :
    (∀ r1, Rtree.rtree_elm_acquire rt g.rtree chunk false true fuel = some (none, r1) →
      chunk_register env rt g chunk extent size fuel =
        some (true, { g with rtree := r1 }, []) ∧
      (∀ key, Rtree.rtree_read rt r1 key false = Rtree.rtree_read rt g.rtree key false) ∧
      ∀ q, r1.mem q ≠ g.rtree.mem q →
        r1.mem q = 0 ∨
          (q <+: Rtree.rtree_path rt chunk ∧ q ≠ Rtree.rtree_path rt chunk)) ∧
    (∀ elm_a r1 r3, size > env.chunksize →
      Rtree.rtree_elm_acquire rt g.rtree chunk false true fuel = some (some elm_a, r1) →
      Rtree.rtree_elm_acquire rt (Rtree.rtree_elm_write_acquired r1 elm_a extent)
        (sz_add env.w chunk (CHUNK_CEILING env (sz_sub env.w size env.chunksize)))
        false true fuel = some (none, r3) →
      chunk_register env rt g chunk extent size fuel =
        some (true,
          { g with
            rtree := Rtree.rtree_elm_release rt
              (Rtree.rtree_elm_write_acquired r3 elm_a 0) elm_a }, []) ∧
      elm_a = Rtree.rtree_path rt chunk ∧
      (Rtree.rtree_elm_release rt (Rtree.rtree_elm_write_acquired r3 elm_a 0) elm_a).mem elm_a
        = 0) ∧
    (∀ g2 evs, chunk_register env rt g chunk extent size fuel = some (true, g2, evs) →
      evs = [] ∧ g2.curchunks = g.curchunks ∧ g2.highchunks = g.highchunks ∧
      (∀ key, g2.rtree.mem (Rtree.rtree_path rt key) = g.rtree.mem (Rtree.rtree_path rt key) ∨
        g2.rtree.mem (Rtree.rtree_path rt key) = 0) ∧
      (∀ key, Rtree.rtree_read rt g2.rtree key false = Rtree.rtree_read rt g.rtree key false ∨
        Rtree.rtree_read rt g2.rtree key false = some 0) ∧
      ((Rtree.rtree_elm_acquire rt g.rtree chunk false true fuel = some (none, g2.rtree) ∧
          ∀ key,
            Rtree.rtree_read rt g2.rtree key false = Rtree.rtree_read rt g.rtree key false) ∨
        (size > env.chunksize ∧
          (∃ r1 r3, Rtree.rtree_elm_acquire rt g.rtree chunk false true fuel =
              some (some (Rtree.rtree_path rt chunk), r1) ∧
            Rtree.rtree_elm_acquire rt
              (Rtree.rtree_elm_write_acquired r1 (Rtree.rtree_path rt chunk) extent)
              (sz_add env.w chunk (CHUNK_CEILING env (sz_sub env.w size env.chunksize)))
              false true fuel = some (none, r3)) ∧
          g2.rtree.mem (Rtree.rtree_path rt chunk) = 0 ∧
          Rtree.rtree_read rt g2.rtree chunk false = some 0 ∧
          ∀ key, Rtree.rtree_path rt key ≠ Rtree.rtree_path rt chunk →
            Rtree.rtree_read rt g2.rtree key false =
              Rtree.rtree_read rt g.rtree key false))) := by
  refine ⟨fun r1 h1 => ?_, fun elm_a r1 r3 hbig h1 h2 => ?_, fun g2 evs hr => ?_⟩
  · obtain ⟨e1, e2, _⟩ := register_first_null env rt g chunk extent size fuel r1 h1
    exact ⟨e1, e2, Rtree.elm_lookup_changed rt g.rtree r1 chunk none
      (Rtree.acquire_null rt g.rtree r1 chunk fuel h1)⟩
  · obtain ⟨e1, e2, e3, _, _⟩ :=
      register_second_null env rt g chunk extent size fuel elm_a r1 r3 hw hbig h1 h2
    exact ⟨e1, e2, e3⟩
  · exact register_true_cases env rt g g2 chunk extent size fuel evs hw hr

end Chunk


namespace Chunk

/-- Registering a 4 MiB extent whose two chunks lie in different leaf nodes, with a node
allocator that fails from its third call on: the second acquisition fails, the call returns
true, nothing is reported, the counters stay at zero and the slot of the first chunk reads
`NULL`. -/
theorem chunk_register_failure_witness :
    ∃ g2 evs, chunk_register ex_env Rtree.ex_rtree_two ex_registry 0x7f00ffe00000 0x7000
        0x400000 1 = some (true, g2, evs) ∧
      evs = [] ∧ g2.curchunks = 0 ∧ g2.highchunks = 0 ∧
      (Rtree.rtree_read Rtree.ex_rtree_two g2.rtree 0x7f00ffe00000 false =
          Rtree.rtree_read Rtree.ex_rtree_two ex_registry.rtree 0x7f00ffe00000 false ∨
        Rtree.rtree_read Rtree.ex_rtree_two g2.rtree 0x7f00ffe00000 false = some 0) :=
  ⟨_, _, rfl,
    ((chunk_register_failure ex_env Rtree.ex_rtree_two ex_registry 0x7f00ffe00000 0x7000
      0x400000 1 (by decide)).2.2 _ _ rfl).1,
    ((chunk_register_failure ex_env Rtree.ex_rtree_two ex_registry 0x7f00ffe00000 0x7000
      0x400000 1 (by decide)).2.2 _ _ rfl).2.1,
    ((chunk_register_failure ex_env Rtree.ex_rtree_two ex_registry 0x7f00ffe00000 0x7000
      0x400000 1 (by decide)).2.2 _ _ rfl).2.2.1,
    ((chunk_register_failure ex_env Rtree.ex_rtree_two ex_registry 0x7f00ffe00000 0x7000
      0x400000 1 (by decide)).2.2 _ _ rfl).2.2.2.2.1 0x7f00ffe00000⟩

/-- Claim C38 as stated fails: with an allocator that always fails, the first acquisition
of `chunk_register` fails and the call returns true, but the radix tree has changed: the
subtree pointer of level 1, `NULL` before, holds the sentinel `RTREE_NODE_INITIALIZING`,
and one allocation was attempted. With an allocator that fails from its third call on, the
second acquisition fails and the two nodes created for the first slot stay in the tree. -/
theorem chunk_register_failure_counterexample :
    ex_registry.rtree.mem [1] = 0 ∧ ex_registry.rtree.nalloc = 0 ∧
    (chunk_register ex_env Rtree.ex_rtree_oom ex_registry 0x7f00ffe00000 0x7000 0x400000 1).map
        (fun r => (r.1, r.2.1.rtree.mem [1], r.2.1.rtree.nalloc, r.2.2)) =
      some (true, Rtree.RTREE_NODE_INITIALIZING, 1, []) ∧
    (chunk_register ex_env Rtree.ex_rtree_two ex_registry 0x7f00ffe00000 0x7000 0x400000 1).map
        (fun r => (r.1, r.2.1.rtree.mem [1], r.2.1.rtree.mem [1, 0x7f00],
          r.2.1.rtree.mem [1, 0x7f01], r.2.1.rtree.nalloc, r.2.2)) =
      some (true, 0x10000, 0x20000, Rtree.RTREE_NODE_INITIALIZING, 3, []) := by
  refine ⟨by decide, by decide, by decide, rfl⟩

/-- The acquisitions of the three registrations: with an allocator that always fails the
first one returns `NULL`; with one that gives out after two nodes the first one finds the
leaf slot and the call still returns true; with one that never fails the call returns
false. -/
theorem chunk_register_failure_paths :
    (Rtree.rtree_elm_acquire Rtree.ex_rtree_oom ex_registry.rtree 0x7f00ffe00000 false true 1).map
        Prod.fst = some none ∧
    (Rtree.rtree_elm_acquire Rtree.ex_rtree_two ex_registry.rtree 0x7f00ffe00000 false true 1).map
        Prod.fst = some (some [1, 0x7f00, 0x7ff]) ∧
    (chunk_register ex_env Rtree.ex_rtree_oom ex_registry 0x7f00ffe00000 0x7000 0x400000 1).map
        Prod.fst = some true ∧
    (chunk_register ex_env Rtree.ex_rtree_two ex_registry 0x7f00ffe00000 0x7000 0x400000 1).map
        Prod.fst = some true ∧
    (chunk_register ex_env Rtree.ex_rtree ex_registry 0x7f00ffe00000 0x7000 0x400000 1).map
        Prod.fst = some false := by
  refine ⟨by decide, by decide, by decide, by decide, by decide⟩

end Chunk

end Jemalloc
